import Mathlib

/-!
# FlexBuffers builder, serializer and reader

A shallow embedding of the Go package `flexbuffers` (descriptor.go, flexbuffers.go,
object.go, builder.go, decoder.go).

Modelling conventions.

* Go objects reached through pointers (`*element`, and the structures behind the
  `iStructure` interface) live in an explicit memory `Mem`: two append-only lists, a
  pointer being an index. Allocation appends. Pointer comparison is index comparison.
* A Go call ends in one of four ways, `Outcome`: a value, a returned `error`, a runtime
  panic, or no return at all. Functions that mutate state return the state next to the
  outcome, also when the outcome is an error or a panic.
* `uint8`, `uint64` and `int64` values are `Nat`/`Int` with the wrap-around written out
  (`u64`, `i64`, `u8`). Buffer lengths and Go `int` values stay below `2^63` and carry no
  wrap-around.
* A Go `string` is a well-formed UTF-8 text, modelled as a Lean `String`; `range str`
  yields its code points.
-/

namespace Flexbuffers

/-! ## Outcomes of a call -/

/-- The error values the package returns, one constructor per message. -/
inductive Err where
  | elemTypeNotAllowed
  | elemSizeNotAllowed
  | structureFull
  | mapOffsetWithoutKey
  | mapElementWithoutKey
  | duplicateKey
  | rootElementFull
  | rootChildFull
  | notFinished
  | keyNil
  | noKeyMapping
  | emptyKey
  | notStringType
  | notUint
  | notInt
  | notBool
  | notFloat
  | notIndexable
  | outOfBounds
  | keyNotFound
  | notMap
  | notSlice
  | corrupted
  deriving DecidableEq, Repr

/-- How a Go call ends. -/
inductive Outcome (α : Type) where
  | ok (a : α)
  | error (e : Err)
  | panic
  | diverge
  deriving DecidableEq, Repr

/-- The call returned with a nil error. -/
def Outcome.isOk {α : Type} : Outcome α → Bool
  | .ok _ => true
  | _ => false

/-- The call returned a non-nil error. -/
def Outcome.isError {α : Type} : Outcome α → Bool
  | .error _ => true
  | _ => false

/-! ## Machine integers -/

/-- Conversion to `uint64`. -/
def u64 (x : Int) : Nat := (x % 18446744073709551616).toNat

/-- Conversion to `int64`. -/
def i64 (x : Int) : Int := (x + 9223372036854775808) % 18446744073709551616 - 9223372036854775808

/-- Conversion to `uint8` (`byte`). -/
def u8 (x : Nat) : Nat := x % 256

/-- Go's `string`: a well-formed UTF-8 text. -/
abbrev GoString := String

/-- Go's `int64`. -/
abbrev GoInt64 := Int

/-- Go's `bool`. -/
abbrev GoBool := Bool

/-! ## descriptor.go -/

abbrev ByteSize := Nat
abbrev VarType := Nat

def b8 : ByteSize := 0
def b16 : ByteSize := 1
def b32 : ByteSize := 2
def b64 : ByteSize := 3

def NULL : VarType := 0
def INT : VarType := 1
def UINT : VarType := 2
def FLOAT : VarType := 3
def KEY : VarType := 4
def STRING : VarType := 5
def INDIRECT_INT : VarType := 6
def INDIRECT_UINT : VarType := 7
def INDIRECT_FLOAT : VarType := 8
def MAP : VarType := 9
def VECTOR : VarType := 10
def VECTOR_INT : VarType := 11
def VECTOR_UINT : VarType := 12
def VECTOR_FLOAT : VarType := 13
def VECTOR_KEY : VarType := 14
def VECTOR_STRING_DEPRECATED : VarType := 15
def VECTOR_INT2 : VarType := 16
def VECTOR_UINT2 : VarType := 17
def VECTOR_FLOAT2 : VarType := 18
def VECTOR_INT3 : VarType := 19
def VECTOR_UINT3 : VarType := 20
def VECTOR_FLOAT3 : VarType := 21
def VECTOR_INT4 : VarType := 22
def VECTOR_UINT4 : VarType := 23
def VECTOR_FLOAT4 : VarType := 24
def BLOB : VarType := 25
def BOOL : VarType := 26
def VECTOR_BOOL : VarType := 36

/-- uintSize of a `uint64` value. -/
def uintSize (value : Nat) : Nat :=
  if value < 256 then 1
  else if value < 65536 then 2
  else if value < 4294967296 then 4
  else 8

/-- intSize of an `int64` value. -/
def intSize (value : Int) : Nat :=
  if value ≥ -128 ∧ value < 128 then 1
  else if value ≥ -32768 ∧ value < 32768 then 2
  else if value ≥ -2147483648 ∧ value < 2147483648 then 4
  else 8

/-- A `float64` argument, seen through the two IEEE-754 facts the encoder uses: its
64-bit pattern (`math.Float64bits`), and the 32-bit pattern of the narrowed value
(`math.Float32bits(float32(value))`) when `float64(float32(value)) == value` and
nothing otherwise. -/
structure GoFloat where
  bits64 : Nat
  bits32 : Option Nat
  deriving DecidableEq, Repr

/-- floatSize: 4 when the value survives the round trip through `float32`. -/
def floatSize (value : GoFloat) : Nat :=
  if value.bits32.isSome then 4 else 8

/-- The guard of `b`: it panics on a byte width above 8 (its callers pass no negative
value). -/
def bPanics (byte_width : Nat) : Bool := decide (byte_width > 8)

/-- b: `ByteSize(math.Ceil(math.Log2(float64(byte_width))))` for a byte width that passes
the guard, the ceiling of the binary logarithm tabulated over 0..8. For 0 the logarithm
is `-Inf`, whose conversion is implementation-dependent; 0 is what amd64 gives. -/
def b (byte_width : Nat) : ByteSize :=
  if byte_width ≤ 1 then 0
  else if byte_width ≤ 2 then 1
  else if byte_width ≤ 4 then 2
  else 3

/-- B: `uint64(math.Pow(2, float64(bs)))`. -/
def B (bs : ByteSize) : Nat := 2 ^ bs

/-- A `context` is the `uint8` descriptor byte. -/
abbrev context := Nat

/-- Pack: `context(uint(vType)<<2 | uint(bSize))`. -/
def Pack (vType : VarType) (bSize : ByteSize) : context := u8 ((vType <<< 2) ||| bSize)

/-- ItemVarType: `VarType(*d >> 2)`. -/
def ItemVarType (d : context) : VarType := d >>> 2

/-- ItemByteSize: `ByteSize(*d) & 3`. -/
def ItemByteSize (d : context) : ByteSize := d &&& 3

/-! ## flexbuffers.go -/

def isInline (vType : VarType) : Bool := decide (vType ≤ 3) || decide (vType = 26)

def isScalar (vType : VarType) : Bool := decide (vType ≥ 6) && decide (vType ≤ 8)

def isTuple (vType : VarType) : Bool := decide (vType ≥ 16) && decide (vType ≤ 18)

def isTriple (vType : VarType) : Bool := decide (vType ≥ 19) && decide (vType ≤ 21)

def isQuad (vType : VarType) : Bool := decide (vType ≥ 22) && decide (vType ≤ 24)

def isFixedTypedVector (vType : VarType) : Bool :=
  isScalar vType || isTuple vType || isTriple vType || isQuad vType

def isTypedVector (vType : VarType) : Bool :=
  (decide (vType > 10) && decide (vType < 16)) || isFixedTypedVector vType
    || decide (vType = VECTOR_BOOL) || decide (vType = VECTOR_KEY)

def isVector (vType : VarType) : Bool :=
  decide (vType = VECTOR) || isTypedVector vType || isFixedTypedVector vType

def isBlobLike (vType : VarType) : Bool :=
  decide (vType = BLOB) || decide (vType = STRING) || decide (vType = KEY)

def isTyped (vType : VarType) : Bool := isTypedVector vType || isBlobLike vType

def isIntTyped (vType : VarType) : Bool :=
  decide (vType = VECTOR_INT) || decide (vType = INDIRECT_INT) || decide (vType = VECTOR_INT2)
    || decide (vType = VECTOR_INT3) || decide (vType = VECTOR_INT4)

def isUintTyped (vType : VarType) : Bool :=
  decide (vType = VECTOR_UINT) || decide (vType = INDIRECT_UINT) || decide (vType = VECTOR_UINT2)
    || decide (vType = VECTOR_UINT3) || decide (vType = VECTOR_UINT4) || isBlobLike vType

def isFloatTyped (vType : VarType) : Bool :=
  decide (vType = VECTOR_FLOAT) || decide (vType = INDIRECT_FLOAT)
    || decide (vType = VECTOR_FLOAT2) || decide (vType = VECTOR_FLOAT3)
    || decide (vType = VECTOR_FLOAT4)

def isBoolTyped (vType : VarType) : Bool := decide (vType = VECTOR_BOOL)

/-! ## object.go: elements -/

/-- An element: the 8 payload bytes, the absolute index, the type, its own size and, for
an offset, the size of the target structure. -/
structure element where
  bytes : List Nat
  absIndex : Nat
  fieldType : VarType
  fieldSize : ByteSize
  targetSize : ByteSize
  deriving DecidableEq, Repr

/-- The zero value `var o element`. -/
def zeroElement : element :=
  { bytes := [0, 0, 0, 0, 0, 0, 0, 0], absIndex := 0, fieldType := 0, fieldSize := 0,
    targetSize := 0 }

instance : Inhabited element := ⟨zeroElement⟩

/-- The 8 bytes `binary.LittleEndian.PutUint64` writes. -/
def putUint64 (u : Nat) : List Nat :=
  [u % 256, u / 256 % 256, u / 65536 % 256, u / 16777216 % 256, u / 4294967296 % 256,
    u / 1099511627776 % 256, u / 281474976710656 % 256, u / 72057594037927936 % 256]

/-- The 8-byte array after `binary.LittleEndian.PutUint32` on a zeroed array. -/
def putUint32 (u : Nat) : List Nat :=
  [u % 256, u / 256 % 256, u / 65536 % 256, u / 16777216 % 256, 0, 0, 0, 0]

def newUINT (u : Nat) : element :=
  { zeroElement with bytes := putUint64 u, fieldType := UINT, fieldSize := b (uintSize u) }

def newINT (i : Int) : element :=
  { zeroElement with bytes := putUint64 (u64 i), fieldType := INT, fieldSize := b (intSize i) }

def newFLOAT (f : GoFloat) : element :=
  { zeroElement with
    bytes := (match f.bits32 with
      | some bits => putUint32 bits
      | none => putUint64 f.bits64),
    fieldType := FLOAT, fieldSize := b (floatSize f) }

def newBOOL (l : Bool) : element :=
  { zeroElement with
    bytes := (if l then [1, 0, 0, 0, 0, 0, 0, 0] else [0, 0, 0, 0, 0, 0, 0, 0]),
    fieldType := BOOL, fieldSize := 0 }

def newNULL : element :=
  { zeroElement with fieldType := NULL, fieldSize := 0 }

/-- newOffset: note `fieldSize = ByteSize(uintSize(index0))`, the byte count itself. -/
def newOffset (index0 : Nat) (targetType : VarType) (targetSize : ByteSize) : element :=
  { bytes := putUint64 index0, absIndex := index0, fieldType := targetType,
    fieldSize := uintSize index0, targetSize := targetSize }

/-- element.serialize with the byte width its callers pass: appends
`e.bytes[:B(byteWidth)]`, which panics past the 8 bytes of the array. The receiver is a
copy, so the assignment to `absIndex` is lost. -/
def element.serialize (e : element) (buff : List Nat) (byteWidth : ByteSize) :
    Outcome Nat × List Nat :=
  if B byteWidth > 8 then (.panic, buff)
  else (.ok buff.length, buff ++ e.bytes.take (B byteWidth))

/-! ## object.go: structures in memory -/

abbrev Ptr := Nat

/-- The dynamic type behind an `iStructure` value. -/
inductive Dyn where
  | root
  | typedVector
  | vector
  | fixedTypedVector
  | blob
  | flexString
  | key
  | keyVector
  | flexMap
  deriving DecidableEq, Repr

/-- The fields of `structure`, with the dynamic type of the enclosing object and, for a
`flexMap`, its `keys` pointer. -/
structure Structure where
  dyn : Dyn
  offsetPtrs : List Ptr
  elems : List Ptr
  children : List Ptr
  vType : VarType
  bSize : ByteSize
  keys : Ptr
  deriving DecidableEq, Repr

/-- A zeroed object of the given dynamic type. -/
def Structure.new (d : Dyn) : Structure :=
  { dyn := d, offsetPtrs := [], elems := [], children := [], vType := 0, bSize := 0, keys := 0 }

instance : Inhabited Structure := ⟨Structure.new Dyn.typedVector⟩

/-- The memory: every allocated element and structure, a pointer being its index. -/
structure Mem where
  elements : List element
  structs : List Structure
  deriving DecidableEq, Repr

/-- Dereference of an element pointer. -/
def Mem.elem (m : Mem) (p : Ptr) : element := m.elements.getD p zeroElement

/-- Dereference of a structure pointer. -/
def Mem.struct (m : Mem) (p : Ptr) : Structure := m.structs.getD p default

/-- Assignment through an element pointer. -/
def Mem.setElem (m : Mem) (p : Ptr) (e : element) : Mem :=
  { m with elements := m.elements.set p e }

/-- Assignment through a structure pointer. -/
def Mem.setStruct (m : Mem) (p : Ptr) (s : Structure) : Mem :=
  { m with structs := m.structs.set p s }

/-- Allocation of an element (`&e`): its pointer and the new memory. -/
def Mem.allocElem (m : Mem) (e : element) : Ptr × Mem :=
  (m.elements.length, { m with elements := m.elements ++ [e] })

/-- Allocation of a structure (`new(T)`): its pointer and the new memory. -/
def Mem.allocStruct (m : Mem) (s : Structure) : Ptr × Mem :=
  (m.structs.length, { m with structs := m.structs ++ [s] })

/-- elemsCount: `len(s.elems)`. -/
def elemsCount (m : Mem) (s : Ptr) : Nat := (m.struct s).elems.length

/-- bindOffset: `s.offsetPtrs = append(s.offsetPtrs, off)`; its callers pass no nil. -/
def bindOffset (m : Mem) (s : Ptr) (off : Ptr) : Mem :=
  m.setStruct s { m.struct s with offsetPtrs := (m.struct s).offsetPtrs ++ [off] }

def getVtype (m : Mem) (s : Ptr) : VarType := (m.struct s).vType

def getBsize (m : Mem) (s : Ptr) : ByteSize := (m.struct s).bSize

/-- structure.allowsElemType. -/
def allowsElemType (s : Structure) (elemT : VarType) : Bool :=
  if s.vType ∈ [VECTOR_UINT, INDIRECT_UINT, VECTOR_UINT2, VECTOR_UINT3, VECTOR_UINT4, BLOB, KEY,
      STRING] then decide (elemT = UINT)
  else if s.vType ∈ [VECTOR_INT, INDIRECT_INT, VECTOR_INT2, VECTOR_INT3, VECTOR_INT4] then
    decide (elemT = INT)
  else if s.vType ∈ [VECTOR_FLOAT, INDIRECT_FLOAT, VECTOR_FLOAT2, VECTOR_FLOAT3,
      VECTOR_FLOAT4] then decide (elemT = FLOAT)
  else if s.vType = VECTOR_BOOL then decide (elemT = BOOL)
  else if s.vType = VECTOR_KEY then decide (elemT = KEY)
  else if s.vType = VECTOR_STRING_DEPRECATED then decide (elemT = STRING)
  else true

/-- structure.allowsElemSize. -/
def allowsElemSize (s : Structure) (elemS : ByteSize) : Bool :=
  if s.vType = BLOB then decide (elemS = b8)
  else if s.vType = KEY then decide (elemS = b8)
  else if s.vType = STRING then decide (elemS = b8)
  else true

/-- structure.isFull. -/
def isFull (s : Structure) : Bool :=
  let n := s.elems.length
  if s.vType ∈ [INDIRECT_INT, INDIRECT_UINT, INDIRECT_FLOAT] then decide (n ≥ 1)
  else if s.vType ∈ [VECTOR_INT2, VECTOR_UINT2, VECTOR_FLOAT2] then decide (n ≥ 2)
  else if s.vType ∈ [VECTOR_INT3, VECTOR_UINT3, VECTOR_FLOAT3] then decide (n ≥ 3)
  else if s.vType ∈ [VECTOR_INT4, VECTOR_UINT4, VECTOR_FLOAT4] then decide (n ≥ 4)
  else false

/-- structure.allows: the error it returns, if any. -/
def allows (s : Structure) (elem : element) : Option Err :=
  if !allowsElemType s elem.fieldType then some Err.elemTypeNotAllowed
  else if !allowsElemSize s elem.fieldSize then some Err.elemSizeNotAllowed
  else if isFull s then some Err.structureFull
  else none

/-- The slice `append(xs[:index+1], xs[index:]...)` with `xs[index] = x` written after it:
the insertion both `insertElement` and `insertOffsetToObject` perform when
`index <= len(xs)-1`. -/
def insertAt (xs : List Ptr) (index : Nat) (x : Ptr) : List Ptr :=
  (xs.take (index + 1) ++ xs.drop index).set index x

/-- structure.insertElement (static dispatch): the index the element went to. `&e` is a
fresh allocation on every call. -/
def structure_insertElement (m : Mem) (s : Ptr) (e : element) (index : Nat) :
    Outcome Nat × Mem :=
  match allows (m.struct s) e with
  | some err => (.error err, m)
  | none =>
    let length := (m.struct s).elems.length
    let (p, m1) := m.allocElem e
    if index + 1 ≤ length then
      (.ok index, m1.setStruct s { m1.struct s with elems := insertAt (m1.struct s).elems index p })
    else
      (.ok length, m1.setStruct s { m1.struct s with elems := (m1.struct s).elems ++ [p] })

/-- structure.insertOffsetToObject (static dispatch): the index the child went to. -/
def structure_insertOffsetToObject (m : Mem) (s : Ptr) (o : Ptr) (index : Nat) :
    Outcome Nat × Mem :=
  let offset : element := { zeroElement with fieldType := getVtype m o }
  match structure_insertElement m s offset index with
  | (.ok n, m1) =>
    let m2 := bindOffset m1 o ((m1.struct s).elems.getD n 0)
    let length := (m2.struct s).children.length
    if n + 1 ≤ length then
      (.ok n, m2.setStruct s
        { m2.struct s with children := insertAt (m2.struct s).children n o })
    else
      (.ok length, m2.setStruct s
        { m2.struct s with children := (m2.struct s).children ++ [o] })
  | (r, m1) => (r, m1)

/-- flexMap.insertOffsetToObject. -/
def flexMap_insertOffsetToObject (m : Mem) (_s : Ptr) (_o : Ptr) (_index : Nat) :
    Outcome Nat × Mem :=
  (.error Err.mapOffsetWithoutKey, m)

/-- flexMap.insertElement. -/
def flexMap_insertElement (m : Mem) (_s : Ptr) (_e : element) (_index : Nat) :
    Outcome Nat × Mem :=
  (.error Err.mapElementWithoutKey, m)

/-- root.insertElement. -/
def root_insertElement (m : Mem) (r : Ptr) (elem : element) (_index : Nat) :
    Outcome Nat × Mem :=
  if (m.struct r).elems.length > 0 then (.error Err.rootElementFull, m)
  else structure_insertElement m r elem 0

/-- root.insertOffsetToObject. -/
def root_insertOffsetToObject (m : Mem) (r : Ptr) (o : Ptr) (_index : Nat) :
    Outcome Nat × Mem :=
  if (m.struct r).children.length > 0 then (.error Err.rootChildFull, m)
  else structure_insertOffsetToObject m r o 0

/-- The interface call `s.insertElement(e, index)`, dispatched on the dynamic type. -/
def insertElement (m : Mem) (s : Ptr) (e : element) (index : Nat) : Outcome Nat × Mem :=
  match (m.struct s).dyn with
  | .flexMap => flexMap_insertElement m s e index
  | .root => root_insertElement m s e index
  | _ => structure_insertElement m s e index

/-- The interface call `s.insertOffsetToObject(o, index)`, dispatched on the dynamic
type. -/
def insertOffsetToObject (m : Mem) (s : Ptr) (o : Ptr) (index : Nat) : Outcome Nat × Mem :=
  match (m.struct s).dyn with
  | .flexMap => flexMap_insertOffsetToObject m s o index
  | .root => root_insertOffsetToObject m s o index
  | _ => structure_insertOffsetToObject m s o index

/-- The package function addElement. -/
def addElement (m : Mem) (s : Ptr) (elem : element) : Outcome Nat × Mem :=
  insertElement m s elem (elemsCount m s)

/-- The package function addOffsetToObject. -/
def addOffsetToObject (m : Mem) (s : Ptr) (obj : Ptr) : Outcome Nat × Mem :=
  insertOffsetToObject m s obj (elemsCount m s)

/-- The method structure.addElement, promoted to every embedding type. -/
def structure_addElement (m : Mem) (s : Ptr) (elem : element) : Outcome Nat × Mem :=
  structure_insertElement m s elem (m.struct s).elems.length

/-! ## object.go: constructors -/

/-- The runes `for _, char := range str` yields. -/
def runes (str : String) : List Nat := str.data.map Char.toNat

/-- flexString.Append: one `addElement(newUINT(uint64(char)))` per rune, its result
dropped. -/
def flexString_Append (m : Mem) (s : Ptr) (str : String) : Mem :=
  (runes str).foldl (fun acc char => (structure_addElement acc s (newUINT char)).2) m

/-- blob.Append: one `addElement(newUINT(uint64(b)))` per byte, its result dropped. -/
def blob_Append (m : Mem) (s : Ptr) (bytes : List Nat) : Mem :=
  bytes.foldl (fun acc x => (structure_addElement acc s (newUINT x)).2) m

/-- newTypedVector: panics on a type that is no typed vector. -/
def newTypedVector (m : Mem) (vType : VarType) : Outcome Ptr × Mem :=
  if !isTypedVector vType then (.panic, m)
  else
    let (p, m1) := m.allocStruct { Structure.new Dyn.typedVector with vType := vType }
    (.ok p, m1)

def newVector (m : Mem) : Ptr × Mem :=
  m.allocStruct { Structure.new Dyn.vector with vType := VECTOR }

/-- newFixedTypedVector: panics on a type that is no fixed typed vector. -/
def newFixedTypedVector (m : Mem) (vType : VarType) : Outcome Ptr × Mem :=
  if !isFixedTypedVector vType then (.panic, m)
  else
    let (p, m1) := m.allocStruct { Structure.new Dyn.fixedTypedVector with vType := vType }
    (.ok p, m1)

/-- newBlob: the byte slice it is given is not used. -/
def newBlob (m : Mem) (_bytes : List Nat) : Ptr × Mem :=
  m.allocStruct { Structure.new Dyn.blob with vType := BLOB, bSize := b8 }

def newFlexString (m : Mem) (str : String) : Ptr × Mem :=
  let (p, m1) := m.allocStruct { Structure.new Dyn.flexString with vType := STRING, bSize := b8 }
  (p, flexString_Append m1 p str)

def newKey (m : Mem) (str : String) : Ptr × Mem :=
  let (p, m1) := m.allocStruct { Structure.new Dyn.key with vType := KEY, bSize := b8 }
  (p, flexString_Append m1 p str)

def newKeyVector (m : Mem) : Ptr × Mem :=
  m.allocStruct { Structure.new Dyn.keyVector with vType := VECTOR_KEY }

/-- newFlexMap without the optional key vector: `v.keys = newKeyVector()`. -/
def newFlexMap (m : Mem) : Ptr × Mem :=
  let (p, m1) := m.allocStruct { Structure.new Dyn.flexMap with vType := MAP }
  let (k, m2) := newKeyVector m1
  (p, m2.setStruct p { m2.struct p with keys := k })

/-! ## object.go: strings, keys and maps -/

/-- flexString.Equals: equal lengths and, slot by slot, the same element pointers
(`s.elems[i] != other.elems[i]` compares two `*element`). -/
def flexString_Equals (m : Mem) (s other : Ptr) : Bool :=
  if (m.struct s).elems.length ≠ (m.struct other).elems.length then false
  else ((m.struct s).elems.zip (m.struct other).elems).all (fun pq => decide (pq.1 = pq.2))

/-- flexString.toString as the list of code points of the Go string: one rune
`elem.bytes[0]` per element. -/
def flexString_toString (m : Mem) (s : Ptr) : List Nat :=
  (m.struct s).elems.map (fun p => (m.elem p).bytes.getD 0 0)

/-- The Go comparison `x < y` of two strings given by their code points. UTF-8 keeps the
order of code points, so the byte-wise comparison Go makes is the lexicographic one
here. -/
def strLt : List Nat → List Nat → Bool
  | [], [] => false
  | [], _ :: _ => true
  | _ :: _, [] => false
  | x :: xs, y :: ys => if x < y then true else if y < x then false else strLt xs ys

/-- The loop of flexMap.containsKey over the children of the key vector: `none` is the
panic of the type assertion `c.(*key)`. -/
def containsKeyLoop (m : Mem) (k : Ptr) : List Ptr → Option Bool
  | [] => some false
  | c :: cs =>
    if (m.struct c).dyn ≠ Dyn.key then none
    else if flexString_Equals m c k then some true
    else containsKeyLoop m k cs

/-- flexMap.containsKey. -/
def containsKey (m : Mem) (mp : Ptr) (k : Ptr) : Option Bool :=
  containsKeyLoop m k (m.struct (m.struct mp).keys).children

/-- The closure DAC of determineKeyInsertionIndex over a subslice, with the depth of the
recursion bounded by `fuel`; `none` when the bound is reached. Its type assertions
`subslice[i].(*key)` cannot fail: containsKey has run over every child before. -/
def DAC (m : Mem) (newkey : Ptr) : Nat → List Ptr → Option Nat
  | 0, _ => none
  | fuel + 1, subslice =>
    let length := subslice.length
    if length = 0 then some 0
    else if length = 1 then
      if strLt (flexString_toString m newkey) (flexString_toString m (subslice.getD 0 0)) then
        some 0
      else some 1
    else
      let pivot := length / 2
      if strLt (flexString_toString m newkey)
          (flexString_toString m (subslice.getD pivot 0)) then
        DAC m newkey fuel (subslice.take pivot)
      else
        let ss := subslice.drop (pivot + 1)
        match DAC m newkey fuel ss with
        | some r => some (length - ss.length + r)
        | none => none

/-- flexMap.determineKeyInsertionIndex: `DAC(m.keys.children)`. The recursion halves the
slice, so a depth of its length plus one is never reached; `diverge` stands for a
recursion that would not end. -/
def determineKeyInsertionIndex (m : Mem) (mp : Ptr) (newkey : Ptr) : Outcome Nat :=
  let children := (m.struct (m.struct mp).keys).children
  match DAC m newkey (children.length + 1) children with
  | some r => .ok r
  | none => .diverge

/-- flexMap.addElementWithKey. -/
def addElementWithKey (m : Mem) (mp : Ptr) (k : Ptr) (e : element) : Outcome Nat × Mem :=
  match containsKey m mp k with
  | none => (.panic, m)
  | some true => (.error Err.duplicateKey, m)
  | some false =>
    match determineKeyInsertionIndex m mp k with
    | .ok index =>
      (match structure_insertOffsetToObject m (m.struct mp).keys k index with
      | (.ok n, m1) => structure_insertElement m1 mp e n
      | (r, m1) => (r, m1))
    | .error err => (.error err, m)
    | .panic => (.panic, m)
    | .diverge => (.diverge, m)

/-- flexMap.addOffsetWithKey: the child goes in at `index`, not at the `n` the key went
to. -/
def addOffsetWithKey (m : Mem) (mp : Ptr) (k : Ptr) (o : Ptr) : Outcome Nat × Mem :=
  match containsKey m mp k with
  | none => (.panic, m)
  | some true => (.error Err.duplicateKey, m)
  | some false =>
    match determineKeyInsertionIndex m mp k with
    | .ok index =>
      (match structure_insertOffsetToObject m (m.struct mp).keys k index with
      | (.ok _, m1) => structure_insertOffsetToObject m1 mp o index
      | (r, m1) => (r, m1))
    | .error err => (.error err, m)
    | .panic => (.panic, m)
    | .diverge => (.diverge, m)

/-! ## object.go: serialization -/

/-- appendPadding: `padding := (^bufSize + 1) & (scalarSize - 1)` zero bytes. -/
def appendPadding (buff : List Nat) (scalarSize : Nat) : List Nat :=
  let padding := u64 (-(buff.length : Int)) &&& (scalarSize - 1)
  if padding ≠ 0 then buff ++ List.replicate padding 0 else buff

/-- structure.updateBitWidth: the largest `fieldSize` among the elements. -/
def updateBitWidth (m : Mem) (s : Ptr) : Mem :=
  let bSize := (m.struct s).elems.foldl
    (fun acc p => if (m.elem p).fieldSize > acc then (m.elem p).fieldSize else acc) 0
  m.setStruct s { m.struct s with bSize := bSize }

/-- structure.updateOffsets: writes position, type and size of `s` through every bound
offset pointer. -/
def updateOffsets (m : Mem) (s : Ptr) (index0 : Nat) : Mem :=
  (m.struct s).offsetPtrs.foldl
    (fun acc sp => acc.setElem sp
      { acc.elem sp with absIndex := index0, fieldType := (m.struct s).vType,
                         targetSize := (m.struct s).bSize })
    m

/-- The loop of structure.serializeElems from slot `i` on: an element that is not inline
is overwritten by `newOffset(uint64(index0+i-int(elem.absIndex)), ...)`, then the element
is written in `s.bSize`. -/
def serializeElemsLoop (s : Ptr) (index0 : Nat) :
    Nat → List Ptr → Mem → List Nat → Outcome Unit × Mem × List Nat
  | _, [], m, buff => (.ok (), m, buff)
  | i, p :: ps, m, buff =>
    let elem := m.elem p
    let m1 :=
      if !isInline elem.fieldType then
        m.setElem p (newOffset (u64 ((index0 : Int) + i - elem.absIndex)) elem.fieldType
          elem.targetSize)
      else m
    match (m1.elem p).serialize buff (m1.struct s).bSize with
    | (.ok _, buff1) => serializeElemsLoop s index0 (i + 1) ps m1 buff1
    | (.error err, buff1) => (.error err, m1, buff1)
    | (.panic, buff1) => (.panic, m1, buff1)
    | (.diverge, buff1) => (.diverge, m1, buff1)

/-- structure.serializeElems (static dispatch). -/
def structure_serializeElems (m : Mem) (s : Ptr) (buff : List Nat) :
    Outcome Nat × Mem × List Nat :=
  let index0 := buff.length
  match serializeElemsLoop s index0 0 (m.struct s).elems m buff with
  | (.ok _, m1, buff1) => (.ok index0, updateOffsets m1 s index0, buff1)
  | (.error err, m1, buff1) => (.error err, m1, buff1)
  | (.panic, m1, buff1) => (.panic, m1, buff1)
  | (.diverge, m1, buff1) => (.diverge, m1, buff1)

/-- typedVector.serializeElems: the element count in `B(tv.bSize)` bytes, then the
elements. The reslice of the 8 count bytes panics past 8. -/
def typedVector_serializeElems (m : Mem) (tv : Ptr) (buff : List Nat) :
    Outcome Nat × Mem × List Nat :=
  let n := (m.struct tv).elems.length
  if B (m.struct tv).bSize > 8 then (.panic, m, buff)
  else structure_serializeElems m tv (buff ++ (putUint64 n).take (B (m.struct tv).bSize))

/-- The descriptor bytes vector.serializeElems appends, one per element. -/
def itemDescriptors (m : Mem) (v : Ptr) : List Nat :=
  (m.struct v).elems.map (fun p =>
    if isInline (m.elem p).fieldType then u8 (Pack (m.elem p).fieldType (m.struct v).bSize)
    else u8 (Pack (m.elem p).fieldType (m.elem p).targetSize))

/-- vector.serializeElems. -/
def vector_serializeElems (m : Mem) (v : Ptr) (buff : List Nat) :
    Outcome Nat × Mem × List Nat :=
  match typedVector_serializeElems m v buff with
  | (.ok index0, m1, buff1) => (.ok index0, m1, buff1 ++ itemDescriptors m1 v)
  | r => r

/-- flexString.serializeElems: the blob's (that is typedVector's) serializeElems, then
the 0 terminator. -/
def flexString_serializeElems (m : Mem) (s : Ptr) (buff : List Nat) :
    Outcome Nat × Mem × List Nat :=
  match typedVector_serializeElems m s buff with
  | (.ok n, m1, buff1) => (.ok n, m1, buff1 ++ [0])
  | (.error err, m1, buff1) => (.error err, m1, buff1 ++ [0])
  | r => r

/-- key.serializeElems: structure.serializeElems, then the 0 terminator. -/
def key_serializeElems (m : Mem) (k : Ptr) (buff : List Nat) :
    Outcome Nat × Mem × List Nat :=
  match structure_serializeElems m k buff with
  | (.ok n, m1, buff1) => (.ok n, m1, buff1 ++ [0])
  | (.error err, m1, buff1) => (.error err, m1, buff1 ++ [0])
  | r => r

/-- root.serializeElems: the element, its descriptor byte, the byte width. `r.elems[0]`
panics on an empty root. -/
def root_serializeElems (m : Mem) (r : Ptr) (buff : List Nat) :
    Outcome Nat × Mem × List Nat :=
  match structure_serializeElems m r buff with
  | (.ok i, m1, buff1) =>
    (match (m1.struct r).elems with
    | [] => (.panic, m1, buff1)
    | p :: _ =>
      let desc :=
        if isInline (m1.elem p).fieldType then Pack (m1.elem p).fieldType (m1.struct r).bSize
        else Pack (m1.elem p).fieldType (m1.elem p).targetSize
      (.ok i, m1, buff1 ++ [u8 desc] ++ [u8 (B (m1.struct r).bSize)]))
  | r1 => r1

/-- The interface call `s.serializeElems(buff)`, dispatched on the dynamic type. -/
def serializeElems (m : Mem) (s : Ptr) (buff : List Nat) : Outcome Nat × Mem × List Nat :=
  match (m.struct s).dyn with
  | .root => root_serializeElems m s buff
  | .vector => vector_serializeElems m s buff
  | .flexMap => vector_serializeElems m s buff
  | .flexString => flexString_serializeElems m s buff
  | .key => key_serializeElems m s buff
  | .typedVector => typedVector_serializeElems m s buff
  | .fixedTypedVector => typedVector_serializeElems m s buff
  | .blob => typedVector_serializeElems m s buff
  | .keyVector => typedVector_serializeElems m s buff

/-- The loop of structure.serializeChildren: `serialize(ch, buff, true)` for each child,
`serialize` being the parameter `rec`. -/
def serializeChildrenLoop (rec : Mem → Ptr → List Nat → Bool → Outcome Nat × Mem × List Nat) :
    List Ptr → Mem → List Nat → Outcome Unit × Mem × List Nat
  | [], m, buff => (.ok (), m, buff)
  | ch :: chs, m, buff =>
    match rec m ch buff true with
    | (.ok _, m1, buff1) => serializeChildrenLoop rec chs m1 buff1
    | (.error err, m1, buff1) => (.error err, m1, buff1)
    | (.panic, m1, buff1) => (.panic, m1, buff1)
    | (.diverge, m1, buff1) => (.diverge, m1, buff1)

/-- structure.serializeChildren (static dispatch). -/
def structure_serializeChildren
    (rec : Mem → Ptr → List Nat → Bool → Outcome Nat × Mem × List Nat)
    (m : Mem) (s : Ptr) (buff : List Nat) : Outcome Nat × Mem × List Nat :=
  match serializeChildrenLoop rec (m.struct s).children m buff with
  | (.ok _, m1, buff1) => (.ok buff1.length, updateBitWidth m1 s, buff1)
  | (.error err, m1, buff1) => (.error err, m1, buff1)
  | (.panic, m1, buff1) => (.panic, m1, buff1)
  | (.diverge, m1, buff1) => (.diverge, m1, buff1)

/-- flexMap.serializeChildren: the children, the key vector, then the offset to the key
vector and its byte width, both in `B(m.bSize)` bytes. -/
def flexMap_serializeChildren
    (rec : Mem → Ptr → List Nat → Bool → Outcome Nat × Mem × List Nat)
    (m : Mem) (mp : Ptr) (buff : List Nat) : Outcome Nat × Mem × List Nat :=
  match structure_serializeChildren rec m mp buff with
  | (.ok _, m1, buff1) =>
    (match rec m1 (m1.struct mp).keys buff1 true with
    | (.ok i, m2, buff2) =>
      let kbw := b (uintSize i)
      let m3 := if kbw > (m2.struct mp).bSize then
          m2.setStruct mp { m2.struct mp with bSize := kbw }
        else m2
      if B (m3.struct mp).bSize > 8 then (.panic, m3, buff2)
      else
        let buff3 := buff2 ++
          (putUint64 (u64 ((buff2.length : Int) - i))).take (B (m3.struct mp).bSize)
        let buff4 := buff3 ++
          (putUint64 (B (m3.struct (m3.struct mp).keys).bSize)).take (B (m3.struct mp).bSize)
        (.ok buff4.length, m3, buff4)
    | r => r)
  | r => r

/-- root.serializeChildren: the first child, without padding. -/
def root_serializeChildren
    (rec : Mem → Ptr → List Nat → Bool → Outcome Nat × Mem × List Nat)
    (m : Mem) (r : Ptr) (buff : List Nat) : Outcome Nat × Mem × List Nat :=
  let i := buff.length
  match (m.struct r).children with
  | [] => (.ok i, updateBitWidth m r, buff)
  | ch :: _ =>
    match rec m ch buff false with
    | (.ok _, m1, buff1) => (.ok i, updateBitWidth m1 r, buff1)
    | r1 => r1

/-- The interface call `s.serializeChildren(buff)`, dispatched on the dynamic type. -/
def serializeChildren
    (rec : Mem → Ptr → List Nat → Bool → Outcome Nat × Mem × List Nat)
    (m : Mem) (s : Ptr) (buff : List Nat) : Outcome Nat × Mem × List Nat :=
  match (m.struct s).dyn with
  | .flexMap => flexMap_serializeChildren rec m s buff
  | .root => root_serializeChildren rec m s buff
  | _ => structure_serializeChildren rec m s buff

/-- The package function serialize, the depth of its recursion through the children
bounded by `fuel`; `diverge` when the bound is reached. -/
def serialize : Nat → Mem → Ptr → List Nat → Bool → Outcome Nat × Mem × List Nat
  | 0, m, _, buff, _ => (.diverge, m, buff)
  | fuel + 1, m, s, buff, apply_padding =>
    match serializeChildren (fun m1 ch buff1 pad => serialize fuel m1 ch buff1 pad) m s buff with
    | (.ok _, m1, buff1) =>
      (match serializeElems m1 s buff1 with
      | (.ok i, m2, buff2) =>
        if elemsCount m2 s ≠ 0 ∧ apply_padding = true then
          (.ok i, m2, appendPadding buff2 (B (getBsize m2 s)))
        else (.ok i, m2, buff2)
      | r => r)
    | r => r

/-! ## builder.go -/

/-- The Builder: its own fields, and the memory holding its embedded root (pointer 0 of a
new builder) with everything reachable from it. -/
structure Builder where
  finished : Bool
  inProgress : List Ptr
  headIndex : Int
  mem : Mem
  deriving DecidableEq, Repr

/-- NewBuilder: the stack holds `&b.root`. -/
def NewBuilder : Builder :=
  { finished := false, inProgress := [0], headIndex := 0,
    mem := { elements := [], structs := [Structure.new Dyn.root] } }

/-- SerializeBuffer: `serialize(&b.root, buff, false)`. A chain of children is no longer
than the number of structures in memory unless it runs into a cycle, where the Go
recursion does not end either; that number bounds the depth. -/
def Builder.SerializeBuffer (b : Builder) (buff : List Nat) :
    Outcome Nat × Builder × List Nat :=
  match serialize (b.mem.structs.length + 1) b.mem 0 buff false with
  | (r, m1, buff1) => (r, { b with mem := m1 }, buff1)

def Builder.Finish (b : Builder) : Outcome Unit × Builder :=
  if b.finished then (.ok (), b)
  else if b.inProgress.length = 1 then (.ok (), { b with finished := true })
  else (.error Err.notFinished, b)

def Builder.IsFinished (b : Builder) : Bool := b.finished

/-- End. The reslice `b.inProgress[:b.headIndex]` is `List.take`, exact while
`headIndex <= len(inProgress)`. -/
def Builder.End (b : Builder) : Outcome Unit × Builder :=
  if b.headIndex < 1 then (.panic, b)
  else
    let b1 := { b with inProgress := b.inProgress.take b.headIndex.toNat,
                       headIndex := b.headIndex - 1 }
    if b1.headIndex = 0 then (.ok (), (b1.Finish).2) else (.ok (), b1)

/-- getHead: `b.inProgress[b.headIndex]`, `none` when the index is out of range (a
panic). -/
def Builder.getHead (b : Builder) : Option Ptr :=
  if b.headIndex < 0 then none else b.inProgress[b.headIndex.toNat]?

/-- Builder.start. -/
def Builder.start (b : Builder) (o : Ptr) : Outcome Unit × Builder :=
  match b.getHead with
  | none => (.panic, b)
  | some head =>
    match addOffsetToObject b.mem head o with
    | (.ok _, m1) =>
      (.ok (), { b with mem := m1, headIndex := b.headIndex + 1,
                        inProgress := b.inProgress ++ [o] })
    | (.error err, m1) => (.error err, { b with mem := m1 })
    | (.panic, m1) => (.panic, { b with mem := m1 })
    | (.diverge, m1) => (.diverge, { b with mem := m1 })

/-- Builder.startWithKey; `k = none` is the nil key. -/
def Builder.startWithKey (b : Builder) (k : Option Ptr) (o : Ptr) : Outcome Unit × Builder :=
  match b.getHead with
  | none => (.panic, b)
  | some head =>
    match k with
    | none => (.error Err.keyNil, b)
    | some k =>
      if (b.mem.struct head).dyn ≠ Dyn.flexMap then (.error Err.noKeyMapping, b)
      else if flexString_toString b.mem k = [] then (.error Err.emptyKey, b)
      else
        match addOffsetWithKey b.mem head k o with
        | (.ok _, m1) =>
          (.ok (), { b with mem := m1, headIndex := b.headIndex + 1,
                            inProgress := b.inProgress ++ [o] })
        | (.error err, m1) => (.error err, { b with mem := m1 })
        | (.panic, m1) => (.panic, { b with mem := m1 })
        | (.diverge, m1) => (.diverge, { b with mem := m1 })

def Builder.startWithOptionalKey (b : Builder) (k : Option Ptr) (o : Ptr) :
    Outcome Unit × Builder :=
  match k with
  | none => b.start o
  | some k => b.startWithKey (some k) o

/-- Builder.registerElement. -/
def Builder.registerElement (b : Builder) (elem : element) : Outcome Unit × Builder :=
  match b.getHead with
  | none => (.panic, b)
  | some head =>
    match addElement b.mem head elem with
    | (.ok _, m1) =>
      let b1 := { b with mem := m1 }
      if b1.inProgress.length = 1 then (.ok (), (b1.Finish).2) else (.ok (), b1)
    | (.error err, m1) => (.error err, { b with mem := m1 })
    | (.panic, m1) => (.panic, { b with mem := m1 })
    | (.diverge, m1) => (.diverge, { b with mem := m1 })

/-- Builder.registerElementWithKey; `k = none` is the nil key. -/
def Builder.registerElementWithKey (b : Builder) (k : Option Ptr) (elem : element) :
    Outcome Unit × Builder :=
  match b.getHead with
  | none => (.panic, b)
  | some head =>
    match k with
    | none => (.error Err.keyNil, b)
    | some k =>
      if (b.mem.struct head).dyn ≠ Dyn.flexMap then (.error Err.noKeyMapping, b)
      else if flexString_toString b.mem k = [] then (.error Err.emptyKey, b)
      else
        match addElementWithKey b.mem head k elem with
        | (.ok _, m1) => (.ok (), { b with mem := m1 })
        | (.error err, m1) => (.error err, { b with mem := m1 })
        | (.panic, m1) => (.panic, { b with mem := m1 })
        | (.diverge, m1) => (.diverge, { b with mem := m1 })

def Builder.registerElementWithOptionalKey (b : Builder) (k : Option Ptr) (elem : element) :
    Outcome Unit × Builder :=
  match k with
  | none => b.registerElement elem
  | some k => b.registerElementWithKey (some k) elem

/-- The statement pair `defer b.End(); return call`: End runs after the call whatever it
returned, and a panic of either is the outcome. -/
def Builder.deferEnd (r : Outcome Unit × Builder) : Outcome Unit × Builder :=
  match r with
  | (.diverge, b1) => (.diverge, b1)
  | (.panic, b1) => (.panic, (b1.End).2)
  | (res, b1) =>
    match b1.End with
    | (.ok _, b2) => (res, b2)
    | (_, b2) => (.panic, b2)

/-! ### builder.go: the public operations -/


def Builder.Int (b : Builder) (i : GoInt64) : Outcome Unit × Builder :=
  b.registerElement (newINT i)

def Builder.Uint (b : Builder) (u : Nat) : Outcome Unit × Builder :=
  b.registerElement (newUINT u)

def Builder.Float (b : Builder) (f : GoFloat) : Outcome Unit × Builder :=
  b.registerElement (newFLOAT f)

def Builder.Bool (b : Builder) (l : GoBool) : Outcome Unit × Builder :=
  b.registerElement (newBOOL l)

def Builder.Null (b : Builder) : Outcome Unit × Builder :=
  b.registerElement newNULL

/-- The call `b.start(newTypedVector(vType))`. -/
def Builder.startTyped (b : Builder) (vType : VarType) : Outcome Unit × Builder :=
  match newTypedVector b.mem vType with
  | (.ok o, m1) => { b with mem := m1 }.start o
  | (_, m1) => (.panic, { b with mem := m1 })

/-- The call `b.start(newFixedTypedVector(vType))`. -/
def Builder.startFixed (b : Builder) (vType : VarType) : Outcome Unit × Builder :=
  match newFixedTypedVector b.mem vType with
  | (.ok o, m1) => { b with mem := m1 }.start o
  | (_, m1) => (.panic, { b with mem := m1 })

/-- The call `b.startWithKey(newKey(k), newTypedVector(vType))`. -/
def Builder.startTypedWithKey (b : Builder) (k : GoString) (vType : VarType) :
    Outcome Unit × Builder :=
  let (kp, m1) := newKey b.mem k
  match newTypedVector m1 vType with
  | (.ok o, m2) => { b with mem := m2 }.startWithKey (some kp) o
  | (_, m2) => (.panic, { b with mem := m2 })

/-- The call `b.startWithKey(newKey(k), newFixedTypedVector(vType))`. -/
def Builder.startFixedWithKey (b : Builder) (k : GoString) (vType : VarType) :
    Outcome Unit × Builder :=
  let (kp, m1) := newKey b.mem k
  match newFixedTypedVector m1 vType with
  | (.ok o, m2) => { b with mem := m2 }.startWithKey (some kp) o
  | (_, m2) => (.panic, { b with mem := m2 })

def Builder.StartVector (b : Builder) : Outcome Unit × Builder :=
  let (o, m1) := newVector b.mem
  { b with mem := m1 }.start o

def Builder.StartTypedIntVector (b : Builder) : Outcome Unit × Builder :=
  b.startTyped VECTOR_INT

def Builder.StartTypedUintVector (b : Builder) : Outcome Unit × Builder :=
  b.startTyped VECTOR_UINT

def Builder.StartTypedFloatVector (b : Builder) : Outcome Unit × Builder :=
  b.startTyped VECTOR_FLOAT

def Builder.StartTypedBoolVector (b : Builder) : Outcome Unit × Builder :=
  b.startTyped VECTOR_BOOL

def Builder.StartBlob (b : Builder) (bytes : List Nat) : Outcome Unit × Builder :=
  let (o, m1) := newBlob b.mem bytes
  { b with mem := m1 }.start o

def Builder.StartIntScalar (b : Builder) : Outcome Unit × Builder :=
  b.startFixed INDIRECT_INT

def Builder.StartIntTuple (b : Builder) : Outcome Unit × Builder :=
  b.startFixed VECTOR_INT2

def Builder.StartIntTriple (b : Builder) : Outcome Unit × Builder :=
  b.startFixed VECTOR_INT3

def Builder.StartIntQuad (b : Builder) : Outcome Unit × Builder :=
  b.startFixed VECTOR_INT4

def Builder.StartUintScalar (b : Builder) : Outcome Unit × Builder :=
  b.startFixed INDIRECT_UINT

def Builder.StartUintTuple (b : Builder) : Outcome Unit × Builder :=
  b.startFixed VECTOR_UINT2

def Builder.StartUintTriple (b : Builder) : Outcome Unit × Builder :=
  b.startFixed VECTOR_UINT3

def Builder.StartUintQuad (b : Builder) : Outcome Unit × Builder :=
  b.startFixed VECTOR_UINT4

def Builder.StartFloatScalar (b : Builder) : Outcome Unit × Builder :=
  b.startFixed INDIRECT_FLOAT

def Builder.StartFloatTuple (b : Builder) : Outcome Unit × Builder :=
  b.startFixed VECTOR_FLOAT2

def Builder.StartFloatTriple (b : Builder) : Outcome Unit × Builder :=
  b.startFixed VECTOR_FLOAT3

def Builder.StartFloatQuad (b : Builder) : Outcome Unit × Builder :=
  b.startFixed VECTOR_FLOAT4

def Builder.StartString (b : Builder) : Outcome Unit × Builder :=
  let (o, m1) := newFlexString b.mem ""
  { b with mem := m1 }.start o

/-- String: `defer b.End()` then `return b.start(newFlexString(str))`. -/
def Builder.String (b : Builder) (str : GoString) : Outcome Unit × Builder :=
  let (o, m1) := newFlexString b.mem str
  Builder.deferEnd ({ b with mem := m1 }.start o)

def Builder.StartKey (b : Builder) : Outcome Unit × Builder :=
  let (o, m1) := newKey b.mem ""
  { b with mem := m1 }.start o

/-- Key: `defer b.End()` then `return b.start(newKey(str))`. -/
def Builder.Key (b : Builder) (str : GoString) : Outcome Unit × Builder :=
  let (o, m1) := newKey b.mem str
  Builder.deferEnd ({ b with mem := m1 }.start o)

/-- Append: the type assertion `head.(*flexString)` holds for that dynamic type alone. -/
def Builder.Append (b : Builder) (str : GoString) : Outcome Unit × Builder :=
  match b.getHead with
  | none => (.panic, b)
  | some head =>
    if (b.mem.struct head).dyn ≠ Dyn.flexString then (.error Err.notStringType, b)
    else (.ok (), { b with mem := flexString_Append b.mem head str })

def Builder.StartMap (b : Builder) : Outcome Unit × Builder :=
  let (o, m1) := newFlexMap b.mem
  { b with mem := m1 }.start o

def Builder.StartMapWithKey (b : Builder) (k : GoString) : Outcome Unit × Builder :=
  let (kp, m1) := newKey b.mem k
  let (o, m2) := newFlexMap m1
  { b with mem := m2 }.startWithKey (some kp) o

def Builder.UintWithKey (b : Builder) (k : GoString) (u : Nat) : Outcome Unit × Builder :=
  let (kp, m1) := newKey b.mem k
  { b with mem := m1 }.registerElementWithKey (some kp) (newUINT u)

def Builder.IntWithKey (b : Builder) (k : GoString) (i : GoInt64) : Outcome Unit × Builder :=
  let (kp, m1) := newKey b.mem k
  { b with mem := m1 }.registerElementWithKey (some kp) (newINT i)

def Builder.FloatWithKey (b : Builder) (k : GoString) (f : GoFloat) : Outcome Unit × Builder :=
  let (kp, m1) := newKey b.mem k
  { b with mem := m1 }.registerElementWithKey (some kp) (newFLOAT f)

def Builder.BoolWithKey (b : Builder) (k : GoString) (l : GoBool) : Outcome Unit × Builder :=
  let (kp, m1) := newKey b.mem k
  { b with mem := m1 }.registerElementWithKey (some kp) (newBOOL l)

def Builder.NullWithKey (b : Builder) (k : GoString) : Outcome Unit × Builder :=
  let (kp, m1) := newKey b.mem k
  { b with mem := m1 }.registerElementWithKey (some kp) newNULL

def Builder.StartVectorWithKey (b : Builder) (k : GoString) : Outcome Unit × Builder :=
  let (kp, m1) := newKey b.mem k
  let (o, m2) := newVector m1
  { b with mem := m2 }.startWithKey (some kp) o

def Builder.StartTypedIntVectorWithKey (b : Builder) (k : GoString) : Outcome Unit × Builder :=
  b.startTypedWithKey k VECTOR_INT

def Builder.StartTypedUintVectorWithKey (b : Builder) (k : GoString) : Outcome Unit × Builder :=
  b.startTypedWithKey k VECTOR_UINT

def Builder.StartTypedFloatVectorWithKey (b : Builder) (k : GoString) : Outcome Unit × Builder :=
  b.startTypedWithKey k VECTOR_FLOAT

def Builder.StartTypedBoolVectorWithKey (b : Builder) (k : GoString) : Outcome Unit × Builder :=
  b.startTypedWithKey k VECTOR_BOOL

def Builder.StartBlobWithKey (b : Builder) (k : GoString) (bytes : List Nat) :
    Outcome Unit × Builder :=
  let (kp, m1) := newKey b.mem k
  let (o, m2) := newBlob m1 bytes
  { b with mem := m2 }.startWithKey (some kp) o

def Builder.StartIntScalarWithKey (b : Builder) (k : GoString) : Outcome Unit × Builder :=
  b.startFixedWithKey k INDIRECT_INT

def Builder.StartIntTupleWithKey (b : Builder) (k : GoString) : Outcome Unit × Builder :=
  b.startFixedWithKey k VECTOR_INT2

def Builder.StartIntTripleWithKey (b : Builder) (k : GoString) : Outcome Unit × Builder :=
  b.startFixedWithKey k VECTOR_INT3

def Builder.StartIntQuadWithKey (b : Builder) (k : GoString) : Outcome Unit × Builder :=
  b.startFixedWithKey k VECTOR_INT4

def Builder.StartUintScalarWithKey (b : Builder) (k : GoString) : Outcome Unit × Builder :=
  b.startFixedWithKey k INDIRECT_UINT

def Builder.StartUintTupleWithKey (b : Builder) (k : GoString) : Outcome Unit × Builder :=
  b.startFixedWithKey k VECTOR_UINT2

def Builder.StartUintTripleWithKey (b : Builder) (k : GoString) : Outcome Unit × Builder :=
  b.startFixedWithKey k VECTOR_UINT3

def Builder.StartUintQuadWithKey (b : Builder) (k : GoString) : Outcome Unit × Builder :=
  b.startFixedWithKey k VECTOR_UINT4

def Builder.StartFloatScalarWithKey (b : Builder) (k : GoString) : Outcome Unit × Builder :=
  b.startFixedWithKey k INDIRECT_FLOAT

def Builder.StartFloatTupleWithKey (b : Builder) (k : GoString) : Outcome Unit × Builder :=
  b.startFixedWithKey k VECTOR_FLOAT2

def Builder.StartFloatTripleWithKey (b : Builder) (k : GoString) : Outcome Unit × Builder :=
  b.startFixedWithKey k VECTOR_FLOAT3

def Builder.StartFloatQuadWithKey (b : Builder) (k : GoString) : Outcome Unit × Builder :=
  b.startFixedWithKey k VECTOR_FLOAT4

def Builder.StartStringWithKey (b : Builder) (k : GoString) : Outcome Unit × Builder :=
  let (kp, m1) := newKey b.mem k
  let (o, m2) := newFlexString m1 ""
  { b with mem := m2 }.startWithKey (some kp) o

/-- StringWithKey: `defer b.End()` then
`return b.startWithKey(newKey(k), newFlexString(str))`. -/
def Builder.StringWithKey (b : Builder) (k : GoString) (str : GoString) : Outcome Unit × Builder :=
  let (kp, m1) := newKey b.mem k
  let (o, m2) := newFlexString m1 str
  Builder.deferEnd ({ b with mem := m2 }.startWithKey (some kp) o)

/-! ### builder.go: sequences of public operations -/

/-- A call of one public Builder operation with its arguments. -/
inductive Op where
  | Int (i : GoInt64)
  | Uint (u : Nat)
  | Float (f : GoFloat)
  | Bool (l : GoBool)
  | Null
  | StartVector
  | StartTypedIntVector
  | StartTypedUintVector
  | StartTypedFloatVector
  | StartTypedBoolVector
  | StartBlob (bytes : List Nat)
  | StartIntScalar
  | StartIntTuple
  | StartIntTriple
  | StartIntQuad
  | StartUintScalar
  | StartUintTuple
  | StartUintTriple
  | StartUintQuad
  | StartFloatScalar
  | StartFloatTuple
  | StartFloatTriple
  | StartFloatQuad
  | StartString
  | String (str : GoString)
  | StartKey
  | Key (str : GoString)
  | Append (str : GoString)
  | StartMap
  | StartMapWithKey (k : GoString)
  | UintWithKey (k : GoString) (u : Nat)
  | IntWithKey (k : GoString) (i : GoInt64)
  | FloatWithKey (k : GoString) (f : GoFloat)
  | BoolWithKey (k : GoString) (l : GoBool)
  | NullWithKey (k : GoString)
  | StartVectorWithKey (k : GoString)
  | StartTypedIntVectorWithKey (k : GoString)
  | StartTypedUintVectorWithKey (k : GoString)
  | StartTypedFloatVectorWithKey (k : GoString)
  | StartTypedBoolVectorWithKey (k : GoString)
  | StartBlobWithKey (k : GoString) (bytes : List Nat)
  | StartIntScalarWithKey (k : GoString)
  | StartIntTupleWithKey (k : GoString)
  | StartIntTripleWithKey (k : GoString)
  | StartIntQuadWithKey (k : GoString)
  | StartUintScalarWithKey (k : GoString)
  | StartUintTupleWithKey (k : GoString)
  | StartUintTripleWithKey (k : GoString)
  | StartUintQuadWithKey (k : GoString)
  | StartFloatScalarWithKey (k : GoString)
  | StartFloatTupleWithKey (k : GoString)
  | StartFloatTripleWithKey (k : GoString)
  | StartFloatQuadWithKey (k : GoString)
  | StartStringWithKey (k : GoString)
  | StringWithKey (k : GoString) (str : GoString)
  | End
  | Finish
  | SerializeBuffer (buff : List Nat)

/-- The call `op` made on the builder `b`: its outcome and the builder after it. For
SerializeBuffer the index and the bytes it returns are dropped. -/
def Builder.apply (b : Builder) : Op → Outcome Unit × Builder
  | .Int i => b.Int i
  | .Uint u => b.Uint u
  | .Float f => b.Float f
  | .Bool l => b.Bool l
  | .Null => b.Null
  | .StartVector => b.StartVector
  | .StartTypedIntVector => b.StartTypedIntVector
  | .StartTypedUintVector => b.StartTypedUintVector
  | .StartTypedFloatVector => b.StartTypedFloatVector
  | .StartTypedBoolVector => b.StartTypedBoolVector
  | .StartBlob bytes => b.StartBlob bytes
  | .StartIntScalar => b.StartIntScalar
  | .StartIntTuple => b.StartIntTuple
  | .StartIntTriple => b.StartIntTriple
  | .StartIntQuad => b.StartIntQuad
  | .StartUintScalar => b.StartUintScalar
  | .StartUintTuple => b.StartUintTuple
  | .StartUintTriple => b.StartUintTriple
  | .StartUintQuad => b.StartUintQuad
  | .StartFloatScalar => b.StartFloatScalar
  | .StartFloatTuple => b.StartFloatTuple
  | .StartFloatTriple => b.StartFloatTriple
  | .StartFloatQuad => b.StartFloatQuad
  | .StartString => b.StartString
  | .String str => b.String str
  | .StartKey => b.StartKey
  | .Key str => b.Key str
  | .Append str => b.Append str
  | .StartMap => b.StartMap
  | .StartMapWithKey k => b.StartMapWithKey k
  | .UintWithKey k u => b.UintWithKey k u
  | .IntWithKey k i => b.IntWithKey k i
  | .FloatWithKey k f => b.FloatWithKey k f
  | .BoolWithKey k l => b.BoolWithKey k l
  | .NullWithKey k => b.NullWithKey k
  | .StartVectorWithKey k => b.StartVectorWithKey k
  | .StartTypedIntVectorWithKey k => b.StartTypedIntVectorWithKey k
  | .StartTypedUintVectorWithKey k => b.StartTypedUintVectorWithKey k
  | .StartTypedFloatVectorWithKey k => b.StartTypedFloatVectorWithKey k
  | .StartTypedBoolVectorWithKey k => b.StartTypedBoolVectorWithKey k
  | .StartBlobWithKey k bytes => b.StartBlobWithKey k bytes
  | .StartIntScalarWithKey k => b.StartIntScalarWithKey k
  | .StartIntTupleWithKey k => b.StartIntTupleWithKey k
  | .StartIntTripleWithKey k => b.StartIntTripleWithKey k
  | .StartIntQuadWithKey k => b.StartIntQuadWithKey k
  | .StartUintScalarWithKey k => b.StartUintScalarWithKey k
  | .StartUintTupleWithKey k => b.StartUintTupleWithKey k
  | .StartUintTripleWithKey k => b.StartUintTripleWithKey k
  | .StartUintQuadWithKey k => b.StartUintQuadWithKey k
  | .StartFloatScalarWithKey k => b.StartFloatScalarWithKey k
  | .StartFloatTupleWithKey k => b.StartFloatTupleWithKey k
  | .StartFloatTripleWithKey k => b.StartFloatTripleWithKey k
  | .StartFloatQuadWithKey k => b.StartFloatQuadWithKey k
  | .StartStringWithKey k => b.StartStringWithKey k
  | .StringWithKey k str => b.StringWithKey k str
  | .End => b.End
  | .Finish => b.Finish
  | .SerializeBuffer buff =>
    match b.SerializeBuffer buff with
    | (.ok _, b1, _) => (.ok (), b1)
    | (.error err, b1, _) => (.error err, b1)
    | (.panic, b1, _) => (.panic, b1)
    | (.diverge, b1, _) => (.diverge, b1)

/-- A sequence of calls made one after the other, whatever each returns: the outcomes in
order and the builder after the last call. -/
def Builder.run (b : Builder) : List Op → List (Outcome Unit) × Builder
  | [] => ([], b)
  | op :: ops =>
    let r := b.apply op
    let rest := Builder.run r.2 ops
    (r.1 :: rest.1, rest.2)

/-! ## decoder.go -/

/-- A Ref: the buffer, the descriptor byte, the position and the cached item count. -/
structure Ref where
  buffer : List Nat
  context : Nat
  index_0 : Nat
  item_count : Nat
  deriving DecidableEq, Repr

/-- The index expression `buffer[i]`: a panic when `i` is out of range. -/
def indexByte (buffer : List Nat) (i : Nat) : Outcome Nat :=
  match buffer[i]? with
  | some x => .ok x
  | none => .panic

/-- The slice expression `buffer[low:high]`, the capacity of the buffer taken to be its
length: a panic unless `low <= high <= len(buffer)`. -/
def sliceBytes (buffer : List Nat) (low high : Nat) : Outcome (List Nat) :=
  if low ≤ high ∧ high ≤ buffer.length then .ok ((buffer.take high).drop low) else .panic

/-- bytesAsUint: little-endian decoding of 1, 2, 4 or 8 bytes, a panic on any other
length. -/
def bytesAsUint : List Nat → Outcome Nat
  | [a] => .ok a
  | [a, a1] => .ok (a + 256 * a1)
  | [a, a1, a2, a3] => .ok (a + 256 * a1 + 65536 * a2 + 16777216 * a3)
  | [a, a1, a2, a3, a4, a5, a6, a7] =>
    .ok (a + 256 * a1 + 65536 * a2 + 16777216 * a3 + 4294967296 * a4 + 1099511627776 * a5
      + 281474976710656 * a6 + 72057594037927936 * a7)
  | _ => .panic

/-- The conversions `int64(int8(u))`, `int64(int16(u))`, `int64(int32(u))` and `int64(u)`
of bytesAsInt, by the number of bytes. -/
def signExtend (n : Nat) (u : Nat) : Int :=
  if n = 1 then (if u % 256 < 128 then (u % 256 : Int) else (u % 256 : Int) - 256)
  else if n = 2 then (if u % 65536 < 32768 then (u % 65536 : Int) else (u % 65536 : Int) - 65536)
  else if n = 4 then
    (if u % 4294967296 < 2147483648 then (u % 4294967296 : Int)
     else (u % 4294967296 : Int) - 4294967296)
  else i64 u

/-- bytesAsInt. -/
def bytesAsInt (bytes : List Nat) : Outcome Int :=
  match bytesAsUint bytes with
  | .ok u => .ok (signExtend bytes.length u)
  | .error err => .error err
  | .panic => .panic
  | .diverge => .diverge

/-- bytesAsBool applied to the one byte its caller passes. -/
def bytesAsBool (x : Nat) : Bool := decide (x > 0)

def Ref.InsideBounds (r : Ref) (item_index : Int) : Bool :=
  decide (item_index < i64 r.item_count)

/-- getBytes: `r.buffer[abs_offset : abs_offset+bytes]`, the sum in `uint64`. -/
def Ref.getBytes (r : Ref) (abs_offset : Nat) (bytes : Nat) : Outcome (List Nat) :=
  sliceBytes r.buffer abs_offset (u64 ((abs_offset : Int) + bytes))

/-- relItemOffset:
`int64(r.index_0 - uint64(item_index*int64(B(r.context.ItemByteSize()))))`. -/
def Ref.relItemOffset (r : Ref) (item_index : Int) : Int :=
  i64 (u64 ((r.index_0 : Int) - u64 (i64 (item_index * i64 (B (ItemByteSize r.context))))))

/-- absOffset: `r.index_0 - uint64(rel_offset)`. -/
def Ref.absOffset (r : Ref) (rel_offset : Int) : Nat :=
  u64 ((r.index_0 : Int) - u64 rel_offset)

def Ref.absItemOffset (r : Ref) (item_index : Int) : Nat :=
  r.absOffset (r.relItemOffset item_index)

/-- getItemContext: the byte at `absOffset(relItemOffset(item_index) + item_index)`. -/
def Ref.getItemContext (r : Ref) (item_index : Int) : Outcome Nat :=
  indexByte r.buffer (r.absOffset (i64 (r.relItemOffset item_index + item_index)))

/-- The result of `bytes.IndexByte(s, 0)`. -/
def indexOfZero : List Nat → Int
  | [] => -1
  | x :: xs => if x = 0 then 0 else
    let i := indexOfZero xs
    if i < 0 then -1 else i + 1

/-- itemCount: a panic for every type outside the cases of its switch. -/
def Ref.itemCount (r : Ref) : Outcome Nat :=
  let t := ItemVarType r.context
  if t ∈ [INT, UINT, FLOAT, BOOL, NULL, INDIRECT_UINT, INDIRECT_INT, INDIRECT_FLOAT] then .ok 1
  else if t ∈ [VECTOR_INT2, VECTOR_UINT2, VECTOR_FLOAT2] then .ok 2
  else if t ∈ [VECTOR_INT3, VECTOR_UINT3, VECTOR_FLOAT3] then .ok 3
  else if t ∈ [VECTOR_INT4, VECTOR_UINT4, VECTOR_FLOAT4] then .ok 4
  else if t ∈ [VECTOR, MAP, BLOB, STRING] then
    indexByte r.buffer (r.absOffset (r.relItemOffset (-1)))
  else if t = KEY then
    (match sliceBytes r.buffer r.index_0 r.buffer.length with
    | .ok rest => .ok (u64 (indexOfZero rest + 1))
    | _ => .panic)
  else .panic

def Ref.IsUint (r : Ref) : Bool := decide (ItemVarType r.context = UINT)

def Ref.IsInt (r : Ref) : Bool := decide (ItemVarType r.context = INT)

def Ref.IsBool (r : Ref) : Bool := decide (ItemVarType r.context = BOOL)

def Ref.IsNull (r : Ref) : Bool := decide (ItemVarType r.context = NULL)

def Ref.IsMap (r : Ref) : Bool := decide (ItemVarType r.context = MAP)

def Ref.IsTyped (r : Ref) : Bool := isTyped (ItemVarType r.context)

def Ref.IsVector (r : Ref) : Bool := isVector (ItemVarType r.context)

def Ref.IsBlobLike (r : Ref) : Bool := isBlobLike (ItemVarType r.context)

def Ref.IsIterable (r : Ref) : Bool := r.IsVector || r.IsMap || r.IsBlobLike

/-- The tail shared by getItemAsRef, NewRef and KeyVector: the Ref at a position with its
item count filled in by itemCount. -/
def Ref.withItemCount (r : Ref) : Outcome Ref :=
  match r.itemCount with
  | .ok n => .ok { r with item_count := n }
  | .error err => .error err
  | .panic => .panic
  | .diverge => .diverge

/-- getItemAsRef. -/
def Ref.getItemAsRef (r : Ref) (item_index : Int) (con : Nat) : Outcome Ref :=
  if !r.IsIterable then .panic
  else if !r.InsideBounds item_index then .panic
  else
    let abs_offset := r.absItemOffset item_index
    let bWidth := B (ItemByteSize r.context)
    if !isInline (ItemVarType con) then
      match r.getBytes abs_offset bWidth with
      | .ok bytes =>
        (match bytesAsUint bytes with
        | .ok off =>
          Ref.withItemCount
            { buffer := r.buffer, context := con, index_0 := u64 ((abs_offset : Int) - off),
              item_count := 0 }
        | _ => .panic)
      | _ => .panic
    else
      Ref.withItemCount
        { buffer := r.buffer, context := con, index_0 := abs_offset, item_count := 0 }

/-- NewRef. -/
def NewRef (buff : List Nat) : Outcome Ref :=
  let n := buff.length
  if n < 2 then .panic
  else
    match indexByte buff (n - 1), indexByte buff (n - 2) with
    | .ok bWidth, .ok con =>
      let index_0 := u64 ((n : Int) - 2 - bWidth)
      if !isInline (ItemVarType con) then
        match sliceBytes buff index_0 (n - 2) with
        | .ok bytes =>
          (match bytesAsUint bytes with
          | .ok off =>
            Ref.withItemCount
              { buffer := buff, context := con, index_0 := u64 ((index_0 : Int) - off),
                item_count := 0 }
          | _ => .panic)
        | _ => .panic
      else
        Ref.withItemCount { buffer := buff, context := con, index_0 := index_0, item_count := 0 }
    | _, _ => .panic

/-- Ref.Uint. -/
def Ref.Uint (r : Ref) : Outcome Nat :=
  if !r.IsUint then .error Err.notUint
  else
    match r.getBytes r.index_0 (B (ItemByteSize r.context)) with
    | .ok bytes => bytesAsUint bytes
    | _ => .panic

/-- Ref.Int. -/
def Ref.Int (r : Ref) : Outcome GoInt64 :=
  if !r.IsInt then .error Err.notInt
  else
    match r.getBytes r.index_0 (B (ItemByteSize r.context)) with
    | .ok bytes => bytesAsInt bytes
    | _ => .panic

/-- Ref.Bool. -/
def Ref.Bool (r : Ref) : Outcome GoBool :=
  if !r.IsBool then .error Err.notBool
  else
    match indexByte r.buffer r.index_0 with
    | .ok x => .ok (bytesAsBool x)
    | _ => .panic

/-- Ref.Index. The item handed to getItemAsRef is `int64(abs_offset)`. -/
def Ref.Index (r : Ref) (i : GoInt64) : Outcome Ref :=
  let vType := ItemVarType r.context
  if !r.IsIterable then .error Err.notIndexable
  else if !r.InsideBounds i then .error Err.outOfBounds
  else
    let rel_offset := r.relItemOffset i
    let abs_offset := r.absOffset rel_offset
    if r.IsTyped then
      if isUintTyped vType then r.getItemAsRef (i64 abs_offset) (Pack UINT (ItemByteSize r.context))
      else if isIntTyped vType then
        r.getItemAsRef (i64 abs_offset) (Pack INT (ItemByteSize r.context))
      else if isFloatTyped vType then
        r.getItemAsRef (i64 abs_offset) (Pack FLOAT (ItemByteSize r.context))
      else if isBoolTyped vType then
        r.getItemAsRef (i64 abs_offset) (Pack BOOL (ItemByteSize r.context))
      else if vType = VECTOR_KEY then r.getItemAsRef (i64 abs_offset) (Pack KEY b8)
      else .panic
    else
      match r.getItemContext i with
      | .ok con => r.getItemAsRef (i64 abs_offset) con
      | _ => .panic

/-- KeyVector. -/
def Ref.KeyVector (r : Ref) : Outcome Ref :=
  if !r.IsMap then .panic
  else
    match r.getBytes (u64 ((r.index_0 : GoInt64) - 2)) 1 with
    | .ok wbytes =>
      (match bytesAsUint wbytes with
      | .ok key_vector_bWidth =>
        (match r.getBytes (u64 ((r.index_0 : GoInt64) - 3)) 1 with
        | .ok obytes =>
          (match bytesAsUint obytes with
          | .ok key_vector_offset =>
            if bPanics key_vector_bWidth then .panic
            else
              Ref.withItemCount
                { buffer := r.buffer, context := Pack VECTOR_KEY (b key_vector_bWidth),
                  index_0 := u64 ((r.index_0 : GoInt64) - key_vector_offset), item_count := 0 }
          | _ => .panic)
        | _ => .panic)
      | _ => .panic)
    | _ => .panic

/-- The result of `bytes.Compare`: -1, 0 or 1 by the lexicographic order of the bytes. -/
def bytesCompare : List Nat → List Nat → Int
  | [], [] => 0
  | [], _ :: _ => -1
  | _ :: _, [] => 1
  | x :: xs, y :: ys => if x < y then -1 else if y < x then 1 else bytesCompare xs ys

/-- The UTF-8 encoding of one code point. -/
def utf8EncodeRune (c : Nat) : List Nat :=
  if c ≤ 127 then [c]
  else if c ≤ 2047 then [192 + c / 64, 128 + c % 64]
  else if c ≤ 65535 then [224 + c / 4096, 128 + c / 64 % 64, 128 + c % 64]
  else [240 + c / 262144, 128 + c / 4096 % 64, 128 + c / 64 % 64, 128 + c % 64]

/-- The bytes of a Go string: the UTF-8 encoding of its code points. -/
def stringBytes (str : String) : List Nat := (runes str).flatMap utf8EncodeRune

/-- The closure binary_search_keys of MapIndex, the depth of its recursion bounded by
`fuel`; `diverge` when the bound is reached. -/
def binary_search_keys (key : List Nat) (kv_ref : Ref) :
    Nat → Int → Int → Outcome Int
  | 0, _, _ => .diverge
  | fuel + 1, lower_bounds, upper_bounds =>
    if lower_bounds ≥ upper_bounds then .ok (-1)
    else
      let pivot := (upper_bounds - lower_bounds) / 2
      match kv_ref.getItemAsRef pivot (Pack KEY b8) with
      | .ok key_ref =>
        (match key_ref.getBytes key_ref.index_0 key_ref.item_count with
        | .ok key_bytes =>
          let c := bytesCompare key_bytes key
          if c = 0 then .ok pivot
          else if c < 0 then binary_search_keys key kv_ref fuel lower_bounds pivot
          else binary_search_keys key kv_ref fuel (pivot + 1) upper_bounds
        | _ => .panic)
      | _ => .panic

/-- MapIndex, the search given `fuel` levels of recursion. -/
def Ref.MapIndex (r : Ref) (fuel : Nat) (key : String) : Outcome Ref :=
  if !r.IsMap then .error Err.notMap
  else
    match r.KeyVector with
    | .ok key_vector_ref =>
      (match binary_search_keys (stringBytes key) key_vector_ref fuel 0
          (i64 key_vector_ref.item_count) with
      | .ok item_index =>
        if item_index < 0 then .error Err.keyNotFound else r.Index item_index
      | .error err => .error err
      | .panic => .panic
      | .diverge => .diverge)
    | _ => .panic

/-! ## Notions the statements use -/

/-- The object `newKey("")` allocates. -/
def emptyKeyObject : Structure := { Structure.new Dyn.key with vType := KEY, bSize := b8 }

/-- The builder after a call that did nothing but allocate `newKey("")`. -/
def Builder.withEmptyKey (b : Builder) : Builder :=
  { b with mem := { b.mem with structs := b.mem.structs ++ [emptyKeyObject] } }

/-- The keys a map holds, in the order of the children of its key vector, each as
`toString` gives it. -/
def mapKeys (m : Mem) (mp : Ptr) : List (List Nat) :=
  (m.struct (m.struct mp).keys).children.map (flexString_toString m)

/-- A pointer to a key object whose element pointers are allocated. -/
def LiveKey (m : Mem) (k : Ptr) : Prop :=
  (m.struct k).dyn = Dyn.key ∧ ∀ p ∈ (m.struct k).elems, p < m.elements.length

/-- What a step that is no call on the map `mp` keeps of it: no element and no structure
is freed; the map keeps its dynamic type, its key vector and its element list; the key
vector keeps its dynamic type, its elements and its children; every key in it keeps its
dynamic type, its elements and the string it spells; every inline element of the map is
as it was; and an offset element stays bound to the object it was bound to. -/
def MapKept (mp : Ptr) (m m1 : Mem) : Prop :=
  m.elements.length ≤ m1.elements.length ∧ m.structs.length ≤ m1.structs.length ∧
  (m1.struct mp).dyn = (m.struct mp).dyn ∧ (m1.struct mp).keys = (m.struct mp).keys ∧
  (m1.struct mp).elems = (m.struct mp).elems ∧
  (m1.struct (m.struct mp).keys).dyn = (m.struct (m.struct mp).keys).dyn ∧
  (m1.struct (m.struct mp).keys).elems = (m.struct (m.struct mp).keys).elems ∧
  (m1.struct (m.struct mp).keys).children = (m.struct (m.struct mp).keys).children ∧
  (∀ c ∈ (m.struct (m.struct mp).keys).children,
    (m1.struct c).dyn = (m.struct c).dyn ∧ (m1.struct c).elems = (m.struct c).elems ∧
    flexString_toString m1 c = flexString_toString m c) ∧
  (∀ p ∈ (m.struct mp).elems, isInline (m.elem p).fieldType = true → m1.elem p = m.elem p) ∧
  (∀ o : Nat, o < m.structs.length →
    ∀ p ∈ (m.struct o).offsetPtrs, p ∈ (m1.struct o).offsetPtrs)

/-- The memories a map can be found in: it starts as `newFlexMap()` made it; objects are
allocated around it; other steps change the memory and keep the map (its attachment to a
parent, calls on other objects, the filling of its children, serialization);
addElementWithKey and addOffsetWithKey are called on it with a key object and return
without error. -/
inductive MapReach (mp : Ptr) : Mem → Prop where
  | init (m0 : Mem) (h : (newFlexMap m0).1 = mp) : MapReach mp (newFlexMap m0).2
  | alloc (m m' : Mem) (hm : MapReach mp m) (he : m.elements <+: m'.elements)
      (hs : m.structs <+: m'.structs) : MapReach mp m'
  | kept (m m' : Mem) (hm : MapReach mp m) (hk : MapKept mp m m') : MapReach mp m'
  | addElement (m m' : Mem) (k : Ptr) (e : element) (n : Nat) (hm : MapReach mp m)
      (hk : LiveKey m k) (h : addElementWithKey m mp k e = (.ok n, m')) : MapReach mp m'
  | addOffset (m m' : Mem) (k o : Ptr) (n : Nat) (hm : MapReach mp m)
      (hk : LiveKey m k) (h : addOffsetWithKey m mp k o = (.ok n, m')) : MapReach mp m'

/-- The invariant of a map under insertion. -/
structure MapInv (m : Mem) (mp : Ptr) : Prop where
  map_dyn : (m.struct mp).dyn = Dyn.flexMap
  keys_dyn : (m.struct (m.struct mp).keys).dyn = Dyn.keyVector
  keys_len : (m.struct (m.struct mp).keys).elems.length
    = (m.struct (m.struct mp).keys).children.length
  keys_live : ∀ c ∈ (m.struct (m.struct mp).keys).children, LiveKey m c
  sorted : (mapKeys m mp).Pairwise (fun x y => strLt y x = false)

instance (m : Mem) (k : Ptr) : Decidable (LiveKey m k) :=
  inferInstanceAs (Decidable (_ ∧ ∀ p ∈ (m.struct k).elems, p < m.elements.length))

/-- The memory after the call `addElementWithKey(newKey(k), newINT(v))` on the map at
`mp`. -/
def addIntEntry (m : Mem) (mp : Ptr) (k : String) (v : Int) : Mem :=
  (addElementWithKey (newKey m k).2 mp (newKey m k).1 (newINT v)).2

/-- The memory after `newFlexMap()` in an empty memory: the map is at pointer 0. -/
def emptyMapMem : Mem := (newFlexMap { elements := [], structs := [] }).2

/-- The memory after the three entries One: 1, Two: 2 and Three: 3 went into the empty
map, in this order. -/
def oneTwoThreeMem : Mem :=
  addIntEntry (addIntEntry (addIntEntry emptyMapMem 0 "One" 1) 0 "Two" 2) 0 "Three" 3

/-- A property of the flag, the stack and the head index of a builder that every call
keeps: it survives setting the flag, a push with the head index raised by one, and the
reslice of End with the head index lowered by one. -/
structure StackClosed (P : Bool → List Ptr → Int → Prop) : Prop where
  fin : ∀ f s h, P f s h → P true s h
  push : ∀ f s h o, P f s h → P f (s ++ [o]) (h + 1)
  pop : ∀ f s h, P f s h → 1 ≤ h → P f (s.take h.toNat) (h - 1)

/-- The property `P` read on the flag, the stack and the head index of a builder. -/
def Builder.sat (P : GoBool → List Ptr → GoInt64 → Prop) (b : Builder) : Prop :=
  P b.finished b.inProgress b.headIndex

/-- The states a new builder reaches through calls of its public operations, whatever
each call returned. -/
def Reachable (b : Builder) : Prop := ∃ ops : List Op, b = (NewBuilder.run ops).2

/-- The calls `StartVector()`, `n` times `Int(v)`, `End()`. -/
def intVectorOps (n : Nat) (v : Int) : List Op :=
  [.StartVector] ++ List.replicate n (.Int v) ++ [.End]

/-- What serialization keeps of a memory: the dynamic type and the element list of every
structure, and the 8 payload bytes of every element. -/
def Mem.sameShape (m m1 : Mem) : Prop :=
  (∀ p : Nat,
    (m1.struct p).dyn = (m.struct p).dyn ∧ (m1.struct p).elems = (m.struct p).elems) ∧
  (∀ p : Nat, (m.elem p).bytes.length = 8 → (m1.elem p).bytes.length = 8) ∧
  m1.structs.length = m.structs.length

/-- What the calls of a builder keep of its memory: no structure is freed or changes its
dynamic type, and every element holds its 8 payload bytes. -/
def Mem.grows (m m1 : Mem) : Prop :=
  m.structs.length ≤ m1.structs.length ∧
  (∀ p : Nat, p < m.structs.length → (m1.struct p).dyn = (m.struct p).dyn) ∧
  ((∀ p : Nat, (m.elem p).bytes.length = 8) → ∀ p : Nat, (m1.elem p).bytes.length = 8)

/-- A step of serialization from the memory `m` and the buffer `buff`: the memory keeps its
shape and the buffer is extended. -/
def Frame {α : Type} (m : Mem) (buff : List Nat) (r : Outcome α × Mem × List Nat) : Prop :=
  Mem.sameShape m r.2.1 ∧ buff <+: r.2.2

/-- The vector object with the elements 1 to `n`, bound to the offset element 0. -/
def intVectorObject (n : Nat) : Structure :=
  { Structure.new Dyn.vector with vType := VECTOR, offsetPtrs := [0], elems := List.range' 1 n }

/-- The builder after `StartVector()` and `n` times `Int(v)` on a new builder: the root at
pointer 0 with its offset element 0 and the vector at pointer 1 as its child, the vector
with the elements 1 to `n`. -/
def intVectorState (n : Nat) (v : Int) : Builder :=
  { finished := false, inProgress := [0, 1], headIndex := 1,
    mem := { elements := { zeroElement with fieldType := VECTOR } :: List.replicate n (newINT v),
             structs := [{ Structure.new Dyn.root with elems := [0], children := [1] },
                         intVectorObject n] } }

/-- The builder after `End()` on intVectorState. -/
def intVectorDone (n : Nat) (v : Int) : Builder :=
  { intVectorState n v with finished := true, inProgress := [0], headIndex := 0 }

/-- The memory of intVectorState with `e0` as the offset element of the root. -/
def intVectorMem (n : Nat) (v : Int) (e0 : element) : Mem :=
  { elements := e0 :: List.replicate n (newINT v),
    structs := [{ Structure.new Dyn.root with elems := [0], children := [1] },
                intVectorObject n] }

/-- The element type a typed container admits, after the table of structure subtypes of
the specification: the matching scalar for a typed and a fixed-typed vector, UINT for a
blob, a string and a key, keys for a key vector. -/
def spec_admittedType (vType : VarType) : Option VarType :=
  if vType ∈ [VECTOR_INT, INDIRECT_INT, VECTOR_INT2, VECTOR_INT3, VECTOR_INT4] then some INT
  else if vType ∈ [VECTOR_UINT, INDIRECT_UINT, VECTOR_UINT2, VECTOR_UINT3, VECTOR_UINT4, BLOB,
      STRING, KEY] then some UINT
  else if vType ∈ [VECTOR_FLOAT, INDIRECT_FLOAT, VECTOR_FLOAT2, VECTOR_FLOAT3,
      VECTOR_FLOAT4] then some FLOAT
  else if vType = VECTOR_BOOL then some BOOL
  else if vType = VECTOR_KEY then some KEY
  else none

/-- The arity of a fixed-typed vector, after the specification: 1 for INDIRECT_*, 2 for a
tuple, 3 for a triple, 4 for a quad. -/
def spec_arity (vType : VarType) : Option Nat :=
  if vType ∈ [INDIRECT_INT, INDIRECT_UINT, INDIRECT_FLOAT] then some 1
  else if vType ∈ [VECTOR_INT2, VECTOR_UINT2, VECTOR_FLOAT2] then some 2
  else if vType ∈ [VECTOR_INT3, VECTOR_UINT3, VECTOR_FLOAT3] then some 3
  else if vType ∈ [VECTOR_INT4, VECTOR_UINT4, VECTOR_FLOAT4] then some 4
  else none

/-- The calls `addElement(s, e)` for the elements of a list, one after the other and
whatever each returns: the results in order, and the memory after the last. -/
def addElements (m : Mem) (s : Ptr) : List element → List (Outcome Nat) × Mem
  | [] => ([], m)
  | e :: es =>
    ((addElement m s e).1 :: (addElements (addElement m s e).2 s es).1,
      (addElements (addElement m s e).2 s es).2)

/-- The elements a structure holds, in order. -/
def elemsOf (m : Mem) (s : Ptr) : List element := (m.struct s).elems.map m.elem

/-- The unsigned integer a byte sequence spells in little-endian order, after the
specification. -/
def spec_littleEndian : List Nat → Nat
  | [] => 0
  | x :: xs => x + 256 * spec_littleEndian xs

/-- The signed reading of an unsigned `n`-byte value: sign extension, after the
specification. -/
def spec_signed (n : Nat) (u : Nat) : Int :=
  if u < 2 ^ (8 * n - 1) then (u : Int) else (u : Int) - 2 ^ (8 * n)

/-- The `width` bytes at `index0` of the buffer of a Ref. -/
def Ref.widthBytes (r : Ref) : List Nat :=
  (r.buffer.drop r.index_0).take (B (ItemByteSize r.context))

/-- The `float64` nearest to the decimal `1.797693e308`: its bit pattern, and no 32-bit
pattern, the value being above the largest `float32`. -/
def float_1_797693e308 : GoFloat := { bits64 := 0x7fefffffd7b9609a, bits32 := none }

/-- The `float64` value `math.MaxFloat64` the test of this map uses, which no `float32`
holds. -/
def maxFloat64 : GoFloat := { bits64 := 0x7fefffffffffffff, bits32 := none }

/-- The calls that build `MAP{"MyVec":[1,2,2147483647], "OtherVec":[3,4,f]}`. -/
def twoVectorMapOps (f : GoFloat) : List Op :=
  [.StartMap, .StartVectorWithKey "MyVec", .Int 1, .Int 2, .Int 2147483647, .End,
    .StartVectorWithKey "OtherVec", .Int 3, .Int 4, .Float f, .End, .End]

/-- The index a step of serialization returns lies between the length of the buffer it
started from and the length of the buffer it leaves. -/
def StartInside (buff : List Nat) (r : Outcome Nat × Mem × List Nat) : Prop :=
  ∀ (i : Nat) (m1 : Mem) (out : List Nat), r = (.ok i, m1, out) →
    buff.length ≤ i ∧ i ≤ out.length

/-- The indexes the calls `serialize(ch, buff, true)` of serializeChildrenLoop return, in
order, up to the first that fails: the start positions of the children. -/
def childStartsLoop (rec : Mem → Ptr → List Nat → Bool → Outcome Nat × Mem × List Nat) :
    List Ptr → Mem → List Nat → List Nat
  | [], _, _ => []
  | ch :: chs, m, buff =>
    match rec m ch buff true with
    | (.ok i, m1, buff1) => i :: childStartsLoop rec chs m1 buff1
    | _ => []

/-- The start positions of the structures the call `s.serializeChildren(buff)` serializes,
in order: the children of `s` (the first alone for the root) and, for a map, its key
vector after them. -/
def childStarts (rec : Mem → Ptr → List Nat → Bool → Outcome Nat × Mem × List Nat)
    (m : Mem) (s : Ptr) (buff : List Nat) : List Nat :=
  match (m.struct s).dyn with
  | .root =>
    (match (m.struct s).children with
    | [] => []
    | ch :: _ =>
      match rec m ch buff false with
      | (.ok i, _, _) => [i]
      | _ => [])
  | .flexMap =>
    childStartsLoop rec (m.struct s).children m buff ++
      (match structure_serializeChildren rec m s buff with
      | (.ok _, m1, buff1) =>
        (match rec m1 (m1.struct s).keys buff1 true with
        | (.ok i, _, _) => [i]
        | _ => [])
      | _ => [])
  | _ => childStartsLoop rec (m.struct s).children m buff

/-- The states a new builder reaches through its internal calls start, startWithKey,
registerElement, registerElementWithKey and End, whatever each returned; between two
calls the memory may change as allocation and the calls on objects change it (no
structure freed, none changing its dynamic type). -/
inductive CallReach : Builder → Prop where
  | new : CallReach NewBuilder
  | mem (b : Builder) (m : Mem) (h : CallReach b) (hm : Mem.grows b.mem m) :
      CallReach { b with mem := m }
  | start (b : Builder) (o : Ptr) (h : CallReach b) : CallReach (b.start o).2
  | startWithKey (b : Builder) (k : Option Ptr) (o : Ptr) (h : CallReach b) :
      CallReach (b.startWithKey k o).2
  | registerElement (b : Builder) (e : element) (h : CallReach b)
      (he : e.bytes.length = 8) : CallReach (b.registerElement e).2
  | registerElementWithKey (b : Builder) (k : Option Ptr) (e : element) (h : CallReach b)
      (he : e.bytes.length = 8) : CallReach (b.registerElementWithKey k e).2
  | End (b : Builder) (h : CallReach b) : CallReach (b.End).2

/-- A value handed to a map together with a key: an element, or a child object. -/
inductive MapValue where
  | elem (e : element)
  | child (o : Ptr)
  deriving DecidableEq, Repr

/-- The element at the allocated pointer `p` is the value `v`: it is the element itself,
or it is an offset element bound to the allocated child (a pointer the child patches
when it is serialized). -/
def MapValue.isAt (m : Mem) (p : Ptr) : MapValue → Prop
  | .elem e => p < m.elements.length ∧ m.elem p = e
  | .child o => p < m.elements.length ∧ o < m.structs.length ∧ p ∈ (m.struct o).offsetPtrs

/-- The elements among the values of the entries are inline, as the elements
registerElementWithKey hands over are. -/
def InlineEntries (es : List (List Nat × MapValue)) : Prop :=
  ∀ v ∈ es.map Prod.snd, ∀ e, v = MapValue.elem e → isInline e.fieldType = true

/-- The memories a map is found in together with the entries it was given, each entry at
the position determineKeyInsertionIndex chose for its key: the map starts empty as
`newFlexMap()` made it; objects are allocated around it; addElementWithKey is called on
it with a key object and an element, and addOffsetWithKey with a key object and an
allocated child, and they return without error; and other steps change the memory and
keep the map (its attachment to a parent, calls on other objects, the filling of its
children, serialization), which keeps the elements of the map that are inline, so these
steps are taken on a map whose entries are inline. -/
inductive MapBuilt (mp : Ptr) : Mem → List (List Nat × MapValue) → Prop where
  | init (m0 : Mem) (h : (newFlexMap m0).1 = mp) : MapBuilt mp (newFlexMap m0).2 []
  | alloc (m m' : Mem) (es : List (List Nat × MapValue)) (hm : MapBuilt mp m es)
      (he : m.elements <+: m'.elements) (hs : m.structs <+: m'.structs) : MapBuilt mp m' es
  | kept (m m' : Mem) (es : List (List Nat × MapValue)) (hm : MapBuilt mp m es)
      (hin : InlineEntries es) (hk : MapKept mp m m') : MapBuilt mp m' es
  | addElement (m m' : Mem) (es : List (List Nat × MapValue)) (k : Ptr) (e : element)
      (n index : Nat) (hm : MapBuilt mp m es) (hk : LiveKey m k)
      (hi : determineKeyInsertionIndex m mp k = .ok index)
      (h : addElementWithKey m mp k e = (.ok n, m')) :
      MapBuilt mp m'
        (es.take index ++ (flexString_toString m k, MapValue.elem e) :: es.drop index)
  | addOffset (m m' : Mem) (es : List (List Nat × MapValue)) (k o : Ptr)
      (n index : Nat) (hm : MapBuilt mp m es) (hk : LiveKey m k) (ho : o < m.structs.length)
      (hi : determineKeyInsertionIndex m mp k = .ok index)
      (h : addOffsetWithKey m mp k o = (.ok n, m')) :
      MapBuilt mp m'
        (es.take index ++ (flexString_toString m k, MapValue.child o) :: es.drop index)

/-- The memory after the call `addOffsetWithKey(newKey(k), o)` on the map at `mp`. -/
def addChildEntry (m : Mem) (mp : Ptr) (k : String) (o : Ptr) : Mem :=
  (addOffsetWithKey (newKey m k).2 mp (newKey m k).1 o).2

/-- The memory after the entry b: 1 and then the entry a: `newVector()` went into the
empty map: the vector is the object 3. -/
def childAndIntMem : Mem :=
  addChildEntry (newVector (addIntEntry emptyMapMem 0 "b" 1)).2 0 "a"
    (newVector (addIntEntry emptyMapMem 0 "b" 1)).1

/-- The calls that build the vector `[2147483647, [1]]`. -/
def nestedVectorOps : List Op :=
  [.StartVector, .Int 2147483647, .StartVector, .Int 1, .End, .End]

/-- A relation between the memory before and after a step that every assignment of
serialization keeps: the overwriting of an offset element by newOffset, the assignment of
a byte width to a structure, and updateOffsets. -/
structure SerRel (R : Mem → Mem → Prop) : Prop where
  refl : ∀ m, R m m
  trans : ∀ m m1 m2, R m m1 → R m1 m2 → R m m2
  offset : ∀ (m : Mem) (p off : Nat), isInline (m.elem p).fieldType = false →
    R m (m.setElem p (newOffset off (m.elem p).fieldType (m.elem p).targetSize))
  width : ∀ (m : Mem) (s bs : Nat), R m (m.setStruct s { m.struct s with bSize := bs })
  update : ∀ (m : Mem) (s index0 : Nat), R m (updateOffsets m s index0)

/-- Every offset pointer of every structure points to an element that is not inline, and
a structure that has an offset pointer has a type that is not inline: updateOffsets then
writes a type that is not inline into elements that are not inline. -/
def OffsOK (m : Mem) : Prop :=
  ∀ s p : Nat, p ∈ (m.struct s).offsetPtrs →
    isInline (m.elem p).fieldType = false ∧ isInline (m.struct s).vType = false

/-- What serialization keeps of a memory: the number of elements and of structures and
every field of every structure but its byte width; and, where the offset pointers are as
OffsOK says, every inline element as it is and every other element not inline. -/
def Mem.serKept (m m1 : Mem) : Prop :=
  (m1.structs.length = m.structs.length ∧ m1.elements.length = m.elements.length ∧
    ∀ p : Nat, (m1.struct p).dyn = (m.struct p).dyn ∧
      (m1.struct p).offsetPtrs = (m.struct p).offsetPtrs ∧
      (m1.struct p).elems = (m.struct p).elems ∧
      (m1.struct p).children = (m.struct p).children ∧
      (m1.struct p).vType = (m.struct p).vType ∧ (m1.struct p).keys = (m.struct p).keys) ∧
  (OffsOK m →
    (∀ p : Nat, isInline (m.elem p).fieldType = true → m1.elem p = m.elem p) ∧
    (∀ p : Nat, isInline (m.elem p).fieldType = false →
      isInline (m1.elem p).fieldType = false))

/-- A step from `m` to `m1` that appends elements, frees no structure, keeps the dynamic
type, the key vector and the type of every structure allocated before it, takes no offset
pointer away, and keeps the element list and the children of every such structure outside
`T`. -/
def Mem.stepOutside (T : Ptr → Prop) (m m1 : Mem) : Prop :=
  (∃ xs, m1.elements = m.elements ++ xs) ∧ m.structs.length ≤ m1.structs.length ∧
  (∀ q : Nat, q < m.structs.length →
    (m1.struct q).dyn = (m.struct q).dyn ∧ (m1.struct q).keys = (m.struct q).keys ∧
    (m1.struct q).vType = (m.struct q).vType ∧
    ∀ p ∈ (m.struct q).offsetPtrs, p ∈ (m1.struct q).offsetPtrs) ∧
  (∀ q : Nat, q < m.structs.length → ¬ T q →
    (m1.struct q).elems = (m.struct q).elems ∧
    (m1.struct q).children = (m.struct q).children)

/-- A structure the calls of a builder may change: no map, no key vector, and no key held
by the key vector of a map. -/
def Unfrozen (m : Mem) (s : Ptr) : Prop :=
  (m.struct s).dyn ≠ Dyn.flexMap ∧ (m.struct s).dyn ≠ Dyn.keyVector ∧
  ∀ mp : Nat, (m.struct mp).dyn = Dyn.flexMap → s ∉ (m.struct (mp + 1)).children

/-- An object as a constructor leaves it, before it is handed to start or startWithKey:
allocated, no key vector, of a type that is not inline, and the child of no structure. -/
def FreshObj (m : Mem) (o : Ptr) : Prop :=
  o < m.structs.length ∧ (m.struct o).dyn ≠ Dyn.keyVector ∧
  isInline (m.struct o).vType = false ∧ ∀ s : Nat, o ∉ (m.struct s).children

/-- A key as newKey leaves it, before it is handed to a map: a key object of type KEY that
is not on the stack, its elements allocated and inline. -/
def FreshKey (st : List Ptr) (m : Mem) (k : Ptr) : Prop :=
  LiveKey m k ∧ k ∉ st ∧ (m.struct k).vType = KEY ∧
  ∀ p ∈ (m.struct k).elems, isInline (m.elem p).fieldType = true

/-- The invariant of the memory of a builder whose stack is `st`. The stack holds allocated
structures and no key vector; children are allocated; offset pointers are as OffsOK says;
the key vector of a map is the structure allocated right after it and the map has the type
MAP; a key held by a map is not on the stack and its elements are inline; a key object has
the type KEY and no child; and every map has been built by calls of addElementWithKey
and addOffsetWithKey with entries that are inline, the other steps having kept it. -/
structure HeapInv (st : List Ptr) (m : Mem) : Prop where
  stack_lt : ∀ s ∈ st, s < m.structs.length
  stack_kv : ∀ s ∈ st, (m.struct s).dyn ≠ Dyn.keyVector
  children_lt : ∀ s c : Nat, c ∈ (m.struct s).children → c < m.structs.length
  offs : OffsOK m
  map_keys : ∀ mp : Nat, (m.struct mp).dyn = Dyn.flexMap →
    (m.struct mp).keys = mp + 1 ∧ (m.struct mp).vType = MAP
  frozen : ∀ mp : Nat, (m.struct mp).dyn = Dyn.flexMap →
    ∀ c ∈ (m.struct (mp + 1)).children, c ∉ st ∧
      ∀ p ∈ (m.struct c).elems, isInline (m.elem p).fieldType = true
  key_leaf : ∀ s : Nat, (m.struct s).dyn = Dyn.key →
    (m.struct s).vType = KEY ∧ (m.struct s).children = []
  built : ∀ mp : Nat, (m.struct mp).dyn = Dyn.flexMap →
    ∃ es, MapBuilt mp m es ∧ InlineEntries es

/-- A step of insertion from `m` to `m1`: elements are appended and no structure is
allocated; every structure keeps its dynamic type, its key vector and its type; a child
that is new is allocated and its parent is no key; no offset pointer is taken away, and
one that is new points to an element that is not inline, from a structure of a type that
is not inline. -/
def Mem.insertStep (m m1 : Mem) : Prop :=
  m1.structs.length = m.structs.length ∧ (∃ xs, m1.elements = m.elements ++ xs) ∧
  ∀ q : Nat,
    (m1.struct q).dyn = (m.struct q).dyn ∧ (m1.struct q).keys = (m.struct q).keys ∧
    (m1.struct q).vType = (m.struct q).vType ∧
    (∀ c ∈ (m1.struct q).children,
      c ∈ (m.struct q).children ∨ (c < m.structs.length ∧ (m.struct q).dyn ≠ Dyn.key)) ∧
    (∀ p ∈ (m.struct q).offsetPtrs, p ∈ (m1.struct q).offsetPtrs) ∧
    (∀ p ∈ (m1.struct q).offsetPtrs, p ∈ (m.struct q).offsetPtrs ∨
      (isInline (m1.elem p).fieldType = false ∧ isInline (m.struct q).vType = false))

/-- What a constructor leaves: the invariant, the new object as start expects it, and the
keys made before as they were, none of them the new object. -/
def CtorFacts (st : List Ptr) (m m1 : Mem) (o : Ptr) : Prop :=
  HeapInv st m1 ∧ FreshObj m1 o ∧ ∀ k : Nat, FreshKey st m k → FreshKey st m1 k ∧ k ≠ o

/-- The calls that build the vector `[{One: 1, Two: [5], Three: 3}]` and serialize it: the
map is the object 2, attached to the vector 1 before its first entry, and its child, the
vector 6, is filled after it went into the map. -/
def mapInVectorOps : List Op :=
  [.StartVector, .StartMap, .IntWithKey "One" 1, .StartVectorWithKey "Two", .Int 5, .End,
    .IntWithKey "Three" 3, .End, .End, .SerializeBuffer []]

/-- The calls that build the map `{b: 1, a: [7]}` at the root: the map is the object 1,
the key b the object 3, the key a the object 4 and the vector the object 5. -/
def childAndIntOps : List Op :=
  [.StartMap, .IntWithKey "b" 1, .StartVectorWithKey "a", .Int 7, .End, .End]

theorem Int_on_new_builder (v : Int) : NewBuilder.Int v =
    (.ok (), { finished := true, inProgress := [0], headIndex := 0,
               mem := { elements := [newINT v],
                        structs := [{ Structure.new Dyn.root with elems := [0] }] } }) := by
  rfl

theorem intSize_cases (v : Int) :
    intSize v = 1 ∨ intSize v = 2 ∨ intSize v = 4 ∨ intSize v = 8 := by
  unfold intSize; split_ifs <;> simp

theorem serialize_int (v : Int) (w : Nat) (h : intSize v = w)
    (hw : w = 1 ∨ w = 2 ∨ w = 4 ∨ w = 8) :
    ((NewBuilder.Int v).2.SerializeBuffer []).1 = .ok 0 ∧
    ((NewBuilder.Int v).2.SerializeBuffer []).2.2 =
      (putUint64 (u64 v)).take w ++ [Pack INT (b w), w] := by
  rw [Int_on_new_builder]
  rcases hw with hw | hw | hw | hw <;> subst hw <;>
  simp [Builder.SerializeBuffer, serialize, serializeChildren, serializeElems,
    root_serializeChildren, root_serializeElems, structure_serializeElems, serializeElemsLoop,
    updateBitWidth, updateOffsets, Mem.struct, Mem.elem, Mem.setStruct, Mem.setElem,
    Structure.new, newINT, h, b, B, isInline, INT, element.serialize, putUint64, Pack, u8,
    elemsCount, zeroElement]
  all_goals rfl

theorem read_int_width1 (x0 : Nat) :
    ∃ r, NewRef [x0, 4, 1] = .ok r ∧ r.Int = .ok (signExtend 1 x0) := by
  refine ⟨⟨[x0, 4, 1], 4, 0, 1⟩, by with_unfolding_all rfl, ?_⟩
  simp [Ref.Int, Ref.IsInt, show ItemVarType 4 = 1 from rfl, show ItemByteSize 4 = 0 from rfl,
    INT, Ref.getBytes, B, sliceBytes, u64, bytesAsInt, bytesAsUint]

theorem read_int_width2 (x0 x1 : Nat) :
    ∃ r, NewRef [x0, x1, 5, 2] = .ok r ∧ r.Int = .ok (signExtend 2 (x0 + 256 * x1)) := by
  refine ⟨⟨[x0, x1, 5, 2], 5, 0, 1⟩, by with_unfolding_all rfl, ?_⟩
  simp [Ref.Int, Ref.IsInt, show ItemVarType 5 = 1 from rfl, show ItemByteSize 5 = 1 from rfl,
    INT, Ref.getBytes, B, sliceBytes, u64, bytesAsInt, bytesAsUint]

theorem read_int_width4 (x0 x1 x2 x3 : Nat) :
    ∃ r, NewRef [x0, x1, x2, x3, 6, 4] = .ok r ∧
      r.Int = .ok (signExtend 4 (x0 + 256 * x1 + 65536 * x2 + 16777216 * x3)) := by
  refine ⟨⟨[x0, x1, x2, x3, 6, 4], 6, 0, 1⟩, by with_unfolding_all rfl, ?_⟩
  simp [Ref.Int, Ref.IsInt, show ItemVarType 6 = 1 from rfl, show ItemByteSize 6 = 2 from rfl,
    INT, Ref.getBytes, B, sliceBytes, u64, bytesAsInt, bytesAsUint]

theorem read_int_width8 (x0 x1 x2 x3 x4 x5 x6 x7 : Nat) :
    ∃ r, NewRef [x0, x1, x2, x3, x4, x5, x6, x7, 7, 8] = .ok r ∧
      r.Int = .ok (signExtend 8 (x0 + 256 * x1 + 65536 * x2 + 16777216 * x3 + 4294967296 * x4
        + 1099511627776 * x5 + 281474976710656 * x6 + 72057594037927936 * x7)) := by
  refine ⟨⟨[x0, x1, x2, x3, x4, x5, x6, x7, 7, 8], 7, 0, 1⟩, by with_unfolding_all rfl, ?_⟩
  simp [Ref.Int, Ref.IsInt, show ItemVarType 7 = 1 from rfl, show ItemByteSize 7 = 3 from rfl,
    INT, Ref.getBytes, B, sliceBytes, u64, bytesAsInt, bytesAsUint]

/-- C1: for every int64 `v`, `Int(v)` on a new builder succeeds, SerializeBuffer into the
empty buffer succeeds and yields the first `intSize(v)` little-endian bytes of `v`, the
descriptor byte and the width byte, `intSize(v) + 2` bytes in all, and `NewRef` on that
buffer followed by `Int()` returns `v` without error. -/
theorem int_scalar_roundtrip (v : Int) (hlo : -9223372036854775808 ≤ v)
    (hhi : v < 9223372036854775808) :
    (NewBuilder.Int v).1 = .ok () ∧
    ((NewBuilder.Int v).2.SerializeBuffer []).1 = .ok 0 ∧
    ((NewBuilder.Int v).2.SerializeBuffer []).2.2 =
      (putUint64 (u64 v)).take (intSize v) ++ [Pack INT (b (intSize v)), intSize v] ∧
    ((NewBuilder.Int v).2.SerializeBuffer []).2.2.length = intSize v + 2 ∧
    ∃ r, NewRef ((NewBuilder.Int v).2.SerializeBuffer []).2.2 = .ok r ∧ r.Int = .ok v := by
  obtain ⟨h1, h2⟩ := serialize_int v (intSize v) rfl (intSize_cases v)
  refine ⟨rfl, h1, h2, ?_, ?_⟩
  · rw [h2]
    rcases intSize_cases v with h | h | h | h <;> rw [h] <;> rfl
  · rw [h2]
    rcases intSize_cases v with h | h | h | h
    · have hr : -128 ≤ v ∧ v < 128 := by
        unfold intSize at h; split_ifs at h <;> omega
      have hx : signExtend 1 (u64 v % 256) = v := by
        simp only [signExtend, u64]; split_ifs <;> omega
      have hread := read_int_width1 (u64 v % 256)
      rw [hx] at hread
      rw [h]
      exact hread
    · have hr : -32768 ≤ v ∧ v < 32768 := by
        unfold intSize at h; split_ifs at h <;> omega
      have hx : signExtend 2 (u64 v % 256 + 256 * (u64 v / 256 % 256)) = v := by
        simp only [signExtend, u64]; split_ifs <;> omega
      have hread := read_int_width2 (u64 v % 256) (u64 v / 256 % 256)
      rw [hx] at hread
      rw [h]
      exact hread
    · have hr : -2147483648 ≤ v ∧ v < 2147483648 := by
        unfold intSize at h; split_ifs at h <;> omega
      have hx : signExtend 4 (u64 v % 256 + 256 * (u64 v / 256 % 256)
          + 65536 * (u64 v / 65536 % 256) + 16777216 * (u64 v / 16777216 % 256)) = v := by
        simp only [signExtend, u64]; split_ifs <;> omega
      have hread := read_int_width4 (u64 v % 256) (u64 v / 256 % 256) (u64 v / 65536 % 256)
        (u64 v / 16777216 % 256)
      rw [hx] at hread
      rw [h]
      exact hread
    · have hx : signExtend 8 (u64 v % 256 + 256 * (u64 v / 256 % 256)
          + 65536 * (u64 v / 65536 % 256) + 16777216 * (u64 v / 16777216 % 256)
          + 4294967296 * (u64 v / 4294967296 % 256)
          + 1099511627776 * (u64 v / 1099511627776 % 256)
          + 281474976710656 * (u64 v / 281474976710656 % 256)
          + 72057594037927936 * (u64 v / 72057594037927936 % 256)) = v := by
        simp only [signExtend, i64, u64]; split_ifs <;> omega
      have hread := read_int_width8 (u64 v % 256) (u64 v / 256 % 256) (u64 v / 65536 % 256)
        (u64 v / 16777216 % 256) (u64 v / 4294967296 % 256) (u64 v / 1099511627776 % 256)
        (u64 v / 281474976710656 % 256) (u64 v / 72057594037927936 % 256)
      rw [hx] at hread
      rw [h]
      exact hread

/-- Witness of C1 at `v = -129`, a two-byte value. -/
theorem int_scalar_roundtrip_witness :
    (-9223372036854775808 : Int) ≤ -129 ∧ (-129 : Int) < 9223372036854775808 ∧
    ((NewBuilder.Int (-129)).1 = .ok () ∧
    ((NewBuilder.Int (-129)).2.SerializeBuffer []).1 = .ok 0 ∧
    ((NewBuilder.Int (-129)).2.SerializeBuffer []).2.2 =
      (putUint64 (u64 (-129))).take (intSize (-129))
        ++ [Pack INT (b (intSize (-129))), intSize (-129)] ∧
    ((NewBuilder.Int (-129)).2.SerializeBuffer []).2.2.length = intSize (-129) + 2 ∧
    ∃ r, NewRef ((NewBuilder.Int (-129)).2.SerializeBuffer []).2.2 = .ok r ∧
      r.Int = .ok (-129)) :=
  ⟨by decide, by decide, int_scalar_roundtrip (-129) (by decide) (by decide)⟩

/-- C2: `Int(1)` on a new builder, serialized into the empty buffer, gives exactly the
three bytes `01 04 01`. -/
theorem int_one_bytes :
    (NewBuilder.Int 1).1 = .ok () ∧
    ((NewBuilder.Int 1).2.SerializeBuffer []).1 = .ok 0 ∧
    ((NewBuilder.Int 1).2.SerializeBuffer []).2.2 = [1, 4, 1] := by
  decide

/-! ## Key order of a map under insertion -/

theorem strLt_irrefl : ∀ x : List Nat, strLt x x = false
  | [] => rfl
  | a :: xs => by simp [strLt, strLt_irrefl xs]

theorem strLt_asymm : ∀ x y : List Nat, strLt x y = true → strLt y x = false
  | [], [] => by simp [strLt]
  | [], _ :: _ => by simp [strLt]
  | _ :: _, [] => by simp [strLt]
  | a :: xs, c :: ys => by
    simp only [strLt]
    intro h
    split_ifs at h ⊢ <;> first | rfl | exact strLt_asymm xs ys h | omega

/-- `k < a` and `a ≤ y` give `k < y`. -/
theorem strLt_of_lt_of_le : ∀ k a y : List Nat,
    strLt k a = true → strLt y a = false → strLt k y = true
  | [], [], _ => by simp [strLt]
  | [], _ :: _, [] => by simp [strLt]
  | [], _ :: _, _ :: _ => by simp [strLt]
  | _ :: _, [], _ => by simp [strLt]
  | _ :: _, _ :: _, [] => by simp [strLt]
  | k0 :: ks, a0 :: as, y0 :: ys => by
    simp only [strLt]
    intro h1 h2
    split_ifs at h1 h2 ⊢ <;> first | rfl | exact strLt_of_lt_of_le ks as ys h1 h2 | omega

/-- `a ≤ k` fails to hold... `x ≤ a` and `¬ k < a` give `¬ k < x`. -/
theorem strLt_false_of_le (k a x : List Nat)
    (h1 : strLt k a = false) (h2 : strLt a x = false) : strLt k x = false := by
  by_contra h
  have h' : strLt k x = true := by simpa using h
  have := strLt_of_lt_of_le k x a h' h2
  simp [this] at h1


theorem split_at_index (xs : List Nat) (p : Nat) (h : p < xs.length) :
    ∃ pre a post, xs = pre ++ a :: post ∧ pre.length = p :=
  ⟨xs.take p, xs[p], xs.drop (p + 1),
    by rw [← List.drop_eq_getElem_cons h, List.take_append_drop],
    by rw [List.length_take]; omega⟩

theorem getD_split (pre : List Nat) (a : Nat) (post : List Nat) :
    (pre ++ a :: post).getD pre.length 0 = a := by
  simp [List.getD, List.getElem?_append_right (Nat.le_refl pre.length)]

theorem take_split_left (pre : List Nat) (a : Nat) (post : List Nat) (r : Nat)
    (h : r ≤ pre.length) : (pre ++ a :: post).take r = pre.take r := by
  rw [List.take_append_of_le_length h]

theorem drop_split_left (pre : List Nat) (a : Nat) (post : List Nat) (r : Nat)
    (h : r ≤ pre.length) : (pre ++ a :: post).drop r = pre.drop r ++ a :: post := by
  rw [List.drop_append_of_le_length h]

theorem take_split_right (pre : List Nat) (a : Nat) (post : List Nat) (r : Nat) :
    (pre ++ a :: post).take (pre.length + 1 + r) = pre ++ a :: post.take r := by
  have : pre.length + 1 + r = pre.length + (r + 1) := by omega
  rw [this, List.take_append, List.take_succ_cons]

theorem drop_split_right (pre : List Nat) (a : Nat) (post : List Nat) (r : Nat) :
    (pre ++ a :: post).drop (pre.length + 1 + r) = post.drop r := by
  have : pre.length + 1 + r = pre.length + (r + 1) := by omega
  rw [this, List.drop_append, List.drop_succ_cons]

theorem DAC_spec (m : Mem) (newkey : Nat) :
    ∀ (fuel : Nat) (sub : List Nat), sub.length < fuel →
      (sub.map (flexString_toString m)).Pairwise (fun x y => strLt y x = false) →
      ∃ r, DAC m newkey fuel sub = some r ∧ r ≤ sub.length ∧
        (∀ c ∈ sub.take r,
          strLt (flexString_toString m newkey) (flexString_toString m c) = false) ∧
        (∀ c ∈ sub.drop r,
          strLt (flexString_toString m newkey) (flexString_toString m c) = true) := by
  intro fuel
  induction fuel with
  | zero => intro sub h; omega
  | succ fuel ih =>
    intro sub hlen hsorted
    unfold DAC
    by_cases h0 : sub.length = 0
    · refine ⟨0, by simp [h0], by omega, by simp, ?_⟩
      have : sub = [] := List.length_eq_zero.mp h0
      simp [this]
    by_cases h1 : sub.length = 1
    · obtain ⟨a, rfl⟩ := List.length_eq_one.mp h1
      by_cases hlt : strLt (flexString_toString m newkey) (flexString_toString m a) = true
      · refine ⟨0, by simp [hlt], by simp, by simp, ?_⟩
        simpa using hlt
      · refine ⟨1, by simp [hlt], by simp, ?_, by simp⟩
        simpa using hlt
    · have hp1 : sub.length / 2 < sub.length := by omega
      obtain ⟨pre, a, post, hsub, hpre⟩ := split_at_index sub (sub.length / 2) hp1
      simp only [h0, h1, if_false]
      have hlen' : sub.length = pre.length + 1 + post.length := by
        rw [hsub]; simp; omega
      generalize sub.length / 2 = p at hpre hp1 ⊢
      subst hsub
      subst hpre
      rw [List.map_append, List.map_cons, List.pairwise_append, List.pairwise_cons] at hsorted
      obtain ⟨hsl, ⟨hpr, hsr⟩, hcross⟩ := hsorted
      rw [getD_split, take_split_left _ _ _ _ (Nat.le_refl _), List.take_length]
      have hd : (pre ++ a :: post).drop (pre.length + 1) = post := by
        exact drop_split_right pre a post 0
      rw [hd]
      by_cases hlt : strLt (flexString_toString m newkey) (flexString_toString m a) = true
      · simp only [hlt, if_true]
        obtain ⟨r, hr, hrle, htake, hdrop⟩ := ih pre (by omega) hsl
        refine ⟨r, hr, by omega, ?_, ?_⟩
        · intro c hc
          rw [take_split_left _ _ _ _ hrle] at hc
          exact htake c hc
        · intro c hc
          rw [drop_split_left _ _ _ _ hrle] at hc
          rcases List.mem_append.mp hc with hc | hc
          · exact hdrop c hc
          · rcases List.mem_cons.mp hc with hc | hc
            · rw [hc]; exact hlt
            · apply strLt_of_lt_of_le _ _ _ hlt
              exact hpr _ (List.mem_map_of_mem _ hc)
      · have hlt' : strLt (flexString_toString m newkey) (flexString_toString m a) = false := by
          simpa using hlt
        simp only [hlt', Bool.false_eq_true, if_false]
        obtain ⟨r, hr, hrle, htake, hdrop⟩ := ih post (by omega) hsr
        have hidx : (pre ++ a :: post).length - post.length + r = pre.length + 1 + r := by
          omega
        refine ⟨pre.length + 1 + r, by rw [hr]; simp only [hidx], by omega, ?_, ?_⟩
        · intro c hc
          rw [take_split_right] at hc
          rcases List.mem_append.mp hc with hc | hc
          · apply strLt_false_of_le _ _ _ hlt'
            exact hcross _ (List.mem_map_of_mem _ hc) _ (List.mem_cons_self _ _)
          · rcases List.mem_cons.mp hc with hc | hc
            · rw [hc]; exact hlt'
            · exact htake c hc
        · intro c hc
          rw [drop_split_right] at hc
          exact hdrop c hc


theorem struct_setStruct (m : Mem) (p q : Nat) (s : Structure) :
    (m.setStruct p s).struct q = if p = q ∧ p < m.structs.length then s else m.struct q := by
  unfold Mem.setStruct Mem.struct
  simp only [List.getD_eq_getElem?_getD, List.getElem?_set]
  by_cases h : p = q
  · subst h
    by_cases h2 : p < m.structs.length
    · simp [h2]
    · simp [h2, List.getElem?_eq_none (Nat.le_of_not_lt h2)]
  · simp [h]

theorem struct_setStruct_ne (m : Mem) (p q : Nat) (s : Structure) (h : p ≠ q) :
    (m.setStruct p s).struct q = m.struct q := by
  rw [struct_setStruct]; simp [h]

theorem struct_setStruct_self (m : Mem) (p : Nat) (s : Structure) (h : p < m.structs.length) :
    (m.setStruct p s).struct p = s := by
  rw [struct_setStruct]; simp [h]

@[simp] theorem elements_setStruct (m : Mem) (p : Nat) (s : Structure) :
    (m.setStruct p s).elements = m.elements := rfl

@[simp] theorem structs_length_setStruct (m : Mem) (p : Nat) (s : Structure) :
    (m.setStruct p s).structs.length = m.structs.length := by
  simp [Mem.setStruct]

@[simp] theorem struct_allocElem (m : Mem) (e : element) (p : Nat) :
    (m.allocElem e).2.struct p = m.struct p := rfl

@[simp] theorem structs_allocElem (m : Mem) (e : element) :
    (m.allocElem e).2.structs = m.structs := rfl

@[simp] theorem elements_allocElem (m : Mem) (e : element) :
    (m.allocElem e).2.elements = m.elements ++ [e] := rfl

@[simp] theorem struct_mk_elements (els : List element) (m : Mem) (p : Nat) :
    (Mem.mk els m.structs).struct p = m.struct p := rfl

theorem insertAt_eq (xs : List Nat) (i : Nat) (x : Nat) (h : i + 1 ≤ xs.length) :
    insertAt xs i x = xs.take i ++ x :: xs.drop i := by
  unfold insertAt
  have h1 : xs.take (i + 1) = xs.take i ++ [xs[i]] := by
    rw [List.take_succ]; simp [List.getElem?_eq_getElem (by omega : i < xs.length)]
  rw [h1, List.append_assoc, List.set_append_right _ _ (by simp)]
  have h2 : i - (xs.take i).length = 0 := by rw [List.length_take]; omega
  rw [h2]
  rfl

/-- What a successful structure.insertElement leaves behind. -/
theorem structure_insertElement_ok (m : Mem) (s : Nat) (e : element) (index n : Nat) (m' : Mem)
    (h : structure_insertElement m s e index = (.ok n, m')) :
    m'.elements = m.elements ++ [e] ∧ m'.structs.length = m.structs.length ∧
    n = min index (m.struct s).elems.length ∧
    (∀ p : Nat, p ≠ s → m'.struct p = m.struct p) ∧
    (s < m.structs.length →
      m'.struct s = { m.struct s with
        elems := (m.struct s).elems.take n ++ m.elements.length :: (m.struct s).elems.drop n }) := by
  unfold structure_insertElement at h
  split at h
  · simp at h
  · simp only at h
    split at h
    · rename_i hle
      simp only [Prod.mk.injEq, Outcome.ok.injEq] at h
      obtain ⟨rfl, rfl⟩ := h
      refine ⟨rfl, by simp, by omega, ?_, ?_⟩
      · intro p hp; rw [struct_setStruct_ne _ _ _ _ (Ne.symm hp)]; rfl
      · intro hs
        rw [struct_setStruct_self _ _ _ (by simpa using hs)]
        simp only [struct_allocElem, Mem.allocElem, struct_mk_elements]
        rw [insertAt_eq _ _ _ hle]
    · rename_i hle
      simp only [Prod.mk.injEq, Outcome.ok.injEq] at h
      obtain ⟨rfl, rfl⟩ := h
      refine ⟨rfl, by simp, by omega, ?_, ?_⟩
      · intro p hp; rw [struct_setStruct_ne _ _ _ _ (Ne.symm hp)]; rfl
      · intro hs
        rw [struct_setStruct_self _ _ _ (by simpa using hs)]
        simp only [struct_allocElem, Mem.allocElem, struct_mk_elements]
        rw [List.take_length, List.drop_length]


/-- What a successful structure.insertOffsetToObject leaves behind. -/
theorem structure_insertOffsetToObject_ok (m : Mem) (s o : Nat) (index n : Nat) (m' : Mem)
    (h : structure_insertOffsetToObject m s o index = (.ok n, m')) :
    m'.elements = m.elements ++ [{ zeroElement with fieldType := getVtype m o }] ∧
    m'.structs.length = m.structs.length ∧
    n = min (min index (m.struct s).elems.length) (m.struct s).children.length ∧
    (∀ p : Nat, (m'.struct p).dyn = (m.struct p).dyn ∧ (m'.struct p).keys = (m.struct p).keys ∧
      (m'.struct p).vType = (m.struct p).vType) ∧
    (∀ p : Nat, p ≠ s → (m'.struct p).elems = (m.struct p).elems ∧
      (m'.struct p).children = (m.struct p).children) ∧
    (s < m.structs.length →
      (m'.struct s).elems = (m.struct s).elems.take (min index (m.struct s).elems.length)
        ++ m.elements.length :: (m.struct s).elems.drop (min index (m.struct s).elems.length) ∧
      (m'.struct s).children = (m.struct s).children.take n
        ++ o :: (m.struct s).children.drop n) := by
  unfold structure_insertOffsetToObject at h
  dsimp only at h
  generalize hres : structure_insertElement m s _ index = res at h
  obtain ⟨r, m1⟩ := res
  cases r with
  | ok n1 =>
    obtain ⟨he, hl, hn, hother, hself⟩ := structure_insertElement_ok _ _ _ _ _ _ hres
    have hdef : ∀ (mm : Mem) (p : Nat), ¬ p < mm.structs.length → mm.struct p = default := by
      intro mm p hp
      simp [Mem.struct, List.getD, List.getElem?_eq_none (Nat.le_of_not_lt hp)]
    have hdyn1 : ∀ p : Nat, (m1.struct p).dyn = (m.struct p).dyn ∧
        (m1.struct p).keys = (m.struct p).keys ∧ (m1.struct p).vType = (m.struct p).vType ∧
        (m1.struct p).children = (m.struct p).children := by
      intro p
      by_cases hp : p = s
      · subst hp
        by_cases hv : p < m.structs.length
        · rw [hself hv]; simp
        · rw [hdef m1 p (show ¬ p < m1.structs.length by omega), hdef m p hv]; simp
      · rw [hother p hp]; simp
    simp only [bindOffset] at h
    generalize hm2 : m1.setStruct o _ = m2 at h
    have hl2 : m2.structs.length = m.structs.length := by
      rw [← hm2, structs_length_setStruct, hl]
    have he2 : m2.elements = m1.elements := by rw [← hm2]; rfl
    have h2 : ∀ p : Nat, (m2.struct p).dyn = (m1.struct p).dyn ∧
        (m2.struct p).keys = (m1.struct p).keys ∧ (m2.struct p).vType = (m1.struct p).vType ∧
        (m2.struct p).children = (m1.struct p).children ∧
        (m2.struct p).elems = (m1.struct p).elems := by
      intro p
      rw [← hm2, struct_setStruct]
      split
      · rename_i hc; rw [← hc.1]; simp
      · simp
    have hfin : ∀ (nn : Nat) (cs : List Nat),
        m' = m2.setStruct s { m2.struct s with children := cs } →
        n = nn → nn = min n1 (m.struct s).children.length →
        cs = (m.struct s).children.take nn ++ o :: (m.struct s).children.drop nn →
        m'.elements = m.elements ++ [{ zeroElement with fieldType := getVtype m o }] ∧
        m'.structs.length = m.structs.length ∧
        n = min (min index (m.struct s).elems.length) (m.struct s).children.length ∧
        (∀ p : Nat, (m'.struct p).dyn = (m.struct p).dyn ∧
          (m'.struct p).keys = (m.struct p).keys ∧
          (m'.struct p).vType = (m.struct p).vType) ∧
        (∀ p : Nat, p ≠ s → (m'.struct p).elems = (m.struct p).elems ∧
          (m'.struct p).children = (m.struct p).children) ∧
        (s < m.structs.length →
          (m'.struct s).elems = (m.struct s).elems.take (min index (m.struct s).elems.length)
            ++ m.elements.length ::
              (m.struct s).elems.drop (min index (m.struct s).elems.length) ∧
          (m'.struct s).children = (m.struct s).children.take n
            ++ o :: (m.struct s).children.drop n) := by
      intro nn cs hm' hnn hnn2 hcs
      subst hm'
      refine ⟨by rw [elements_setStruct, he2, he], by rw [structs_length_setStruct, hl2],
        by rw [hnn, hnn2, hn], ?_, ?_, ?_⟩
      · intro p
        rw [struct_setStruct]
        split
        · rename_i hc
          rw [← hc.1]
          exact ⟨(h2 s).1.trans (hdyn1 s).1, (h2 s).2.1.trans (hdyn1 s).2.1,
            (h2 s).2.2.1.trans (hdyn1 s).2.2.1⟩
        · exact ⟨(h2 p).1.trans (hdyn1 p).1, (h2 p).2.1.trans (hdyn1 p).2.1,
            (h2 p).2.2.1.trans (hdyn1 p).2.2.1⟩
      · intro p hp
        rw [struct_setStruct_ne _ _ _ _ (Ne.symm hp)]
        refine ⟨?_, (h2 p).2.2.2.1.trans (hdyn1 p).2.2.2⟩
        rw [(h2 p).2.2.2.2, hother p hp]
      · intro hs
        rw [struct_setStruct_self _ _ _ (by omega)]
        refine ⟨?_, ?_⟩
        · show (m2.struct s).elems = _
          rw [(h2 s).2.2.2.2, hself hs, hn]
        · show cs = _
          rw [hcs, hnn]
    have hch : (m2.struct s).children = (m.struct s).children :=
      (h2 s).2.2.2.1.trans (hdyn1 s).2.2.2
    rw [hch] at h
    split at h
    · rename_i hle
      simp only [Prod.mk.injEq, Outcome.ok.injEq] at h
      obtain ⟨hn1, hm'⟩ := h
      refine hfin n1 _ hm'.symm hn1.symm (by omega) ?_
      rw [insertAt_eq _ _ _ hle]
    · rename_i hle
      simp only [Prod.mk.injEq, Outcome.ok.injEq] at h
      obtain ⟨hn1, hm'⟩ := h
      refine hfin _ _ hm'.symm hn1.symm (by omega) ?_
      rw [List.take_length, List.drop_length]
  | error e => simp at h
  | panic => simp at h
  | diverge => simp at h


theorem struct_valid_of_dyn_ne (m : Mem) (p : Nat) (h : (m.struct p).dyn ≠ Dyn.typedVector) :
    p < m.structs.length := by
  by_contra hlt
  apply h
  simp [Mem.struct, List.getD, List.getElem?_eq_none (Nat.le_of_not_lt hlt)]
  rfl

theorem elem_of_elements_append (m m' : Mem) (xs : List element)
    (h : m'.elements = m.elements ++ xs) (p : Nat) (hp : p < m.elements.length) :
    m'.elem p = m.elem p := by
  simp [Mem.elem, h, List.getD, List.getElem?_append_left hp]

theorem toString_frame (m m' : Mem) (xs : List element) (c : Nat)
    (hel : m'.elements = m.elements ++ xs)
    (hc : (m'.struct c).elems = (m.struct c).elems)
    (hlive : ∀ p ∈ (m.struct c).elems, p < m.elements.length) :
    flexString_toString m' c = flexString_toString m c := by
  unfold flexString_toString
  rw [hc]
  apply List.map_congr_left
  intro p hp
  rw [elem_of_elements_append m m' xs hel p (hlive p hp)]

/-- The invariant survives every change of memory that extends the elements and keeps
type, key pointer, elements and children of the structures allocated so far, the elements
and children of the map itself apart. -/
theorem MapInv_frame (m m' : Mem) (mp : Nat) (xs : List element) (hinv : MapInv m mp)
    (hel : m'.elements = m.elements ++ xs)
    (hdyn : ∀ p : Nat, p < m.structs.length →
      (m'.struct p).dyn = (m.struct p).dyn ∧ (m'.struct p).keys = (m.struct p).keys)
    (hbody : ∀ p : Nat, p < m.structs.length → p ≠ mp →
      (m'.struct p).elems = (m.struct p).elems ∧
      (m'.struct p).children = (m.struct p).children) :
    MapInv m' mp := by
  have hmp : mp < m.structs.length := struct_valid_of_dyn_ne _ _ (by rw [hinv.map_dyn]; decide)
  have hkv : (m.struct mp).keys < m.structs.length :=
    struct_valid_of_dyn_ne _ _ (by rw [hinv.keys_dyn]; decide)
  have hne : (m.struct mp).keys ≠ mp := by
    intro h
    have := hinv.keys_dyn
    rw [h, hinv.map_dyn] at this
    exact absurd this (by decide)
  have hkeys : (m'.struct mp).keys = (m.struct mp).keys := (hdyn mp hmp).2
  have hch : (m'.struct (m.struct mp).keys).children = (m.struct (m.struct mp).keys).children :=
    (hbody _ hkv hne).2
  have hlive : ∀ c ∈ (m.struct (m.struct mp).keys).children,
      flexString_toString m' c = flexString_toString m c ∧ LiveKey m' c := by
    intro c hc
    obtain ⟨hcd, hce⟩ := hinv.keys_live c hc
    have hcv : c < m.structs.length := struct_valid_of_dyn_ne _ _ (by rw [hcd]; decide)
    have hcne : c ≠ mp := by
      intro h
      rw [h, hinv.map_dyn] at hcd
      exact absurd hcd (by decide)
    have hcel := (hbody c hcv hcne).1
    refine ⟨toString_frame m m' xs c hel hcel hce, ?_, ?_⟩
    · rw [(hdyn c hcv).1]; exact hcd
    · intro p hp
      rw [hcel] at hp
      have hlt : p < m.elements.length := hce p hp
      rw [hel, List.length_append]
      exact Nat.lt_of_lt_of_le hlt (Nat.le_add_right _ _)
  refine ⟨?_, ?_, ?_, ?_, ?_⟩
  · rw [(hdyn mp hmp).1]; exact hinv.map_dyn
  · rw [hkeys, (hdyn _ hkv).1]; exact hinv.keys_dyn
  · rw [hkeys, (hbody _ hkv hne).1, hch]; exact hinv.keys_len
  · rw [hkeys, hch]
    intro c hc
    exact (hlive c hc).2
  · have : mapKeys m' mp = mapKeys m mp := by
      unfold mapKeys
      rw [hkeys, hch]
      apply List.map_congr_left
      intro c hc
      exact (hlive c hc).1
    rw [this]; exact hinv.sorted


theorem LiveKey_frame (m m' : Mem) (xs : List element) (c : Nat) (hc : LiveKey m c)
    (hel : m'.elements = m.elements ++ xs)
    (hdyn : (m'.struct c).dyn = (m.struct c).dyn)
    (hce : (m'.struct c).elems = (m.struct c).elems) :
    LiveKey m' c ∧ flexString_toString m' c = flexString_toString m c := by
  refine ⟨⟨by rw [hdyn]; exact hc.1, ?_⟩, toString_frame m m' xs c hel hce hc.2⟩
  intro p hp
  rw [hce] at hp
  have hlt : p < m.elements.length := hc.2 p hp
  rw [hel, List.length_append]
  exact Nat.lt_of_lt_of_le hlt (Nat.le_add_right _ _)

/-- The key vector after the key went in at the index DAC chose. -/
theorem MapInv_insert_key (m m1 : Mem) (mp k index n : Nat) (hinv : MapInv m mp)
    (hk : LiveKey m k)
    (hle : index ≤ (m.struct (m.struct mp).keys).children.length)
    (htake : ∀ c ∈ (m.struct (m.struct mp).keys).children.take index,
      strLt (flexString_toString m k) (flexString_toString m c) = false)
    (hdrop : ∀ c ∈ (m.struct (m.struct mp).keys).children.drop index,
      strLt (flexString_toString m k) (flexString_toString m c) = true)
    (h : structure_insertOffsetToObject m (m.struct mp).keys k index = (.ok n, m1)) :
    n = index ∧ MapInv m1 mp ∧
    mapKeys m1 mp = (mapKeys m mp).take index ++ flexString_toString m k
      :: (mapKeys m mp).drop index := by
  obtain ⟨hel, hl, hn, hdyn, hbody, hself⟩ := structure_insertOffsetToObject_ok _ _ _ _ _ _ h
  have hmp : mp < m.structs.length := struct_valid_of_dyn_ne _ _ (by rw [hinv.map_dyn]; decide)
  have hkv : (m.struct mp).keys < m.structs.length :=
    struct_valid_of_dyn_ne _ _ (by rw [hinv.keys_dyn]; decide)
  obtain ⟨hse, hsc⟩ := hself hkv
  have hnidx : n = index := by
    rw [hn, hinv.keys_len]; omega
  rw [hnidx] at hsc
  have hkne : k ≠ (m.struct mp).keys := by
    intro hEq
    have := hk.1
    rw [hEq, hinv.keys_dyn] at this
    exact absurd this (by decide)
  have hkeys : (m1.struct mp).keys = (m.struct mp).keys := (hdyn mp).2.1
  have hlive : ∀ c : Nat, LiveKey m c →
      LiveKey m1 c ∧ flexString_toString m1 c = flexString_toString m c := by
    intro c hc
    have hcne : c ≠ (m.struct mp).keys := by
      intro hEq
      have := hc.1
      rw [hEq, hinv.keys_dyn] at this
      exact absurd this (by decide)
    exact LiveKey_frame m m1 _ c hc hel (hdyn c).1 (hbody c hcne).1
  have hmem : ∀ c ∈ (m.struct (m.struct mp).keys).children.take index
      ++ k :: (m.struct (m.struct mp).keys).children.drop index, LiveKey m c := by
    intro c hc
    rcases List.mem_append.mp hc with hc | hc
    · exact hinv.keys_live c (List.mem_of_mem_take hc)
    · rcases List.mem_cons.mp hc with hc | hc
      · rw [hc]; exact hk
      · exact hinv.keys_live c (List.mem_of_mem_drop hc)
  have hkeysEq : mapKeys m1 mp = (mapKeys m mp).take index ++ flexString_toString m k
      :: (mapKeys m mp).drop index := by
    unfold mapKeys
    rw [hkeys, hsc, ← List.map_take, ← List.map_drop, ← List.map_cons, ← List.map_append]
    apply List.map_congr_left
    intro c hc
    exact (hlive c (hmem c hc)).2
  refine ⟨hnidx, ⟨?_, ?_, ?_, ?_, ?_⟩, hkeysEq⟩
  · rw [(hdyn mp).1]; exact hinv.map_dyn
  · rw [hkeys, (hdyn _).1]; exact hinv.keys_dyn
  · rw [hkeys, hse, hsc]
    simp only [List.length_append, List.length_cons, List.length_take, List.length_drop]
    have := hinv.keys_len
    omega
  · rw [hkeys, hsc]
    intro c hc
    exact (hlive c (hmem c hc)).1
  · rw [hkeysEq]
    have hs := hinv.sorted
    rw [← List.take_append_drop index (mapKeys m mp), List.pairwise_append] at hs
    obtain ⟨hs1, hs2, hs3⟩ := hs
    rw [List.pairwise_append, List.pairwise_cons]
    refine ⟨hs1, ⟨?_, hs2⟩, ?_⟩
    · intro y hy
      unfold mapKeys at hy
      rw [← List.map_drop] at hy
      obtain ⟨c, hc, rfl⟩ := List.mem_map.mp hy
      exact strLt_asymm _ _ (hdrop c hc)
    · intro x hx y hy
      rcases List.mem_cons.mp hy with hy | hy
      · rw [hy]
        unfold mapKeys at hx
        rw [← List.map_take] at hx
        obtain ⟨c, hc, rfl⟩ := List.mem_map.mp hx
        exact htake c hc
      · exact hs3 x hx y hy


theorem getD_append_length (xs : List Structure) (a : Structure) (ys : List Structure) :
    (xs ++ a :: ys).getD xs.length default = a := by
  simp [List.getD, List.getElem?_append_right (Nat.le_refl xs.length)]

theorem getD_append_length_succ (xs : List Structure) (a c : Structure) (ys : List Structure) :
    (xs ++ a :: c :: ys).getD (xs.length + 1) default = c := by
  simp [List.getD, List.getElem?_append_right (Nat.le_succ xs.length)]

theorem newFlexMap_structs (m0 : Mem) :
    (newFlexMap m0).2.structs = m0.structs ++
      [{ Structure.new Dyn.flexMap with vType := MAP, keys := m0.structs.length + 1 },
       { Structure.new Dyn.keyVector with vType := VECTOR_KEY }] := by
  simp only [newFlexMap, newKeyVector, Mem.allocStruct, Mem.setStruct, Mem.struct,
    List.append_assoc, List.singleton_append, List.length_append, List.length_singleton]
  rw [getD_append_length, List.set_append_right _ _ (Nat.le_refl _)]
  simp

theorem MapInv_newFlexMap (m0 : Mem) : MapInv (newFlexMap m0).2 (newFlexMap m0).1 := by
  have h1 : (newFlexMap m0).1 = m0.structs.length := rfl
  have h2 : (newFlexMap m0).2.struct m0.structs.length =
      { Structure.new Dyn.flexMap with vType := MAP, keys := m0.structs.length + 1 } := by
    unfold Mem.struct
    rw [newFlexMap_structs, getD_append_length]
  have h3 : (newFlexMap m0).2.struct (m0.structs.length + 1) =
      { Structure.new Dyn.keyVector with vType := VECTOR_KEY } := by
    unfold Mem.struct
    rw [newFlexMap_structs, getD_append_length_succ]
  have h4 : ((newFlexMap m0).2.struct m0.structs.length).keys = m0.structs.length + 1 := by
    rw [h2]
  rw [h1]
  refine ⟨?_, ?_, ?_, ?_, ?_⟩
  · rw [h2]; rfl
  · rw [h4, h3]; rfl
  · rw [h4, h3]; rfl
  · rw [h4, h3]; intro c hc; simp [Structure.new] at hc
  · unfold mapKeys
    rw [h4, h3]; simp [Structure.new]

theorem struct_eq_of_extends (m m' : Mem) (hs : m.structs <+: m'.structs) (p : Nat)
    (hp : p < m.structs.length) : m'.struct p = m.struct p := by
  obtain ⟨ys, hys⟩ := hs
  simp [Mem.struct, ← hys, List.getD, List.getElem?_append_left hp]

theorem MapInv_alloc (m m' : Mem) (mp : Nat) (hinv : MapInv m mp)
    (he : m.elements <+: m'.elements) (hs : m.structs <+: m'.structs) : MapInv m' mp := by
  obtain ⟨xs, hxs⟩ := he
  refine MapInv_frame m m' mp xs hinv hxs.symm ?_ ?_
  · intro p hp; rw [struct_eq_of_extends m m' hs p hp]; exact ⟨rfl, rfl⟩
  · intro p hp _; rw [struct_eq_of_extends m m' hs p hp]; exact ⟨rfl, rfl⟩

/-- The index determineKeyInsertionIndex returns on a sorted key vector. -/
theorem determineKeyInsertionIndex_spec (m : Mem) (mp k : Nat) (hinv : MapInv m mp) :
    ∃ index, determineKeyInsertionIndex m mp k = .ok index ∧
      index ≤ (m.struct (m.struct mp).keys).children.length ∧
      (∀ c ∈ (m.struct (m.struct mp).keys).children.take index,
        strLt (flexString_toString m k) (flexString_toString m c) = false) ∧
      (∀ c ∈ (m.struct (m.struct mp).keys).children.drop index,
        strLt (flexString_toString m k) (flexString_toString m c) = true) := by
  obtain ⟨r, hr, h1, h2, h3⟩ := DAC_spec m k ((m.struct (m.struct mp).keys).children.length + 1)
    (m.struct (m.struct mp).keys).children (Nat.lt_succ_self _) hinv.sorted
  exact ⟨r, by simp [determineKeyInsertionIndex, hr], h1, h2, h3⟩

theorem MapInv_addElementWithKey (m m' : Mem) (mp k : Nat) (e : element) (n : Nat)
    (hinv : MapInv m mp) (hk : LiveKey m k)
    (h : addElementWithKey m mp k e = (.ok n, m')) : MapInv m' mp := by
  obtain ⟨index, hidx, hle, htake, hdrop⟩ := determineKeyInsertionIndex_spec m mp k hinv
  unfold addElementWithKey at h
  rw [hidx] at h
  cases hc : containsKey m mp k with
  | none => rw [hc] at h; simp at h
  | some c =>
    rw [hc] at h
    cases c with
    | true => simp at h
    | false =>
      simp only at h
      generalize hres : structure_insertOffsetToObject m (m.struct mp).keys k index = res at h
      obtain ⟨r, m1⟩ := res
      cases r with
      | ok n1 =>
        simp only at h
        obtain ⟨hn1, hinv1, _⟩ := MapInv_insert_key m m1 mp k index n1 hinv hk hle htake hdrop hres
        obtain ⟨hel, hl, _, hother, hself⟩ := structure_insertElement_ok _ _ _ _ _ _ h
        have hmp : mp < m1.structs.length :=
          struct_valid_of_dyn_ne _ _ (by rw [hinv1.map_dyn]; decide)
        refine MapInv_frame m1 m' mp [e] hinv1 hel ?_ ?_
        · intro p _
          by_cases hp : p = mp
          · rw [hp, hself hmp]; exact ⟨rfl, rfl⟩
          · rw [hother p hp]; exact ⟨rfl, rfl⟩
        · intro p _ hp
          rw [hother p hp]; exact ⟨rfl, rfl⟩
      | error err => simp at h
      | panic => simp at h
      | diverge => simp at h

theorem MapInv_addOffsetWithKey (m m' : Mem) (mp k o : Nat) (n : Nat)
    (hinv : MapInv m mp) (hk : LiveKey m k)
    (h : addOffsetWithKey m mp k o = (.ok n, m')) : MapInv m' mp := by
  obtain ⟨index, hidx, hle, htake, hdrop⟩ := determineKeyInsertionIndex_spec m mp k hinv
  unfold addOffsetWithKey at h
  rw [hidx] at h
  cases hc : containsKey m mp k with
  | none => rw [hc] at h; simp at h
  | some c =>
    rw [hc] at h
    cases c with
    | true => simp at h
    | false =>
      simp only at h
      generalize hres : structure_insertOffsetToObject m (m.struct mp).keys k index = res at h
      obtain ⟨r, m1⟩ := res
      cases r with
      | ok n1 =>
        simp only at h
        obtain ⟨hn1, hinv1, _⟩ := MapInv_insert_key m m1 mp k index n1 hinv hk hle htake hdrop hres
        obtain ⟨hel, hl, _, hdyn, hbody, _⟩ := structure_insertOffsetToObject_ok _ _ _ _ _ _ h
        refine MapInv_frame m1 m' mp _ hinv1 hel ?_ ?_
        · intro p _
          exact ⟨(hdyn p).1, (hdyn p).2.1⟩
        · intro p _ hp
          exact hbody p hp
      | error err => simp at h
      | panic => simp at h
      | diverge => simp at h

/-- The invariant of a map survives a step that keeps the map. -/
theorem MapInv_kept (m m1 : Mem) (mp : Nat) (hinv : MapInv m mp) (hk : MapKept mp m m1) :
    MapInv m1 mp ∧ mapKeys m1 mp = mapKeys m mp := by
  obtain ⟨hel, hsl, hd, hkeys, hme, hkd, hke, hkc, hc, _, _⟩ := hk
  have hmk : mapKeys m1 mp = mapKeys m mp := by
    unfold mapKeys
    rw [hkeys, hkc]
    apply List.map_congr_left
    intro c hcm
    exact (hc c hcm).2.2
  refine ⟨⟨?_, ?_, ?_, ?_, ?_⟩, hmk⟩
  · rw [hd]; exact hinv.map_dyn
  · rw [hkeys, hkd]; exact hinv.keys_dyn
  · rw [hkeys, hke, hkc]; exact hinv.keys_len
  · rw [hkeys, hkc]
    intro c hcm
    obtain ⟨h1, h2⟩ := hinv.keys_live c hcm
    refine ⟨by rw [(hc c hcm).1]; exact h1, ?_⟩
    intro p hp
    rw [(hc c hcm).2.1] at hp
    exact Nat.lt_of_lt_of_le (h2 p hp) hel
  · rw [hmk]; exact hinv.sorted

theorem MapInv_of_MapReach (mp : Nat) (m : Mem) (h : MapReach mp m) : MapInv m mp := by
  induction h with
  | init m0 h0 => rw [← h0]; exact MapInv_newFlexMap m0
  | alloc m m' _ he hs ih => exact MapInv_alloc m m' mp ih he hs
  | kept m m' _ hk ih => exact (MapInv_kept m m' mp ih hk).1
  | addElement m m' k e n _ hk h ih => exact MapInv_addElementWithKey m m' mp k e n ih hk h
  | addOffset m m' k o n _ hk h ih => exact MapInv_addOffsetWithKey m m' mp k o n ih hk h

set_option maxRecDepth 100000 in
theorem oneTwoThree_reach : MapReach 0 oneTwoThreeMem := by
  have r0 : MapReach 0 emptyMapMem := MapReach.init _ rfl
  have r1 : MapReach 0 (newKey emptyMapMem "One").2 :=
    MapReach.alloc _ _ r0 (by decide) (by decide)
  have r2 : MapReach 0 (addIntEntry emptyMapMem 0 "One" 1) :=
    MapReach.addElement (newKey emptyMapMem "One").2 _ (newKey emptyMapMem "One").1 (newINT 1) 0
      r1 (by decide) (by decide)
  have r3 : MapReach 0 (newKey (addIntEntry emptyMapMem 0 "One" 1) "Two").2 :=
    MapReach.alloc _ _ r2 (by decide) (by decide)
  have r4 : MapReach 0 (addIntEntry (addIntEntry emptyMapMem 0 "One" 1) 0 "Two" 2) :=
    MapReach.addElement (newKey (addIntEntry emptyMapMem 0 "One" 1) "Two").2 _
      (newKey (addIntEntry emptyMapMem 0 "One" 1) "Two").1 (newINT 2) 1 r3 (by decide) (by decide)
  have r5 : MapReach 0
      (newKey (addIntEntry (addIntEntry emptyMapMem 0 "One" 1) 0 "Two" 2) "Three").2 :=
    MapReach.alloc _ _ r4 (by decide) (by decide)
  exact MapReach.addElement
    (newKey (addIntEntry (addIntEntry emptyMapMem 0 "One" 1) 0 "Two" 2) "Three").2 _
    (newKey (addIntEntry (addIntEntry emptyMapMem 0 "One" 1) 0 "Two" 2) "Three").1 (newINT 3) 1
    r5 (by decide) (by decide)

/-! ## Rejections at a map top -/

theorem struct_append_of_lt (m : Mem) (p : Nat) (xs : List Structure) (h : p < m.structs.length) :
    ({ m with structs := m.structs ++ xs } : Mem).struct p = m.struct p := by
  simp [Mem.struct, List.getD, List.getElem?_append_left h]

theorem newKey_empty (m : Mem) :
    newKey m "" = (m.structs.length, { m with structs := m.structs ++ [emptyKeyObject] }) := by
  rfl

theorem registerElement_on_map (b : Builder) (head : Nat) (hh : b.getHead = some head)
    (hm : (b.mem.struct head).dyn = Dyn.flexMap) (e : element) :
    b.registerElement e = (.error Err.mapElementWithoutKey, b) := by
  simp [Builder.registerElement, hh, addElement, insertElement, hm, flexMap_insertElement]

theorem registerElementWithKey_empty (b : Builder) (head : Nat) (hh : b.getHead = some head)
    (hm : (b.mem.struct head).dyn = Dyn.flexMap) (e : element) :
    b.withEmptyKey.registerElementWithKey (some b.mem.structs.length) e
      = (.error Err.emptyKey, b.withEmptyKey) := by
  have hv : head < b.mem.structs.length := struct_valid_of_dyn_ne _ _ (by rw [hm]; decide)
  have hh' : b.withEmptyKey.getHead = some head := by
    simpa [Builder.getHead, Builder.withEmptyKey] using hh
  have hs : (b.withEmptyKey.mem.struct head).dyn = Dyn.flexMap := by
    rw [← hm]; exact congrArg _ (struct_append_of_lt _ _ _ hv)
  have hk : flexString_toString b.withEmptyKey.mem b.mem.structs.length = [] := by
    simp [flexString_toString, Builder.withEmptyKey, Mem.struct, List.getD, emptyKeyObject, Structure.new]
  simp [Builder.registerElementWithKey, hh', hs, hk]

/-- C7: while the top of the stack is a map, every registration without a key (Int, Uint,
Float, Bool, Null) returns an error and leaves the builder as it was, and every
registration with the empty key (IntWithKey, UintWithKey, FloatWithKey, BoolWithKey,
NullWithKey) returns an error and leaves the builder as it was but for the unused key
object `newKey("")` allocated: stack, head index, finished flag and elements are the
same, and so is every structure that existed before, the map and its key vector among
them. -/
theorem map_top_rejects_keyless_and_empty_key (b : Builder) (head : Nat)
    (hh : b.getHead = some head) (hm : (b.mem.struct head).dyn = Dyn.flexMap)
    (i : Int) (u : Nat) (f : GoFloat) (l : Bool) :
    b.Int i = (.error Err.mapElementWithoutKey, b) ∧
    b.Uint u = (.error Err.mapElementWithoutKey, b) ∧
    b.Float f = (.error Err.mapElementWithoutKey, b) ∧
    b.Bool l = (.error Err.mapElementWithoutKey, b) ∧
    b.Null = (.error Err.mapElementWithoutKey, b) ∧
    b.IntWithKey "" i = (.error Err.emptyKey, b.withEmptyKey) ∧
    b.UintWithKey "" u = (.error Err.emptyKey, b.withEmptyKey) ∧
    b.FloatWithKey "" f = (.error Err.emptyKey, b.withEmptyKey) ∧
    b.BoolWithKey "" l = (.error Err.emptyKey, b.withEmptyKey) ∧
    b.NullWithKey "" = (.error Err.emptyKey, b.withEmptyKey) ∧
    b.withEmptyKey.finished = b.finished ∧
    b.withEmptyKey.inProgress = b.inProgress ∧
    b.withEmptyKey.headIndex = b.headIndex ∧
    b.withEmptyKey.mem.elements = b.mem.elements ∧
    (∀ p : Nat, p < b.mem.structs.length → b.withEmptyKey.mem.struct p = b.mem.struct p) ∧
    b.withEmptyKey.mem.struct head = b.mem.struct head := by
  have hv : head < b.mem.structs.length := struct_valid_of_dyn_ne _ _ (by rw [hm]; decide)
  refine ⟨registerElement_on_map b head hh hm _, registerElement_on_map b head hh hm _,
    registerElement_on_map b head hh hm _, registerElement_on_map b head hh hm _,
    registerElement_on_map b head hh hm _, registerElementWithKey_empty b head hh hm _,
    registerElementWithKey_empty b head hh hm _, registerElementWithKey_empty b head hh hm _,
    registerElementWithKey_empty b head hh hm _, registerElementWithKey_empty b head hh hm _,
    rfl, rfl, rfl, rfl, ?_, ?_⟩
  · intro p hp; exact struct_append_of_lt _ _ _ hp
  · exact struct_append_of_lt _ _ _ hv

/-- Witness of C7: the builder after StartMap, whose top is the map at pointer 1. -/
theorem map_top_rejects_keyless_and_empty_key_witness :
    (NewBuilder.StartMap).2.getHead = some 1 ∧
    ((NewBuilder.StartMap).2.mem.struct 1).dyn = Dyn.flexMap ∧
    ((NewBuilder.StartMap).2.Int 7 = (.error Err.mapElementWithoutKey, (NewBuilder.StartMap).2) ∧
    (NewBuilder.StartMap).2.IntWithKey "" 7
      = (.error Err.emptyKey, (NewBuilder.StartMap).2.withEmptyKey)) :=
  ⟨by decide, by decide,
    (map_top_rejects_keyless_and_empty_key (NewBuilder.StartMap).2 1 (by decide) (by decide)
      7 7 ⟨0, some 0⟩ true).1,
    (map_top_rejects_keyless_and_empty_key (NewBuilder.StartMap).2 1 (by decide) (by decide)
      7 7 ⟨0, some 0⟩ true).2.2.2.2.2.1⟩

/-! ## The reader on container roots -/

theorem ItemByteSize_lt (c : Nat) : ItemByteSize c < 4 := by
  unfold ItemByteSize
  exact Nat.lt_succ_of_le Nat.and_le_right

theorem B_cases (c : Nat) : B (ItemByteSize c) = 1 ∨ B (ItemByteSize c) = 2 ∨
    B (ItemByteSize c) = 4 ∨ B (ItemByteSize c) = 8 := by
  have h := ItemByteSize_lt c
  unfold B
  interval_cases (ItemByteSize c) <;> simp

/-- The position itemCount reads the size prefix from. -/
theorem size_prefix_position (r : Ref) (h : r.index_0 < 18446744073709551616) :
    r.absOffset (r.relItemOffset (-1)) = 18446744073709551616 - B (ItemByteSize r.context) := by
  unfold Ref.absOffset Ref.relItemOffset
  rcases B_cases r.context with hb | hb | hb | hb <;> rw [hb] <;> simp only [u64, i64] <;> omega

theorem u64_lt (x : Int) : u64 x < 18446744073709551616 := by
  unfold u64; omega

theorem itemCount_container_panics (r : Ref) (hi : r.index_0 < 18446744073709551616)
    (hlen : r.buffer.length < 18446744073709551608)
    (ht : ItemVarType r.context = VECTOR ∨ ItemVarType r.context = MAP ∨
      ItemVarType r.context = BLOB ∨ ItemVarType r.context = STRING) :
    r.itemCount = .panic := by
  have hpos := size_prefix_position r hi
  have hb := B_cases r.context
  have hidx : indexByte r.buffer (r.absOffset (r.relItemOffset (-1))) = .panic := by
    unfold indexByte
    rw [List.getElem?_eq_none (by rw [hpos]; omega)]
  unfold Ref.itemCount
  rcases ht with ht | ht | ht | ht <;> rw [ht] <;> simp [hidx, INT, UINT, FLOAT, BOOL, NULL, INDIRECT_UINT, INDIRECT_INT, INDIRECT_FLOAT, VECTOR_INT2, VECTOR_UINT2, VECTOR_FLOAT2, VECTOR_INT3, VECTOR_UINT3, VECTOR_FLOAT3, VECTOR_INT4, VECTOR_UINT4, VECTOR_FLOAT4, VECTOR, MAP, BLOB, STRING]

/-- NewRef panics on every buffer whose descriptor byte, the last but one, carries the
type VECTOR, MAP, BLOB or STRING: itemCount looks for the size prefix at
`2^64 - B(width)`, past the end of any buffer. -/
theorem NewRef_container_root_panics (buff : List Nat) (con : Nat)
    (hlen : buff.length < 18446744073709551608)
    (hcon : buff[buff.length - 2]? = some con)
    (ht : ItemVarType con = VECTOR ∨ ItemVarType con = MAP ∨
      ItemVarType con = BLOB ∨ ItemVarType con = STRING) :
    NewRef buff = .panic := by
  unfold NewRef
  by_cases hn : buff.length < 2
  · simp [hn]
  · simp only [hn, if_false]
    have hinl : isInline (ItemVarType con) = false := by
      rcases ht with ht | ht | ht | ht <;> rw [ht] <;> decide
    cases h1 : indexByte buff (buff.length - 1) with
    | ok bWidth =>
      have h2 : indexByte buff (buff.length - 2) = .ok con := by
        unfold indexByte; rw [hcon]
      rw [h2]
      simp only [hinl, Bool.not_false, if_true]
      cases h3 : sliceBytes buff (u64 ((buff.length : Int) - 2 - bWidth)) (buff.length - 2) with
      | ok bytes =>
        simp only
        cases h4 : bytesAsUint bytes with
        | ok off =>
          simp only
          unfold Ref.withItemCount
          rw [itemCount_container_panics _ (u64_lt _) hlen ht]
        | _ => rfl
      | _ => rfl
    | _ => rfl

/-- Witness of NewRef_container_root_panics: the empty untyped vector `00 00 28 01`. -/
theorem NewRef_container_root_panics_witness :
    ([0, 0, 40, 1] : List Nat).length < 18446744073709551608 ∧
    ([0, 0, 40, 1] : List Nat)[([0, 0, 40, 1] : List Nat).length - 2]? = some 40 ∧
    (ItemVarType 40 = VECTOR ∨ ItemVarType 40 = MAP ∨ ItemVarType 40 = BLOB
      ∨ ItemVarType 40 = STRING) ∧
    NewRef [0, 0, 40, 1] = .panic :=
  ⟨by decide, by decide, by decide,
    NewRef_container_root_panics [0, 0, 40, 1] 40 (by decide) (by decide) (by decide)⟩

/-! ## Keyed calls on a top that is no map -/

/-- Both startWithKey and registerElementWithKey, called with a key while the top of the
stack is not a map, return the error "does not support key mapping" and leave the
builder as it was. -/
theorem keyed_call_on_non_map_top (b : Builder) (head : Nat) (hh : b.getHead = some head)
    (hm : (b.mem.struct head).dyn ≠ Dyn.flexMap) (k o : Nat) (e : element) :
    b.startWithKey (some k) o = (.error Err.noKeyMapping, b) ∧
    b.registerElementWithKey (some k) e = (.error Err.noKeyMapping, b) := by
  simp [Builder.startWithKey, Builder.registerElementWithKey, hh, hm]

/-- Witness of keyed_call_on_non_map_top: the builder after StartVector, whose top is the
vector at pointer 1. -/
theorem keyed_call_on_non_map_top_witness :
    (NewBuilder.StartVector).2.getHead = some 1 ∧
    ((NewBuilder.StartVector).2.mem.struct 1).dyn ≠ Dyn.flexMap ∧
    ((NewBuilder.StartVector).2.startWithKey (some 5) 6
      = (.error Err.noKeyMapping, (NewBuilder.StartVector).2) ∧
    (NewBuilder.StartVector).2.registerElementWithKey (some 5) (newINT 1)
      = (.error Err.noKeyMapping, (NewBuilder.StartVector).2)) :=
  ⟨by decide, by decide,
    keyed_call_on_non_map_top (NewBuilder.StartVector).2 1 (by decide) (by decide) 5 6
      (newINT 1)⟩

/-! ## Evaluations -/

set_option maxRecDepth 100000 in
/-- C3, evaluation: the untyped vectors `[]` and `[10, -10, true]`, built on a new builder
with StartVector, one registration per item and End, serialize without error to
`00 00 28 01` and `03 0A F6 01 04 04 68 06 28 01`; `NewRef` panics on both buffers. Its
call of itemCount reads the size prefix at `absOffset(relItemOffset(-1))`, which is
`2^64 - 1` for these vectors of width 1, not `index_0 - 1`. -/
theorem vector_root_NewRef_panics :
    (NewBuilder.run [.StartVector, .End]).1 = [.ok (), .ok ()] ∧
    ((NewBuilder.run [.StartVector, .End]).2.SerializeBuffer []).1 = .ok 1 ∧
    ((NewBuilder.run [.StartVector, .End]).2.SerializeBuffer []).2.2 = [0, 0, 40, 1] ∧
    NewRef [0, 0, 40, 1] = .panic ∧
    (NewBuilder.run [.StartVector, .Int 10, .Int (-10), .Bool true, .End]).1
      = [.ok (), .ok (), .ok (), .ok (), .ok ()] ∧
    ((NewBuilder.run [.StartVector, .Int 10, .Int (-10), .Bool true, .End]).2.SerializeBuffer
      []).1 = .ok 7 ∧
    ((NewBuilder.run [.StartVector, .Int 10, .Int (-10), .Bool true, .End]).2.SerializeBuffer
      []).2.2 = [3, 10, 246, 1, 4, 4, 104, 6, 40, 1] ∧
    NewRef [3, 10, 246, 1, 4, 4, 104, 6, 40, 1] = .panic ∧
    Ref.absOffset ⟨[3, 10, 246, 1, 4, 4, 104, 6, 40, 1], 40, 1, 0⟩
      (Ref.relItemOffset ⟨[3, 10, 246, 1, 4, 4, 104, 6, 40, 1], 40, 1, 0⟩ (-1))
      = 18446744073709551615 := by
  decide

set_option maxRecDepth 100000 in
/-- C4, evaluation: the map One: 1, Two: 2, Three: 3, built on a new builder with StartMap,
IntWithKey and End, serializes without error, the keys laid out as One, Three, Two;
`NewRef` panics on the buffer, so no MapIndex is reached. On the Ref a reader would have
to build by hand for the map (position 21, descriptor `Pack(MAP, 0)`, 3 items) KeyVector
panics as well: itemCount has no case for VECTOR_KEY. -/
theorem map_root_NewRef_panics :
    (NewBuilder.run [.StartMap, .IntWithKey "One" 1, .IntWithKey "Two" 2,
      .IntWithKey "Three" 3, .End]).1 = [.ok (), .ok (), .ok (), .ok (), .ok ()] ∧
    ((NewBuilder.run [.StartMap, .IntWithKey "One" 1, .IntWithKey "Two" 2,
      .IntWithKey "Three" 3, .End]).2.SerializeBuffer []).1 = .ok 27 ∧
    ((NewBuilder.run [.StartMap, .IntWithKey "One" 1, .IntWithKey "Two" 2,
      .IntWithKey "Three" 3, .End]).2.SerializeBuffer []).2.2
      = [79, 110, 101, 0, 84, 104, 114, 101, 101, 0, 84, 119, 111, 0, 3, 15, 12, 7, 3, 1, 3,
          1, 3, 2, 4, 4, 4, 6, 36, 1] ∧
    NewRef [79, 110, 101, 0, 84, 104, 114, 101, 101, 0, 84, 119, 111, 0, 3, 15, 12, 7, 3, 1, 3,
      1, 3, 2, 4, 4, 4, 6, 36, 1] = .panic ∧
    Ref.KeyVector ⟨[79, 110, 101, 0, 84, 104, 114, 101, 101, 0, 84, 119, 111, 0, 3, 15, 12, 7,
      3, 1, 3, 1, 3, 2, 4, 4, 4, 6, 36, 1], Pack MAP 0, 21, 3⟩ = .panic ∧
    (∀ fuel : Nat, Ref.MapIndex ⟨[79, 110, 101, 0, 84, 104, 114, 101, 101, 0, 84, 119, 111, 0,
      3, 15, 12, 7, 3, 1, 3, 1, 3, 2, 4, 4, 4, 6, 36, 1], Pack MAP 0, 21, 3⟩ fuel "One"
      = .panic) := by
  refine ⟨by decide, by decide, by decide, by decide, by decide, ?_⟩
  intro fuel
  have hk : Ref.KeyVector ⟨[79, 110, 101, 0, 84, 104, 114, 101, 101, 0, 84, 119, 111, 0, 3,
      15, 12, 7, 3, 1, 3, 1, 3, 2, 4, 4, 4, 6, 36, 1], Pack MAP 0, 21, 3⟩ = .panic := by
    decide
  have hm : Ref.IsMap ⟨[79, 110, 101, 0, 84, 104, 114, 101, 101, 0, 84, 119, 111, 0, 3,
      15, 12, 7, 3, 1, 3, 1, 3, 2, 4, 4, 4, 6, 36, 1], Pack MAP 0, 21, 3⟩ = true := by
    decide
  simp [Ref.MapIndex, hk, hm]

set_option maxRecDepth 100000 in
/-- C6, evaluation: `IntWithKey("a", 1)` followed by `IntWithKey("a", 2)` on the same open
map: both calls return without error, the map (at pointer 1) then holds two elements and
its key vector the key `a` twice. containsKey finds no duplicate because
flexString.Equals compares the element pointers of the two keys, which differ. -/
theorem duplicate_key_is_accepted :
    (NewBuilder.run [.StartMap, .IntWithKey "a" 1, .IntWithKey "a" 2]).1
      = [.ok (), .ok (), .ok ()] ∧
    ((NewBuilder.run [.StartMap, .IntWithKey "a" 1, .IntWithKey "a" 2]).2.mem.struct
      1).elems.length = 2 ∧
    mapKeys (NewBuilder.run [.StartMap, .IntWithKey "a" 1, .IntWithKey "a" 2]).2.mem 1
      = [runes "a", runes "a"] ∧
    (newKey (NewBuilder.run [.StartMap, .IntWithKey "a" 1]).2.mem "a").1 = 4 ∧
    flexString_toString (newKey (NewBuilder.run [.StartMap, .IntWithKey "a" 1]).2.mem "a").2 3
      = flexString_toString (newKey (NewBuilder.run [.StartMap, .IntWithKey "a" 1]).2.mem "a").2 4
      ∧
    flexString_Equals (newKey (NewBuilder.run [.StartMap, .IntWithKey "a" 1]).2.mem "a").2 3 4
      = false ∧
    containsKey (newKey (NewBuilder.run [.StartMap, .IntWithKey "a" 1]).2.mem "a").2 1 4
      = some false := by
  decide

set_option maxRecDepth 100000 in
/-- C8, evaluation: `StringWithKey("k", "s")` while the top of the stack is a vector
returns the error of startWithKey, and the deferred End has popped the vector: the stack
is `[root]` instead of `[root, vector]`, the head index 0 instead of 1, and the builder is
finished. Called on a new builder, whose top is the root, it panics in the deferred
End. -/
theorem StringWithKey_on_vector_pops :
    (NewBuilder.run [.StartVector]).2.inProgress = [0, 1] ∧
    (NewBuilder.run [.StartVector]).2.headIndex = 1 ∧
    (NewBuilder.run [.StartVector]).2.finished = false ∧
    ((NewBuilder.run [.StartVector]).2.StringWithKey "k" "s").1 = .error Err.noKeyMapping ∧
    ((NewBuilder.run [.StartVector]).2.StringWithKey "k" "s").2.inProgress = [0] ∧
    ((NewBuilder.run [.StartVector]).2.StringWithKey "k" "s").2.headIndex = 0 ∧
    ((NewBuilder.run [.StartVector]).2.StringWithKey "k" "s").2.finished = true ∧
    (NewBuilder.StringWithKey "k" "s").1 = .panic := by
  decide

set_option maxRecDepth 100000 in
/-- C9, evaluation: `String("x")` and `Key("x")` called while the top of the stack is a
map return the error of start, and the deferred End has popped the map: the stack is
`[root]` instead of `[root, map]`, the head index 0 instead of 1, and the builder is
finished. -/
theorem String_on_map_pops :
    (NewBuilder.run [.StartMap]).2.inProgress = [0, 1] ∧
    (NewBuilder.run [.StartMap]).2.headIndex = 1 ∧
    (NewBuilder.run [.StartMap]).2.finished = false ∧
    ((NewBuilder.run [.StartMap]).2.String "x").1 = .error Err.mapOffsetWithoutKey ∧
    ((NewBuilder.run [.StartMap]).2.String "x").2.inProgress = [0] ∧
    ((NewBuilder.run [.StartMap]).2.String "x").2.headIndex = 0 ∧
    ((NewBuilder.run [.StartMap]).2.String "x").2.finished = true ∧
    ((NewBuilder.run [.StartMap]).2.Key "x").1 = .error Err.mapOffsetWithoutKey ∧
    ((NewBuilder.run [.StartMap]).2.Key "x").2.inProgress = [0] ∧
    ((NewBuilder.run [.StartMap]).2.Key "x").2.headIndex = 0 ∧
    ((NewBuilder.run [.StartMap]).2.Key "x").2.finished = true := by
  decide

set_option maxRecDepth 100000 in
/-- C10, evaluation: `Int(1)` finishes a new builder, and the `StartVector()` that follows
returns without error: the root then holds two elements and the vector is open on the
stack. root.insertOffsetToObject looks at the children of the root, of which there are
none, where root.insertElement looks at its elements. -/
theorem StartVector_after_Int_succeeds :
    (NewBuilder.Int 1).1 = .ok () ∧
    (NewBuilder.Int 1).2.finished = true ∧
    ((NewBuilder.Int 1).2.mem.struct 0).elems.length = 1 ∧
    ((NewBuilder.Int 1).2.StartVector).1 = .ok () ∧
    (((NewBuilder.Int 1).2.StartVector).2.mem.struct 0).elems.length = 2 ∧
    ((NewBuilder.Int 1).2.StartVector).2.inProgress = [0, 1] ∧
    ((NewBuilder.Int 1).2.StartVector).2.finished = true := by
  decide

/-! ## What every call keeps of the stack -/

theorem Finish_closed {P : Bool → List Ptr → Int → Prop} (hP : StackClosed P) (b : Builder)
    (h : b.sat P) : (b.Finish).2.sat P := by
  unfold Builder.Finish
  split_ifs
  · exact h
  · exact hP.fin _ _ _ h
  · exact h

theorem End_closed {P : Bool → List Ptr → Int → Prop} (hP : StackClosed P) (b : Builder)
    (h : b.sat P) : (b.End).2.sat P := by
  have hp : 1 ≤ b.headIndex → Builder.sat P ⟨b.finished, b.inProgress.take b.headIndex.toNat,
      b.headIndex - 1, b.mem⟩ := fun h1 => hP.pop _ _ _ h h1
  unfold Builder.End
  split_ifs with h1
  · exact h
  · dsimp only
    split_ifs
    · exact Finish_closed hP _ (hp (by omega))
    · exact hp (by omega)

theorem start_closed {P : Bool → List Ptr → Int → Prop} (hP : StackClosed P) (b : Builder)
    (o : Ptr) (h : b.sat P) : (b.start o).2.sat P := by
  unfold Builder.start
  split
  · exact h
  · split
    · exact hP.push _ _ _ _ h
    · exact h
    · exact h
    · exact h

theorem startWithKey_closed {P : Bool → List Ptr → Int → Prop} (hP : StackClosed P)
    (b : Builder) (k : Option Ptr) (o : Ptr) (h : b.sat P) : (b.startWithKey k o).2.sat P := by
  unfold Builder.startWithKey
  split
  · exact h
  · split
    · exact h
    · split_ifs
      · exact h
      · exact h
      · split
        · exact hP.push _ _ _ _ h
        · exact h
        · exact h
        · exact h

theorem registerElement_closed {P : Bool → List Ptr → Int → Prop} (hP : StackClosed P)
    (b : Builder) (e : element) (h : b.sat P) : (b.registerElement e).2.sat P := by
  unfold Builder.registerElement
  split
  · exact h
  · split
    · dsimp only
      split_ifs
      · exact Finish_closed hP _ h
      · exact h
    · exact h
    · exact h
    · exact h

theorem registerElementWithKey_closed {P : Bool → List Ptr → Int → Prop} (b : Builder)
    (k : Option Ptr) (e : element) (h : b.sat P) :
    (b.registerElementWithKey k e).2.sat P := by
  unfold Builder.registerElementWithKey
  split
  · exact h
  · split
    · exact h
    · split_ifs
      · exact h
      · exact h
      · split <;> exact h

theorem deferEnd_closed {P : Bool → List Ptr → Int → Prop} (hP : StackClosed P)
    (r : Outcome Unit × Builder) (h : r.2.sat P) : (Builder.deferEnd r).2.sat P := by
  unfold Builder.deferEnd
  split
  · exact h
  · exact End_closed hP _ h
  · have := End_closed hP _ h
    split
    · next h2 => rw [h2] at this; exact this
    · next h2 => rw [h2] at this; exact this


theorem SerializeBuffer_closed {P : Bool → List Ptr → Int → Prop} (b : Builder)
    (buff : List Nat) (h : b.sat P) : (b.SerializeBuffer buff).2.1.sat P := by
  unfold Builder.SerializeBuffer
  exact h

theorem Append_closed {P : Bool → List Ptr → Int → Prop} (b : Builder)
    (str : String) (h : b.sat P) : (b.Append str).2.sat P := by
  unfold Builder.Append
  split
  · exact h
  · split_ifs <;> exact h

theorem startTyped_closed {P : Bool → List Ptr → Int → Prop} (hP : StackClosed P)
    (b : Builder) (vType : Nat) (h : b.sat P) : (b.startTyped vType).2.sat P := by
  unfold Builder.startTyped
  split
  · exact start_closed hP _ _ h
  · exact h

theorem startFixed_closed {P : Bool → List Ptr → Int → Prop} (hP : StackClosed P)
    (b : Builder) (vType : Nat) (h : b.sat P) : (b.startFixed vType).2.sat P := by
  unfold Builder.startFixed
  split
  · exact start_closed hP _ _ h
  · exact h

theorem startTypedWithKey_closed {P : Bool → List Ptr → Int → Prop} (hP : StackClosed P)
    (b : Builder) (k : String) (vType : Nat) (h : b.sat P) :
    (b.startTypedWithKey k vType).2.sat P := by
  unfold Builder.startTypedWithKey
  split
  split
  · exact startWithKey_closed hP _ _ _ h
  · exact h

theorem startFixedWithKey_closed {P : Bool → List Ptr → Int → Prop} (hP : StackClosed P)
    (b : Builder) (k : String) (vType : Nat) (h : b.sat P) :
    (b.startFixedWithKey k vType).2.sat P := by
  unfold Builder.startFixedWithKey
  split
  split
  · exact startWithKey_closed hP _ _ _ h
  · exact h

theorem apply_closed {P : Bool → List Ptr → Int → Prop} (hP : StackClosed P)
    (b : Builder) (op : Op) (h : b.sat P) : (b.apply op).2.sat P := by
  cases op with
  | Int x => exact registerElement_closed hP _ _ h
  | Uint x => exact registerElement_closed hP _ _ h
  | Float x => exact registerElement_closed hP _ _ h
  | Bool x => exact registerElement_closed hP _ _ h
  | Null => exact registerElement_closed hP _ _ h
  | StartVector => exact start_closed hP _ _ h
  | StartTypedIntVector => exact startTyped_closed hP _ _ h
  | StartTypedUintVector => exact startTyped_closed hP _ _ h
  | StartTypedFloatVector => exact startTyped_closed hP _ _ h
  | StartTypedBoolVector => exact startTyped_closed hP _ _ h
  | StartBlob x => exact start_closed hP _ _ h
  | StartIntScalar => exact startFixed_closed hP _ _ h
  | StartIntTuple => exact startFixed_closed hP _ _ h
  | StartIntTriple => exact startFixed_closed hP _ _ h
  | StartIntQuad => exact startFixed_closed hP _ _ h
  | StartUintScalar => exact startFixed_closed hP _ _ h
  | StartUintTuple => exact startFixed_closed hP _ _ h
  | StartUintTriple => exact startFixed_closed hP _ _ h
  | StartUintQuad => exact startFixed_closed hP _ _ h
  | StartFloatScalar => exact startFixed_closed hP _ _ h
  | StartFloatTuple => exact startFixed_closed hP _ _ h
  | StartFloatTriple => exact startFixed_closed hP _ _ h
  | StartFloatQuad => exact startFixed_closed hP _ _ h
  | StartString => exact start_closed hP _ _ h
  | String x => exact deferEnd_closed hP _ (start_closed hP _ _ h)
  | StartKey => exact start_closed hP _ _ h
  | Key x => exact deferEnd_closed hP _ (start_closed hP _ _ h)
  | Append x => exact Append_closed _ _ h
  | StartMap => exact start_closed hP _ _ h
  | StartMapWithKey k => exact startWithKey_closed hP _ _ _ h
  | UintWithKey k x => exact registerElementWithKey_closed _ _ _ h
  | IntWithKey k x => exact registerElementWithKey_closed _ _ _ h
  | FloatWithKey k x => exact registerElementWithKey_closed _ _ _ h
  | BoolWithKey k x => exact registerElementWithKey_closed _ _ _ h
  | NullWithKey k => exact registerElementWithKey_closed _ _ _ h
  | StartVectorWithKey k => exact startWithKey_closed hP _ _ _ h
  | StartTypedIntVectorWithKey k => exact startTypedWithKey_closed hP _ _ _ h
  | StartTypedUintVectorWithKey k => exact startTypedWithKey_closed hP _ _ _ h
  | StartTypedFloatVectorWithKey k => exact startTypedWithKey_closed hP _ _ _ h
  | StartTypedBoolVectorWithKey k => exact startTypedWithKey_closed hP _ _ _ h
  | StartBlobWithKey k x => exact startWithKey_closed hP _ _ _ h
  | StartIntScalarWithKey k => exact startFixedWithKey_closed hP _ _ _ h
  | StartIntTupleWithKey k => exact startFixedWithKey_closed hP _ _ _ h
  | StartIntTripleWithKey k => exact startFixedWithKey_closed hP _ _ _ h
  | StartIntQuadWithKey k => exact startFixedWithKey_closed hP _ _ _ h
  | StartUintScalarWithKey k => exact startFixedWithKey_closed hP _ _ _ h
  | StartUintTupleWithKey k => exact startFixedWithKey_closed hP _ _ _ h
  | StartUintTripleWithKey k => exact startFixedWithKey_closed hP _ _ _ h
  | StartUintQuadWithKey k => exact startFixedWithKey_closed hP _ _ _ h
  | StartFloatScalarWithKey k => exact startFixedWithKey_closed hP _ _ _ h
  | StartFloatTupleWithKey k => exact startFixedWithKey_closed hP _ _ _ h
  | StartFloatTripleWithKey k => exact startFixedWithKey_closed hP _ _ _ h
  | StartFloatQuadWithKey k => exact startFixedWithKey_closed hP _ _ _ h
  | StartStringWithKey k => exact startWithKey_closed hP _ _ _ h
  | StringWithKey k x => exact deferEnd_closed hP _ (startWithKey_closed hP _ _ _ h)
  | End => exact End_closed hP _ h
  | Finish => exact Finish_closed hP _ h
  | SerializeBuffer buff =>
    have h1 := SerializeBuffer_closed b buff h
    revert h1
    simp only [Builder.apply]
    generalize b.SerializeBuffer buff = r
    rcases r with ⟨r, b1, bf⟩
    cases r <;> exact id

theorem run_closed {P : Bool → List Ptr → Int → Prop} (hP : StackClosed P)
    (ops : List Op) : ∀ b : Builder, b.sat P → (b.run ops).2.sat P := by
  induction ops with
  | nil => intro b h; exact h
  | cons op ops ih => intro b h; exact ih _ (apply_closed hP b op h)

/-! ## Finish and End -/

/-- The stack of a builder starts at the root, pointer 0, and the head index is the index
of its last entry: kept by every call. -/
theorem stack_shape_closed :
    StackClosed (fun _ s h => s.head? = some 0 ∧ h = (s.length : Int) - 1) := by
  constructor
  · intro f s h hs
    exact hs
  · intro f s h o hs
    obtain ⟨h1, h2⟩ := hs
    constructor
    · cases s with
      | nil => simp at h1
      | cons a t => simpa using h1
    · simp only [List.length_append, List.length_singleton]
      omega
  · intro f s h hs hh
    obtain ⟨h1, h2⟩ := hs
    constructor
    · cases s with
      | nil => simp at h1
      | cons a t =>
        obtain ⟨n, hn⟩ : ∃ n, h.toNat = n + 1 := ⟨h.toNat - 1, by omega⟩
        rw [hn]
        simpa using h1
    · simp only [List.length_take]
      omega

/-- The flag `finished`, once set, stays set: kept by every call. -/
theorem finished_closed : StackClosed (fun f _ _ => f = true) := by
  constructor
  · intro f s h _
    rfl
  · intro f s h o hs
    exact hs
  · intro f s h hs _
    exact hs

theorem Reachable_stack (b : Builder) (hr : Reachable b) :
    b.inProgress.head? = some 0 ∧ b.headIndex = (b.inProgress.length : Int) - 1 := by
  obtain ⟨ops, rfl⟩ := hr
  exact run_closed stack_shape_closed ops NewBuilder ⟨rfl, rfl⟩

set_option maxRecDepth 100000 in
/-- C11: Finish returns success exactly when the flag `finished` is already set or the
stack depth is 1, whatever the stack holds in the first case. The flag is never cleared,
and no Start call looks at it: after `Finish()` on a new builder, or after `Int(1)`, which
finishes the builder, `StartVector()` opens a vector and the `Finish()` that follows
returns success with the stack `[root, vector]`. On a builder not yet finished the same
`StartVector()`, `Finish()` returns the error. -/
theorem Finish_succeeds_with_open_vector :
    (∀ b : Builder, (b.Finish).1 = .ok () ↔ (b.finished = true ∨ b.inProgress.length = 1)) ∧
    (NewBuilder.run [.Finish, .StartVector, .Finish]).1 = [.ok (), .ok (), .ok ()] ∧
    (NewBuilder.run [.Finish, .StartVector, .Finish]).2.inProgress = [0, 1] ∧
    (NewBuilder.run [.Finish, .StartVector, .Finish]).2.IsFinished = true ∧
    (NewBuilder.run [.Int 1, .StartVector, .Finish]).1 = [.ok (), .ok (), .ok ()] ∧
    (NewBuilder.run [.Int 1, .StartVector, .Finish]).2.inProgress = [0, 1] ∧
    (NewBuilder.run [.StartVector, .Finish]).1 = [.ok (), .error Err.notFinished] ∧
    (NewBuilder.run [.StartVector, .Finish]).2.inProgress = [0, 1] := by
  refine ⟨?_, by decide, by decide, by decide, by decide, by decide, by decide, by decide⟩
  intro b
  unfold Builder.Finish
  split_ifs with h1 h2 <;> simp_all

/-- C12: once `Finish()` has returned success on a builder, the flag `finished` is set, a
second `Finish()` returns success and leaves the builder as it is, and so does a
`Finish()` made after any sequence of calls of public operations: no call clears the
flag. -/
theorem Finish_idempotent (b b1 : Builder) (h : b.Finish = (.ok (), b1)) (ops : List Op) :
    b1.finished = true ∧ b1.inProgress = b.inProgress ∧ b1.headIndex = b.headIndex ∧
    b1.mem = b.mem ∧
    b1.Finish = (.ok (), b1) ∧
    (b1.run ops).2.finished = true ∧
    (b1.run ops).2.Finish = (.ok (), (b1.run ops).2) := by
  have hf : b1.finished = true ∧ b1.inProgress = b.inProgress ∧ b1.headIndex = b.headIndex ∧
      b1.mem = b.mem := by
    unfold Builder.Finish at h
    split_ifs at h with h1 h2
    · cases h
      exact ⟨h1, rfl, rfl, rfl⟩
    · cases h
      exact ⟨rfl, rfl, rfl, rfl⟩
    · cases h
  have hr : (b1.run ops).2.finished = true := run_closed finished_closed ops b1 hf.1
  refine ⟨hf.1, hf.2.1, hf.2.2.1, hf.2.2.2, ?_, hr, ?_⟩
  · simp [Builder.Finish, hf.1]
  · simp [Builder.Finish, hr]

set_option maxRecDepth 100000 in
/-- Witness of Finish_idempotent: `Finish()` on a new builder, then `StartVector()` and
`Int(1)`, then `Finish()` again. -/
theorem Finish_idempotent_witness :
    NewBuilder.Finish = (.ok (), { NewBuilder with finished := true }) ∧
    ({ NewBuilder with finished := true }.run [.StartVector, .Int 1]).2.finished = true ∧
    ({ NewBuilder with finished := true }.run [.StartVector, .Int 1]).2.Finish
      = (.ok (), ({ NewBuilder with finished := true }.run [.StartVector, .Int 1]).2) :=
  ⟨by decide,
    (Finish_idempotent NewBuilder { NewBuilder with finished := true } (by decide)
      [.StartVector, .Int 1]).2.2.2.2.2⟩

/-- C13: on a builder reached from NewBuilder through public calls, `End()` panics exactly
when the head index is 0, which is when the stack holds the root alone, and the builder
stays as it was; otherwise it returns, the stack has lost its top entry and nothing else,
the head index is one less, and the memory is untouched. -/
theorem End_pops_top (b : Builder) (hr : Reachable b) :
    ((b.End).1 = .panic ↔ b.headIndex = 0) ∧
    (b.headIndex = 0 ↔ b.inProgress = [0]) ∧
    (b.headIndex = 0 → (b.End).2 = b) ∧
    (b.headIndex ≠ 0 → (b.End).1 = .ok () ∧
      (∃ top, b.inProgress = (b.End).2.inProgress ++ [top]) ∧
      (b.End).2.inProgress.length + 1 = b.inProgress.length ∧
      (b.End).2.headIndex = b.headIndex - 1 ∧ (b.End).2.mem = b.mem) := by
  obtain ⟨hhead, hidx⟩ := Reachable_stack b hr
  have hne : b.inProgress ≠ [] := by
    intro h0
    rw [h0] at hhead
    simp at hhead
  have hlen : 1 ≤ b.inProgress.length := by
    cases hs : b.inProgress with
    | nil => exact absurd hs hne
    | cons a t => simp
  have htake : b.inProgress.take b.headIndex.toNat = b.inProgress.dropLast := by
    rw [List.dropLast_eq_take]
    congr 1
    omega
  have hsplit : b.inProgress = b.inProgress.dropLast ++ [b.inProgress.getLast hne] :=
    (List.dropLast_append_getLast hne).symm
  have hEnd : 1 ≤ b.headIndex → (b.End).1 = .ok () ∧
      (b.End).2.inProgress = b.inProgress.dropLast ∧
      (b.End).2.headIndex = b.headIndex - 1 ∧ (b.End).2.mem = b.mem := by
    intro h1
    unfold Builder.End
    rw [if_neg (by omega)]
    dsimp only
    split_ifs
    · refine ⟨rfl, ?_, ?_, ?_⟩ <;> (unfold Builder.Finish; split_ifs <;> simp [htake])
    · exact ⟨rfl, htake, rfl, rfl⟩
  refine ⟨?_, ?_, ?_, ?_⟩
  · constructor
    · intro hp
      by_contra h0
      have := (hEnd (by omega)).1
      rw [hp] at this
      cases this
    · intro h0
      unfold Builder.End
      rw [if_pos (by omega)]
  · constructor
    · intro h0
      cases hs : b.inProgress with
      | nil => exact absurd hs hne
      | cons a t =>
        rw [hs] at hhead hidx
        simp only [List.length_cons] at hidx
        simp only [List.head?_cons, Option.some.injEq] at hhead
        have : t.length = 0 := by omega
        rw [List.length_eq_zero] at this
        rw [hhead, this]
    · intro hs
      rw [hs] at hidx
      simpa using hidx
  · intro h0
    unfold Builder.End
    rw [if_pos (by omega)]
  · intro h0
    obtain ⟨h1, h2, h3, h4⟩ := hEnd (by omega)
    refine ⟨h1, ⟨b.inProgress.getLast hne, ?_⟩, ?_, h3, h4⟩
    · rw [h2]
      exact hsplit
    · rw [h2, List.length_dropLast]
      omega

set_option maxRecDepth 100000 in
/-- Witness of End_pops_top: the builder after `StartVector()`, `StartMap()`, whose stack
is root, vector, map. -/
theorem End_pops_top_witness :
    Reachable (NewBuilder.run [.StartVector, .StartMap]).2 ∧
    (NewBuilder.run [.StartVector, .StartMap]).2.inProgress = [0, 1, 2] ∧
    (NewBuilder.run [.StartVector, .StartMap]).2.headIndex ≠ 0 ∧
    ((NewBuilder.run [.StartVector, .StartMap]).2.End).1 = .ok () ∧
    ((NewBuilder.run [.StartVector, .StartMap]).2.End).2.inProgress = [0, 1] ∧
    (NewBuilder.End).1 = .panic :=
  ⟨⟨[.StartVector, .StartMap], rfl⟩, by decide, by decide,
    ((End_pops_top (NewBuilder.run [.StartVector, .StartMap]).2
      ⟨[.StartVector, .StartMap], rfl⟩).2.2.2 (by decide)).1,
    by decide, by decide⟩

/-! ## Descriptor bytes and sizes -/

/-- C14: for a tag `t < 64` and a width code `w < 4`, `Pack(t, w)` is `(t << 2) | w`, a
byte, and ItemVarType and ItemByteSize give `t` and `w` back; for a byte `d` the two
parts are a tag below 64 and a width code below 4, and Pack of them is `d`. -/
theorem Pack_unpack (t w d : Nat) (ht : t < 64) (hw : w < 4) (hd : d < 256) :
    Pack t w = (t <<< 2) ||| w ∧ Pack t w < 256 ∧
    ItemVarType (Pack t w) = t ∧ ItemByteSize (Pack t w) = w ∧
    ItemVarType d < 64 ∧ ItemByteSize d < 4 ∧
    Pack (ItemVarType d) (ItemByteSize d) = d := by
  refine ⟨?_, ?_, ?_, ?_, ?_, ?_, ?_⟩
  · interval_cases t <;> interval_cases w <;> rfl
  · exact Nat.mod_lt _ (by decide)
  · interval_cases t <;> interval_cases w <;> rfl
  · interval_cases t <;> interval_cases w <;> rfl
  · interval_cases d <;> decide
  · interval_cases d <;> decide
  · interval_cases d <;> rfl

/-- Witness of Pack_unpack: the tag BOOL with the width code 2, and the byte 0x6A. -/
theorem Pack_unpack_witness :
    Pack BOOL 2 = (BOOL <<< 2) ||| 2 ∧ Pack BOOL 2 < 256 ∧
    ItemVarType (Pack BOOL 2) = BOOL ∧ ItemByteSize (Pack BOOL 2) = 2 ∧
    ItemVarType 106 < 64 ∧ ItemByteSize 106 < 4 ∧
    Pack (ItemVarType 106) (ItemByteSize 106) = 106 :=
  Pack_unpack BOOL 2 106 (by decide) (by decide) (by decide)

/-- C15: for a `uint64` value `v`, `uintSize(v)` is one of 1, 2, 4, 8, `v` is below
`2^(8 * uintSize(v))`, and every `w` among 1, 2, 4, 8 with `v < 2^(8w)` is at least
`uintSize(v)`. -/
theorem uintSize_smallest (v : Nat) (hv : v < 2 ^ 64) :
    (uintSize v = 1 ∨ uintSize v = 2 ∨ uintSize v = 4 ∨ uintSize v = 8) ∧
    v < 2 ^ (8 * uintSize v) ∧
    (∀ w : Nat, (w = 1 ∨ w = 2 ∨ w = 4 ∨ w = 8) → v < 2 ^ (8 * w) → uintSize v ≤ w) := by
  unfold uintSize
  refine ⟨?_, ?_, ?_⟩
  · split_ifs <;> simp
  · split_ifs <;> norm_num <;> omega
  · rintro w (rfl | rfl | rfl | rfl) hw <;> norm_num at hw <;> split_ifs <;> omega

/-- Witness of uintSize_smallest: 65536 takes 4 bytes, and does not fit in 2. -/
theorem uintSize_smallest_witness :
    (65536 : Nat) < 2 ^ 64 ∧ uintSize 65536 = 4 ∧ (65536 : Nat) < 2 ^ (8 * uintSize 65536) ∧
    ¬ ((65536 : Nat) < 2 ^ (8 * 2)) :=
  ⟨by norm_num, by decide, (uintSize_smallest 65536 (by norm_num)).2.1, by norm_num⟩

/-- C16: for an `int64` value `v`, `intSize(v)` is one of 1, 2, 4, 8, `v` lies in the
signed range of that many bytes, `-2^(8w-1) <= v < 2^(8w-1)`, and every `w` among
1, 2, 4, 8 whose signed range holds `v` is at least `intSize(v)`. -/
theorem intSize_smallest (v : Int) (hlo : -2 ^ 63 ≤ v) (hhi : v < 2 ^ 63) :
    (intSize v = 1 ∨ intSize v = 2 ∨ intSize v = 4 ∨ intSize v = 8) ∧
    -2 ^ (8 * intSize v - 1) ≤ v ∧ v < 2 ^ (8 * intSize v - 1) ∧
    (∀ w : Nat, (w = 1 ∨ w = 2 ∨ w = 4 ∨ w = 8) →
      -2 ^ (8 * w - 1) ≤ v → v < 2 ^ (8 * w - 1) → intSize v ≤ w) := by
  unfold intSize
  refine ⟨?_, ?_, ?_, ?_⟩
  · split_ifs <;> simp
  · split_ifs <;> norm_num <;> omega
  · split_ifs <;> norm_num <;> omega
  · rintro w (rfl | rfl | rfl | rfl) h1 h2 <;> norm_num at h1 h2 <;> split_ifs <;> omega

/-- Witness of intSize_smallest: -129 takes 2 bytes, and is below the signed range of
1 byte. -/
theorem intSize_smallest_witness :
    (-2 ^ 63 : Int) ≤ -129 ∧ (-129 : Int) < 2 ^ 63 ∧ intSize (-129) = 2 ∧
    (-2 ^ (8 * intSize (-129) - 1) : Int) ≤ -129 ∧ ¬ ((-2 ^ (8 * 1 - 1) : Int) ≤ -129) :=
  ⟨by norm_num, by norm_num, by decide,
    (intSize_smallest (-129) (by norm_num) (by norm_num)).2.1, by norm_num⟩

/-! ## Widths and size fields of serialized containers -/

set_option maxRecDepth 100000 in
/-- C19: the calls `StartVector()`, `Int(10)`, `Int(-10)`, `Bool(true)`,
`Int(2147483647)`, `End()` on a new builder all return without error, and SerializeBuffer
into an empty buffer gives the width 4 to the vector: the 4-byte size field 4, the four
4-byte slots `0A 00 00 00`, `F6 FF FF FF`, `01 00 00 00`, `FF FF FF 7F`, the type table
`Pack(INT, 2)`, `Pack(INT, 2)`, `Pack(BOOL, 2)`, `Pack(INT, 2)`, then the root slot (the
offset 20 in one byte) and the trailer `Pack(VECTOR, 2)`, 1. The index returned is 24,
the position of the root slot. -/
theorem vector_of_width_4_bytes :
    (NewBuilder.run [.StartVector, .Int 10, .Int (-10), .Bool true, .Int 2147483647, .End]).1
      = [.ok (), .ok (), .ok (), .ok (), .ok (), .ok ()] ∧
    ((NewBuilder.run [.StartVector, .Int 10, .Int (-10), .Bool true, .Int 2147483647,
      .End]).2.SerializeBuffer []).1 = .ok 24 ∧
    ((NewBuilder.run [.StartVector, .Int 10, .Int (-10), .Bool true, .Int 2147483647,
      .End]).2.SerializeBuffer []).2.2
      = [4, 0, 0, 0] ++ [0x0A, 0, 0, 0] ++ [0xF6, 0xFF, 0xFF, 0xFF] ++ [1, 0, 0, 0]
        ++ [0xFF, 0xFF, 0xFF, 0x7F] ++ [Pack INT 2, Pack INT 2, Pack BOOL 2, Pack INT 2]
        ++ [20] ++ [Pack VECTOR 2, 1] ∧
    B (((NewBuilder.run [.StartVector, .Int 10, .Int (-10), .Bool true, .Int 2147483647,
      .End]).2.SerializeBuffer []).2.1.mem.struct 1).bSize = 4 := by
  decide

set_option maxRecDepth 100000 in
/-- C17: an untyped vector of 33 times `Int(9223372036854775807)` at the root. The calls
return without error and SerializeBuffer returns 305: the vector has the width 8, its
first slot is at position 8 and its body ends at 305, where the root slot begins, so the
offset the root slot has to hold is `305 - 8 = 297`, and 297 is what the code computes
for it (the 8 bytes `29 01 00 ...` of the root element). The root keeps the width 1, and
the slot written is the single byte `0x29`: the offset is cut to `297 mod 256 = 41`.
updateBitWidth ran over the root before the offset was computed, when the `fieldSize` of
the offset element was still 0. -/
theorem root_offset_truncated :
    (NewBuilder.run (intVectorOps 33 9223372036854775807)).1 = List.replicate 35 (.ok ()) ∧
    ((NewBuilder.run (intVectorOps 33 9223372036854775807)).2.SerializeBuffer []).1
      = .ok 305 ∧
    ((NewBuilder.run (intVectorOps 33 9223372036854775807)).2.SerializeBuffer []).2.2.length
      = 308 ∧
    ((NewBuilder.run (intVectorOps 33 9223372036854775807)).2.SerializeBuffer []).2.2.take 8
      = [33, 0, 0, 0, 0, 0, 0, 0] ∧
    ((NewBuilder.run (intVectorOps 33 9223372036854775807)).2.SerializeBuffer []).2.2.drop 305
      = [41, Pack VECTOR 3, 1] ∧
    (((NewBuilder.run (intVectorOps 33 9223372036854775807)).2.SerializeBuffer
      []).2.1.mem.struct 0).elems = [0] ∧
    (((NewBuilder.run (intVectorOps 33 9223372036854775807)).2.SerializeBuffer
      []).2.1.mem.elem 0).bytes = putUint64 297 ∧
    B (((NewBuilder.run (intVectorOps 33 9223372036854775807)).2.SerializeBuffer
      []).2.1.mem.struct 0).bSize = 1 ∧
    B (((NewBuilder.run (intVectorOps 33 9223372036854775807)).2.SerializeBuffer
      []).2.1.mem.struct 1).bSize = 8 ∧
    ¬ (297 < 2 ^ (8 * B (((NewBuilder.run (intVectorOps 33
      9223372036854775807)).2.SerializeBuffer []).2.1.mem.struct 0).bSize)) := by
  decide

/-! ## What serialization keeps of the memory -/

theorem sameShape_refl (m : Mem) : Mem.sameShape m m :=
  ⟨fun _ => ⟨rfl, rfl⟩, fun _ h => h, rfl⟩

theorem sameShape_trans {m m1 m2 : Mem} (h1 : Mem.sameShape m m1) (h2 : Mem.sameShape m1 m2) :
    Mem.sameShape m m2 :=
  ⟨fun p => ⟨(h2.1 p).1.trans (h1.1 p).1, (h2.1 p).2.trans (h1.1 p).2⟩,
    fun p h => h2.2.1 p (h1.2.1 p h), h2.2.2.trans h1.2.2⟩

theorem elem_setElem (m : Mem) (p q : Nat) (e : element) :
    (m.setElem p e).elem q = if p = q ∧ p < m.elements.length then e else m.elem q := by
  unfold Mem.setElem Mem.elem
  simp only [List.getD_eq_getElem?_getD, List.getElem?_set]
  by_cases h : p = q
  · subst h
    by_cases h2 : p < m.elements.length
    · simp [h2]
    · simp [h2, List.getElem?_eq_none (Nat.le_of_not_lt h2)]
  · simp [h]

theorem sameShape_setElem (m : Mem) (p : Nat) (e : element)
    (he : (m.elem p).bytes.length = 8 → e.bytes.length = 8) :
    Mem.sameShape m (m.setElem p e) := by
  refine ⟨fun _ => ⟨rfl, rfl⟩, fun q hq => ?_, rfl⟩
  rw [elem_setElem]
  split_ifs with h
  · obtain ⟨rfl, _⟩ := h
    exact he hq
  · exact hq

theorem sameShape_setStruct (m : Mem) (s : Nat) (bs : Nat) :
    Mem.sameShape m (m.setStruct s { m.struct s with bSize := bs }) := by
  refine ⟨fun q => ?_, fun _ h => h, structs_length_setStruct _ _ _⟩
  rw [struct_setStruct]
  split_ifs with h
  · obtain ⟨rfl, _⟩ := h
    exact ⟨rfl, rfl⟩
  · exact ⟨rfl, rfl⟩

theorem sameShape_updateBitWidth (m : Mem) (s : Nat) : Mem.sameShape m (updateBitWidth m s) :=
  sameShape_setStruct m s _

theorem sameShape_updateOffsets_aux (vt bs index0 : Nat) (ps : List Ptr) :
    ∀ acc : Mem, Mem.sameShape acc (ps.foldl
      (fun acc sp => acc.setElem sp
        { acc.elem sp with absIndex := index0, fieldType := vt, targetSize := bs }) acc) := by
  induction ps with
  | nil => intro acc; exact sameShape_refl acc
  | cons p ps ih =>
    intro acc
    rw [List.foldl_cons]
    exact sameShape_trans (sameShape_setElem acc p
      { acc.elem p with absIndex := index0, fieldType := vt, targetSize := bs } (fun h => h))
      (ih _)

theorem sameShape_updateOffsets (m : Mem) (s : Nat) (index0 : Nat) :
    Mem.sameShape m (updateOffsets m s index0) :=
  sameShape_updateOffsets_aux _ _ _ _ m

theorem putUint64_length (u : Nat) : (putUint64 u).length = 8 := rfl

theorem Frame_serializeElemsLoop (s index0 : Nat) (ps : List Ptr) :
    ∀ (i : Nat) (m : Mem) (buff : List Nat),
      Frame m buff (serializeElemsLoop s index0 i ps m buff) := by
  induction ps with
  | nil => intro i m buff; exact ⟨sameShape_refl m, List.prefix_refl _⟩
  | cons p ps ih =>
    intro i m buff
    have hm1 : Mem.sameShape m (if !isInline (m.elem p).fieldType then
        m.setElem p (newOffset (u64 ((index0 : Int) + i - (m.elem p).absIndex))
          (m.elem p).fieldType (m.elem p).targetSize) else m) := by
      split_ifs
      · exact sameShape_setElem m p _ (fun _ => rfl)
      · exact sameShape_refl m
    unfold serializeElemsLoop
    dsimp only
    generalize (if !isInline (m.elem p).fieldType then
        m.setElem p (newOffset (u64 ((index0 : Int) + i - (m.elem p).absIndex))
          (m.elem p).fieldType (m.elem p).targetSize) else m) = m1 at hm1 ⊢
    unfold element.serialize
    split_ifs with hB
    · exact ⟨hm1, List.prefix_refl _⟩
    · dsimp only
      have := ih (i + 1) m1 (buff ++ (m1.elem p).bytes.take (B (m1.struct s).bSize))
      exact ⟨sameShape_trans hm1 this.1, (List.prefix_append _ _).trans this.2⟩


theorem Frame_mk {α : Type} {m m1 : Mem} {buff buff1 : List Nat} (o : Outcome α)
    (h1 : Mem.sameShape m m1) (h2 : buff <+: buff1) : Frame m buff (o, m1, buff1) :=
  ⟨h1, h2⟩

theorem Frame_structure_serializeElems (m : Mem) (s : Nat) (buff : List Nat) :
    Frame m buff (structure_serializeElems m s buff) := by
  have h := Frame_serializeElemsLoop s buff.length (m.struct s).elems 0 m buff
  unfold structure_serializeElems
  dsimp only
  revert h
  generalize serializeElemsLoop s buff.length 0 (m.struct s).elems m buff = r
  obtain ⟨o, m1, buff1⟩ := r
  intro h
  cases o with
  | ok a => exact ⟨sameShape_trans h.1 (sameShape_updateOffsets m1 s _), h.2⟩
  | error e => exact h
  | panic => exact h
  | diverge => exact h

theorem Frame_typedVector_serializeElems (m : Mem) (s : Nat) (buff : List Nat) :
    Frame m buff (typedVector_serializeElems m s buff) := by
  unfold typedVector_serializeElems
  dsimp only
  split_ifs
  · exact ⟨sameShape_refl m, List.prefix_refl _⟩
  · have h := Frame_structure_serializeElems m s
      (buff ++ (putUint64 (m.struct s).elems.length).take (B (m.struct s).bSize))
    exact ⟨h.1, (List.prefix_append _ _).trans h.2⟩

theorem Frame_vector_serializeElems (m : Mem) (s : Nat) (buff : List Nat) :
    Frame m buff (vector_serializeElems m s buff) := by
  have h := Frame_typedVector_serializeElems m s buff
  unfold vector_serializeElems
  revert h
  generalize typedVector_serializeElems m s buff = r
  obtain ⟨o, m1, buff1⟩ := r
  intro h
  cases o with
  | ok a => exact ⟨h.1, h.2.trans (List.prefix_append _ _)⟩
  | error e => exact h
  | panic => exact h
  | diverge => exact h

theorem Frame_flexString_serializeElems (m : Mem) (s : Nat) (buff : List Nat) :
    Frame m buff (flexString_serializeElems m s buff) := by
  have h := Frame_typedVector_serializeElems m s buff
  unfold flexString_serializeElems
  revert h
  generalize typedVector_serializeElems m s buff = r
  obtain ⟨o, m1, buff1⟩ := r
  intro h
  cases o with
  | ok a => exact ⟨h.1, h.2.trans (List.prefix_append _ _)⟩
  | error e => exact ⟨h.1, h.2.trans (List.prefix_append _ _)⟩
  | panic => exact h
  | diverge => exact h

theorem Frame_key_serializeElems (m : Mem) (s : Nat) (buff : List Nat) :
    Frame m buff (key_serializeElems m s buff) := by
  have h := Frame_structure_serializeElems m s buff
  unfold key_serializeElems
  revert h
  generalize structure_serializeElems m s buff = r
  obtain ⟨o, m1, buff1⟩ := r
  intro h
  cases o with
  | ok a => exact ⟨h.1, h.2.trans (List.prefix_append _ _)⟩
  | error e => exact ⟨h.1, h.2.trans (List.prefix_append _ _)⟩
  | panic => exact h
  | diverge => exact h

theorem Frame_root_serializeElems (m : Mem) (s : Nat) (buff : List Nat) :
    Frame m buff (root_serializeElems m s buff) := by
  have h := Frame_structure_serializeElems m s buff
  unfold root_serializeElems
  revert h
  generalize structure_serializeElems m s buff = r
  obtain ⟨o, m1, buff1⟩ := r
  intro h
  cases o with
  | ok a =>
    dsimp only
    split
    · exact h
    · refine ⟨h.1, h.2.trans ?_⟩
      rw [List.append_assoc]
      exact List.prefix_append _ _
  | error e => exact h
  | panic => exact h
  | diverge => exact h

theorem Frame_serializeElems (m : Mem) (s : Nat) (buff : List Nat) :
    Frame m buff (serializeElems m s buff) := by
  unfold serializeElems
  split
  · exact Frame_root_serializeElems m s buff
  · exact Frame_vector_serializeElems m s buff
  · exact Frame_vector_serializeElems m s buff
  · exact Frame_flexString_serializeElems m s buff
  · exact Frame_key_serializeElems m s buff
  · exact Frame_typedVector_serializeElems m s buff
  · exact Frame_typedVector_serializeElems m s buff
  · exact Frame_typedVector_serializeElems m s buff
  · exact Frame_typedVector_serializeElems m s buff

theorem Frame_serializeChildrenLoop
    (rec : Mem → Ptr → List Nat → Bool → Outcome Nat × Mem × List Nat)
    (hrec : ∀ m ch buff pad, Frame m buff (rec m ch buff pad)) (chs : List Ptr) :
    ∀ (m : Mem) (buff : List Nat), Frame m buff (serializeChildrenLoop rec chs m buff) := by
  induction chs with
  | nil => intro m buff; exact ⟨sameShape_refl m, List.prefix_refl _⟩
  | cons ch chs ih =>
    intro m buff
    have h := hrec m ch buff true
    unfold serializeChildrenLoop
    revert h
    generalize rec m ch buff true = r
    obtain ⟨o, m1, buff1⟩ := r
    intro h
    cases o with
    | ok a =>
      have h2 := ih m1 buff1
      exact ⟨sameShape_trans h.1 h2.1, h.2.trans h2.2⟩
    | error e => exact h
    | panic => exact h
    | diverge => exact h

theorem Frame_structure_serializeChildren
    (rec : Mem → Ptr → List Nat → Bool → Outcome Nat × Mem × List Nat)
    (hrec : ∀ m ch buff pad, Frame m buff (rec m ch buff pad))
    (m : Mem) (s : Nat) (buff : List Nat) :
    Frame m buff (structure_serializeChildren rec m s buff) := by
  have h := Frame_serializeChildrenLoop rec hrec (m.struct s).children m buff
  unfold structure_serializeChildren
  revert h
  generalize serializeChildrenLoop rec (m.struct s).children m buff = r
  obtain ⟨o, m1, buff1⟩ := r
  intro h
  cases o with
  | ok a => exact ⟨sameShape_trans h.1 (sameShape_updateBitWidth m1 s), h.2⟩
  | error e => exact h
  | panic => exact h
  | diverge => exact h

theorem Frame_flexMap_serializeChildren
    (rec : Mem → Ptr → List Nat → Bool → Outcome Nat × Mem × List Nat)
    (hrec : ∀ m ch buff pad, Frame m buff (rec m ch buff pad))
    (m : Mem) (s : Nat) (buff : List Nat) :
    Frame m buff (flexMap_serializeChildren rec m s buff) := by
  have h := Frame_structure_serializeChildren rec hrec m s buff
  unfold flexMap_serializeChildren
  revert h
  generalize structure_serializeChildren rec m s buff = r
  obtain ⟨o, m1, buff1⟩ := r
  intro h
  cases o with
  | ok a =>
    dsimp only
    have h2 := hrec m1 (m1.struct s).keys buff1 true
    revert h2
    generalize rec m1 (m1.struct s).keys buff1 true = r2
    obtain ⟨o2, m2, buff2⟩ := r2
    intro h2
    cases o2 with
    | ok i =>
      dsimp only
      have hm3 : Mem.sameShape m2 (if b (uintSize i) > (m2.struct s).bSize then
          m2.setStruct s { m2.struct s with bSize := b (uintSize i) } else m2) := by
        split_ifs
        · exact sameShape_setStruct m2 s _
        · exact sameShape_refl m2
      generalize (if b (uintSize i) > (m2.struct s).bSize then
          m2.setStruct s { m2.struct s with bSize := b (uintSize i) } else m2) = m3 at hm3 ⊢
      split_ifs
      · exact ⟨sameShape_trans h.1 (sameShape_trans h2.1 hm3), h.2.trans h2.2⟩
      · refine ⟨sameShape_trans h.1 (sameShape_trans h2.1 hm3), (h.2.trans h2.2).trans ?_⟩
        rw [List.append_assoc]
        exact List.prefix_append _ _
    | error e => exact ⟨sameShape_trans h.1 h2.1, h.2.trans h2.2⟩
    | panic => exact ⟨sameShape_trans h.1 h2.1, h.2.trans h2.2⟩
    | diverge => exact ⟨sameShape_trans h.1 h2.1, h.2.trans h2.2⟩
  | error e => exact h
  | panic => exact h
  | diverge => exact h

theorem Frame_root_serializeChildren
    (rec : Mem → Ptr → List Nat → Bool → Outcome Nat × Mem × List Nat)
    (hrec : ∀ m ch buff pad, Frame m buff (rec m ch buff pad))
    (m : Mem) (s : Nat) (buff : List Nat) :
    Frame m buff (root_serializeChildren rec m s buff) := by
  unfold root_serializeChildren
  dsimp only
  split
  · exact ⟨sameShape_updateBitWidth m s, List.prefix_refl _⟩
  · next ch _ _ =>
    have h := hrec m ch buff false
    revert h
    generalize rec m ch buff false = r
    obtain ⟨o, m1, buff1⟩ := r
    intro h
    cases o with
    | ok a => exact ⟨sameShape_trans h.1 (sameShape_updateBitWidth m1 s), h.2⟩
    | error e => exact h
    | panic => exact h
    | diverge => exact h

theorem Frame_serializeChildren
    (rec : Mem → Ptr → List Nat → Bool → Outcome Nat × Mem × List Nat)
    (hrec : ∀ m ch buff pad, Frame m buff (rec m ch buff pad))
    (m : Mem) (s : Nat) (buff : List Nat) :
    Frame m buff (serializeChildren rec m s buff) := by
  unfold serializeChildren
  split
  · exact Frame_flexMap_serializeChildren rec hrec m s buff
  · exact Frame_root_serializeChildren rec hrec m s buff
  · exact Frame_structure_serializeChildren rec hrec m s buff

theorem appendPadding_extends (buff : List Nat) (n : Nat) : buff <+: appendPadding buff n := by
  unfold appendPadding
  dsimp only
  split_ifs
  · exact List.prefix_append _ _
  · exact List.prefix_refl _

theorem Frame_serialize (fuel : Nat) :
    ∀ (m : Mem) (s : Nat) (buff : List Nat) (pad : Bool),
      Frame m buff (serialize fuel m s buff pad) := by
  induction fuel with
  | zero => intro m s buff pad; exact ⟨sameShape_refl m, List.prefix_refl _⟩
  | succ fuel ih =>
    intro m s buff pad
    have h := Frame_serializeChildren
      (fun m1 ch buff1 pad => serialize fuel m1 ch buff1 pad) ih m s buff
    unfold serialize
    revert h
    generalize serializeChildren
      (fun m1 ch buff1 pad => serialize fuel m1 ch buff1 pad) m s buff = r
    obtain ⟨o, m1, buff1⟩ := r
    intro h
    cases o with
    | ok a =>
      dsimp only
      have h2 := Frame_serializeElems m1 s buff1
      revert h2
      generalize serializeElems m1 s buff1 = r2
      obtain ⟨o2, m2, buff2⟩ := r2
      intro h2
      cases o2 with
      | ok i =>
        dsimp only
        split_ifs
        · exact ⟨sameShape_trans h.1 h2.1,
            (h.2.trans h2.2).trans (appendPadding_extends _ _)⟩
        · exact ⟨sameShape_trans h.1 h2.1, h.2.trans h2.2⟩
      | error e => exact ⟨sameShape_trans h.1 h2.1, h.2.trans h2.2⟩
      | panic => exact ⟨sameShape_trans h.1 h2.1, h.2.trans h2.2⟩
      | diverge => exact ⟨sameShape_trans h.1 h2.1, h.2.trans h2.2⟩
    | error e => exact h
    | panic => exact h
    | diverge => exact h


theorem ItemByteSize_Pack (ft bs : Nat) (h : bs < 4) : ItemByteSize (u8 (Pack ft bs)) = bs := by
  have h3 : ItemByteSize (u8 (Pack ft bs)) = u8 (Pack ft bs) % 2 ^ 2 :=
    Nat.and_pow_two_sub_one_eq_mod _ 2
  have h4 : (ft <<< 2) ||| bs = 2 ^ 2 * ft + bs := by
    rw [Nat.mul_add_lt_is_or (show bs < 2 ^ 2 from h) ft, Nat.shiftLeft_eq, Nat.mul_comm]
  rw [h3]
  unfold Pack u8
  rw [h4]
  norm_num
  show @Eq Nat ((4 * ft + bs) % 4) bs
  omega

theorem B_le_8 (bs : Nat) (h : ¬ B bs > 8) :
    bs < 4 ∧ (B bs = 1 ∨ B bs = 2 ∨ B bs = 4 ∨ B bs = 8) := by
  unfold B at h ⊢
  have hlt : bs < 4 := by
    by_contra hge
    have : 2 ^ 4 ≤ 2 ^ bs := Nat.pow_le_pow_right (by decide) (Nat.le_of_not_lt hge)
    omega
  refine ⟨hlt, ?_⟩
  interval_cases bs <;> simp

theorem structs_updateOffsets_aux (vt bs index0 : Nat) (ps : List Ptr) :
    ∀ acc : Mem, (ps.foldl
      (fun acc sp => acc.setElem sp
        { acc.elem sp with absIndex := index0, fieldType := vt, targetSize := bs })
      acc).structs = acc.structs := by
  induction ps with
  | nil => intro acc; rfl
  | cons p ps ih =>
    intro acc
    rw [List.foldl_cons, ih]
    rfl

theorem struct_updateOffsets (m : Mem) (s index0 q : Nat) :
    (updateOffsets m s index0).struct q = m.struct q := by
  unfold Mem.struct updateOffsets
  rw [structs_updateOffsets_aux]

/-- The last call of serialize on a root that holds one element: what root.serializeElems
appends. -/
theorem root_serializeElems_one (m1 m2 : Mem) (r p i : Nat) (buff1 out : List Nat)
    (helems : (m1.struct r).elems = [p]) (hbytes : (m1.elem p).bytes.length = 8)
    (h : root_serializeElems m1 r buff1 = (.ok i, m2, out)) :
    i = buff1.length ∧ ¬ B (m2.struct r).bSize > 8 ∧
    (∃ slot : List Nat, slot.length = B (m2.struct r).bSize ∧
      out = buff1 ++ slot ++
        [u8 (if isInline (m2.elem p).fieldType then Pack (m2.elem p).fieldType (m2.struct r).bSize
          else Pack (m2.elem p).fieldType (m2.elem p).targetSize), u8 (B (m2.struct r).bSize)]) := by
  unfold root_serializeElems structure_serializeElems at h
  rw [helems] at h
  unfold serializeElemsLoop at h
  dsimp only at h
  have hm1 : Mem.sameShape m1 (if !isInline (m1.elem p).fieldType then
      m1.setElem p (newOffset (u64 ((buff1.length : Int) + (0 : Nat) - (m1.elem p).absIndex))
        (m1.elem p).fieldType (m1.elem p).targetSize) else m1) := by
    split_ifs
    · exact sameShape_setElem m1 p _ (fun _ => rfl)
    · exact sameShape_refl m1
  generalize (if !isInline (m1.elem p).fieldType then
      m1.setElem p (newOffset (u64 ((buff1.length : Int) + (0 : Nat) - (m1.elem p).absIndex))
        (m1.elem p).fieldType (m1.elem p).targetSize) else m1) = m3 at hm1 h
  unfold element.serialize at h
  split_ifs at h with hB
  · cases h
  · dsimp only at h
    unfold serializeElemsLoop at h
    dsimp only at h
    have hs : ∀ q : Nat, ((updateOffsets m3 r buff1.length).struct q) = m3.struct q :=
      fun q => struct_updateOffsets m3 r buff1.length q
    have he : ((updateOffsets m3 r buff1.length).struct r).elems = [p] := by
      rw [hs, (hm1.1 r).2, helems]
    rw [he] at h
    dsimp only at h
    cases h
    refine ⟨rfl, ?_, (m3.elem p).bytes.take (B (m3.struct r).bSize), ?_, ?_⟩
    · rw [hs]; exact hB
    · rw [hs, List.length_take, hm1.2.1 p hbytes]
      omega
    · rw [hs]
      simp


/-- SerializeBuffer on a builder whose pointer 0 is a root that holds one element of 8
payload bytes, when it returns without error: the root slot of `w` bytes at the index
returned, the descriptor byte and the width byte `w` end the buffer. -/
theorem root_trailer_of_shape (b b1 : Builder) (buff out : List Nat) (p i : Nat)
    (hroot : (b.mem.struct 0).dyn = Dyn.root)
    (helems : (b.mem.struct 0).elems = [p])
    (hbytes : (b.mem.elem p).bytes.length = 8)
    (hok : b.SerializeBuffer buff = (.ok i, b1, out)) :
    ∃ w d : Nat,
      (w = 1 ∨ w = 2 ∨ w = 4 ∨ w = 8) ∧
      w = B (b1.mem.struct 0).bSize ∧
      2 ≤ out.length ∧
      buff.length ≤ i ∧
      out.length = i + w + 2 ∧
      out.drop (i + w) = [d, w] ∧
      d < 256 ∧
      (isInline (b1.mem.elem p).fieldType = true → 2 ^ ItemByteSize d = w) := by
  unfold Builder.SerializeBuffer at hok
  generalize hser : serialize (b.mem.structs.length + 1) b.mem 0 buff false = res at hok
  obtain ⟨o, m2, out1⟩ := res
  simp only [Prod.mk.injEq] at hok
  obtain ⟨rfl, rfl, rfl⟩ := hok
  unfold serialize at hser
  have hch := Frame_serializeChildren
    (fun m1 ch buff1 pad => serialize b.mem.structs.length m1 ch buff1 pad)
    (Frame_serialize b.mem.structs.length) b.mem 0 buff
  revert hch hser
  generalize serializeChildren
    (fun m1 ch buff1 pad => serialize b.mem.structs.length m1 ch buff1 pad) b.mem 0 buff = r
  obtain ⟨o1, m1, buff1⟩ := r
  intro hser hch
  cases o1 with
  | error e => cases hser
  | panic => cases hser
  | diverge => cases hser
  | ok a =>
    dsimp only at hser
    have hdyn : (m1.struct 0).dyn = Dyn.root := by rw [(hch.1.1 0).1, hroot]
    have hel : (m1.struct 0).elems = [p] := by rw [(hch.1.1 0).2, helems]
    have hby : (m1.elem p).bytes.length = 8 := hch.1.2.1 p hbytes
    have hse : serializeElems m1 0 buff1 = root_serializeElems m1 0 buff1 := by
      unfold serializeElems
      rw [hdyn]
    rw [hse] at hser
    generalize hre : root_serializeElems m1 0 buff1 = r2 at hser
    obtain ⟨o2, m3, out2⟩ := r2
    cases o2 with
    | error e => cases hser
    | panic => cases hser
    | diverge => cases hser
    | ok i2 =>
      dsimp only at hser
      rw [if_neg (by simp)] at hser
      simp only [Prod.mk.injEq, Outcome.ok.injEq] at hser
      obtain ⟨rfl, rfl, rfl⟩ := hser
      obtain ⟨hi, hB, slot, hslot, hout⟩ := root_serializeElems_one m1 m3 0 p i2 buff1 out2
        hel hby hre
      obtain ⟨hlt, hw⟩ := B_le_8 _ hB
      have hu8 : u8 (B (m3.struct 0).bSize) = B (m3.struct 0).bSize := by
        unfold u8
        omega
      have hpre : buff.length ≤ buff1.length := hch.2.length_le
      refine ⟨B (m3.struct 0).bSize,
        u8 (if isInline (m3.elem p).fieldType then Pack (m3.elem p).fieldType (m3.struct 0).bSize
          else Pack (m3.elem p).fieldType (m3.elem p).targetSize),
        hw, rfl, ?_, ?_, ?_, ?_, Nat.mod_lt _ (by decide), ?_⟩
      · rw [hout]
        simp only [List.length_append, List.length_cons, List.length_nil]
        omega
      · omega
      · rw [hout, hi]
        simp only [List.length_append, List.length_cons, List.length_nil, hslot]
      · rw [hout, hi, hu8, ← hslot, ← List.length_append, List.drop_left]
      · intro hin
        rw [if_pos hin, ItemByteSize_Pack _ _ hlt]
        rfl

/-! ## What every call keeps of the memory -/

theorem grows_refl (m : Mem) : Mem.grows m m :=
  ⟨Nat.le_refl _, fun _ _ => rfl, fun h => h⟩

theorem grows_trans {m m1 m2 : Mem} (h1 : Mem.grows m m1) (h2 : Mem.grows m1 m2) :
    Mem.grows m m2 :=
  ⟨Nat.le_trans h1.1 h2.1,
    fun p hp => (h2.2.1 p (Nat.lt_of_lt_of_le hp h1.1)).trans (h1.2.1 p hp),
    fun h => h2.2.2 (h1.2.2 h)⟩

theorem grows_of_sameShape {m m1 : Mem} (h : Mem.sameShape m m1) : Mem.grows m m1 :=
  ⟨Nat.le_of_eq h.2.2.symm, fun p _ => (h.1 p).1, fun h8 p => h.2.1 p (h8 p)⟩

theorem grows_setStruct (m : Mem) (s : Nat) (st : Structure) (h : st.dyn = (m.struct s).dyn) :
    Mem.grows m (m.setStruct s st) := by
  refine ⟨Nat.le_of_eq (structs_length_setStruct _ _ _).symm, fun q _ => ?_, fun h8 => h8⟩
  rw [struct_setStruct]
  split_ifs with hq
  · obtain ⟨rfl, _⟩ := hq
    exact h
  · rfl

theorem elem_allocElem (m : Mem) (e : element) (p : Nat) :
    (m.allocElem e).2.elem p = m.elem p ∨ (m.allocElem e).2.elem p = e := by
  unfold Mem.allocElem Mem.elem
  simp only [List.getD_eq_getElem?_getD]
  by_cases hp : p < m.elements.length
  · left
    rw [List.getElem?_append_left hp]
  · by_cases hp2 : p = m.elements.length
    · right
      subst hp2
      simp
    · left
      rw [List.getElem?_eq_none, List.getElem?_eq_none]
      · omega
      · simp only [List.length_append, List.length_singleton]
        omega

theorem grows_allocElem (m : Mem) (e : element) (he : e.bytes.length = 8) :
    Mem.grows m (m.allocElem e).2 := by
  refine ⟨Nat.le_refl _, fun _ _ => rfl, fun h8 p => ?_⟩
  rcases elem_allocElem m e p with h | h
  · rw [h]; exact h8 p
  · rw [h]; exact he

theorem grows_allocStruct (m : Mem) (st : Structure) : Mem.grows m (m.allocStruct st).2 := by
  refine ⟨?_, fun p hp => ?_, fun h8 => h8⟩
  · simp [Mem.allocStruct]
  · simp only [Mem.allocStruct, Mem.struct, List.getD_eq_getElem?_getD]
    rw [List.getElem?_append_left hp]

theorem grows_bindOffset (m : Mem) (s off : Nat) : Mem.grows m (bindOffset m s off) :=
  grows_setStruct m s _ rfl

theorem grows_structure_insertElement (m : Mem) (s : Nat) (e : element) (index : Nat)
    (he : e.bytes.length = 8) : Mem.grows m (structure_insertElement m s e index).2 := by
  unfold structure_insertElement
  split
  · exact grows_refl m
  · dsimp only
    have h1 := grows_allocElem m e he
    split_ifs
    · exact grows_trans h1 (grows_setStruct _ s _ rfl)
    · exact grows_trans h1 (grows_setStruct _ s _ rfl)

theorem grows_structure_insertOffsetToObject (m : Mem) (s o index : Nat) :
    Mem.grows m (structure_insertOffsetToObject m s o index).2 := by
  have h := grows_structure_insertElement m s { zeroElement with fieldType := getVtype m o }
    index rfl
  unfold structure_insertOffsetToObject
  dsimp only
  revert h
  generalize structure_insertElement m s { zeroElement with fieldType := getVtype m o } index = r
  obtain ⟨res, m1⟩ := r
  intro h
  cases res with
  | ok n =>
    dsimp only
    have h2 := grows_bindOffset m1 o ((m1.struct s).elems.getD n 0)
    split_ifs
    · exact grows_trans h (grows_trans h2 (grows_setStruct _ s _ rfl))
    · exact grows_trans h (grows_trans h2 (grows_setStruct _ s _ rfl))
  | error e => exact h
  | panic => exact h
  | diverge => exact h

theorem grows_insertElement (m : Mem) (s : Nat) (e : element) (index : Nat)
    (he : e.bytes.length = 8) : Mem.grows m (insertElement m s e index).2 := by
  unfold insertElement
  split
  · exact grows_refl m
  · unfold root_insertElement
    split_ifs
    · exact grows_refl m
    · exact grows_structure_insertElement m s e 0 he
  · exact grows_structure_insertElement m s e index he

theorem grows_insertOffsetToObject (m : Mem) (s o index : Nat) :
    Mem.grows m (insertOffsetToObject m s o index).2 := by
  unfold insertOffsetToObject
  split
  · exact grows_refl m
  · unfold root_insertOffsetToObject
    split_ifs
    · exact grows_refl m
    · exact grows_structure_insertOffsetToObject m s o 0
  · exact grows_structure_insertOffsetToObject m s o index

theorem newUINT_bytes (u : Nat) : (newUINT u).bytes.length = 8 := rfl

theorem newINT_bytes (i : Int) : (newINT i).bytes.length = 8 := rfl

theorem newFLOAT_bytes (f : GoFloat) : (newFLOAT f).bytes.length = 8 := by
  unfold newFLOAT
  dsimp only
  split <;> rfl

theorem newBOOL_bytes (l : Bool) : (newBOOL l).bytes.length = 8 := by
  cases l <;> rfl

theorem newNULL_bytes : newNULL.bytes.length = 8 := rfl

theorem grows_flexString_Append_aux (s : Nat) (cs : List Nat) :
    ∀ m : Mem, Mem.grows m
      (cs.foldl (fun acc char => (structure_addElement acc s (newUINT char)).2) m) := by
  induction cs with
  | nil => intro m; exact grows_refl m
  | cons c cs ih =>
    intro m
    rw [List.foldl_cons]
    exact grows_trans (grows_structure_insertElement m s (newUINT c) _ (newUINT_bytes c)) (ih _)

theorem grows_flexString_Append (m : Mem) (s : Nat) (str : String) :
    Mem.grows m (flexString_Append m s str) :=
  grows_flexString_Append_aux s (runes str) m

theorem grows_newTypedVector (m : Mem) (vType : Nat) : Mem.grows m (newTypedVector m vType).2 := by
  unfold newTypedVector
  split_ifs
  · exact grows_refl m
  · exact grows_allocStruct m _

theorem grows_newFixedTypedVector (m : Mem) (vType : Nat) :
    Mem.grows m (newFixedTypedVector m vType).2 := by
  unfold newFixedTypedVector
  split_ifs
  · exact grows_refl m
  · exact grows_allocStruct m _

theorem grows_newVector (m : Mem) : Mem.grows m (newVector m).2 := grows_allocStruct m _

theorem grows_newBlob (m : Mem) (bytes : List Nat) : Mem.grows m (newBlob m bytes).2 :=
  grows_allocStruct m _

theorem grows_newFlexString (m : Mem) (str : String) : Mem.grows m (newFlexString m str).2 :=
  grows_trans (grows_allocStruct m _) (grows_flexString_Append _ _ str)

theorem grows_newKey (m : Mem) (str : String) : Mem.grows m (newKey m str).2 :=
  grows_trans (grows_allocStruct m _) (grows_flexString_Append _ _ str)

theorem grows_newFlexMap (m : Mem) : Mem.grows m (newFlexMap m).2 :=
  grows_trans (grows_allocStruct m _)
    (grows_trans (grows_allocStruct _ _) (grows_setStruct _ _ _ rfl))

theorem grows_addElementWithKey (m : Mem) (mp k : Nat) (e : element) (he : e.bytes.length = 8) :
    Mem.grows m (addElementWithKey m mp k e).2 := by
  unfold addElementWithKey
  split
  · exact grows_refl m
  · exact grows_refl m
  · split
    · next index _ =>
      have h := grows_structure_insertOffsetToObject m (m.struct mp).keys k index
      revert h
      generalize structure_insertOffsetToObject m (m.struct mp).keys k index = r
      obtain ⟨res, m1⟩ := r
      intro h
      cases res with
      | ok n => exact grows_trans h (grows_structure_insertElement m1 mp e n he)
      | error e => exact h
      | panic => exact h
      | diverge => exact h
    · exact grows_refl m
    · exact grows_refl m
    · exact grows_refl m

theorem grows_addOffsetWithKey (m : Mem) (mp k o : Nat) :
    Mem.grows m (addOffsetWithKey m mp k o).2 := by
  unfold addOffsetWithKey
  split
  · exact grows_refl m
  · exact grows_refl m
  · split
    · next index _ =>
      have h := grows_structure_insertOffsetToObject m (m.struct mp).keys k index
      revert h
      generalize structure_insertOffsetToObject m (m.struct mp).keys k index = r
      obtain ⟨res, m1⟩ := r
      intro h
      cases res with
      | ok n => exact grows_trans h (grows_structure_insertOffsetToObject m1 mp o index)
      | error e => exact h
      | panic => exact h
      | diverge => exact h
    · exact grows_refl m
    · exact grows_refl m
    · exact grows_refl m

theorem Finish_grows (b : Builder) : Mem.grows b.mem (b.Finish).2.mem := by
  unfold Builder.Finish
  split_ifs <;> exact grows_refl _

theorem End_grows (b : Builder) : Mem.grows b.mem (b.End).2.mem := by
  unfold Builder.End
  split_ifs
  · exact grows_refl _
  · dsimp only
    split_ifs
    · exact Finish_grows
        ⟨b.finished, b.inProgress.take b.headIndex.toNat, b.headIndex - 1, b.mem⟩
    · exact grows_refl _

theorem start_grows (b : Builder) (o : Nat) : Mem.grows b.mem (b.start o).2.mem := by
  unfold Builder.start
  split
  · exact grows_refl _
  · next head _ =>
    have h := grows_insertOffsetToObject b.mem head o (elemsCount b.mem head)
    unfold addOffsetToObject
    revert h
    generalize insertOffsetToObject b.mem head o (elemsCount b.mem head) = r
    obtain ⟨res, m1⟩ := r
    intro h
    cases res <;> exact h

theorem startWithKey_grows (b : Builder) (k : Option Ptr) (o : Nat) :
    Mem.grows b.mem (b.startWithKey k o).2.mem := by
  unfold Builder.startWithKey
  split
  · exact grows_refl _
  · next head _ =>
    split
    · exact grows_refl _
    · next k =>
      split_ifs
      · exact grows_refl _
      · exact grows_refl _
      · have h := grows_addOffsetWithKey b.mem head k o
        revert h
        generalize addOffsetWithKey b.mem head k o = r
        obtain ⟨res, m1⟩ := r
        intro h
        cases res <;> exact h

theorem registerElement_grows (b : Builder) (e : element) (he : e.bytes.length = 8) :
    Mem.grows b.mem (b.registerElement e).2.mem := by
  unfold Builder.registerElement
  split
  · exact grows_refl _
  · next head _ =>
    have h := grows_insertElement b.mem head e (elemsCount b.mem head) he
    unfold addElement
    revert h
    generalize insertElement b.mem head e (elemsCount b.mem head) = r
    obtain ⟨res, m1⟩ := r
    intro h
    cases res with
    | ok n =>
      dsimp only
      split_ifs
      · exact grows_trans h (Finish_grows ⟨b.finished, b.inProgress, b.headIndex, m1⟩)
      · exact h
    | error e => exact h
    | panic => exact h
    | diverge => exact h

theorem registerElementWithKey_grows (b : Builder) (k : Option Ptr) (e : element)
    (he : e.bytes.length = 8) : Mem.grows b.mem (b.registerElementWithKey k e).2.mem := by
  unfold Builder.registerElementWithKey
  split
  · exact grows_refl _
  · next head _ =>
    split
    · exact grows_refl _
    · next k =>
      split_ifs
      · exact grows_refl _
      · exact grows_refl _
      · have h := grows_addElementWithKey b.mem head k e he
        revert h
        generalize addElementWithKey b.mem head k e = r
        obtain ⟨res, m1⟩ := r
        intro h
        cases res <;> exact h

theorem deferEnd_grows (r : Outcome Unit × Builder) :
    Mem.grows r.2.mem (Builder.deferEnd r).2.mem := by
  obtain ⟨res, b1⟩ := r
  have h := End_grows b1
  unfold Builder.deferEnd
  cases res with
  | diverge => exact grows_refl _
  | panic => exact h
  | ok a =>
    dsimp only
    revert h
    generalize b1.End = r2
    obtain ⟨res2, b2⟩ := r2
    intro h
    cases res2 <;> exact h
  | error e =>
    dsimp only
    revert h
    generalize b1.End = r2
    obtain ⟨res2, b2⟩ := r2
    intro h
    cases res2 <;> exact h

theorem SerializeBuffer_grows (b : Builder) (buff : List Nat) :
    Mem.grows b.mem (b.SerializeBuffer buff).2.1.mem := by
  unfold Builder.SerializeBuffer
  exact grows_of_sameShape (Frame_serialize _ b.mem 0 buff false).1

theorem Append_grows (b : Builder) (str : String) : Mem.grows b.mem (b.Append str).2.mem := by
  unfold Builder.Append
  split
  · exact grows_refl _
  · split_ifs
    · exact grows_refl _
    · exact grows_flexString_Append _ _ _

theorem start_mem_grows (b : Builder) (m1 : Mem) (o : Nat) :
    Mem.grows m1 ({ b with mem := m1 }.start o).2.mem :=
  start_grows ⟨b.finished, b.inProgress, b.headIndex, m1⟩ o

theorem startWithKey_mem_grows (b : Builder) (m1 : Mem) (k : Option Ptr) (o : Nat) :
    Mem.grows m1 ({ b with mem := m1 }.startWithKey k o).2.mem :=
  startWithKey_grows ⟨b.finished, b.inProgress, b.headIndex, m1⟩ k o

theorem registerElementWithKey_mem_grows (b : Builder) (m1 : Mem) (k : Option Ptr)
    (e : element) (he : e.bytes.length = 8) :
    Mem.grows m1 ({ b with mem := m1 }.registerElementWithKey k e).2.mem :=
  registerElementWithKey_grows ⟨b.finished, b.inProgress, b.headIndex, m1⟩ k e he

theorem startTyped_grows (b : Builder) (vType : Nat) :
    Mem.grows b.mem (b.startTyped vType).2.mem := by
  have h := grows_newTypedVector b.mem vType
  unfold Builder.startTyped
  revert h
  generalize newTypedVector b.mem vType = r
  obtain ⟨res, m1⟩ := r
  intro h
  cases res with
  | ok o => exact grows_trans h (start_mem_grows b m1 o)
  | error e => exact h
  | panic => exact h
  | diverge => exact h

theorem startFixed_grows (b : Builder) (vType : Nat) :
    Mem.grows b.mem (b.startFixed vType).2.mem := by
  have h := grows_newFixedTypedVector b.mem vType
  unfold Builder.startFixed
  revert h
  generalize newFixedTypedVector b.mem vType = r
  obtain ⟨res, m1⟩ := r
  intro h
  cases res with
  | ok o => exact grows_trans h (start_mem_grows b m1 o)
  | error e => exact h
  | panic => exact h
  | diverge => exact h

theorem startTypedWithKey_grows (b : Builder) (k : String) (vType : Nat) :
    Mem.grows b.mem (b.startTypedWithKey k vType).2.mem := by
  have h := grows_newTypedVector (newKey b.mem k).2 vType
  have hk := grows_newKey b.mem k
  unfold Builder.startTypedWithKey
  revert h
  dsimp only
  generalize newTypedVector (newKey b.mem k).2 vType = r
  obtain ⟨res, m1⟩ := r
  intro h
  cases res with
  | ok o => exact grows_trans hk (grows_trans h (startWithKey_mem_grows b m1 _ o))
  | error e => exact grows_trans hk h
  | panic => exact grows_trans hk h
  | diverge => exact grows_trans hk h

theorem startFixedWithKey_grows (b : Builder) (k : String) (vType : Nat) :
    Mem.grows b.mem (b.startFixedWithKey k vType).2.mem := by
  have h := grows_newFixedTypedVector (newKey b.mem k).2 vType
  have hk := grows_newKey b.mem k
  unfold Builder.startFixedWithKey
  revert h
  dsimp only
  generalize newFixedTypedVector (newKey b.mem k).2 vType = r
  obtain ⟨res, m1⟩ := r
  intro h
  cases res with
  | ok o => exact grows_trans hk (grows_trans h (startWithKey_mem_grows b m1 _ o))
  | error e => exact grows_trans hk h
  | panic => exact grows_trans hk h
  | diverge => exact grows_trans hk h

theorem apply_grows (b : Builder) (op : Op) : Mem.grows b.mem (b.apply op).2.mem := by
  cases op with
  | Int x => exact registerElement_grows _ _ (newINT_bytes x)
  | Uint x => exact registerElement_grows _ _ (newUINT_bytes x)
  | Float x => exact registerElement_grows _ _ (newFLOAT_bytes x)
  | Bool x => exact registerElement_grows _ _ (newBOOL_bytes x)
  | Null => exact registerElement_grows _ _ newNULL_bytes
  | StartVector => exact grows_trans (grows_newVector b.mem) (start_mem_grows b _ _)
  | StartTypedIntVector => exact startTyped_grows _ _
  | StartTypedUintVector => exact startTyped_grows _ _
  | StartTypedFloatVector => exact startTyped_grows _ _
  | StartTypedBoolVector => exact startTyped_grows _ _
  | StartBlob x => exact grows_trans (grows_newBlob b.mem x) (start_mem_grows b _ _)
  | StartIntScalar => exact startFixed_grows _ _
  | StartIntTuple => exact startFixed_grows _ _
  | StartIntTriple => exact startFixed_grows _ _
  | StartIntQuad => exact startFixed_grows _ _
  | StartUintScalar => exact startFixed_grows _ _
  | StartUintTuple => exact startFixed_grows _ _
  | StartUintTriple => exact startFixed_grows _ _
  | StartUintQuad => exact startFixed_grows _ _
  | StartFloatScalar => exact startFixed_grows _ _
  | StartFloatTuple => exact startFixed_grows _ _
  | StartFloatTriple => exact startFixed_grows _ _
  | StartFloatQuad => exact startFixed_grows _ _
  | StartString => exact grows_trans (grows_newFlexString b.mem "") (start_mem_grows b _ _)
  | String x =>
    exact grows_trans (grows_newFlexString b.mem x)
      (grows_trans (start_mem_grows b _ _) (deferEnd_grows _))
  | StartKey => exact grows_trans (grows_newKey b.mem "") (start_mem_grows b _ _)
  | Key x =>
    exact grows_trans (grows_newKey b.mem x)
      (grows_trans (start_mem_grows b _ _) (deferEnd_grows _))
  | Append x => exact Append_grows _ _
  | StartMap => exact grows_trans (grows_newFlexMap b.mem) (start_mem_grows b _ _)
  | StartMapWithKey k =>
    exact grows_trans (grows_newKey b.mem k)
      (grows_trans (grows_newFlexMap _) (startWithKey_mem_grows b _ _ _))
  | UintWithKey k x =>
    exact grows_trans (grows_newKey b.mem k)
      (registerElementWithKey_mem_grows b _ _ _ (newUINT_bytes x))
  | IntWithKey k x =>
    exact grows_trans (grows_newKey b.mem k)
      (registerElementWithKey_mem_grows b _ _ _ (newINT_bytes x))
  | FloatWithKey k x =>
    exact grows_trans (grows_newKey b.mem k)
      (registerElementWithKey_mem_grows b _ _ _ (newFLOAT_bytes x))
  | BoolWithKey k x =>
    exact grows_trans (grows_newKey b.mem k)
      (registerElementWithKey_mem_grows b _ _ _ (newBOOL_bytes x))
  | NullWithKey k =>
    exact grows_trans (grows_newKey b.mem k)
      (registerElementWithKey_mem_grows b _ _ _ newNULL_bytes)
  | StartVectorWithKey k =>
    exact grows_trans (grows_newKey b.mem k)
      (grows_trans (grows_newVector _) (startWithKey_mem_grows b _ _ _))
  | StartTypedIntVectorWithKey k => exact startTypedWithKey_grows _ _ _
  | StartTypedUintVectorWithKey k => exact startTypedWithKey_grows _ _ _
  | StartTypedFloatVectorWithKey k => exact startTypedWithKey_grows _ _ _
  | StartTypedBoolVectorWithKey k => exact startTypedWithKey_grows _ _ _
  | StartBlobWithKey k x =>
    exact grows_trans (grows_newKey b.mem k)
      (grows_trans (grows_newBlob _ x) (startWithKey_mem_grows b _ _ _))
  | StartIntScalarWithKey k => exact startFixedWithKey_grows _ _ _
  | StartIntTupleWithKey k => exact startFixedWithKey_grows _ _ _
  | StartIntTripleWithKey k => exact startFixedWithKey_grows _ _ _
  | StartIntQuadWithKey k => exact startFixedWithKey_grows _ _ _
  | StartUintScalarWithKey k => exact startFixedWithKey_grows _ _ _
  | StartUintTupleWithKey k => exact startFixedWithKey_grows _ _ _
  | StartUintTripleWithKey k => exact startFixedWithKey_grows _ _ _
  | StartUintQuadWithKey k => exact startFixedWithKey_grows _ _ _
  | StartFloatScalarWithKey k => exact startFixedWithKey_grows _ _ _
  | StartFloatTupleWithKey k => exact startFixedWithKey_grows _ _ _
  | StartFloatTripleWithKey k => exact startFixedWithKey_grows _ _ _
  | StartFloatQuadWithKey k => exact startFixedWithKey_grows _ _ _
  | StartStringWithKey k =>
    exact grows_trans (grows_newKey b.mem k)
      (grows_trans (grows_newFlexString _ "") (startWithKey_mem_grows b _ _ _))
  | StringWithKey k x =>
    exact grows_trans (grows_newKey b.mem k)
      (grows_trans (grows_newFlexString _ x)
        (grows_trans (startWithKey_mem_grows b _ _ _) (deferEnd_grows _)))
  | End => exact End_grows b
  | Finish => exact Finish_grows b
  | SerializeBuffer buff =>
    have h1 := SerializeBuffer_grows b buff
    revert h1
    simp only [Builder.apply]
    generalize b.SerializeBuffer buff = r
    rcases r with ⟨r, b1, bf⟩
    cases r <;> exact id

theorem run_grows (ops : List Op) : ∀ b : Builder, Mem.grows b.mem (b.run ops).2.mem := by
  induction ops with
  | nil => intro b; exact grows_refl _
  | cons op ops ih => intro b; exact grows_trans (apply_grows b op) (ih _)

theorem Reachable_mem (b : Builder) (hr : Reachable b) :
    (b.mem.struct 0).dyn = Dyn.root ∧ ∀ p : Nat, (b.mem.elem p).bytes.length = 8 := by
  obtain ⟨ops, rfl⟩ := hr
  have h := run_grows ops NewBuilder
  refine ⟨h.2.1 0 (by decide), h.2.2 (fun p => ?_)⟩
  cases p <;> rfl

/-! ## The trailer of a buffer -/

/-- C20: SerializeBuffer on a builder reached from NewBuilder through public calls, whose
root holds one element, when it returns without error: the buffer ends with the root
slot, which starts at the index returned, then the descriptor byte `d` and the width byte
`w`; `w` is 1, 2, 4 or 8, the width of the root, and the root slot is `w` bytes long, so
the buffer is at least 3 bytes long. When the root element is inline at the time its
descriptor is written, the low two bits of `d` are the code of `w`: `2^(d & 3) = w`. -/
theorem root_trailer (b b1 : Builder) (buff out : List Nat) (p i : Nat)
    (hr : Reachable b) (helems : (b.mem.struct 0).elems = [p])
    (hok : b.SerializeBuffer buff = (.ok i, b1, out)) :
    ∃ w d : Nat,
      (w = 1 ∨ w = 2 ∨ w = 4 ∨ w = 8) ∧
      w = B (b1.mem.struct 0).bSize ∧
      2 ≤ out.length ∧
      buff.length ≤ i ∧
      out.length = i + w + 2 ∧
      out.drop (i + w) = [d, w] ∧
      d < 256 ∧
      (isInline (b1.mem.elem p).fieldType = true → 2 ^ ItemByteSize d = w) :=
  root_trailer_of_shape b b1 buff out p i (Reachable_mem b hr).1 helems
    ((Reachable_mem b hr).2 p) hok

set_option maxRecDepth 100000 in
/-- Witness of root_trailer: the builder after `Int(300)`. SerializeBuffer into an empty
buffer returns the index 0 and the bytes `2C 01 05 02`: the root slot of 2 bytes, the
descriptor `Pack(INT, 1)` and the width 2. -/
theorem root_trailer_witness :
    Reachable (NewBuilder.run [.Int 300]).2 ∧
    ((NewBuilder.run [.Int 300]).2.mem.struct 0).elems = [0] ∧
    (NewBuilder.run [.Int 300]).2.SerializeBuffer []
      = (.ok 0, ((NewBuilder.run [.Int 300]).2.SerializeBuffer []).2.1, [44, 1, 5, 2]) ∧
    isInline (((NewBuilder.run [.Int 300]).2.SerializeBuffer []).2.1.mem.elem 0).fieldType
      = true ∧
    (∃ w d : Nat,
      (w = 1 ∨ w = 2 ∨ w = 4 ∨ w = 8) ∧
      w = B (((NewBuilder.run [.Int 300]).2.SerializeBuffer []).2.1.mem.struct 0).bSize ∧
      2 ≤ [44, 1, 5, 2].length ∧
      ([] : List Nat).length ≤ 0 ∧
      [44, 1, 5, 2].length = 0 + w + 2 ∧
      [44, 1, 5, 2].drop (0 + w) = [d, w] ∧
      d < 256 ∧
      (isInline (((NewBuilder.run [.Int 300]).2.SerializeBuffer []).2.1.mem.elem 0).fieldType
        = true → 2 ^ ItemByteSize d = w)) :=
  ⟨⟨[.Int 300], rfl⟩, by decide, by decide, by decide,
    root_trailer (NewBuilder.run [.Int 300]).2
      ((NewBuilder.run [.Int 300]).2.SerializeBuffer []).2.1 [] [44, 1, 5, 2]
      0 0 ⟨[.Int 300], rfl⟩ (by decide) (by decide)⟩

/-! ## The size field of a vector of n small integers -/

theorem StartVector_state (v : Int) : NewBuilder.StartVector = (.ok (), intVectorState 0 v) := by
  rfl

theorem Int_on_intVectorState (n : Nat) (v : Int) :
    (intVectorState n v).Int v = (.ok (), intVectorState (n + 1) v) := by
  have hallow : allows (intVectorObject n) (newINT v) = none := by
    rfl
  have hdyn : (intVectorObject n).dyn = Dyn.vector := rfl
  have helems : (intVectorObject n).elems.length = n := by
    simp [intVectorObject]
  simp only [Builder.Int, Builder.registerElement, Builder.getHead, intVectorState]
  simp [addElement, insertElement, Mem.struct, elemsCount, structure_insertElement, hallow,
    Mem.allocElem, Mem.setStruct, Builder.Finish, hdyn, helems]
  simp [intVectorObject, List.range'_concat, List.replicate_succ', Nat.add_comm]
  rfl


theorem run_append (b : Builder) (xs ys : List Op) :
    b.run (xs ++ ys) = ((b.run xs).1 ++ ((b.run xs).2.run ys).1, ((b.run xs).2.run ys).2) := by
  induction xs generalizing b with
  | nil => rfl
  | cons x xs ih =>
    have h := ih (b.apply x).2
    simp only [List.cons_append, Builder.run, List.append_eq]
    rw [h]

theorem run_Ints_on_intVectorState (k : Nat) (v : Int) :
    ∀ n : Nat, (intVectorState n v).run (List.replicate k (.Int v))
      = (List.replicate k (.ok ()), intVectorState (n + k) v) := by
  induction k with
  | zero => intro n; rfl
  | succ k ih =>
    intro n
    rw [List.replicate_succ, Builder.run]
    have h1 : (intVectorState n v).apply (.Int v) = (.ok (), intVectorState (n + 1) v) :=
      Int_on_intVectorState n v
    simp only [h1, ih (n + 1), List.replicate_succ]
    rw [Nat.add_right_comm n 1 k, Nat.add_assoc]

theorem End_on_intVectorState (n : Nat) (v : Int) :
    (intVectorState n v).End = (.ok (), intVectorDone n v) := by
  rfl

theorem run_intVectorOps (n : Nat) (v : Int) :
    NewBuilder.run (intVectorOps n v) = (List.replicate (n + 2) (.ok ()), intVectorDone n v) := by
  unfold intVectorOps
  rw [run_append, run_append]
  have h0 : NewBuilder.run [.StartVector] = ([.ok ()], intVectorState 0 v) := by
    rfl
  have h2 : (intVectorState n v).run [.End] = ([.ok ()], intVectorDone n v) := by
    rfl
  simp only [h0, run_Ints_on_intVectorState, Nat.zero_add, h2]
  rw [List.singleton_append, List.cons_append, ← List.replicate_succ', ← List.replicate_succ]


theorem updateBitWidth_zero (m : Mem) (s : Nat)
    (h : ∀ p ∈ (m.struct s).elems, (m.elem p).fieldSize = 0) :
    updateBitWidth m s = m.setStruct s { m.struct s with bSize := 0 } := by
  unfold updateBitWidth
  have hf : ∀ ps : List Ptr, (∀ p ∈ ps, (m.elem p).fieldSize = 0) →
      ps.foldl (fun acc p => if (m.elem p).fieldSize > acc then (m.elem p).fieldSize else acc) 0
        = 0 := by
    intro ps
    induction ps with
    | nil => intro _; rfl
    | cons p ps ih =>
      intro hp
      rw [List.foldl_cons, hp p (List.mem_cons_self _ _)]
      exact ih (fun q hq => hp q (List.mem_cons_of_mem _ hq))
  dsimp only
  rw [hf _ h]

theorem serializeElemsLoop_inline (s index0 : Nat) (m : Mem) (hB : ¬ B (m.struct s).bSize > 8)
    (ps : List Ptr) (h : ∀ p ∈ ps, isInline (m.elem p).fieldType = true) :
    ∀ (i : Nat) (buff : List Nat), serializeElemsLoop s index0 i ps m buff
      = (.ok (), m, buff ++ ps.flatMap (fun p => (m.elem p).bytes.take (B (m.struct s).bSize))) := by
  induction ps with
  | nil => intro i buff; simp [serializeElemsLoop]
  | cons p ps ih =>
    intro i buff
    have hp := h p (List.mem_cons_self _ _)
    unfold serializeElemsLoop
    simp only [hp, Bool.not_true, Bool.false_eq_true, if_false, element.serialize, if_neg hB]
    rw [ih (fun q hq => h q (List.mem_cons_of_mem _ hq))]
    simp

theorem getD_cons_replicate (e0 x d : element) (n p : Nat) (hp : p ∈ List.range' 1 n) :
    (e0 :: List.replicate n x).getD p d = x := by
  rw [List.mem_range'_1] at hp
  obtain ⟨q, rfl⟩ : ∃ q, p = q + 1 := ⟨p - 1, by omega⟩
  simp only [List.getD_eq_getElem?_getD, List.getElem?_cons_succ]
  rw [List.getElem?_replicate, if_pos (by omega)]
  rfl


theorem elem_intVectorMem (n : Nat) (v : Int) (e0 : element) (p : Nat)
    (hp : p ∈ List.range' 1 n) : (intVectorMem n v e0).elem p = newINT v :=
  getD_cons_replicate e0 (newINT v) zeroElement n p hp

theorem flatMap_const {α : Type} (ps : List α) (f : α → List Nat) (c : Nat)
    (h : ∀ p ∈ ps, f p = [c]) : ps.flatMap f = List.replicate ps.length c := by
  induction ps with
  | nil => rfl
  | cons p ps ih =>
    rw [List.flatMap_cons, h p (List.mem_cons_self _ _),
      ih (fun q hq => h q (List.mem_cons_of_mem _ hq))]
    rfl

theorem map_const_of_mem {α : Type} (ps : List α) (f : α → Nat) (c : Nat)
    (h : ∀ p ∈ ps, f p = c) : ps.map f = List.replicate ps.length c := by
  induction ps with
  | nil => rfl
  | cons p ps ih =>
    rw [List.map_cons, h p (List.mem_cons_self _ _),
      ih (fun q hq => h q (List.mem_cons_of_mem _ hq))]
    rfl

theorem serialize_intVector (n fuel : Nat) (e0 : element) :
    serialize (fuel + 1) (intVectorMem n 1 e0) 1 [] false
      = (.ok 1, intVectorMem n 1 { e0 with absIndex := 1, fieldType := VECTOR, targetSize := 0 },
          [n % 256] ++ List.replicate n 1 ++ List.replicate n (Pack INT 0)) := by
  have hs1 : (intVectorMem n 1 e0).struct 1 = intVectorObject n := rfl
  have hfs : ∀ p ∈ ((intVectorMem n 1 e0).struct 1).elems,
      ((intVectorMem n 1 e0).elem p).fieldSize = 0 := by
    intro p hp
    rw [elem_intVectorMem n 1 e0 p hp]
    rfl
  have hset : (intVectorMem n 1 e0).setStruct 1
      { (intVectorMem n 1 e0).struct 1 with bSize := 0 } = intVectorMem n 1 e0 := rfl
  have hch : serializeChildren (fun m1 ch buff1 pad => serialize fuel m1 ch buff1 pad)
      (intVectorMem n 1 e0) 1 [] = (.ok 0, intVectorMem n 1 e0, []) := by
    unfold serializeChildren
    rw [hs1]
    simp only [intVectorObject]
    unfold structure_serializeChildren
    rw [hs1]
    simp only [intVectorObject, serializeChildrenLoop]
    rw [updateBitWidth_zero _ _ hfs, hset]
    rfl
  have hin : ∀ p ∈ ((intVectorMem n 1 e0).struct 1).elems,
      isInline ((intVectorMem n 1 e0).elem p).fieldType = true := by
    intro p hp
    rw [elem_intVectorMem n 1 e0 p hp]
    rfl
  have hB : ¬ B ((intVectorMem n 1 e0).struct 1).bSize > 8 := by
    show ¬ B 0 > 8
    decide
  have hlen : ((intVectorMem n 1 e0).struct 1).elems.length = n := by
    rw [hs1]
    simp [intVectorObject]
  have hbytes : ((intVectorMem n 1 e0).struct 1).elems.flatMap
      (fun p => ((intVectorMem n 1 e0).elem p).bytes.take
        (B ((intVectorMem n 1 e0).struct 1).bSize)) = List.replicate n 1 := by
    rw [flatMap_const _ _ 1, hlen]
    intro p hp
    rw [elem_intVectorMem n 1 e0 p hp]
    rfl
  have hupd : updateOffsets (intVectorMem n 1 e0) 1 1
      = intVectorMem n 1 { e0 with absIndex := 1, fieldType := VECTOR, targetSize := 0 } := rfl
  have hdesc : itemDescriptors
      (intVectorMem n 1 { e0 with absIndex := 1, fieldType := VECTOR, targetSize := 0 }) 1
      = List.replicate n (Pack INT 0) := by
    unfold itemDescriptors
    rw [map_const_of_mem _ _ (Pack INT 0)]
    · congr 1
    · intro p hp
      rw [elem_intVectorMem n 1 _ p hp, if_pos (by decide)]
      show u8 (Pack INT 0) = Pack INT 0
      decide
  have hel : serializeElems (intVectorMem n 1 e0) 1 []
      = (.ok 1, intVectorMem n 1 { e0 with absIndex := 1, fieldType := VECTOR, targetSize := 0 },
          [n % 256] ++ List.replicate n 1 ++ List.replicate n (Pack INT 0)) := by
    have hdyn : ((intVectorMem n 1 e0).struct 1).dyn = Dyn.vector := rfl
    unfold serializeElems
    rw [hdyn]
    dsimp only
    unfold vector_serializeElems typedVector_serializeElems
    rw [if_neg hB]
    unfold structure_serializeElems
    dsimp only
    rw [serializeElemsLoop_inline 1 _ (intVectorMem n 1 e0) hB _ hin, hbytes]
    dsimp only
    rw [hlen]
    have hsz : (putUint64 n).take (B ((intVectorMem n 1 e0).struct 1).bSize) = [n % 256] := rfl
    rw [hsz]
    simp only [List.nil_append, List.length_singleton]
    rw [hupd, hdesc]
  unfold serialize
  rw [hch]
  dsimp only
  rw [hel]
  simp


theorem serializeElemsLoop_offset (s index0 i p : Nat) (m : Mem) (buff : List Nat)
    (hni : isInline (m.elem p).fieldType = false) (hB : ¬ B (m.struct s).bSize > 8) :
    serializeElemsLoop s index0 i [p] m buff
      = (.ok (),
          m.setElem p (newOffset (u64 ((index0 : Int) + i - (m.elem p).absIndex))
            (m.elem p).fieldType (m.elem p).targetSize),
          buff ++ ((m.setElem p (newOffset (u64 ((index0 : Int) + i - (m.elem p).absIndex))
            (m.elem p).fieldType (m.elem p).targetSize)).elem p).bytes.take
              (B (m.struct s).bSize)) := by
  have hs : ∀ e : element, (m.setElem p e).struct s = m.struct s := fun _ => rfl
  unfold serializeElemsLoop
  simp only [hni, Bool.not_false, if_true, element.serialize, hs, if_neg hB]
  unfold serializeElemsLoop
  rfl

theorem setElem_intVectorMem (n : Nat) (v : Int) (e0 x : element) :
    (intVectorMem n v e0).setElem 0 x = intVectorMem n v x := rfl

theorem elem_zero_intVectorMem (n : Nat) (v : Int) (e0 : element) :
    (intVectorMem n v e0).elem 0 = e0 := rfl

theorem updateOffsets_root_intVectorMem (n : Nat) (v : Int) (e0 : element) (i : Nat) :
    updateOffsets (intVectorMem n v e0) 0 i = intVectorMem n v e0 := rfl

theorem elems_root_intVectorMem (n : Nat) (v : Int) (e0 : element) :
    ((intVectorMem n v e0).struct 0).elems = [0] := rfl

theorem bSize_root_intVectorMem (n : Nat) (v : Int) (e0 : element) :
    ((intVectorMem n v e0).struct 0).bSize = 0 := rfl

theorem serialize_intVector_root (n : Nat) (e0 : element) (h0 : e0.fieldSize = 0) :
    serialize 3 (intVectorMem n 1 e0) 0 [] false
      = (.ok (2 * n + 1),
          intVectorMem n 1 (newOffset (u64 (((2 * n + 1 : Nat) : Int) + (0 : Nat) - (1 : Nat)))
            VECTOR 0),
          [n % 256] ++ List.replicate n 1 ++ List.replicate n (Pack INT 0)
            ++ [2 * n % 256, Pack VECTOR 0, 1]) := by
  have hch : serializeChildren (fun m1 ch buff1 pad => serialize 2 m1 ch buff1 pad)
      (intVectorMem n 1 e0) 0 []
      = (.ok 0, intVectorMem n 1 { e0 with absIndex := 1, fieldType := VECTOR, targetSize := 0 },
          [n % 256] ++ List.replicate n 1 ++ List.replicate n (Pack INT 0)) := by
    have hdyn : ((intVectorMem n 1 e0).struct 0).dyn = Dyn.root := rfl
    have hchildren : ((intVectorMem n 1 e0).struct 0).children = [1] := rfl
    unfold serializeChildren
    rw [hdyn]
    dsimp only
    unfold root_serializeChildren
    rw [hchildren]
    dsimp only
    rw [serialize_intVector n 1 e0]
    dsimp only
    rw [updateBitWidth_zero]
    · rfl
    · intro p hp
      have hp0 : p = 0 := by
        have : p ∈ [0] := hp
        simpa using this
      subst hp0
      exact h0
  have hlen : ([n % 256] ++ List.replicate n 1 ++ List.replicate n (Pack INT 0)).length
      = 2 * n + 1 := by
    simp only [List.length_append, List.length_replicate, List.length_singleton]
    omega
  have hel : serializeElems
      (intVectorMem n 1 { e0 with absIndex := 1, fieldType := VECTOR, targetSize := 0 }) 0
      ([n % 256] ++ List.replicate n 1 ++ List.replicate n (Pack INT 0))
      = (.ok (2 * n + 1),
          intVectorMem n 1 (newOffset (u64 (((2 * n + 1 : Nat) : Int) + (0 : Nat) - (1 : Nat)))
            VECTOR 0),
          [n % 256] ++ List.replicate n 1 ++ List.replicate n (Pack INT 0)
            ++ [2 * n % 256, Pack VECTOR 0, 1]) := by
    have hdyn : ((intVectorMem n 1
        { e0 with absIndex := 1, fieldType := VECTOR, targetSize := 0 }).struct 0).dyn
        = Dyn.root := rfl
    unfold serializeElems
    rw [hdyn]
    dsimp only
    unfold root_serializeElems structure_serializeElems
    have helems : ((intVectorMem n 1
        { e0 with absIndex := 1, fieldType := VECTOR, targetSize := 0 }).struct 0).elems
        = [0] := rfl
    have hni : isInline ((intVectorMem n 1
        { e0 with absIndex := 1, fieldType := VECTOR, targetSize := 0 }).elem 0).fieldType
        = false := by
      show isInline VECTOR = false
      decide
    have hB : ¬ B ((intVectorMem n 1
        { e0 with absIndex := 1, fieldType := VECTOR, targetSize := 0 }).struct 0).bSize > 8 := by
      show ¬ B 0 > 8
      decide
    dsimp only
    rw [hlen, helems, serializeElemsLoop_offset 0 (2 * n + 1) 0 0 _ _ hni hB]
    simp only [setElem_intVectorMem, elem_zero_intVectorMem, updateOffsets_root_intVectorMem,
      elems_root_intVectorMem, bSize_root_intVectorMem]
    have h1 : List.take (B 0)
        (newOffset (u64 (((2 * n + 1 : Nat) : Int) + (0 : Nat) - (1 : Nat))) VECTOR 0).bytes
        = [2 * n % 256] := by
      show [u64 (((2 * n + 1 : Nat) : Int) + (0 : Nat) - (1 : Nat)) % 256] = [2 * n % 256]
      congr 1
      unfold u64
      omega
    have h2 : u8 (if isInline
        (newOffset (u64 (((2 * n + 1 : Nat) : Int) + (0 : Nat) - (1 : Nat))) VECTOR 0).fieldType
          = true then
        Pack (newOffset (u64 (((2 * n + 1 : Nat) : Int) + (0 : Nat) - (1 : Nat))) VECTOR
          0).fieldType 0
        else Pack (newOffset (u64 (((2 * n + 1 : Nat) : Int) + (0 : Nat) - (1 : Nat))) VECTOR
          0).fieldType
          (newOffset (u64 (((2 * n + 1 : Nat) : Int) + (0 : Nat) - (1 : Nat))) VECTOR
            0).targetSize) = Pack VECTOR 0 := by
      show u8 (if isInline VECTOR = true then Pack VECTOR 0 else Pack VECTOR 0) = Pack VECTOR 0
      decide
    have h3 : u8 (B 0) = 1 := by decide
    rw [h1, h2, h3]
    simp only [List.append_assoc, List.singleton_append]
    rfl
  unfold serialize
  rw [hch]
  dsimp only
  rw [hel]
  simp


theorem SerializeBuffer_intVectorDone (n : Nat) :
    (intVectorDone n 1).SerializeBuffer []
      = (.ok (2 * n + 1),
          { intVectorDone n 1 with
            mem := intVectorMem n 1
              (newOffset (u64 (((2 * n + 1 : Nat) : Int) + (0 : Nat) - (1 : Nat))) VECTOR 0) },
          [n % 256] ++ List.replicate n 1 ++ List.replicate n (Pack INT 0)
            ++ [2 * n % 256, Pack VECTOR 0, 1]) := by
  unfold Builder.SerializeBuffer
  show (match serialize 3 (intVectorMem n 1 { zeroElement with fieldType := VECTOR }) 0 []
    false with
    | (r, m1, buff1) => (r, { intVectorDone n 1 with mem := m1 }, buff1)) = _
  rw [serialize_intVector_root n _ rfl]

/-- C18: an untyped vector of `n` times `Int(1)` at the root of a new builder, for every
`n`. The calls return without error and so does SerializeBuffer into an empty buffer. The
vector holds `n` elements and is written with the width 1: the buffer is the size field
of one byte, the `n` slots `01`, the `n` descriptors `Pack(INT, 0)`, the root slot and the
trailer. The size field is `n mod 256`, not `n`: for `n = 300` it reads 44.
typedVector.serializeElems cuts the 8 bytes of the count to `B(bSize)` bytes, and
updateBitWidth, which sets `bSize`, looks at the sizes of the elements and not at their
number. (The root slot `2n mod 256` is cut the same way.) -/
theorem size_field_truncated (n : Nat) :
    (NewBuilder.run (intVectorOps n 1)).1 = List.replicate (n + 2) (.ok ()) ∧
    ((NewBuilder.run (intVectorOps n 1)).2.mem.struct 1).elems.length = n ∧
    ((NewBuilder.run (intVectorOps n 1)).2.SerializeBuffer []).1 = .ok (2 * n + 1) ∧
    B (((NewBuilder.run (intVectorOps n 1)).2.SerializeBuffer []).2.1.mem.struct 1).bSize
      = 1 ∧
    ((NewBuilder.run (intVectorOps n 1)).2.SerializeBuffer []).2.2
      = [n % 256] ++ List.replicate n 1 ++ List.replicate n (Pack INT 0)
        ++ [2 * n % 256, Pack VECTOR 0, 1] ∧
    bytesAsUint (((NewBuilder.run (intVectorOps n 1)).2.SerializeBuffer []).2.2.take 1)
      = .ok (n % 256) := by
  rw [run_intVectorOps, SerializeBuffer_intVectorDone]
  refine ⟨rfl, ?_, rfl, rfl, rfl, rfl⟩
  show (List.range' 1 n).length = n
  simp

/-- The vector of 300 times `Int(1)`: the size field reads 44. -/
theorem size_field_truncated_at_300 :
    300 % 256 = 44 ∧
    ((NewBuilder.run (intVectorOps 300 1)).2.mem.struct 1).elems.length = 300 ∧
    bytesAsUint (((NewBuilder.run (intVectorOps 300 1)).2.SerializeBuffer []).2.2.take 1)
      = .ok (300 % 256) :=
  ⟨by decide, (size_field_truncated 300).2.1, (size_field_truncated 300).2.2.2.2.2⟩

/-! ## A fixed-typed vector is written with its element count -/

theorem length_flatMap_take (m : Mem) (w : Nat) (hw : w ≤ 8) (ps : List Ptr)
    (h : ∀ p ∈ ps, (m.elem p).bytes.length = 8) :
    (ps.flatMap (fun p => (m.elem p).bytes.take w)).length = ps.length * w := by
  induction ps with
  | nil => simp
  | cons p ps ih =>
    have hp := h p (List.mem_cons_self _ _)
    simp only [List.flatMap_cons, List.length_append, List.length_take, List.length_cons, hp,
      ih (fun q hq => h q (List.mem_cons_of_mem _ hq))]
    rw [Nat.min_eq_left hw, Nat.add_mul]
    omega

/-- C21: a fixed-typed vector is not serialized as its elements only. For every
fixed-typed vector object whose elements are inline scalars of 8 payload bytes, at a
width `W` of at most 8 bytes, serializeElems first appends the element count in `W`
bytes and then the elements, each in `W` bytes: the body takes `(k + 1) * W` bytes for
`k` elements, not `k * W`, and the position returned is `W` past the start. -/
theorem fixed_vector_has_size_field (m : Mem) (s : Ptr) (buff : List Nat)
    (hd : (m.struct s).dyn = Dyn.fixedTypedVector)
    (hB : ¬ B (m.struct s).bSize > 8)
    (hin : ∀ p ∈ (m.struct s).elems,
      isInline (m.elem p).fieldType = true ∧ (m.elem p).bytes.length = 8) :
    (serializeElems m s buff).1 = .ok (buff.length + B (m.struct s).bSize) ∧
    (serializeElems m s buff).2.2 =
      buff ++ (putUint64 (m.struct s).elems.length).take (B (m.struct s).bSize) ++
        (m.struct s).elems.flatMap (fun p => (m.elem p).bytes.take (B (m.struct s).bSize)) ∧
    (serializeElems m s buff).2.2.length =
      buff.length + ((m.struct s).elems.length + 1) * B (m.struct s).bSize := by
  have hw : B (m.struct s).bSize ≤ 8 := Nat.le_of_not_lt hB
  have hser : serializeElems m s buff =
      (.ok (buff.length + B (m.struct s).bSize),
        updateOffsets m s (buff.length + B (m.struct s).bSize),
        buff ++ (putUint64 (m.struct s).elems.length).take (B (m.struct s).bSize) ++
          (m.struct s).elems.flatMap
            (fun p => (m.elem p).bytes.take (B (m.struct s).bSize))) := by
    unfold serializeElems
    rw [hd]
    simp only [typedVector_serializeElems, if_neg hB, structure_serializeElems]
    rw [serializeElemsLoop_inline s _ m hB _ (fun p hp => (hin p hp).1)]
    simp [List.length_take, putUint64_length, Nat.min_eq_left hw]
  rw [hser]
  refine ⟨rfl, rfl, ?_⟩
  simp only [List.length_append, List.length_take, putUint64_length, Nat.min_eq_left hw,
    length_flatMap_take m _ hw _ (fun p hp => (hin p hp).2), Nat.add_mul]
  omega

set_option maxRecDepth 100000 in
/-- The tuple `(1, 2)`, the scalar 300 and a quad of floats, each built on a new builder:
the hypotheses hold of the tuple in the memory of the builder, and each buffer starts
with the element count. -/
theorem fixed_vector_has_size_field_witness :
    ((serializeElems (NewBuilder.run [.StartIntTuple, .Int 1, .Int 2, .End]).2.mem 1 []).1
        = .ok (0 + B ((NewBuilder.run [.StartIntTuple, .Int 1, .Int 2, .End]).2.mem.struct 1).bSize) ∧
      (serializeElems (NewBuilder.run [.StartIntTuple, .Int 1, .Int 2, .End]).2.mem 1 []).2.2
        = [2, 1, 2]) ∧
    (NewBuilder.run [.StartIntTuple, .Int 1, .Int 2, .End]).1 = [.ok (), .ok (), .ok (), .ok ()] ∧
    ((NewBuilder.run [.StartIntTuple, .Int 1, .Int 2, .End]).2.SerializeBuffer []).1 = .ok 3 ∧
    ((NewBuilder.run [.StartIntTuple, .Int 1, .Int 2, .End]).2.SerializeBuffer []).2.2
      = [2, 1, 2] ++ [2, Pack VECTOR_INT2 0, 1] ∧
    (NewBuilder.run [.StartIntScalar, .Int 300, .End]).1 = [.ok (), .ok (), .ok ()] ∧
    ((NewBuilder.run [.StartIntScalar, .Int 300, .End]).2.SerializeBuffer []).2.2
      = [1, 0, 44, 1] ++ [2, Pack INDIRECT_INT 1, 1] ∧
    (NewBuilder.run [.StartFloatQuad, .Float ⟨0, some 1⟩, .Float ⟨0, some 2⟩, .Float ⟨0, some 3⟩,
      .Float ⟨0, some 4⟩, .End]).1 = [.ok (), .ok (), .ok (), .ok (), .ok (), .ok ()] ∧
    ((NewBuilder.run [.StartFloatQuad, .Float ⟨0, some 1⟩, .Float ⟨0, some 2⟩,
      .Float ⟨0, some 3⟩, .Float ⟨0, some 4⟩, .End]).2.SerializeBuffer []).2.2
      = [4, 0, 0, 0, 1, 0, 0, 0, 2, 0, 0, 0, 3, 0, 0, 0, 4, 0, 0, 0]
        ++ [16, Pack VECTOR_FLOAT4 2, 1] :=
  ⟨⟨(fixed_vector_has_size_field _ 1 [] (by decide) (by decide) (by decide)).1,
    (fixed_vector_has_size_field _ 1 [] (by decide) (by decide) (by decide)).2.1.trans
      (by decide)⟩,
    by decide⟩

/-! ## Strings, blobs and Append -/

theorem newUINT_fieldSize (c : Nat) :
    (newUINT c).fieldSize = if c < 256 then 0 else if c < 65536 then 1
      else if c < 4294967296 then 2 else 3 := by
  show b (uintSize c) = _
  unfold uintSize
  split_ifs <;> rfl

/-- What `allows` answers for a one-byte and for a wider UINT element on a structure of
type STRING. -/
theorem allows_string (st : Structure) (hv : st.vType = STRING) (c : Nat) :
    allows st (newUINT c) = if c < 256 then none else some Err.elemSizeNotAllowed := by
  have ht : allowsElemType st (newUINT c).fieldType = true := by
    unfold allowsElemType; rw [hv]; rfl
  have hf : isFull st = false := by
    unfold isFull; rw [hv]; rfl
  have hs : allowsElemSize st (newUINT c).fieldSize = decide (c < 256) := by
    unfold allowsElemSize
    rw [hv, newUINT_fieldSize]
    simp only [show ¬ STRING = BLOB by decide, show ¬ STRING = KEY by decide, if_false, if_true]
    split_ifs <;> simp_all [b8]
  unfold allows
  rw [ht, hs, hf]
  by_cases h : c < 256 <;> simp [h]

/-- One step of flexString.Append on a string object: a rune below 256 becomes a new
element at the end, a rune from 256 up is refused and the memory stays. -/
theorem structure_addElement_string (m : Mem) (s : Nat) (c : Nat)
    (hv : (m.struct s).vType = STRING) :
    structure_addElement m s (newUINT c) =
      if c < 256 then
        (.ok (m.struct s).elems.length,
          (m.allocElem (newUINT c)).2.setStruct s
            { m.struct s with elems := (m.struct s).elems ++ [m.elements.length] })
      else (.error Err.elemSizeNotAllowed, m) := by
  unfold structure_addElement structure_insertElement
  rw [allows_string _ hv]
  by_cases h : c < 256
  · simp only [h, if_true]
    rw [if_neg (by omega)]
    rfl
  · simp only [h, if_false]

set_option maxRecDepth 100000 in
/-- C22: Builder.String does not write the bytes of a string that is not ASCII. It stores
one element per rune, not per byte: for "abc" the body is the count 3, the three bytes
and the terminator, as the claim says; for "é" (bytes C3 A9) it is the count 1, the one
byte E9 and the terminator; for "€" (bytes E2 82 AC) it is the count 0 and the
terminator, the rune being dropped, and String returns success each time. A rune from
256 up is refused by the string object for its size, whatever the memory. -/
theorem String_writes_runes_not_bytes :
    ((NewBuilder.String "abc").1 = .ok () ∧
      ((NewBuilder.String "abc").2.SerializeBuffer []).2.2
        = [3, 97, 98, 99, 0] ++ [4, Pack STRING 0, 1] ∧
      stringBytes "abc" = [97, 98, 99] ∧
      (NewBuilder.String "é").1 = .ok () ∧
      ((NewBuilder.String "é").2.SerializeBuffer []).1 = .ok 3 ∧
      ((NewBuilder.String "é").2.SerializeBuffer []).2.2
        = [1, 0xE9, 0] ++ [2, Pack STRING 0, 1] ∧
      stringBytes "é" = [0xC3, 0xA9] ∧
      (NewBuilder.String "€").1 = .ok () ∧
      ((NewBuilder.String "€").2.SerializeBuffer []).1 = .ok 2 ∧
      ((NewBuilder.String "€").2.SerializeBuffer []).2.2 = [0, 0] ++ [1, Pack STRING 0, 1] ∧
      stringBytes "€" = [0xE2, 0x82, 0xAC]) ∧
    (∀ (m : Mem) (s : Ptr) (c : Nat), (m.struct s).vType = STRING → 256 ≤ c →
      structure_addElement m s (newUINT c) = (.error Err.elemSizeNotAllowed, m)) :=
  ⟨by decide, fun m s c hv hc => by
    rw [structure_addElement_string m s c hv, if_neg (by omega)]⟩

set_option maxRecDepth 100000 in
/-- C23: StartBlob does not store the bytes it is given. newBlob never reads its argument,
so StartBlob(bs) is StartBlob(nil) for every builder and every bs; after
`StartBlob([1, 2, 3])` and `End()` the blob holds no element, and the buffer is the count
0 and the root, not the count 3 and the three bytes. -/
theorem StartBlob_drops_its_bytes :
    (∀ (m : Mem) (bytes : List Nat), newBlob m bytes = newBlob m []) ∧
    (∀ (b : Builder) (bytes : List Nat), b.StartBlob bytes = b.StartBlob []) ∧
    (NewBuilder.run [.StartBlob [1, 2, 3], .End]).1 = [.ok (), .ok ()] ∧
    ((NewBuilder.run [.StartBlob [1, 2, 3], .End]).2.mem.struct 1).dyn = Dyn.blob ∧
    ((NewBuilder.run [.StartBlob [1, 2, 3], .End]).2.mem.struct 1).elems = [] ∧
    ((NewBuilder.run [.StartBlob [1, 2, 3], .End]).2.SerializeBuffer []).1 = .ok 1 ∧
    ((NewBuilder.run [.StartBlob [1, 2, 3], .End]).2.SerializeBuffer []).2.2
      = [0] ++ [0, Pack BLOB 0, 1] :=
  ⟨fun _ _ => rfl, fun _ _ => rfl, by decide, by decide, by decide, by decide, by decide⟩

/-- The table of admitted types against structure.allowsElemType: on a container type of
the table the code admits the type of the table and no other. -/
theorem allowsElemType_admitted (st : Structure) (t : VarType)
    (ht : spec_admittedType st.vType = some t) (ft : VarType) :
    allowsElemType st ft = decide (ft = t) := by
  unfold allowsElemType
  unfold spec_admittedType at ht
  generalize st.vType = v at ht ⊢
  split_ifs at ht with h1 h2 h3 h4 h5
  all_goals (simp only [Option.some.injEq] at ht; subst ht)
  · simp only [List.mem_cons, List.mem_singleton, List.not_mem_nil, or_false] at h1
    rcases h1 with rfl | rfl | rfl | rfl | rfl <;> rfl
  · simp only [List.mem_cons, List.mem_singleton, List.not_mem_nil, or_false] at h2
    rcases h2 with rfl | rfl | rfl | rfl | rfl | rfl | rfl | rfl <;> rfl
  · simp only [List.mem_cons, List.mem_singleton, List.not_mem_nil, or_false] at h3
    rcases h3 with rfl | rfl | rfl | rfl | rfl <;> rfl
  · subst h4; rfl
  · subst h5; rfl

theorem not_isFull_of_no_arity (st : Structure) (h : spec_arity st.vType = none) :
    isFull st = false := by
  unfold isFull
  unfold spec_arity at h
  generalize st.vType = v at h ⊢
  split_ifs at h with h1 h2 h3 h4
  simp only [h1, h2, h3, h4, if_false]

theorem isFull_of_arity (st : Structure) (k : Nat) (h : spec_arity st.vType = some k) :
    isFull st = decide (k ≤ st.elems.length) := by
  unfold isFull
  unfold spec_arity at h
  generalize st.vType = v at h ⊢
  split_ifs at h with h1 h2 h3 h4
  all_goals (simp only [Option.some.injEq] at h; subst h)
  · simp only [h1, if_true]
  · simp only [h1, h2, if_true, if_false]
  · simp only [h1, h2, h3, if_true, if_false]
  · simp only [h1, h2, h3, h4, if_true, if_false]

theorem allowsElemSize_of_arity (st : Structure) (k : Nat) (h : spec_arity st.vType = some k)
    (fs : ByteSize) : allowsElemSize st fs = true := by
  unfold allowsElemSize
  unfold spec_arity at h
  generalize st.vType = v at h ⊢
  split_ifs at h with h1 h2 h3 h4
  all_goals simp only [List.mem_cons, List.mem_singleton, List.not_mem_nil, or_false] at *
  · rcases h1 with rfl | rfl | rfl <;> rfl
  · rcases h2 with rfl | rfl | rfl <;> rfl
  · rcases h3 with rfl | rfl | rfl <;> rfl
  · rcases h4 with rfl | rfl | rfl <;> rfl

theorem structure_insertElement_wrong_type (m : Mem) (s : Nat) (e : element) (index : Nat)
    (h : allowsElemType (m.struct s) e.fieldType = false) :
    structure_insertElement m s e index = (.error Err.elemTypeNotAllowed, m) := by
  unfold structure_insertElement allows
  simp only [h, Bool.not_false, if_true]

theorem structure_insertOffsetToObject_wrong_type (m : Mem) (s o : Nat) (index : Nat)
    (h : allowsElemType (m.struct s) (getVtype m o) = false) :
    structure_insertOffsetToObject m s o index = (.error Err.elemTypeNotAllowed, m) := by
  unfold structure_insertOffsetToObject
  simp only
  rw [structure_insertElement_wrong_type m s _ index h]

theorem structure_insertElement_accepts (m : Mem) (s : Nat) (e : element) (index : Nat)
    (h : allows (m.struct s) e = none) :
    ∃ n m1, structure_insertElement m s e index = (.ok n, m1) := by
  unfold structure_insertElement
  rw [h]
  simp only [Mem.allocElem]
  split_ifs
  · exact ⟨_, _, rfl⟩
  · exact ⟨_, _, rfl⟩

/-- C25: a typed container admits one element type. On a container whose type the table
of the specification gives the admitted type `t`, insertElement with an element of any
other type, and insertOffsetToObject with a child of any other type, return an error and
leave the whole memory (the element list with it) as it was; the error is the one of a
type that is not allowed. An element of type `t` which passes the checks of size and
cardinality is accepted: it is allocated and its pointer is put at the position returned.
On the typed vectors VECTOR_INT, VECTOR_UINT, VECTOR_FLOAT, VECTOR_BOOL and VECTOR_KEY
these two checks never fail. -/
theorem typed_container_admits_one_type (m : Mem) (s : Ptr) (t : VarType)
    (ht : spec_admittedType (getVtype m s) = some t)
    (hd : (m.struct s).dyn ≠ Dyn.flexMap ∧ (m.struct s).dyn ≠ Dyn.root) :
    (∀ (e : element) (index : Nat), e.fieldType ≠ t →
      insertElement m s e index = (.error Err.elemTypeNotAllowed, m)) ∧
    (∀ (o : Ptr) (index : Nat), getVtype m o ≠ t →
      insertOffsetToObject m s o index = (.error Err.elemTypeNotAllowed, m)) ∧
    (∀ (e : element) (index : Nat), e.fieldType = t →
      allowsElemSize (m.struct s) e.fieldSize = true → isFull (m.struct s) = false →
      s < m.structs.length →
      ∃ n m1, insertElement m s e index = (.ok n, m1) ∧
        n = min index (m.struct s).elems.length ∧
        m1.elements = m.elements ++ [e] ∧
        (m1.struct s).elems =
          (m.struct s).elems.take n ++ m.elements.length :: (m.struct s).elems.drop n) ∧
    (getVtype m s ∈ [VECTOR_INT, VECTOR_UINT, VECTOR_FLOAT, VECTOR_BOOL, VECTOR_KEY] →
      ∀ e : element, allowsElemSize (m.struct s) e.fieldSize = true ∧
        isFull (m.struct s) = false) := by
  have hty := allowsElemType_admitted (m.struct s) t ht
  have hie : ∀ (e : element) (index : Nat),
      insertElement m s e index = structure_insertElement m s e index := by
    intro e index
    unfold insertElement
    split
    · exact absurd (by assumption) hd.1
    · exact absurd (by assumption) hd.2
    · rfl
  have hio : ∀ (o : Ptr) (index : Nat),
      insertOffsetToObject m s o index = structure_insertOffsetToObject m s o index := by
    intro o index
    unfold insertOffsetToObject
    split
    · exact absurd (by assumption) hd.1
    · exact absurd (by assumption) hd.2
    · rfl
  refine ⟨?_, ?_, ?_, ?_⟩
  · intro e index hne
    rw [hie]
    exact structure_insertElement_wrong_type m s e index (by rw [hty]; simpa using hne)
  · intro o index hne
    rw [hio]
    exact structure_insertOffsetToObject_wrong_type m s o index (by rw [hty]; simpa using hne)
  · intro e index he hsize hfull hs
    have hall : allows (m.struct s) e = none := by
      unfold allows
      rw [hty, hsize, hfull]
      simp [he]
    obtain ⟨n, m1, hr⟩ := structure_insertElement_accepts m s e index hall
    obtain ⟨h1, _, h3, _, h5⟩ := structure_insertElement_ok m s e index n m1 hr
    refine ⟨n, m1, by rw [hie]; exact hr, h3, h1, ?_⟩
    rw [h5 hs]
  · intro hv e
    unfold getVtype at hv
    unfold allowsElemSize isFull
    generalize (m.struct s).vType = v at hv
    simp only [List.mem_cons, List.mem_singleton, List.not_mem_nil, or_false] at hv
    rcases hv with rfl | rfl | rfl | rfl | rfl <;> exact ⟨rfl, rfl⟩

set_option maxRecDepth 100000 in
/-- The typed int vector of `StartTypedIntVector()` on a new builder: a UINT element and a
child vector are refused and the memory stays, an INT element is stored; and the calls of
the builder on a typed int vector and on a typed bool vector. -/
theorem typed_container_admits_one_type_witness :
    insertElement (NewBuilder.StartTypedIntVector).2.mem 1 (newUINT 5) 0
      = (.error Err.elemTypeNotAllowed, (NewBuilder.StartTypedIntVector).2.mem) ∧
    insertOffsetToObject (newVector (NewBuilder.StartTypedIntVector).2.mem).2 1 2 0
      = (.error Err.elemTypeNotAllowed, (newVector (NewBuilder.StartTypedIntVector).2.mem).2) ∧
    (∃ n m1, insertElement (NewBuilder.StartTypedIntVector).2.mem 1 (newINT 5) 0 = (.ok n, m1) ∧
      n = min 0 ((NewBuilder.StartTypedIntVector).2.mem.struct 1).elems.length ∧
      m1.elements = (NewBuilder.StartTypedIntVector).2.mem.elements ++ [newINT 5] ∧
      (m1.struct 1).elems =
        ((NewBuilder.StartTypedIntVector).2.mem.struct 1).elems.take n ++
          (NewBuilder.StartTypedIntVector).2.mem.elements.length ::
            ((NewBuilder.StartTypedIntVector).2.mem.struct 1).elems.drop n) ∧
    (NewBuilder.run [.StartTypedIntVector, .Uint 5, .Float ⟨0, some 0⟩, .Bool true, .Null,
        .StartVector, .Int 5]).1
      = [.ok (), .error Err.elemTypeNotAllowed, .error Err.elemTypeNotAllowed,
        .error Err.elemTypeNotAllowed, .error Err.elemTypeNotAllowed,
        .error Err.elemTypeNotAllowed, .ok ()] ∧
    elemsOf (NewBuilder.run [.StartTypedIntVector, .Uint 5, .Float ⟨0, some 0⟩, .Bool true, .Null,
        .StartVector, .Int 5]).2.mem 1 = [newINT 5] ∧
    (NewBuilder.run [.StartTypedBoolVector, .Int 1, .Bool true]).1
      = [.ok (), .error Err.elemTypeNotAllowed, .ok ()] :=
  ⟨(typed_container_admits_one_type _ 1 INT (by decide) (by decide)).1 (newUINT 5) 0
      (by decide),
    (typed_container_admits_one_type _ 1 INT (by decide) (by decide)).2.1 2 0 (by decide),
    (typed_container_admits_one_type _ 1 INT (by decide) (by decide)).2.2.1 (newINT 5) 0
      (by decide) (by decide) (by decide) (by decide),
    by decide, by decide, by decide⟩

/-- One call of addElement on a fixed-typed vector with an element of its scalar type:
refused when the vector holds its `k` elements, stored at the end otherwise. -/
theorem addElement_fixed (m : Mem) (s k : Nat) (e : element)
    (hk : spec_arity (m.struct s).vType = some k)
    (ht : spec_admittedType (m.struct s).vType = some e.fieldType)
    (hd : (m.struct s).dyn = Dyn.fixedTypedVector) :
    addElement m s e =
      if k ≤ (m.struct s).elems.length then (.error Err.structureFull, m)
      else (.ok (m.struct s).elems.length,
        (m.allocElem e).2.setStruct s
          { m.struct s with elems := (m.struct s).elems ++ [m.elements.length] }) := by
  have hall : allows (m.struct s) e =
      if k ≤ (m.struct s).elems.length then some Err.structureFull else none := by
    unfold allows
    rw [allowsElemType_admitted _ _ ht, allowsElemSize_of_arity _ k hk, isFull_of_arity _ k hk]
    by_cases h : k ≤ (m.struct s).elems.length <;> simp [h]
  unfold addElement insertElement elemsCount
  rw [hd]
  simp only
  unfold structure_insertElement
  rw [hall]
  by_cases h : k ≤ (m.struct s).elems.length
  · simp only [h, if_true]
  · simp only [h, if_false]
    rw [if_neg (by omega)]
    rfl

theorem elemsOf_after_add (m : Mem) (s : Nat) (e : element) (hs : s < m.structs.length)
    (hp : ∀ p ∈ (m.struct s).elems, p < m.elements.length) :
    elemsOf ((m.allocElem e).2.setStruct s
      { m.struct s with elems := (m.struct s).elems ++ [m.elements.length] }) s
      = elemsOf m s ++ [e] := by
  unfold elemsOf
  rw [struct_setStruct_self _ _ _ (by simpa using hs)]
  simp only [List.map_append, List.map_cons, List.map_nil]
  congr 1
  · apply List.map_congr_left
    intro p hpm
    have := hp p hpm
    simp only [Mem.elem, Mem.setStruct, Mem.allocElem, List.getD_eq_getElem?_getD]
    rw [List.getElem?_append_left this]
  · simp [Mem.elem, Mem.setStruct, Mem.allocElem]

/-- The memory after an element is stored at the end of the structure `s`. -/
theorem struct_after_add (m : Mem) (s : Nat) (e : element) (hs : s < m.structs.length) :
    (((m.allocElem e).2.setStruct s
        { m.struct s with elems := (m.struct s).elems ++ [m.elements.length] }).struct s).vType
      = (m.struct s).vType ∧
    (((m.allocElem e).2.setStruct s
        { m.struct s with elems := (m.struct s).elems ++ [m.elements.length] }).struct s).dyn
      = (m.struct s).dyn ∧
    (((m.allocElem e).2.setStruct s
        { m.struct s with elems := (m.struct s).elems ++ [m.elements.length] }).struct s).elems
      = (m.struct s).elems ++ [m.elements.length] ∧
    ((m.allocElem e).2.setStruct s
        { m.struct s with elems := (m.struct s).elems ++ [m.elements.length] }).elements.length
      = m.elements.length + 1 ∧
    ((m.allocElem e).2.setStruct s
        { m.struct s with elems := (m.struct s).elems ++ [m.elements.length] }).structs.length
      = m.structs.length := by
  have hs1 : s < (m.allocElem e).2.structs.length := hs
  rw [struct_setStruct_self _ _ _ hs1]
  refine ⟨rfl, rfl, rfl, ?_, ?_⟩
  · simp
  · simp

theorem addElements_fixed (s k : Nat) (es : List element) :
    ∀ m : Mem, spec_arity (m.struct s).vType = some k →
      (∀ e ∈ es, spec_admittedType (m.struct s).vType = some e.fieldType) →
      (m.struct s).dyn = Dyn.fixedTypedVector → s < m.structs.length →
      (∀ p ∈ (m.struct s).elems, p < m.elements.length) →
      (m.struct s).elems.length ≤ k →
      (addElements m s es).1 =
        (List.range' (m.struct s).elems.length
          (min (k - (m.struct s).elems.length) es.length)).map Outcome.ok ++
        List.replicate (es.length - (k - (m.struct s).elems.length))
          (Outcome.error Err.structureFull) ∧
      elemsOf (addElements m s es).2 s
        = elemsOf m s ++ es.take (k - (m.struct s).elems.length) := by
  induction es with
  | nil => intro m _ _ _ _ _ _; simp [addElements]
  | cons e es ih =>
    intro m hk ht hd hs hp hj
    unfold addElements
    rw [addElement_fixed m s k e hk (ht e (List.mem_cons_self _ _)) hd]
    by_cases hfull : k ≤ (m.struct s).elems.length
    · simp only [hfull, if_true]
      obtain ⟨h1, h2⟩ := ih m hk (fun x hx => ht x (List.mem_cons_of_mem _ hx)) hd hs hp hj
      have hz : k - (m.struct s).elems.length = 0 := by omega
      rw [h1, h2, hz]
      simp [List.replicate_succ]
    · simp only [hfull, if_false]
      obtain ⟨e1, e2, e3, e4, e5⟩ := struct_after_add m s e hs
      obtain ⟨h1, h2⟩ := ih ((m.allocElem e).2.setStruct s
          { m.struct s with elems := (m.struct s).elems ++ [m.elements.length] })
        (by rw [e1]; exact hk)
        (by rw [e1]; exact fun x hx => ht x (List.mem_cons_of_mem _ hx))
        (by rw [e2]; exact hd)
        (by rw [e5]; exact hs)
        (by
          rw [e3, e4]
          intro p hpm
          rw [List.mem_append, List.mem_singleton] at hpm
          rcases hpm with hpm | hpm
          · exact Nat.lt_succ_of_lt (hp p hpm)
          · rw [hpm]; exact Nat.lt_succ_self _)
        (by rw [e3, List.length_append, List.length_singleton]; omega)
      rw [h1, h2, e3, elemsOf_after_add m s e hs hp]
      simp only [List.length_append, List.length_singleton, List.length_cons, List.length_nil,
        Nat.zero_add]
      obtain ⟨d, hd1⟩ : ∃ d, k - (m.struct s).elems.length = d + 1 :=
        ⟨k - (m.struct s).elems.length - 1, by omega⟩
      have hd2 : k - ((m.struct s).elems.length + 1) = d := by omega
      rw [hd1, hd2]
      have hmin : min (d + 1) (es.length + 1) = min d es.length + 1 := by omega
      rw [hmin, List.range'_succ]
      simp [List.take_succ_cons]

/-- C26: a fixed-typed vector of arity `k` accepts exactly `k` elements of its scalar
type. On a new fixed-typed vector (no element yet) whose type the specification gives the
arity `k`, the calls of addElement with elements of its scalar type succeed for the first
`k`, at the positions 0 to `k - 1`, and every further call returns the error of a full
structure; in the end the vector holds the first `k` elements, in order. -/
theorem fixed_vector_accepts_exactly_k (m : Mem) (s : Ptr) (k : Nat) (es : List element)
    (hk : spec_arity (getVtype m s) = some k)
    (ht : ∀ e ∈ es, spec_admittedType (getVtype m s) = some e.fieldType)
    (hd : (m.struct s).dyn = Dyn.fixedTypedVector) (hs : s < m.structs.length)
    (hnew : (m.struct s).elems = []) :
    (addElements m s es).1 =
      (List.range (min k es.length)).map Outcome.ok ++
        List.replicate (es.length - k) (Outcome.error Err.structureFull) ∧
    elemsOf (addElements m s es).2 s = es.take k := by
  have h := addElements_fixed s k es m hk ht hd hs (by rw [hnew]; intro p hp; cases hp)
    (by rw [hnew]; exact Nat.zero_le _)
  rw [hnew] at h
  simp only [List.length_nil, Nat.sub_zero] at h
  rw [List.range_eq_range']
  refine ⟨h.1, ?_⟩
  rw [h.2]
  simp [elemsOf, hnew]

set_option maxRecDepth 100000 in
/-- The tuple of `StartIntTuple()` on a new builder and three INT elements: two are stored
and the third is refused; and the calls of the builder on a scalar, a tuple, a triple and a
quad. -/
theorem fixed_vector_accepts_exactly_k_witness :
    (addElements (NewBuilder.StartIntTuple).2.mem 1 [newINT 1, newINT 2, newINT 3]).1
      = [.ok 0, .ok 1, .error Err.structureFull] ∧
    elemsOf (addElements (NewBuilder.StartIntTuple).2.mem 1 [newINT 1, newINT 2, newINT 3]).2 1
      = [newINT 1, newINT 2] ∧
    (NewBuilder.run [.StartIntScalar, .Int 1, .Int 2]).1
      = [.ok (), .ok (), .error Err.structureFull] ∧
    (NewBuilder.run [.StartIntTuple, .Int 1, .Int 2, .Int 3, .Int 4]).1
      = [.ok (), .ok (), .ok (), .error Err.structureFull, .error Err.structureFull] ∧
    elemsOf (NewBuilder.run [.StartIntTuple, .Int 1, .Int 2, .Int 3, .Int 4]).2.mem 1
      = [newINT 1, newINT 2] ∧
    (NewBuilder.run [.StartFloatTriple, .Float ⟨0, some 1⟩, .Float ⟨0, some 2⟩,
        .Float ⟨0, some 3⟩, .Float ⟨0, some 4⟩]).1
      = [.ok (), .ok (), .ok (), .ok (), .error Err.structureFull] ∧
    (NewBuilder.run [.StartUintQuad, .Uint 1, .Uint 2, .Uint 3, .Uint 4, .Uint 5, .Uint 6]).1
      = [.ok (), .ok (), .ok (), .ok (), .ok (), .error Err.structureFull,
        .error Err.structureFull] ∧
    elemsOf (NewBuilder.run [.StartUintQuad, .Uint 1, .Uint 2, .Uint 3, .Uint 4, .Uint 5,
        .Uint 6]).2.mem 1 = [newUINT 1, newUINT 2, newUINT 3, newUINT 4] :=
  ⟨(fixed_vector_accepts_exactly_k (NewBuilder.StartIntTuple).2.mem 1 2
      [newINT 1, newINT 2, newINT 3] (by decide) (by decide) (by decide) (by decide)
      (by decide)).1.trans (by decide),
    (fixed_vector_accepts_exactly_k (NewBuilder.StartIntTuple).2.mem 1 2
      [newINT 1, newINT 2, newINT 3] (by decide) (by decide) (by decide) (by decide)
      (by decide)).2.trans (by decide),
    by decide, by decide, by decide, by decide, by decide, by decide⟩

/-! ## The scalar getters and Index -/

theorem bytesAsUint_littleEndian (l : List Nat)
    (h : l.length = 1 ∨ l.length = 2 ∨ l.length = 4 ∨ l.length = 8) :
    bytesAsUint l = .ok (spec_littleEndian l) := by
  rcases h with h | h | h | h
  · obtain ⟨a, rfl⟩ := List.length_eq_one.mp h
    simp [bytesAsUint, spec_littleEndian]
  · obtain ⟨a, a1, rfl⟩ := List.length_eq_two.mp h
    simp [bytesAsUint, spec_littleEndian]
  · match l, h with
    | [a, a1, a2, a3], _ =>
      simp only [bytesAsUint, spec_littleEndian, Outcome.ok.injEq]
      omega
  · match l, h with
    | [a, a1, a2, a3, a4, a5, a6, a7], _ =>
      simp only [bytesAsUint, spec_littleEndian, Outcome.ok.injEq]
      omega

theorem spec_littleEndian_lt (l : List Nat) (hb : ∀ x ∈ l, x < 256) :
    spec_littleEndian l < 256 ^ l.length := by
  induction l with
  | nil => simp [spec_littleEndian]
  | cons x xs ih =>
    have hx := hb x (List.mem_cons_self _ _)
    have hxs := ih (fun y hy => hb y (List.mem_cons_of_mem _ hy))
    simp only [spec_littleEndian, List.length_cons, pow_succ]
    omega

theorem signExtend_signed (n u : Nat) (hn : n = 1 ∨ n = 2 ∨ n = 4 ∨ n = 8)
    (hu : u < 256 ^ n) : signExtend n u = spec_signed n u := by
  unfold signExtend spec_signed i64
  rcases hn with rfl | rfl | rfl | rfl
  · simp only [if_true, Nat.reduceMul, Nat.reduceSub, Nat.reducePow] at hu ⊢
    have h2 : ((2 : Int) ^ 8) = 256 := by decide
    rw [h2]
    split_ifs <;> omega
  · simp only [if_true, if_false, Nat.reduceMul, Nat.reduceSub, Nat.reducePow,
      OfNat.ofNat_ne_one, Nat.reduceEqDiff] at hu ⊢
    have h2 : ((2 : Int) ^ 16) = 65536 := by decide
    rw [h2]
    split_ifs <;> omega
  · simp only [if_true, if_false, Nat.reduceMul, Nat.reduceSub, Nat.reducePow,
      OfNat.ofNat_ne_one, Nat.reduceEqDiff] at hu ⊢
    have h2 : ((2 : Int) ^ 32) = 4294967296 := by norm_num
    rw [h2]
    split_ifs <;> omega
  · simp only [if_true, if_false, Nat.reduceMul, Nat.reduceSub, Nat.reducePow,
      OfNat.ofNat_ne_one, Nat.reduceEqDiff] at hu ⊢
    have h2 : ((2 : Int) ^ 64) = 18446744073709551616 := by norm_num
    rw [h2]
    split_ifs <;> omega

/-- The slice the getters Int and Uint decode: with `index_0 + width` inside the buffer,
getBytes returns the `width` bytes at `index_0`. -/
theorem getBytes_widthBytes (r : Ref) (hlen : r.buffer.length < 2 ^ 63)
    (hin : r.index_0 + B (ItemByteSize r.context) ≤ r.buffer.length) :
    r.getBytes r.index_0 (B (ItemByteSize r.context)) = .ok r.widthBytes ∧
    r.widthBytes.length = B (ItemByteSize r.context) := by
  have hu : u64 ((r.index_0 : Int) + (B (ItemByteSize r.context) : Nat))
      = r.index_0 + B (ItemByteSize r.context) := by
    unfold u64
    norm_num at hlen
    omega
  constructor
  · unfold Ref.getBytes sliceBytes Ref.widthBytes
    rw [hu, if_pos ⟨Nat.le_add_right _ _, hin⟩, List.drop_take]
    simp
  · unfold Ref.widthBytes
    rw [List.length_take, List.length_drop]
    omega

/-- C27 (amended): each scalar getter fails exactly when the tag does not match. For a
Ref over a buffer of bytes with `index_0 + width` inside it, Int returns an error iff the
tag is not INT, Uint iff it is not UINT, Bool iff it is not BOOL. On a matching tag Uint
returns the little-endian decoding of the `width` bytes at `index_0` and Int its sign
extension; Bool returns whether the first of these bytes is not 0, the little-endian
decoding of that one byte, whatever the width (the same as the decoding of all the
`width` bytes when the width is 1). -/
theorem scalar_getters (r : Ref) (hlen : r.buffer.length < 2 ^ 63)
    (hbytes : ∀ x ∈ r.buffer, x < 256)
    (hin : r.index_0 + B (ItemByteSize r.context) ≤ r.buffer.length) :
    (r.Int.isError = true ↔ ItemVarType r.context ≠ INT) ∧
    (r.Uint.isError = true ↔ ItemVarType r.context ≠ UINT) ∧
    (r.Bool.isError = true ↔ ItemVarType r.context ≠ BOOL) ∧
    (ItemVarType r.context = INT →
      r.Int = .ok (spec_signed (B (ItemByteSize r.context)) (spec_littleEndian r.widthBytes))) ∧
    (ItemVarType r.context = UINT → r.Uint = .ok (spec_littleEndian r.widthBytes)) ∧
    (ItemVarType r.context = BOOL →
      r.Bool = .ok (decide (spec_littleEndian (r.widthBytes.take 1) ≠ 0))) ∧
    (ItemVarType r.context = BOOL → B (ItemByteSize r.context) = 1 →
      r.Bool = .ok (decide (spec_littleEndian r.widthBytes ≠ 0))) := by
  obtain ⟨hget, hwl⟩ := getBytes_widthBytes r hlen hin
  have hB := B_cases r.context
  have hl : r.widthBytes.length = 1 ∨ r.widthBytes.length = 2 ∨ r.widthBytes.length = 4 ∨
      r.widthBytes.length = 8 := by rw [hwl]; exact hB
  have hwb : ∀ x ∈ r.widthBytes, x < 256 := by
    intro x hx
    unfold Ref.widthBytes at hx
    exact hbytes x (List.mem_of_mem_drop (List.mem_of_mem_take hx))
  have huint : ItemVarType r.context = UINT → r.Uint = .ok (spec_littleEndian r.widthBytes) := by
    intro ht
    unfold Ref.Uint Ref.IsUint
    simp only [ht, decide_True, Bool.not_true, Bool.false_eq_true, if_false]
    rw [hget]
    exact bytesAsUint_littleEndian _ hl
  have hint : ItemVarType r.context = INT →
      r.Int = .ok (spec_signed (B (ItemByteSize r.context))
        (spec_littleEndian r.widthBytes)) := by
    intro ht
    unfold Ref.Int Ref.IsInt
    simp only [ht, decide_True, Bool.not_true, Bool.false_eq_true, if_false]
    rw [hget]
    show bytesAsInt r.widthBytes = _
    unfold bytesAsInt
    rw [bytesAsUint_littleEndian _ hl]
    simp only
    rw [signExtend_signed _ _ hl (spec_littleEndian_lt _ hwb), hwl]
  have hpos : r.index_0 < r.buffer.length := by
    rcases hB with h | h | h | h <;> omega
  have hhead : r.widthBytes.take 1 = [r.buffer[r.index_0]] := by
    unfold Ref.widthBytes
    rw [List.take_take, Nat.min_eq_left (by rcases hB with h | h | h | h <;> omega)]
    rw [List.drop_eq_getElem_cons hpos]
    rfl
  have hbool : ItemVarType r.context = BOOL →
      r.Bool = .ok (decide (spec_littleEndian (r.widthBytes.take 1) ≠ 0)) := by
    intro ht
    unfold Ref.Bool Ref.IsBool indexByte
    simp only [ht, decide_True, Bool.not_true, Bool.false_eq_true, if_false]
    rw [List.getElem?_eq_getElem hpos, hhead]
    simp only [bytesAsBool, spec_littleEndian, Nat.mul_zero, Nat.add_zero, Outcome.ok.injEq]
    by_cases hz : r.buffer[r.index_0] = 0
    · simp [hz]
    · simp [hz, Nat.pos_of_ne_zero hz]
  refine ⟨?_, ?_, ?_, hint, huint, hbool, ?_⟩
  · constructor
    · intro he ht
      rw [hint ht] at he
      exact absurd he (by simp [Outcome.isError])
    · intro ht
      unfold Ref.Int Ref.IsInt
      simp only [ht, decide_False, Bool.not_false, if_true]
      rfl
  · constructor
    · intro he ht
      rw [huint ht] at he
      exact absurd he (by simp [Outcome.isError])
    · intro ht
      unfold Ref.Uint Ref.IsUint
      simp only [ht, decide_False, Bool.not_false, if_true]
      rfl
  · constructor
    · intro he ht
      rw [hbool ht] at he
      exact absurd he (by simp [Outcome.isError])
    · intro ht
      unfold Ref.Bool Ref.IsBool
      simp only [ht, decide_False, Bool.not_false, if_true]
      rfl
  · intro ht h1
    rw [hbool ht]
    have : r.widthBytes.take 1 = r.widthBytes := by
      rw [List.take_of_length_le]
      rw [hwl, h1]
    rw [this]

set_option maxRecDepth 100000 in
/-- The amended statement at Refs over the buffer `07 FE FF`: the two bytes `FE FF` at
index 1 read as the INT -2 and as the UINT 65534, a getter of another tag fails, and the
byte 07 at index 0 reads as the BOOL true. -/
theorem scalar_getters_witness :
    Ref.Int ⟨[7, 254, 255], Pack INT 1, 1, 1⟩ = .ok (-2) ∧
    (Ref.Uint ⟨[7, 254, 255], Pack INT 1, 1, 1⟩).isError = true ∧
    (Ref.Bool ⟨[7, 254, 255], Pack INT 1, 1, 1⟩).isError = true ∧
    Ref.Uint ⟨[7, 254, 255], Pack UINT 1, 1, 1⟩ = .ok 65534 ∧
    Ref.Bool ⟨[7, 254, 255], Pack BOOL 0, 0, 1⟩ = .ok true :=
  ⟨((scalar_getters ⟨[7, 254, 255], Pack INT 1, 1, 1⟩ (by decide) (by decide)
      (by decide)).2.2.2.1 (by decide)).trans (by decide),
    (scalar_getters ⟨[7, 254, 255], Pack INT 1, 1, 1⟩ (by decide) (by decide)
      (by decide)).2.1.mpr (by decide),
    (scalar_getters ⟨[7, 254, 255], Pack INT 1, 1, 1⟩ (by decide) (by decide)
      (by decide)).2.2.1.mpr (by decide),
    ((scalar_getters ⟨[7, 254, 255], Pack UINT 1, 1, 1⟩ (by decide) (by decide)
      (by decide)).2.2.2.2.1 (by decide)).trans (by decide),
    ((scalar_getters ⟨[7, 254, 255], Pack BOOL 0, 0, 1⟩ (by decide) (by decide)
      (by decide)).2.2.2.2.2.1 (by decide)).trans (by decide)⟩

/-- Bool does not decode the `width` bytes: on a BOOL slot of width 2 holding the bytes
`00 01`, inside the buffer, the little-endian decoding of the two bytes is 256, not 0,
and Bool returns false, the first byte being 0. -/
theorem Bool_reads_first_byte_only :
    ItemVarType (Pack BOOL 1) = BOOL ∧ B (ItemByteSize (Pack BOOL 1)) = 2 ∧
    Ref.widthBytes ⟨[0, 1], Pack BOOL 1, 0, 1⟩ = [0, 1] ∧
    spec_littleEndian (Ref.widthBytes ⟨[0, 1], Pack BOOL 1, 0, 1⟩) = 256 ∧
    Ref.Bool ⟨[0, 1], Pack BOOL 1, 0, 1⟩ = .ok false := by
  decide

/-- C28: Index past the end and Index on a Ref that is not iterable return errors. For an
iterable Ref and every `int64` index `i` with `item_count <= i`, Index returns the
out-of-bounds error; for a Ref that is not iterable, Index returns the error of a type
that can not be indexed, for every `i`. Neither is a panic or a Ref. -/
theorem Index_errors (r : Ref) (i : GoInt64) :
    (r.IsIterable = true → (r.item_count : Int) ≤ i → r.Index i = .error Err.outOfBounds) ∧
    (r.IsIterable = false → ∀ j : GoInt64, r.Index j = .error Err.notIndexable) := by
  constructor
  · intro hit hle
    have hins : r.InsideBounds i = false := by
      unfold Ref.InsideBounds i64
      simp only [decide_eq_false_iff_not]
      omega
    unfold Ref.Index
    simp only [hit, hins, Bool.not_true, Bool.not_false, Bool.false_eq_true, if_false, if_true]
  · intro hit j
    unfold Ref.Index
    simp only [hit, Bool.not_false, if_true]

/-- The two errors of Index on Refs built by hand: a vector Ref of 3 items at the indexes
3 and 100, and a Ref of an INT at the indexes 0 and -1. -/
theorem Index_errors_witness :
    Ref.Index ⟨[3, 1, 2, 3, 4, 4, 4], Pack VECTOR 0, 1, 3⟩ 3 = .error Err.outOfBounds ∧
    Ref.Index ⟨[3, 1, 2, 3, 4, 4, 4], Pack VECTOR 0, 1, 3⟩ 100 = .error Err.outOfBounds ∧
    Ref.Index ⟨[5], Pack INT 0, 0, 1⟩ 0 = .error Err.notIndexable ∧
    Ref.Index ⟨[5], Pack INT 0, 0, 1⟩ (-1) = .error Err.notIndexable :=
  ⟨(Index_errors ⟨[3, 1, 2, 3, 4, 4, 4], Pack VECTOR 0, 1, 3⟩ 3).1 (by decide) (by decide),
    (Index_errors ⟨[3, 1, 2, 3, 4, 4, 4], Pack VECTOR 0, 1, 3⟩ 100).1 (by decide) (by decide),
    (Index_errors ⟨[5], Pack INT 0, 0, 1⟩ 0).2 (by decide) 0,
    (Index_errors ⟨[5], Pack INT 0, 0, 1⟩ 0).2 (by decide) (-1)⟩

/-! ## The reader on buffers of finished builders, and the widths of a map of two vectors -/

set_option maxRecDepth 100000 in
/-- C29: NewRef panics on the buffer of a finished builder whose root is a container, so
Interface is never reached. For the empty vector, a typed int vector, a map, a string and
a blob, each built on a new builder by calls that all succeed and leave it finished,
SerializeBuffer succeeds and NewRef on the buffer returned panics; itemCount has no case
for a typed vector, and reads the size prefix of the others outside the buffer. -/
theorem NewRef_panics_on_finished_builders :
    (NewBuilder.run [.StartVector, .End]).1 = [.ok (), .ok ()] ∧
    (NewBuilder.run [.StartVector, .End]).2.IsFinished = true ∧
    ((NewBuilder.run [.StartVector, .End]).2.SerializeBuffer []).1 = .ok 1 ∧
    ((NewBuilder.run [.StartVector, .End]).2.SerializeBuffer []).2.2 = [0, 0, 40, 1] ∧
    NewRef [0, 0, 40, 1] = .panic ∧
    (NewBuilder.run [.StartTypedIntVector, .Int 1, .End]).1 = [.ok (), .ok (), .ok ()] ∧
    (NewBuilder.run [.StartTypedIntVector, .Int 1, .End]).2.IsFinished = true ∧
    ((NewBuilder.run [.StartTypedIntVector, .Int 1, .End]).2.SerializeBuffer []).1 = .ok 2 ∧
    ((NewBuilder.run [.StartTypedIntVector, .Int 1, .End]).2.SerializeBuffer []).2.2
      = [1, 1, 1, 44, 1] ∧
    NewRef [1, 1, 1, 44, 1] = .panic ∧
    Ref.itemCount ⟨[1, 1, 1, 44, 1], Pack VECTOR_INT 0, 1, 0⟩ = .panic ∧
    (NewBuilder.run [.StartMap, .IntWithKey "a" 1, .End]).1 = [.ok (), .ok (), .ok ()] ∧
    (NewBuilder.run [.StartMap, .IntWithKey "a" 1, .End]).2.IsFinished = true ∧
    ((NewBuilder.run [.StartMap, .IntWithKey "a" 1, .End]).2.SerializeBuffer []).1 = .ok 9 ∧
    ((NewBuilder.run [.StartMap, .IntWithKey "a" 1, .End]).2.SerializeBuffer []).2.2
      = [97, 0, 1, 3, 1, 1, 1, 1, 4, 2, 36, 1] ∧
    NewRef [97, 0, 1, 3, 1, 1, 1, 1, 4, 2, 36, 1] = .panic ∧
    (NewBuilder.run [.String "hi"]).1 = [.ok ()] ∧
    (NewBuilder.run [.String "hi"]).2.IsFinished = true ∧
    ((NewBuilder.run [.String "hi"]).2.SerializeBuffer []).1 = .ok 4 ∧
    ((NewBuilder.run [.String "hi"]).2.SerializeBuffer []).2.2 = [2, 104, 105, 0, 3, 20, 1] ∧
    NewRef [2, 104, 105, 0, 3, 20, 1] = .panic ∧
    (NewBuilder.run [.StartBlob [], .Uint 7, .End]).1 = [.ok (), .ok (), .ok ()] ∧
    (NewBuilder.run [.StartBlob [], .Uint 7, .End]).2.IsFinished = true ∧
    ((NewBuilder.run [.StartBlob [], .Uint 7, .End]).2.SerializeBuffer []).1 = .ok 2 ∧
    ((NewBuilder.run [.StartBlob [], .Uint 7, .End]).2.SerializeBuffer []).2.2
      = [1, 7, 1, 100, 1] ∧
    NewRef [1, 7, 1, 100, 1] = .panic := by
  decide

set_option maxRecDepth 100000 in
/-- C30 (amended): the widths of `MAP{"MyVec":[1,2,2147483647], "OtherVec":[3,4,f]}` for
the 64-bit float of the claim and for `math.MaxFloat64`. Every call succeeds and so does
SerializeBuffer; the outer map (object 1) is emitted in width 1, its two slots being
offsets of one byte each, MyVec (object 4) in width 4 and OtherVec (object 6) in width 8:
the root descriptor is `Pack(MAP, 0)` and the type table of the map is `Pack(VECTOR, 2)`,
`Pack(VECTOR, 3)`. -/
theorem two_vector_map_widths :
    (NewBuilder.run (twoVectorMapOps float_1_797693e308)).1 = List.replicate 12 (.ok ()) ∧
    ((NewBuilder.run (twoVectorMapOps float_1_797693e308)).2.SerializeBuffer []).1 = .ok 81 ∧
    ((NewBuilder.run (twoVectorMapOps float_1_797693e308)).2.SerializeBuffer []).2.2 =
      [3, 0, 0, 0, 1, 0, 0, 0, 2, 0, 0, 0, 255, 255, 255, 127, 6, 6, 6, 0] ++
      [3, 0, 0, 0, 0, 0, 0, 0, 3, 0, 0, 0, 0, 0, 0, 0, 4, 0, 0, 0, 0, 0, 0, 0,
        154, 96, 185, 215, 255, 255, 239, 127, 7, 7, 15, 0] ++
      [77, 121, 86, 101, 99, 0, 79, 116, 104, 101, 114, 86, 101, 99, 0] ++
      [2, 16, 11] ++ [2, 1] ++ [2, 73, 50, Pack VECTOR 2, Pack VECTOR 3] ++
      [4, Pack MAP 0, 1] ∧
    (((NewBuilder.run (twoVectorMapOps float_1_797693e308)).2.SerializeBuffer []).2.1.mem.struct
      1).dyn = Dyn.flexMap ∧
    B (getBsize ((NewBuilder.run (twoVectorMapOps float_1_797693e308)).2.SerializeBuffer
      []).2.1.mem 1) = 1 ∧
    elemsOf (NewBuilder.run (twoVectorMapOps float_1_797693e308)).2.mem 4
      = [newINT 1, newINT 2, newINT 2147483647] ∧
    B (getBsize ((NewBuilder.run (twoVectorMapOps float_1_797693e308)).2.SerializeBuffer
      []).2.1.mem 4) = 4 ∧
    elemsOf (NewBuilder.run (twoVectorMapOps float_1_797693e308)).2.mem 6
      = [newINT 3, newINT 4, newFLOAT float_1_797693e308] ∧
    B (getBsize ((NewBuilder.run (twoVectorMapOps float_1_797693e308)).2.SerializeBuffer
      []).2.1.mem 6) = 8 ∧
    (NewBuilder.run (twoVectorMapOps maxFloat64)).1 = List.replicate 12 (.ok ()) ∧
    B (getBsize ((NewBuilder.run (twoVectorMapOps maxFloat64)).2.SerializeBuffer
      []).2.1.mem 1) = 1 ∧
    B (getBsize ((NewBuilder.run (twoVectorMapOps maxFloat64)).2.SerializeBuffer
      []).2.1.mem 4) = 4 ∧
    B (getBsize ((NewBuilder.run (twoVectorMapOps maxFloat64)).2.SerializeBuffer
      []).2.1.mem 6) = 8 := by
  decide

set_option maxRecDepth 100000 in
/-- The outer map of `MAP{"MyVec":[1,2,2147483647], "OtherVec":[3,4,1.797693e308]}` is
emitted in width 1, below 4: the width of the map object after SerializeBuffer is 1 byte,
and the descriptor byte of the root, the last but one of the buffer, is `Pack(MAP, 0)`. -/
theorem two_vector_map_width_is_one :
    B (getBsize ((NewBuilder.run (twoVectorMapOps float_1_797693e308)).2.SerializeBuffer
      []).2.1.mem 1) = 1 ∧
    ¬ 4 ≤ B (getBsize ((NewBuilder.run (twoVectorMapOps float_1_797693e308)).2.SerializeBuffer
      []).2.1.mem 1) ∧
    (((NewBuilder.run (twoVectorMapOps float_1_797693e308)).2.SerializeBuffer []).2.2)[82]?
      = some (Pack MAP 0) ∧
    ItemByteSize (Pack MAP 0) = 0 := by
  decide

/-! ## The typed-vector predicate -/

theorem isFixedTypedVector_iff (t : Nat) :
    isFixedTypedVector t = true ↔ ((6 ≤ t ∧ t ≤ 8) ∨ (16 ≤ t ∧ t ≤ 24)) := by
  have key : ((((t ≥ 6 ∧ t ≤ 8) ∨ (t ≥ 16 ∧ t ≤ 18)) ∨ (t ≥ 19 ∧ t ≤ 21)) ∨ (t ≥ 22 ∧ t ≤ 24))
      ↔ ((6 ≤ t ∧ t ≤ 8) ∨ (16 ≤ t ∧ t ≤ 24)) := by omega
  simp only [isFixedTypedVector, isScalar, isTuple, isTriple, isQuad, Bool.or_eq_true,
    Bool.and_eq_true, decide_eq_true_eq]
  exact key

theorem isTypedVector_iff (t : Nat) :
    isTypedVector t = true ↔
      (t ∈ [VECTOR_INT, VECTOR_UINT, VECTOR_FLOAT, VECTOR_KEY, VECTOR_STRING_DEPRECATED,
          VECTOR_BOOL] ∨ (6 ≤ t ∧ t ≤ 8) ∨ (16 ≤ t ∧ t ≤ 24)) := by
  have key : (((t > 10 ∧ t < 16) ∨ ((6 ≤ t ∧ t ≤ 8) ∨ (16 ≤ t ∧ t ≤ 24))) ∨ t = 36) ∨ t = 14
      ↔ ((t = 11 ∨ t = 12 ∨ t = 13 ∨ t = 14 ∨ t = 15 ∨ t = 36) ∨ (6 ≤ t ∧ t ≤ 8) ∨
        (16 ≤ t ∧ t ≤ 24)) := by omega
  simp only [isTypedVector, Bool.or_eq_true, Bool.and_eq_true, decide_eq_true_eq,
    isFixedTypedVector_iff, List.mem_cons, List.mem_singleton, List.not_mem_nil, or_false]
  exact key

/-- C34 (amended): isTypedVector holds exactly for the tags 11 to 15 (VECTOR_INT,
VECTOR_UINT, VECTOR_FLOAT, VECTOR_KEY and VECTOR_STRING_DEPRECATED), for VECTOR_BOOL and
for the fixed-typed tags 6 to 8 and 16 to 24, the tags isFixedTypedVector holds for; so
it is false for VECTOR, MAP, every inline tag and every blob-like tag. -/
theorem isTypedVector_tags (t : Nat) :
    (isTypedVector t = true ↔
      (t ∈ [VECTOR_INT, VECTOR_UINT, VECTOR_FLOAT, VECTOR_KEY, VECTOR_STRING_DEPRECATED,
          VECTOR_BOOL] ∨ (6 ≤ t ∧ t ≤ 8) ∨ (16 ≤ t ∧ t ≤ 24))) ∧
    (isFixedTypedVector t = true ↔ ((6 ≤ t ∧ t ≤ 8) ∨ (16 ≤ t ∧ t ≤ 24))) ∧
    (t = VECTOR ∨ t = MAP ∨ isInline t = true ∨ isBlobLike t = true →
      isTypedVector t = false) := by
  refine ⟨isTypedVector_iff t, isFixedTypedVector_iff t, ?_⟩
  intro h
  rw [Bool.eq_false_iff]
  intro hc
  rw [isTypedVector_iff] at hc
  have h1 : t = 10 ∨ t = 9 ∨ (t ≤ 3 ∨ t = 26) ∨ (t = 25 ∨ t = 5) ∨ t = 4 := by
    simpa only [isInline, isBlobLike, Bool.or_eq_true, decide_eq_true_eq] using h
  have h2 : (t = 11 ∨ t = 12 ∨ t = 13 ∨ t = 14 ∨ t = 15 ∨ t = 36) ∨ (6 ≤ t ∧ t ≤ 8) ∨
      (16 ≤ t ∧ t ≤ 24) := by
    simpa only [List.mem_cons, List.mem_singleton, List.not_mem_nil, or_false] using hc
  omega

/-- The typed-vector predicate holds of VECTOR_STRING_DEPRECATED, the tag 15, and
newTypedVector, which panics on a tag that is no typed vector, builds a typed vector of
this one. -/
theorem isTypedVector_of_deprecated :
    VECTOR_STRING_DEPRECATED = 15 ∧ isTypedVector VECTOR_STRING_DEPRECATED = true ∧
    (newTypedVector { elements := [], structs := [] } VECTOR_STRING_DEPRECATED).1 = .ok 0 := by
  decide

/-! ## Padding -/

/-- The number of bytes appendPadding appends for a width 1, 2, 4 or 8: the distance from
the length to the next multiple of the width. -/
theorem padding_eq (n w : Nat) (hw : w = 1 ∨ w = 2 ∨ w = 4 ∨ w = 8) :
    u64 (-(n : Int)) &&& (w - 1) = (w - n % w) % w := by
  have h1 : u64 (-(n : Int)) &&& (2 ^ 0 - 1) = u64 (-(n : Int)) % 2 ^ 0 :=
    Nat.and_pow_two_sub_one_eq_mod _ 0
  have h2 : u64 (-(n : Int)) &&& (2 ^ 1 - 1) = u64 (-(n : Int)) % 2 ^ 1 :=
    Nat.and_pow_two_sub_one_eq_mod _ 1
  have h4 : u64 (-(n : Int)) &&& (2 ^ 2 - 1) = u64 (-(n : Int)) % 2 ^ 2 :=
    Nat.and_pow_two_sub_one_eq_mod _ 2
  have h8 : u64 (-(n : Int)) &&& (2 ^ 3 - 1) = u64 (-(n : Int)) % 2 ^ 3 :=
    Nat.and_pow_two_sub_one_eq_mod _ 3
  simp only [Nat.reducePow, Nat.reduceSub] at h1 h2 h4 h8
  rcases hw with rfl | rfl | rfl | rfl
  · rw [h1]; unfold u64; omega
  · rw [h2]; unfold u64; omega
  · rw [h4]; unfold u64; omega
  · rw [h8]; unfold u64; omega

/-- C39: appendPadding for a width 1, 2, 4 or 8. It appends `k` bytes with `k` below the
width, all of them 0, after the bytes the buffer holds, which stay as they are; the new
length is a multiple of the width; and when the length is a multiple of the width already
the buffer is returned as it was. -/
theorem appendPadding_pads (buff : List Nat) (w : Nat) (hw : w = 1 ∨ w = 2 ∨ w = 4 ∨ w = 8) :
    ∃ k, k < w ∧ appendPadding buff w = buff ++ List.replicate k 0 ∧
      w ∣ (appendPadding buff w).length ∧
      (w ∣ buff.length → appendPadding buff w = buff) := by
  have hp := padding_eq buff.length w hw
  have hpos : 0 < w := by rcases hw with rfl | rfl | rfl | rfl <;> decide
  have hk : (w - buff.length % w) % w < w := Nat.mod_lt _ hpos
  have heq : appendPadding buff w = buff ++ List.replicate ((w - buff.length % w) % w) 0 := by
    unfold appendPadding
    simp only [hp]
    split_ifs with h0
    · rfl
    · have hz : (w - buff.length % w) % w = 0 := by simpa using h0
      rw [hz]; simp
  refine ⟨(w - buff.length % w) % w, hk, heq, ?_, ?_⟩
  · rw [heq, List.length_append, List.length_replicate]
    have hlt : buff.length % w < w := Nat.mod_lt _ hpos
    apply Nat.dvd_of_mod_eq_zero
    rcases hw with rfl | rfl | rfl | rfl <;> omega
  · intro hd
    rw [heq]
    have hz : buff.length % w = 0 := Nat.mod_eq_zero_of_dvd hd
    rw [hz, Nat.sub_zero, Nat.mod_self]
    simp

/-- The padding of buffers of 5 and of 8 bytes to the width 4, and of a buffer of 3 bytes
to the width 8. -/
theorem appendPadding_pads_witness :
    (∃ k, k < 4 ∧ appendPadding [1, 2, 3, 4, 5] 4 = [1, 2, 3, 4, 5] ++ List.replicate k 0 ∧
      4 ∣ (appendPadding [1, 2, 3, 4, 5] 4).length ∧
      (4 ∣ [1, 2, 3, 4, 5].length → appendPadding [1, 2, 3, 4, 5] 4 = [1, 2, 3, 4, 5])) ∧
    appendPadding [1, 2, 3, 4, 5] 4 = [1, 2, 3, 4, 5, 0, 0, 0] ∧
    appendPadding [1, 2, 3, 4, 5, 6, 7, 8] 4 = [1, 2, 3, 4, 5, 6, 7, 8] ∧
    appendPadding [1, 2, 3] 8 = [1, 2, 3, 0, 0, 0, 0, 0] :=
  ⟨appendPadding_pads [1, 2, 3, 4, 5] 4 (by decide), by decide, by decide, by decide⟩

/-! ## insertElement as list insertion -/

theorem elemsOf_insert (m m1 : Mem) (s : Nat) (e : element) (n : Nat)
    (hel : m1.elements = m.elements ++ [e])
    (hst : (m1.struct s).elems
      = (m.struct s).elems.take n ++ m.elements.length :: (m.struct s).elems.drop n)
    (hlive : ∀ p ∈ (m.struct s).elems, p < m.elements.length) :
    elemsOf m1 s = (elemsOf m s).take n ++ e :: (elemsOf m s).drop n := by
  have hold : ∀ p ∈ (m.struct s).elems, m1.elem p = m.elem p := fun p hp =>
    elem_of_elements_append m m1 [e] hel p (hlive p hp)
  have hnew : m1.elem m.elements.length = e := by
    simp [Mem.elem, hel]
  unfold elemsOf
  rw [hst, List.map_append, List.map_cons, hnew, List.map_take, List.map_drop]
  congr 1
  · congr 1
    exact List.map_congr_left hold
  · congr 2
    exact List.map_congr_left hold

/-- C40: structure.insertElement on a container that admits the element is list
insertion. For an allocated structure whose element pointers are allocated and which
admits `e` (`allows` returns no error), the call succeeds; for `index + 1 <= len` it
returns `index` and the elements are the old ones before `index`, then `e`, then the old
ones from `index` on; for `index >= len` it returns `len` and the elements are the old
ones followed by `e`; either way there is one element more and dropping `e` at the
position returned gives the old list back. -/
theorem insertElement_is_list_insertion (m : Mem) (s : Ptr) (e : element) (index : Nat)
    (hs : s < m.structs.length)
    (hlive : ∀ p ∈ (m.struct s).elems, p < m.elements.length)
    (hall : allows (m.struct s) e = none) :
    ∃ n m1, structure_insertElement m s e index = (.ok n, m1) ∧
      (index + 1 ≤ (elemsOf m s).length → n = index ∧
        elemsOf m1 s = (elemsOf m s).take index ++ [e] ++ (elemsOf m s).drop index) ∧
      ((elemsOf m s).length ≤ index → n = (elemsOf m s).length ∧
        elemsOf m1 s = elemsOf m s ++ [e]) ∧
      (elemsOf m1 s).length = (elemsOf m s).length + 1 ∧
      (elemsOf m1 s).eraseIdx n = elemsOf m s := by
  obtain ⟨n, m1, hr⟩ := structure_insertElement_accepts m s e index hall
  obtain ⟨hel, _, hn, _, hself⟩ := structure_insertElement_ok m s e index n m1 hr
  have hst := hself hs
  have hins : elemsOf m1 s = (elemsOf m s).take n ++ e :: (elemsOf m s).drop n :=
    elemsOf_insert m m1 s e n hel (by rw [hst]) hlive
  have hlen : (elemsOf m s).length = (m.struct s).elems.length := by simp [elemsOf]
  have hnle : n ≤ (elemsOf m s).length := by rw [hlen, hn]; exact Nat.min_le_right _ _
  refine ⟨n, m1, hr, ?_, ?_, ?_, ?_⟩
  · intro hi
    have : n = index := by rw [hn]; rw [hlen] at hi; omega
    exact ⟨this, by rw [hins, this]; simp⟩
  · intro hi
    have : n = (elemsOf m s).length := by rw [hn, hlen]; rw [hlen] at hi; omega
    refine ⟨this, ?_⟩
    rw [hins, this]; simp
  · rw [hins]
    simp only [List.length_append, List.length_take, List.length_cons, List.length_drop]
    omega
  · rw [hins]
    have h1 : ((elemsOf m s).take n).length = n := by
      rw [List.length_take]; omega
    rw [List.eraseIdx_append_of_length_le (by omega)]
    simp [h1]

set_option maxRecDepth 100000 in
/-- The vector `[1, 2, 3]` of a builder, as object 1 of its memory: 9 inserted at the index
1 goes between 1 and 2, and inserted at the index 7 it goes to the end, at the position
3. -/
theorem insertElement_is_list_insertion_witness :
    (∃ n m1, structure_insertElement
        (NewBuilder.run [.StartVector, .Int 1, .Int 2, .Int 3]).2.mem 1 (newINT 9) 1 = (.ok n, m1) ∧
      (1 + 1 ≤ (elemsOf (NewBuilder.run [.StartVector, .Int 1, .Int 2, .Int 3]).2.mem 1).length →
        n = 1 ∧ elemsOf m1 1 =
          (elemsOf (NewBuilder.run [.StartVector, .Int 1, .Int 2, .Int 3]).2.mem 1).take 1
            ++ [newINT 9] ++
          (elemsOf (NewBuilder.run [.StartVector, .Int 1, .Int 2, .Int 3]).2.mem 1).drop 1) ∧
      ((elemsOf (NewBuilder.run [.StartVector, .Int 1, .Int 2, .Int 3]).2.mem 1).length ≤ 1 →
        n = (elemsOf (NewBuilder.run [.StartVector, .Int 1, .Int 2, .Int 3]).2.mem 1).length ∧
        elemsOf m1 1 =
          elemsOf (NewBuilder.run [.StartVector, .Int 1, .Int 2, .Int 3]).2.mem 1 ++ [newINT 9]) ∧
      (elemsOf m1 1).length =
        (elemsOf (NewBuilder.run [.StartVector, .Int 1, .Int 2, .Int 3]).2.mem 1).length + 1 ∧
      (elemsOf m1 1).eraseIdx n =
        elemsOf (NewBuilder.run [.StartVector, .Int 1, .Int 2, .Int 3]).2.mem 1) ∧
    elemsOf (NewBuilder.run [.StartVector, .Int 1, .Int 2, .Int 3]).2.mem 1
      = [newINT 1, newINT 2, newINT 3] ∧
    (structure_insertElement (NewBuilder.run [.StartVector, .Int 1, .Int 2, .Int 3]).2.mem 1
      (newINT 9) 1).1 = .ok 1 ∧
    elemsOf (structure_insertElement (NewBuilder.run [.StartVector, .Int 1, .Int 2, .Int 3]).2.mem
      1 (newINT 9) 1).2 1 = [newINT 1, newINT 9, newINT 2, newINT 3] ∧
    (structure_insertElement (NewBuilder.run [.StartVector, .Int 1, .Int 2, .Int 3]).2.mem 1
      (newINT 9) 7).1 = .ok 3 ∧
    elemsOf (structure_insertElement (NewBuilder.run [.StartVector, .Int 1, .Int 2, .Int 3]).2.mem
      1 (newINT 9) 7).2 1 = [newINT 1, newINT 2, newINT 3, newINT 9] :=
  ⟨insertElement_is_list_insertion _ 1 (newINT 9) 1 (by decide) (by decide) (by decide),
    by decide, by decide, by decide, by decide, by decide⟩

/-! ## The insertion index of a key -/

theorem strLt_total : ∀ x y : List Nat, strLt x y = false → strLt y x = true ∨ y = x
  | [], [] => by simp [strLt]
  | [], _ :: _ => by simp [strLt]
  | _ :: _, [] => by simp [strLt]
  | a :: xs, c :: ys => by
    simp only [strLt]
    intro h
    by_cases h1 : a < c
    · simp [h1] at h
    · by_cases h2 : c < a
      · simp [h2]
      · have hac : a = c := by omega
        subst hac
        simp only [h1, if_false] at h ⊢
        rcases strLt_total xs ys h with h3 | h3
        · exact Or.inl h3
        · exact Or.inr (by rw [h3])

/-- The upper-bound position in a list is unique: two indexes that both split the list
into members not above the key and members above it are equal. -/
theorem upper_bound_unique (f : Nat → Bool) (l : List Nat) (r r1 : Nat)
    (hr : r ≤ l.length) (hr1 : r1 ≤ l.length)
    (h1 : ∀ c ∈ l.take r, f c = false) (h2 : ∀ c ∈ l.drop r, f c = true)
    (h3 : ∀ c ∈ l.take r1, f c = false) (h4 : ∀ c ∈ l.drop r1, f c = true) : r = r1 := by
  by_contra hne
  rcases Nat.lt_or_gt_of_ne hne with hlt | hlt
  · have hlen : r < l.length := by omega
    have ha := h2 l[r] (by rw [List.drop_eq_getElem_cons hlen]; exact List.mem_cons_self _ _)
    have hb := h3 l[r] (List.mem_take_iff_getElem.mpr ⟨r, by omega, rfl⟩)
    rw [ha] at hb; cases hb
  · have hlen : r1 < l.length := by omega
    have ha := h4 l[r1] (by rw [List.drop_eq_getElem_cons hlen]; exact List.mem_cons_self _ _)
    have hb := h1 l[r1] (List.mem_take_iff_getElem.mpr ⟨r1, by omega, rfl⟩)
    rw [ha] at hb; cases hb

/-- C36: determineKeyInsertionIndex returns the upper-bound position. For a map whose key
vector holds key objects with strings in ascending order and for every new key `k`, the
call returns an index `r` between 0 and the number `n` of keys; every key before `r` is
not above `k` (it is below `k` or equal to it) and `k` is below every key from `r` on. The
recursion ends: DAC returns this `r` at every depth bound above `n`. -/
theorem determineKeyInsertionIndex_upper_bound (m : Mem) (mp k : Ptr)
    (_hkeys : ∀ c ∈ (m.struct (m.struct mp).keys).children, (m.struct c).dyn = Dyn.key)
    (hsorted : (mapKeys m mp).Pairwise (fun x y => strLt y x = false)) :
    ∃ r, determineKeyInsertionIndex m mp k = .ok r ∧ r ≤ (mapKeys m mp).length ∧
      (∀ c ∈ (mapKeys m mp).take r,
        strLt (flexString_toString m k) c = false ∧
        (strLt c (flexString_toString m k) = true ∨ c = flexString_toString m k)) ∧
      (∀ c ∈ (mapKeys m mp).drop r, strLt (flexString_toString m k) c = true) ∧
      (∀ fuel, (mapKeys m mp).length < fuel →
        DAC m k fuel (m.struct (m.struct mp).keys).children = some r) := by
  have hlen : (mapKeys m mp).length = (m.struct (m.struct mp).keys).children.length := by
    simp [mapKeys]
  obtain ⟨r, hr, h1, h2, h3⟩ := DAC_spec m k ((m.struct (m.struct mp).keys).children.length + 1)
    (m.struct (m.struct mp).keys).children (Nat.lt_succ_self _) hsorted
  refine ⟨r, by simp [determineKeyInsertionIndex, hr], by rw [hlen]; exact h1, ?_, ?_, ?_⟩
  · intro c hc
    unfold mapKeys at hc
    rw [← List.map_take] at hc
    obtain ⟨p, hp, rfl⟩ := List.mem_map.mp hc
    exact ⟨h2 p hp, strLt_total _ _ (h2 p hp)⟩
  · intro c hc
    unfold mapKeys at hc
    rw [← List.map_drop] at hc
    obtain ⟨p, hp, rfl⟩ := List.mem_map.mp hc
    exact h3 p hp
  · intro fuel hf
    obtain ⟨r1, hr1, g1, g2, g3⟩ := DAC_spec m k fuel
      (m.struct (m.struct mp).keys).children (by rw [← hlen]; exact hf) hsorted
    rw [hr1]
    congr 1
    exact upper_bound_unique
      (fun c => strLt (flexString_toString m k) (flexString_toString m c))
      _ r1 r g1 h1 g2 g3 h2 h3

set_option maxRecDepth 100000 in
/-- The map with the keys One, Three, Two: the key "P" goes to the position 1, the key
"A" to 0, the key "Z" to 3 and a second key "Three" to 2, after the first. -/
theorem determineKeyInsertionIndex_upper_bound_witness :
    mapKeys (newKey oneTwoThreeMem "P").2 0 = [runes "One", runes "Three", runes "Two"] ∧
    determineKeyInsertionIndex (newKey oneTwoThreeMem "P").2 0 (newKey oneTwoThreeMem "P").1
      = .ok 1 ∧
    determineKeyInsertionIndex (newKey oneTwoThreeMem "A").2 0 (newKey oneTwoThreeMem "A").1
      = .ok 0 ∧
    determineKeyInsertionIndex (newKey oneTwoThreeMem "Z").2 0 (newKey oneTwoThreeMem "Z").1
      = .ok 3 ∧
    determineKeyInsertionIndex (newKey oneTwoThreeMem "Three").2 0
      (newKey oneTwoThreeMem "Three").1 = .ok 2 ∧
    (∃ r, determineKeyInsertionIndex (newKey oneTwoThreeMem "P").2 0
        (newKey oneTwoThreeMem "P").1 = .ok r ∧
      r ≤ (mapKeys (newKey oneTwoThreeMem "P").2 0).length ∧
      (∀ c ∈ (mapKeys (newKey oneTwoThreeMem "P").2 0).take r,
        strLt (flexString_toString (newKey oneTwoThreeMem "P").2
          (newKey oneTwoThreeMem "P").1) c = false ∧
        (strLt c (flexString_toString (newKey oneTwoThreeMem "P").2
            (newKey oneTwoThreeMem "P").1) = true ∨
          c = flexString_toString (newKey oneTwoThreeMem "P").2
            (newKey oneTwoThreeMem "P").1)) ∧
      (∀ c ∈ (mapKeys (newKey oneTwoThreeMem "P").2 0).drop r,
        strLt (flexString_toString (newKey oneTwoThreeMem "P").2
          (newKey oneTwoThreeMem "P").1) c = true) ∧
      (∀ fuel, (mapKeys (newKey oneTwoThreeMem "P").2 0).length < fuel →
        DAC (newKey oneTwoThreeMem "P").2 (newKey oneTwoThreeMem "P").1 fuel
          ((newKey oneTwoThreeMem "P").2.struct
            ((newKey oneTwoThreeMem "P").2.struct 0).keys).children = some r)) :=
  ⟨by decide, by decide, by decide, by decide, by decide,
    determineKeyInsertionIndex_upper_bound (newKey oneTwoThreeMem "P").2 0
      (newKey oneTwoThreeMem "P").1 (by decide) (by decide)⟩

/-! ## Serialization only appends -/

theorem StartInside_structure_serializeElems (m : Mem) (s : Nat) (buff : List Nat) :
    StartInside buff (structure_serializeElems m s buff) := by
  have h := Frame_serializeElemsLoop s buff.length (m.struct s).elems 0 m buff
  unfold structure_serializeElems
  dsimp only
  revert h
  generalize serializeElemsLoop s buff.length 0 (m.struct s).elems m buff = r
  obtain ⟨o, m1, buff1⟩ := r
  intro h i m2 out hi
  cases o with
  | ok a =>
    simp only [Prod.mk.injEq, Outcome.ok.injEq] at hi
    obtain ⟨rfl, _, rfl⟩ := hi
    exact ⟨Nat.le_refl _, h.2.length_le⟩
  | error e => simp at hi
  | panic => simp at hi
  | diverge => simp at hi

theorem StartInside_typedVector_serializeElems (m : Mem) (s : Nat) (buff : List Nat) :
    StartInside buff (typedVector_serializeElems m s buff) := by
  unfold typedVector_serializeElems
  dsimp only
  split_ifs
  · intro i m2 out hi; simp at hi
  · intro i m2 out hi
    have h := StartInside_structure_serializeElems m s
      (buff ++ (putUint64 (m.struct s).elems.length).take (B (m.struct s).bSize)) i m2 out hi
    rw [List.length_append] at h
    exact ⟨by omega, h.2⟩

/-- A step that runs another one and appends to the buffer it leaves. -/
theorem StartInside_append (buff : List Nat) (r : Outcome Nat × Mem × List Nat)
    (h : StartInside buff r) (i : Nat) (m1 : Mem) (out tail : List Nat)
    (hr : r = (.ok i, m1, out)) : buff.length ≤ i ∧ i ≤ (out ++ tail).length := by
  have := h i m1 out hr
  rw [List.length_append]
  omega

theorem StartInside_vector_serializeElems (m : Mem) (s : Nat) (buff : List Nat) :
    StartInside buff (vector_serializeElems m s buff) := by
  have h := StartInside_typedVector_serializeElems m s buff
  unfold vector_serializeElems
  revert h
  generalize typedVector_serializeElems m s buff = r
  obtain ⟨o, m1, buff1⟩ := r
  intro h i m2 out hi
  cases o with
  | ok a =>
    simp only [Prod.mk.injEq, Outcome.ok.injEq] at hi
    obtain ⟨rfl, _, rfl⟩ := hi
    exact StartInside_append buff _ h a m1 buff1 _ rfl
  | error e => simp at hi
  | panic => simp at hi
  | diverge => simp at hi

theorem StartInside_flexString_serializeElems (m : Mem) (s : Nat) (buff : List Nat) :
    StartInside buff (flexString_serializeElems m s buff) := by
  have h := StartInside_typedVector_serializeElems m s buff
  unfold flexString_serializeElems
  revert h
  generalize typedVector_serializeElems m s buff = r
  obtain ⟨o, m1, buff1⟩ := r
  intro h i m2 out hi
  cases o with
  | ok a =>
    simp only [Prod.mk.injEq, Outcome.ok.injEq] at hi
    obtain ⟨rfl, _, rfl⟩ := hi
    exact StartInside_append buff _ h a m1 buff1 _ rfl
  | error e => simp at hi
  | panic => simp at hi
  | diverge => simp at hi

theorem StartInside_key_serializeElems (m : Mem) (s : Nat) (buff : List Nat) :
    StartInside buff (key_serializeElems m s buff) := by
  have h := StartInside_structure_serializeElems m s buff
  unfold key_serializeElems
  revert h
  generalize structure_serializeElems m s buff = r
  obtain ⟨o, m1, buff1⟩ := r
  intro h i m2 out hi
  cases o with
  | ok a =>
    simp only [Prod.mk.injEq, Outcome.ok.injEq] at hi
    obtain ⟨rfl, _, rfl⟩ := hi
    exact StartInside_append buff _ h a m1 buff1 _ rfl
  | error e => simp at hi
  | panic => simp at hi
  | diverge => simp at hi

theorem StartInside_root_serializeElems (m : Mem) (s : Nat) (buff : List Nat) :
    StartInside buff (root_serializeElems m s buff) := by
  have h := StartInside_structure_serializeElems m s buff
  unfold root_serializeElems
  revert h
  generalize structure_serializeElems m s buff = r
  obtain ⟨o, m1, buff1⟩ := r
  intro h i m2 out hi
  cases o with
  | ok a =>
    dsimp only at hi
    split at hi
    · simp at hi
    · simp only [Prod.mk.injEq, Outcome.ok.injEq] at hi
      obtain ⟨rfl, _, rfl⟩ := hi
      rw [List.append_assoc]
      exact StartInside_append buff _ h a m1 buff1 _ rfl
  | error e => simp at hi
  | panic => simp at hi
  | diverge => simp at hi

theorem StartInside_serializeElems (m : Mem) (s : Nat) (buff : List Nat) :
    StartInside buff (serializeElems m s buff) := by
  unfold serializeElems
  split
  · exact StartInside_root_serializeElems m s buff
  · exact StartInside_vector_serializeElems m s buff
  · exact StartInside_vector_serializeElems m s buff
  · exact StartInside_flexString_serializeElems m s buff
  · exact StartInside_key_serializeElems m s buff
  · exact StartInside_typedVector_serializeElems m s buff
  · exact StartInside_typedVector_serializeElems m s buff
  · exact StartInside_typedVector_serializeElems m s buff
  · exact StartInside_typedVector_serializeElems m s buff

/-- The parts of a successful call of serialize: the children succeed and leave the
buffer `buff1`, which extends the buffer of the call; the element area starts at the
index returned, at or after the end of `buff1`, and inside the buffer returned. -/
theorem serialize_parts (fuel : Nat) (m : Mem) (s : Nat) (buff : List Nat) (pad : Bool)
    (i : Nat) (m2 : Mem) (out : List Nat)
    (h : serialize (fuel + 1) m s buff pad = (.ok i, m2, out)) :
    ∃ a m1 buff1,
      serializeChildren (fun m1 ch buff1 pad => serialize fuel m1 ch buff1 pad) m s buff
        = (.ok a, m1, buff1) ∧
      buff <+: buff1 ∧ buff1.length ≤ i ∧ i ≤ out.length := by
  have hc := Frame_serializeChildren
    (fun m1 ch buff1 pad => serialize fuel m1 ch buff1 pad) (Frame_serialize fuel) m s buff
  rw [serialize] at h
  revert h hc
  generalize serializeChildren
    (fun m1 ch buff1 pad => serialize fuel m1 ch buff1 pad) m s buff = r
  obtain ⟨o, m1, buff1⟩ := r
  intro h hc
  cases o with
  | ok a =>
    refine ⟨a, m1, buff1, rfl, hc.2, ?_⟩
    dsimp only at h
    have he := StartInside_serializeElems m1 s buff1
    revert h he
    generalize serializeElems m1 s buff1 = r2
    obtain ⟨o2, m3, buff2⟩ := r2
    intro h he
    cases o2 with
    | ok j =>
      have hj := he j m3 buff2 rfl
      dsimp only at h
      split_ifs at h
      · simp only [Prod.mk.injEq, Outcome.ok.injEq] at h
        obtain ⟨rfl, _, rfl⟩ := h
        exact ⟨hj.1, Nat.le_trans hj.2 (appendPadding_extends _ _).length_le⟩
      · simp only [Prod.mk.injEq, Outcome.ok.injEq] at h
        obtain ⟨rfl, _, rfl⟩ := h
        exact hj
    | error e => simp at h
    | panic => simp at h
    | diverge => simp at h
  | error e => simp at h
  | panic => simp at h
  | diverge => simp at h

theorem StartInside_serialize (fuel : Nat) (m : Mem) (s : Nat) (buff : List Nat) (pad : Bool) :
    StartInside buff (serialize fuel m s buff pad) := by
  intro i m2 out h
  cases fuel with
  | zero => simp [serialize] at h
  | succ fuel =>
    obtain ⟨a, m1, buff1, _, h1, h2, h3⟩ := serialize_parts fuel m s buff pad i m2 out h
    exact ⟨Nat.le_trans h1.length_le h2, h3⟩

/-- C38: serialization only appends. For every memory, structure, buffer `p` and depth
bound, the buffer serialize leaves has `p` as a prefix, whatever the outcome, and an index
it returns is at least `len(p)` and at most the new length; the same holds of
SerializeBuffer on every builder. -/
theorem serialize_only_appends (fuel : Nat) (m : Mem) (s : Ptr) (p : List Nat) (pad : Bool)
    (b : Builder) :
    p <+: (serialize fuel m s p pad).2.2 ∧
    (∀ i, (serialize fuel m s p pad).1 = .ok i →
      p.length ≤ i ∧ i ≤ (serialize fuel m s p pad).2.2.length) ∧
    p <+: (b.SerializeBuffer p).2.2 ∧
    (∀ i, (b.SerializeBuffer p).1 = .ok i →
      p.length ≤ i ∧ i ≤ (b.SerializeBuffer p).2.2.length) := by
  have key : ∀ (fuel : Nat) (m : Mem) (s : Nat) (pad : Bool) (i : Nat),
      (serialize fuel m s p pad).1 = .ok i →
        p.length ≤ i ∧ i ≤ (serialize fuel m s p pad).2.2.length := by
    intro fuel m s pad i hi
    exact StartInside_serialize fuel m s p pad i (serialize fuel m s p pad).2.1
      (serialize fuel m s p pad).2.2 (by rw [← hi])
  refine ⟨(Frame_serialize fuel m s p pad).2, key fuel m s pad, ?_, ?_⟩
  · exact (Frame_serialize (b.mem.structs.length + 1) b.mem 0 p false).2
  · exact key (b.mem.structs.length + 1) b.mem 0 false

/-! ## The stack invariant -/

theorem CallReach_inv (b : Builder) (h : CallReach b) :
    b.sat (fun _ s h => s.head? = some 0 ∧ h = (s.length : Int) - 1) ∧
    Mem.grows NewBuilder.mem b.mem := by
  induction h with
  | new => exact ⟨⟨rfl, rfl⟩, grows_refl _⟩
  | mem b m _ hm ih => exact ⟨ih.1, grows_trans ih.2 hm⟩
  | start b o _ ih =>
    exact ⟨start_closed stack_shape_closed b o ih.1, grows_trans ih.2 (start_grows b o)⟩
  | startWithKey b k o _ ih =>
    exact ⟨startWithKey_closed stack_shape_closed b k o ih.1,
      grows_trans ih.2 (startWithKey_grows b k o)⟩
  | registerElement b e _ he ih =>
    exact ⟨registerElement_closed stack_shape_closed b e ih.1,
      grows_trans ih.2 (registerElement_grows b e he)⟩
  | registerElementWithKey b k e _ he ih =>
    exact ⟨registerElementWithKey_closed b k e ih.1,
      grows_trans ih.2 (registerElementWithKey_grows b k e he)⟩
  | End b _ ih =>
    exact ⟨End_closed stack_shape_closed b ih.1, grows_trans ih.2 (End_grows b)⟩

/-- C35: the stack invariant of the builder. In every state a new builder reaches through
the internal calls start, startWithKey, registerElement, registerElementWithKey and End
(with any allocation between them), and in every state it reaches through its public
calls, the head index is `len(inProgress) - 1` and is not negative, `inProgress[0]` is
the pointer 0, which holds the root, and getHead finds `inProgress[headIndex]`: its index
is in range. -/
theorem stack_invariant (b : Builder) (h : CallReach b ∨ Reachable b) :
    b.headIndex = (b.inProgress.length : Int) - 1 ∧ 0 ≤ b.headIndex ∧
    b.inProgress[0]? = some 0 ∧ (b.mem.struct 0).dyn = Dyn.root ∧
    b.headIndex.toNat < b.inProgress.length ∧
    ∃ head, b.getHead = some head ∧ b.inProgress[b.headIndex.toNat]? = some head := by
  have hinv : (b.inProgress.head? = some 0 ∧ b.headIndex = (b.inProgress.length : Int) - 1) ∧
      (b.mem.struct 0).dyn = Dyn.root := by
    rcases h with h | h
    · exact ⟨(CallReach_inv b h).1, (CallReach_inv b h).2.2.1 0 (by decide)⟩
    · exact ⟨Reachable_stack b h, (Reachable_mem b h).1⟩
  obtain ⟨⟨h1, h2⟩, h3⟩ := hinv
  have hlen : 0 < b.inProgress.length := by
    cases hs : b.inProgress with
    | nil => rw [hs] at h1; simp at h1
    | cons a t => simp
  have h0 : b.inProgress[0]? = some 0 := by
    rw [← List.head?_eq_getElem?]; exact h1
  have hge : 0 ≤ b.headIndex := by omega
  have hlt : b.headIndex.toNat < b.inProgress.length := by omega
  refine ⟨h2, hge, h0, h3, hlt, b.inProgress[b.headIndex.toNat], ?_, ?_⟩
  · unfold Builder.getHead
    rw [if_neg (by omega), List.getElem?_eq_getElem hlt]
  · rw [List.getElem?_eq_getElem hlt]

set_option maxRecDepth 100000 in
/-- The invariant on the builder after `StartVector()`, `Int(1)`, `StartMap()`, and on
the builder after a vector is allocated and started, an element registered and End called
twice, the second call being refused. -/
theorem stack_invariant_witness :
    (NewBuilder.run [.StartVector, .Int 1, .StartMap]).2.inProgress = [0, 1, 2] ∧
    (NewBuilder.run [.StartVector, .Int 1, .StartMap]).2.headIndex = 2 ∧
    (NewBuilder.run [.StartVector, .Int 1, .StartMap]).2.getHead = some 2 ∧
    (((((Builder.mk false [0] 0 (newVector NewBuilder.mem).2).start 1).2.registerElement
      (newINT 1)).2.End).2.End).1 = .panic ∧
    (((((Builder.mk false [0] 0 (newVector NewBuilder.mem).2).start 1).2.registerElement
      (newINT 1)).2.End).2.End).2.inProgress = [0] ∧
    (((((Builder.mk false [0] 0 (newVector NewBuilder.mem).2).start 1).2.registerElement
      (newINT 1)).2.End).2.End).2.headIndex = 0 :=
  ⟨by decide,
    (stack_invariant (NewBuilder.run [.StartVector, .Int 1, .StartMap]).2
      (Or.inr ⟨[.StartVector, .Int 1, .StartMap], rfl⟩)).1.trans (by decide),
    by decide, by decide, by decide,
    (stack_invariant
      (((((Builder.mk false [0] 0 (newVector NewBuilder.mem).2).start 1).2.registerElement
        (newINT 1)).2.End).2.End).2
      (Or.inl (CallReach.End _ (CallReach.End _ (CallReach.registerElement _ (newINT 1)
        (CallReach.start _ 1 (CallReach.mem NewBuilder (newVector NewBuilder.mem).2
          CallReach.new (grows_newVector _))) rfl))))).1.trans (by decide)⟩

/-! ## Offset slots and repeated serialization -/

/-- The bytes structure.serializeElems writes for an element that is not inline, at the
slot `i` of an element area that starts at `index0`: the low bytes of
`index0 + i - absIndex`, where `absIndex` is the start position the referent has left in
the element, the slot index not being multiplied by the width. -/
theorem offset_slot_bytes (s index0 i p : Nat) (m : Mem) (buff : List Nat)
    (hni : isInline (m.elem p).fieldType = false) (hB : ¬ B (m.struct s).bSize > 8)
    (hp : p < m.elements.length) :
    (serializeElemsLoop s index0 i [p] m buff).1 = .ok () ∧
    (serializeElemsLoop s index0 i [p] m buff).2.2 =
      buff ++ (putUint64 (u64 ((index0 : Int) + i - (m.elem p).absIndex))).take
        (B (m.struct s).bSize) := by
  rw [serializeElemsLoop_offset s index0 i p m buff hni hB]
  refine ⟨rfl, ?_⟩
  rw [elem_setElem, if_pos ⟨rfl, hp⟩]
  rfl

set_option maxRecDepth 100000 in
/-- C31: the value written into an offset slot is `index0 + i - p`, not
`index0 + i*W - p`. In the vector `[2147483647, [1]]` the inner vector is serialized
first and starts at `p = 1`; the element area of the outer vector, of width `W = 4`,
starts at `index0 = 7`; the slot `i = 1`, the bytes 11 to 14, holds 7 where
`index0 + i*W - p` is 10, so the slot points 7 back from 11, to the position 4. In a
container of width 1 (`[1, [1]]`) the two values agree. For every structure and every
offset element the loop of structure.serializeElems writes `index0 + i - absIndex`. -/
theorem offset_slot_ignores_width :
    ((NewBuilder.run nestedVectorOps).1 = List.replicate 6 (.ok ()) ∧
      (serialize 2 (NewBuilder.run nestedVectorOps).2.mem 2 [] true).1 = .ok 1 ∧
      (serialize 2 (NewBuilder.run nestedVectorOps).2.mem 2 [] true).2.2 = [1, 1, 4] ∧
      childStarts (serialize 2) (NewBuilder.run nestedVectorOps).2.mem 1 [] = [1] ∧
      (serialize 3 (NewBuilder.run nestedVectorOps).2.mem 1 [] false).1 = .ok 7 ∧
      B (getBsize (serialize 3 (NewBuilder.run nestedVectorOps).2.mem 1 [] false).2.1 1) = 4 ∧
      ((NewBuilder.run nestedVectorOps).2.SerializeBuffer []).1 = .ok 17 ∧
      ((NewBuilder.run nestedVectorOps).2.SerializeBuffer []).2.2 =
        [1, 1, 4] ++ [2, 0, 0, 0] ++ [255, 255, 255, 127] ++ [7, 0, 0, 0] ++
        [Pack INT 2, Pack VECTOR 0] ++ [10, Pack VECTOR 2, 1] ∧
      ((((NewBuilder.run nestedVectorOps).2.SerializeBuffer []).2.2.drop (7 + 1 * 4)).take 4)
        = [7, 0, 0, 0] ∧
      spec_littleEndian [7, 0, 0, 0] = 7 ∧ 7 + 1 * 4 - 1 = 10 ∧ 7 + 1 - 1 = 7 ∧
      ((NewBuilder.run [.StartVector, .Int 1, .StartVector, .Int 1, .End,
        .End]).2.SerializeBuffer []).2.2
        = [1, 1, 4] ++ [2] ++ [1] ++ [4] ++ [Pack INT 0, Pack VECTOR 0] ++
          [4, Pack VECTOR 0, 1]) ∧
    (∀ (s index0 i p : Nat) (m : Mem) (buff : List Nat),
      isInline (m.elem p).fieldType = false → ¬ B (m.struct s).bSize > 8 →
      p < m.elements.length →
      (serializeElemsLoop s index0 i [p] m buff).2.2 =
        buff ++ (putUint64 (u64 ((index0 : Int) + i - (m.elem p).absIndex))).take
          (B (m.struct s).bSize)) :=
  ⟨by decide, fun s index0 i p m buff h1 h2 h3 => (offset_slot_bytes s index0 i p m buff h1 h2 h3).2⟩

set_option maxRecDepth 100000 in
/-- C37: a second SerializeBuffer on the same finished builder gives other bytes when the
root is a container. For the empty vector the first call into an empty buffer gives
`00 00 28 01` and the second `00 00 00 28 02`; for the vector `[1]` the calls give
`01 01 04 02 28 01` and `01 01 04 02 00 28 02`: the first call leaves the offset element
of the root with the size 1, the byte count newOffset stores where a width code is
expected, and the second call takes it for the width code of 2 bytes. For the inline root
`5` both calls give `05 04 01`. -/
theorem SerializeBuffer_twice_differs :
    (NewBuilder.run [.StartVector, .End]).1 = [.ok (), .ok ()] ∧
    (NewBuilder.run [.StartVector, .End]).2.IsFinished = true ∧
    ((NewBuilder.run [.StartVector, .End]).2.SerializeBuffer []).1 = .ok 1 ∧
    ((NewBuilder.run [.StartVector, .End]).2.SerializeBuffer []).2.2 = [0, 0, 40, 1] ∧
    (((NewBuilder.run [.StartVector, .End]).2.SerializeBuffer []).2.1.SerializeBuffer []).1
      = .ok 1 ∧
    (((NewBuilder.run [.StartVector, .End]).2.SerializeBuffer []).2.1.SerializeBuffer []).2.2
      = [0, 0, 0, 40, 2] ∧
    ((NewBuilder.run [.StartVector, .End]).2.mem.elem 0).fieldSize = 0 ∧
    (((NewBuilder.run [.StartVector, .End]).2.SerializeBuffer []).2.1.mem.elem 0).fieldSize
      = 1 ∧
    (NewBuilder.run [.StartVector, .Int 1, .End]).2.IsFinished = true ∧
    ((NewBuilder.run [.StartVector, .Int 1, .End]).2.SerializeBuffer []).2.2
      = [1, 1, 4, 2, 40, 1] ∧
    (((NewBuilder.run [.StartVector, .Int 1, .End]).2.SerializeBuffer []).2.1.SerializeBuffer
      []).2.2 = [1, 1, 4, 2, 0, 40, 2] ∧
    (NewBuilder.run [.Int 5]).2.IsFinished = true ∧
    ((NewBuilder.run [.Int 5]).2.SerializeBuffer []).2.2 = [5, 4, 1] ∧
    (((NewBuilder.run [.Int 5]).2.SerializeBuffer []).2.1.SerializeBuffer []).2.2
      = [5, 4, 1] := by
  decide

/-! ## What serialization keeps of the structures and of the inline elements -/

theorem rel_serializeElemsLoop {R : Mem → Mem → Prop} (hR : SerRel R) (s index0 : Nat) (ps : List Ptr) :
    ∀ (i : Nat) (m : Mem) (buff : List Nat),
      R m (serializeElemsLoop s index0 i ps m buff).2.1 := by
  induction ps with
  | nil => intro i m buff; exact hR.refl m
  | cons p ps ih =>
    intro i m buff
    have hm1 : R m (if !isInline (m.elem p).fieldType then
        m.setElem p (newOffset (u64 ((index0 : Int) + i - (m.elem p).absIndex))
          (m.elem p).fieldType (m.elem p).targetSize) else m) := by
      split_ifs with hc
      · exact hR.offset m p _ (by simpa using hc)
      · exact hR.refl m
    unfold serializeElemsLoop
    dsimp only
    generalize (if !isInline (m.elem p).fieldType then
        m.setElem p (newOffset (u64 ((index0 : Int) + i - (m.elem p).absIndex))
          (m.elem p).fieldType (m.elem p).targetSize) else m) = m1 at hm1 ⊢
    unfold element.serialize
    split_ifs with hB
    · exact hm1
    · dsimp only
      exact hR.trans _ _ _ hm1
        (ih (i + 1) m1 (buff ++ (m1.elem p).bytes.take (B (m1.struct s).bSize)))

theorem rel_structure_serializeElems {R : Mem → Mem → Prop} (hR : SerRel R) (m : Mem) (s : Nat) (buff : List Nat) :
    R m (structure_serializeElems m s buff).2.1 := by
  have h := rel_serializeElemsLoop hR s buff.length (m.struct s).elems 0 m buff
  unfold structure_serializeElems
  dsimp only
  revert h
  generalize serializeElemsLoop s buff.length 0 (m.struct s).elems m buff = r
  obtain ⟨o, m1, buff1⟩ := r
  intro h
  cases o with
  | ok a => exact hR.trans _ _ _ h (hR.update m1 s _)
  | error e => exact h
  | panic => exact h
  | diverge => exact h

theorem rel_typedVector_serializeElems {R : Mem → Mem → Prop} (hR : SerRel R) (m : Mem) (s : Nat) (buff : List Nat) :
    R m (typedVector_serializeElems m s buff).2.1 := by
  unfold typedVector_serializeElems
  dsimp only
  split_ifs
  · exact hR.refl m
  · exact rel_structure_serializeElems hR m s _

theorem rel_vector_serializeElems {R : Mem → Mem → Prop} (hR : SerRel R) (m : Mem) (s : Nat) (buff : List Nat) :
    R m (vector_serializeElems m s buff).2.1 := by
  have h := rel_typedVector_serializeElems hR m s buff
  unfold vector_serializeElems
  revert h
  generalize typedVector_serializeElems m s buff = r
  obtain ⟨o, m1, buff1⟩ := r
  intro h
  cases o <;> exact h

theorem rel_flexString_serializeElems {R : Mem → Mem → Prop} (hR : SerRel R) (m : Mem) (s : Nat) (buff : List Nat) :
    R m (flexString_serializeElems m s buff).2.1 := by
  have h := rel_typedVector_serializeElems hR m s buff
  unfold flexString_serializeElems
  revert h
  generalize typedVector_serializeElems m s buff = r
  obtain ⟨o, m1, buff1⟩ := r
  intro h
  cases o <;> exact h

theorem rel_key_serializeElems {R : Mem → Mem → Prop} (hR : SerRel R) (m : Mem) (s : Nat) (buff : List Nat) :
    R m (key_serializeElems m s buff).2.1 := by
  have h := rel_structure_serializeElems hR m s buff
  unfold key_serializeElems
  revert h
  generalize structure_serializeElems m s buff = r
  obtain ⟨o, m1, buff1⟩ := r
  intro h
  cases o <;> exact h

theorem rel_root_serializeElems {R : Mem → Mem → Prop} (hR : SerRel R) (m : Mem) (s : Nat) (buff : List Nat) :
    R m (root_serializeElems m s buff).2.1 := by
  have h := rel_structure_serializeElems hR m s buff
  unfold root_serializeElems
  revert h
  generalize structure_serializeElems m s buff = r
  obtain ⟨o, m1, buff1⟩ := r
  intro h
  cases o with
  | ok a =>
    dsimp only
    split <;> exact h
  | error e => exact h
  | panic => exact h
  | diverge => exact h

theorem rel_serializeElems {R : Mem → Mem → Prop} (hR : SerRel R) (m : Mem) (s : Nat) (buff : List Nat) :
    R m (serializeElems m s buff).2.1 := by
  unfold serializeElems
  split
  · exact rel_root_serializeElems hR m s buff
  · exact rel_vector_serializeElems hR m s buff
  · exact rel_vector_serializeElems hR m s buff
  · exact rel_flexString_serializeElems hR m s buff
  · exact rel_key_serializeElems hR m s buff
  · exact rel_typedVector_serializeElems hR m s buff
  · exact rel_typedVector_serializeElems hR m s buff
  · exact rel_typedVector_serializeElems hR m s buff
  · exact rel_typedVector_serializeElems hR m s buff

theorem rel_serializeChildrenLoop {R : Mem → Mem → Prop} (hR : SerRel R)
    (rec : Mem → Ptr → List Nat → Bool → Outcome Nat × Mem × List Nat)
    (hrec : ∀ m ch buff pad, R m (rec m ch buff pad).2.1) (chs : List Ptr) :
    ∀ (m : Mem) (buff : List Nat), R m (serializeChildrenLoop rec chs m buff).2.1 := by
  induction chs with
  | nil => intro m buff; exact hR.refl m
  | cons ch chs ih =>
    intro m buff
    have h := hrec m ch buff true
    unfold serializeChildrenLoop
    revert h
    generalize rec m ch buff true = r
    obtain ⟨o, m1, buff1⟩ := r
    intro h
    cases o with
    | ok a => exact hR.trans _ _ _ h (ih m1 buff1)
    | error e => exact h
    | panic => exact h
    | diverge => exact h

theorem rel_structure_serializeChildren {R : Mem → Mem → Prop} (hR : SerRel R)
    (rec : Mem → Ptr → List Nat → Bool → Outcome Nat × Mem × List Nat)
    (hrec : ∀ m ch buff pad, R m (rec m ch buff pad).2.1)
    (m : Mem) (s : Nat) (buff : List Nat) :
    R m (structure_serializeChildren rec m s buff).2.1 := by
  have h := rel_serializeChildrenLoop hR rec hrec (m.struct s).children m buff
  unfold structure_serializeChildren
  revert h
  generalize serializeChildrenLoop rec (m.struct s).children m buff = r
  obtain ⟨o, m1, buff1⟩ := r
  intro h
  cases o with
  | ok a => exact hR.trans _ _ _ h (hR.width m1 s _)
  | error e => exact h
  | panic => exact h
  | diverge => exact h

theorem rel_flexMap_serializeChildren {R : Mem → Mem → Prop} (hR : SerRel R)
    (rec : Mem → Ptr → List Nat → Bool → Outcome Nat × Mem × List Nat)
    (hrec : ∀ m ch buff pad, R m (rec m ch buff pad).2.1)
    (m : Mem) (s : Nat) (buff : List Nat) :
    R m (flexMap_serializeChildren rec m s buff).2.1 := by
  have h := rel_structure_serializeChildren hR rec hrec m s buff
  unfold flexMap_serializeChildren
  revert h
  generalize structure_serializeChildren rec m s buff = r
  obtain ⟨o, m1, buff1⟩ := r
  intro h
  cases o with
  | ok a =>
    dsimp only
    have h2 := hrec m1 (m1.struct s).keys buff1 true
    revert h2
    generalize rec m1 (m1.struct s).keys buff1 true = r2
    obtain ⟨o2, m2, buff2⟩ := r2
    intro h2
    cases o2 with
    | ok i =>
      dsimp only
      have hm3 : R m2 (if b (uintSize i) > (m2.struct s).bSize then
          m2.setStruct s { m2.struct s with bSize := b (uintSize i) } else m2) := by
        split_ifs
        · exact hR.width m2 s _
        · exact hR.refl m2
      generalize (if b (uintSize i) > (m2.struct s).bSize then
          m2.setStruct s { m2.struct s with bSize := b (uintSize i) } else m2) = m3 at hm3 ⊢
      split_ifs
      · exact hR.trans _ _ _ h (hR.trans _ _ _ h2 hm3)
      · exact hR.trans _ _ _ h (hR.trans _ _ _ h2 hm3)
    | error e => exact hR.trans _ _ _ h h2
    | panic => exact hR.trans _ _ _ h h2
    | diverge => exact hR.trans _ _ _ h h2
  | error e => exact h
  | panic => exact h
  | diverge => exact h

theorem rel_root_serializeChildren {R : Mem → Mem → Prop} (hR : SerRel R)
    (rec : Mem → Ptr → List Nat → Bool → Outcome Nat × Mem × List Nat)
    (hrec : ∀ m ch buff pad, R m (rec m ch buff pad).2.1)
    (m : Mem) (s : Nat) (buff : List Nat) :
    R m (root_serializeChildren rec m s buff).2.1 := by
  unfold root_serializeChildren
  dsimp only
  split
  · exact hR.width m s _
  · next ch _ _ =>
    have h := hrec m ch buff false
    revert h
    generalize rec m ch buff false = r
    obtain ⟨o, m1, buff1⟩ := r
    intro h
    cases o with
    | ok a => exact hR.trans _ _ _ h (hR.width m1 s _)
    | error e => exact h
    | panic => exact h
    | diverge => exact h

theorem rel_serializeChildren {R : Mem → Mem → Prop} (hR : SerRel R)
    (rec : Mem → Ptr → List Nat → Bool → Outcome Nat × Mem × List Nat)
    (hrec : ∀ m ch buff pad, R m (rec m ch buff pad).2.1)
    (m : Mem) (s : Nat) (buff : List Nat) :
    R m (serializeChildren rec m s buff).2.1 := by
  unfold serializeChildren
  split
  · exact rel_flexMap_serializeChildren hR rec hrec m s buff
  · exact rel_root_serializeChildren hR rec hrec m s buff
  · exact rel_structure_serializeChildren hR rec hrec m s buff

/-- Every relation the assignments of serialization keep holds between the memory
serialize starts from and the memory it leaves, whatever the outcome. -/
theorem rel_serialize {R : Mem → Mem → Prop} (hR : SerRel R) (fuel : Nat) :
    ∀ (m : Mem) (s : Nat) (buff : List Nat) (pad : Bool),
      R m (serialize fuel m s buff pad).2.1 := by
  induction fuel with
  | zero => intro m s buff pad; exact hR.refl m
  | succ fuel ih =>
    intro m s buff pad
    have h := rel_serializeChildren hR
      (fun m1 ch buff1 pad => serialize fuel m1 ch buff1 pad) ih m s buff
    unfold serialize
    revert h
    generalize serializeChildren
      (fun m1 ch buff1 pad => serialize fuel m1 ch buff1 pad) m s buff = r
    obtain ⟨o, m1, buff1⟩ := r
    intro h
    cases o with
    | ok a =>
      dsimp only
      have h2 := rel_serializeElems hR m1 s buff1
      revert h2
      generalize serializeElems m1 s buff1 = r2
      obtain ⟨o2, m2, buff2⟩ := r2
      intro h2
      cases o2 with
      | ok i =>
        dsimp only
        split_ifs
        · exact hR.trans _ _ _ h h2
        · exact hR.trans _ _ _ h h2
      | error e => exact hR.trans _ _ _ h h2
      | panic => exact hR.trans _ _ _ h h2
      | diverge => exact hR.trans _ _ _ h h2
    | error e => exact h
    | panic => exact h
    | diverge => exact h

theorem OffsOK_of_serKept {m m1 : Mem} (h : Mem.serKept m m1) (hok : OffsOK m) : OffsOK m1 := by
  intro s p hp
  rw [(h.1.2.2 s).2.1] at hp
  obtain ⟨h1, h2⟩ := hok s p hp
  exact ⟨(h.2 hok).2 p h1, by rw [(h.1.2.2 s).2.2.2.2.1]; exact h2⟩

theorem serKept_refl (m : Mem) : Mem.serKept m m :=
  ⟨⟨rfl, rfl, fun _ => ⟨rfl, rfl, rfl, rfl, rfl, rfl⟩⟩, fun _ => ⟨fun _ _ => rfl, fun _ h => h⟩⟩

theorem serKept_trans (m m1 m2 : Mem) (h1 : Mem.serKept m m1) (h2 : Mem.serKept m1 m2) :
    Mem.serKept m m2 := by
  refine ⟨⟨h2.1.1.trans h1.1.1, h2.1.2.1.trans h1.1.2.1, fun p => ?_⟩, fun hok => ?_⟩
  · obtain ⟨a1, a2, a3, a4, a5, a6⟩ := h1.1.2.2 p
    obtain ⟨b1, b2, b3, b4, b5, b6⟩ := h2.1.2.2 p
    exact ⟨b1.trans a1, b2.trans a2, b3.trans a3, b4.trans a4, b5.trans a5, b6.trans a6⟩
  · have hok1 := OffsOK_of_serKept h1 hok
    obtain ⟨c1, c2⟩ := h1.2 hok
    obtain ⟨d1, d2⟩ := h2.2 hok1
    refine ⟨fun p hp => ?_, fun p hp => d2 p (c2 p hp)⟩
    have e1 := c1 p hp
    rw [d1 p (by rw [e1]; exact hp), e1]

theorem struct_setElem (m : Mem) (p : Nat) (e : element) (q : Nat) :
    (m.setElem p e).struct q = m.struct q := rfl

theorem serKept_setElem (m : Mem) (p : Nat) (e : element)
    (h1 : isInline (m.elem p).fieldType = false) (h2 : isInline e.fieldType = false) :
    Mem.serKept m (m.setElem p e) := by
  refine ⟨⟨rfl, by simp [Mem.setElem], fun _ => ⟨rfl, rfl, rfl, rfl, rfl, rfl⟩⟩, fun _ => ⟨?_, ?_⟩⟩
  · intro q hq
    rw [elem_setElem]
    split_ifs with hc
    · obtain ⟨rfl, _⟩ := hc
      rw [h1] at hq
      exact absurd hq (by decide)
    · rfl
  · intro q hq
    rw [elem_setElem]
    split_ifs with hc
    · exact h2
    · exact hq

theorem serKept_width (m : Mem) (s bs : Nat) :
    Mem.serKept m (m.setStruct s { m.struct s with bSize := bs }) := by
  refine ⟨⟨structs_length_setStruct _ _ _, rfl, fun q => ?_⟩, fun _ => ⟨fun _ _ => rfl, fun _ h => h⟩⟩
  rw [struct_setStruct]
  split_ifs with h
  · obtain ⟨rfl, _⟩ := h
    exact ⟨rfl, rfl, rfl, rfl, rfl, rfl⟩
  · exact ⟨rfl, rfl, rfl, rfl, rfl, rfl⟩

theorem serKept_updateOffsets_aux (vt bs index0 : Nat) (hvt : isInline vt = false)
    (ps : List Ptr) :
    ∀ acc : Mem, (∀ p ∈ ps, isInline (acc.elem p).fieldType = false) →
      Mem.serKept acc (ps.foldl
        (fun acc sp => acc.setElem sp
          { acc.elem sp with absIndex := index0, fieldType := vt, targetSize := bs }) acc) := by
  induction ps with
  | nil => intro acc _; exact serKept_refl acc
  | cons p ps ih =>
    intro acc h
    rw [List.foldl_cons]
    have hstep : Mem.serKept acc (acc.setElem p
        { acc.elem p with absIndex := index0, fieldType := vt, targetSize := bs }) :=
      serKept_setElem acc p _ (h p (List.mem_cons_self _ _)) hvt
    refine serKept_trans _ _ _ hstep (ih _ ?_)
    intro q hq
    rw [elem_setElem]
    split_ifs with hc
    · exact hvt
    · exact h q (List.mem_cons_of_mem _ hq)

theorem fields_updateOffsets_aux (vt bs index0 : Nat) (ps : List Ptr) :
    ∀ acc : Mem, (ps.foldl
        (fun acc sp => acc.setElem sp
          { acc.elem sp with absIndex := index0, fieldType := vt, targetSize := bs }) acc).structs
        = acc.structs ∧
      (ps.foldl
        (fun acc sp => acc.setElem sp
          { acc.elem sp with absIndex := index0, fieldType := vt, targetSize := bs })
        acc).elements.length = acc.elements.length := by
  induction ps with
  | nil => intro acc; exact ⟨rfl, rfl⟩
  | cons p ps ih =>
    intro acc
    rw [List.foldl_cons]
    obtain ⟨h1, h2⟩ := ih (acc.setElem p
      { acc.elem p with absIndex := index0, fieldType := vt, targetSize := bs })
    exact ⟨h1, by rw [h2]; simp [Mem.setElem]⟩

theorem serKept_updateOffsets (m : Mem) (s index0 : Nat) :
    Mem.serKept m (updateOffsets m s index0) := by
  obtain ⟨h1, h2⟩ := fields_updateOffsets_aux (m.struct s).vType (m.struct s).bSize index0
    (m.struct s).offsetPtrs m
  refine ⟨⟨by unfold updateOffsets; rw [h1], h2, fun q => ?_⟩, fun hok => ?_⟩
  · rw [struct_updateOffsets]
    exact ⟨rfl, rfl, rfl, rfl, rfl, rfl⟩
  · cases hps : (m.struct s).offsetPtrs with
    | nil =>
      have : updateOffsets m s index0 = m := by unfold updateOffsets; rw [hps]; rfl
      rw [this]
      exact ⟨fun _ _ => rfl, fun _ h => h⟩
    | cons p ps =>
      have hvt : isInline (m.struct s).vType = false :=
        (hok s p (by rw [hps]; exact List.mem_cons_self _ _)).2
      exact (serKept_updateOffsets_aux _ _ index0 hvt (m.struct s).offsetPtrs m
        (fun q hq => (hok s q hq).1)).2 hok

theorem serKept_SerRel : SerRel Mem.serKept where
  refl := serKept_refl
  trans := serKept_trans
  offset := fun m p _ h => serKept_setElem m p _ h h
  width := serKept_width
  update := serKept_updateOffsets

/-- Serialization keeps the memory in the sense of serKept, whatever the outcome. -/
theorem serKept_serialize (fuel : Nat) (m : Mem) (s : Nat) (buff : List Nat) (pad : Bool) :
    Mem.serKept m (serialize fuel m s buff pad).2.1 :=
  rel_serialize serKept_SerRel fuel m s buff pad

/-! ## Children are emitted before the element area of their parent -/

theorem elems_structure_serializeElems (m : Mem) (s : Nat) (buff : List Nat) :
    ((structure_serializeElems m s buff).2.1.struct s).elems = (m.struct s).elems :=
  ((rel_structure_serializeElems serKept_SerRel m s buff).1.2.2 s).2.2.1

theorem struct_default_of_not_lt (m : Mem) (p : Nat) (hp : ¬ p < m.structs.length) :
    m.struct p = default := by
  simp [Mem.struct, List.getD, List.getElem?_eq_none (Nat.le_of_not_lt hp)]

theorem structure_insertElement_offsetPtrs (m : Mem) (s : Nat) (e : element) (index n : Nat)
    (m1 : Mem) (h : structure_insertElement m s e index = (.ok n, m1)) (q : Nat) :
    (m1.struct q).offsetPtrs = (m.struct q).offsetPtrs := by
  obtain ⟨_, hl, _, hother, hself⟩ := structure_insertElement_ok m s e index n m1 h
  by_cases hq : q = s
  · subst hq
    by_cases hv : q < m.structs.length
    · rw [hself hv]
    · rw [struct_default_of_not_lt m1 q (by omega), struct_default_of_not_lt m q hv]
  · rw [hother q hq]

theorem offsetPtrs_setStruct_children (m : Mem) (s q : Nat) (cs : List Ptr) :
    ((m.setStruct s { m.struct s with children := cs }).struct q).offsetPtrs
      = (m.struct q).offsetPtrs := by
  rw [struct_setStruct]
  split
  · rename_i hc; rw [← hc.1]
  · rfl

theorem offsetPtrs_bindOffset (m : Mem) (o ptr q : Nat) :
    ((bindOffset m o ptr).struct q).offsetPtrs
      = if o = q ∧ o < m.structs.length then (m.struct o).offsetPtrs ++ [ptr]
        else (m.struct q).offsetPtrs := by
  unfold bindOffset
  rw [struct_setStruct]
  split <;> rfl

theorem getD_take_cons_drop (l : List Nat) (n a d : Nat) (hn : n ≤ l.length) :
    (l.take n ++ a :: l.drop n).getD n d = a := by
  have hlen : (l.take n).length = n := by rw [List.length_take]; omega
  simp [List.getD_eq_getElem?_getD, List.getElem?_append_right (Nat.le_of_eq hlen), hlen]

/-- The offset pointers after a successful insertOffsetToObject: every structure keeps
the ones it had, and the child is bound to the new offset element. -/
theorem structure_insertOffsetToObject_offsetPtrs (m : Mem) (s o : Nat) (index n : Nat)
    (m' : Mem) (h : structure_insertOffsetToObject m s o index = (.ok n, m')) :
    (∀ q p : Nat, p ∈ (m.struct q).offsetPtrs → p ∈ (m'.struct q).offsetPtrs) ∧
    (s < m.structs.length → o < m.structs.length →
      m.elements.length ∈ (m'.struct o).offsetPtrs) := by
  unfold structure_insertOffsetToObject at h
  dsimp only at h
  generalize hres : structure_insertElement m s _ index = res at h
  obtain ⟨r, m1⟩ := res
  cases r with
  | ok n1 =>
    obtain ⟨_, hl, hn, _, hself⟩ := structure_insertElement_ok _ _ _ _ _ _ hres
    have hop1 := structure_insertElement_offsetPtrs _ _ _ _ _ _ hres
    have hfin : ∀ cs : List Ptr,
        m' = (bindOffset m1 o ((m1.struct s).elems.getD n1 0)).setStruct s
          { (bindOffset m1 o ((m1.struct s).elems.getD n1 0)).struct s with children := cs } →
        (∀ q p : Nat, p ∈ (m.struct q).offsetPtrs → p ∈ (m'.struct q).offsetPtrs) ∧
        (s < m.structs.length → o < m.structs.length →
          m.elements.length ∈ (m'.struct o).offsetPtrs) := by
      intro cs hm'
      subst hm'
      constructor
      · intro q p hp
        rw [offsetPtrs_setStruct_children, offsetPtrs_bindOffset]
        split
        · rename_i hc
          rw [hop1, hc.1]
          exact List.mem_append_left _ hp
        · rw [hop1]; exact hp
      · intro hs ho
        rw [offsetPtrs_setStruct_children, offsetPtrs_bindOffset, if_pos ⟨rfl, by omega⟩]
        apply List.mem_append_right
        rw [hself hs, getD_take_cons_drop _ _ _ _ (by rw [hn]; exact Nat.min_le_right _ _)]
        exact List.mem_singleton_self _
    dsimp only at h
    split at h
    · simp only [Prod.mk.injEq, Outcome.ok.injEq] at h
      exact hfin _ h.2.symm
    · simp only [Prod.mk.injEq, Outcome.ok.injEq] at h
      exact hfin _ h.2.symm
  | error e => simp at h
  | panic => simp at h
  | diverge => simp at h

theorem isAt_mono (m m' : Mem) (xs : List element) (hel : m'.elements = m.elements ++ xs)
    (hlen : m.structs.length ≤ m'.structs.length)
    (hop : ∀ q p : Nat, q < m.structs.length → p ∈ (m.struct q).offsetPtrs →
      p ∈ (m'.struct q).offsetPtrs)
    (p : Nat) (v : MapValue) (h : MapValue.isAt m p v) : MapValue.isAt m' p v := by
  have hle : m.elements.length ≤ m'.elements.length := by
    rw [hel, List.length_append]; exact Nat.le_add_right _ _
  cases v with
  | elem e =>
    obtain ⟨h1, h2⟩ := h
    exact ⟨Nat.lt_of_lt_of_le h1 hle, by rw [elem_of_elements_append m m' xs hel p h1]; exact h2⟩
  | child o =>
    obtain ⟨h1, h2, h3⟩ := h
    exact ⟨Nat.lt_of_lt_of_le h1 hle, Nat.lt_of_lt_of_le h2 hlen, hop o p h2 h3⟩

theorem forall₂_insert {α β : Type} (R : α → β → Prop) (l1 : List α) (l2 : List β) (n : Nat)
    (a : α) (c : β) (h : List.Forall₂ R l1 l2) (hab : R a c) :
    List.Forall₂ R (l1.take n ++ a :: l1.drop n) (l2.take n ++ c :: l2.drop n) :=
  List.rel_append (List.forall₂_take n h) (List.Forall₂.cons hab (List.forall₂_drop n h))

/-- The keys of a map are not touched by a change of memory that extends the elements and
keeps the key pointer of the map and the dynamic type, the elements and the children of
every structure but the map. -/
theorem mapKeys_frame (m m' : Mem) (mp : Nat) (xs : List element) (hinv : MapInv m mp)
    (hel : m'.elements = m.elements ++ xs)
    (hkeys : (m'.struct mp).keys = (m.struct mp).keys)
    (hdyn : ∀ p : Nat, (m'.struct p).dyn = (m.struct p).dyn)
    (hbody : ∀ p : Nat, p ≠ mp → (m'.struct p).elems = (m.struct p).elems ∧
      (m'.struct p).children = (m.struct p).children) :
    mapKeys m' mp = mapKeys m mp := by
  have hkne : (m.struct mp).keys ≠ mp := by
    intro hEq
    have := hinv.keys_dyn
    rw [hEq, hinv.map_dyn] at this
    exact absurd this (by decide)
  unfold mapKeys
  rw [hkeys, (hbody _ hkne).2]
  apply List.map_congr_left
  intro c hc
  have hlive := hinv.keys_live c hc
  have hcne : c ≠ mp := by
    intro hEq
    have := hlive.1
    rw [hEq, hinv.map_dyn] at this
    exact absurd this (by decide)
  exact (LiveKey_frame m m' xs c hlive hel (hdyn c) (hbody c hcne).1).2

theorem map_insert_entry (es : List (List Nat × MapValue)) (index : Nat)
    (x : List Nat × MapValue) :
    (es.take index ++ x :: es.drop index).map Prod.fst
      = (es.map Prod.fst).take index ++ x.1 :: (es.map Prod.fst).drop index ∧
    (es.take index ++ x :: es.drop index).map Prod.snd
      = (es.map Prod.snd).take index ++ x.2 :: (es.map Prod.snd).drop index := by
  simp [List.map_take, List.map_drop]

/-- A successful addElementWithKey keeps the pairing: the key and the element enter the
key vector and the element list of the map at the index the search returned. -/
theorem paired_addElementWithKey (m m' : Mem) (mp k : Nat) (e : element) (n index : Nat)
    (es : List (List Nat × MapValue)) (hinv : MapInv m mp)
    (hkeysEq : mapKeys m mp = es.map Prod.fst)
    (hvals : List.Forall₂ (fun p v => MapValue.isAt m p v) (m.struct mp).elems
      (es.map Prod.snd))
    (hk : LiveKey m k) (hi : determineKeyInsertionIndex m mp k = .ok index)
    (h : addElementWithKey m mp k e = (.ok n, m')) :
    mapKeys m' mp = (es.take index ++ (flexString_toString m k, MapValue.elem e)
      :: es.drop index).map Prod.fst ∧
    List.Forall₂ (fun p v => MapValue.isAt m' p v) (m'.struct mp).elems
      ((es.take index ++ (flexString_toString m k, MapValue.elem e)
        :: es.drop index).map Prod.snd) := by
  obtain ⟨index1, hidx, hle, htake, hdrop⟩ := determineKeyInsertionIndex_spec m mp k hinv
  have hii : index1 = index := by
    rw [hidx] at hi
    simpa using hi
  subst hii
  unfold addElementWithKey at h
  rw [hidx] at h
  cases hc : containsKey m mp k with
  | none => rw [hc] at h; simp at h
  | some c =>
    rw [hc] at h
    cases c with
    | true => simp at h
    | false =>
      simp only at h
      generalize hres : structure_insertOffsetToObject m (m.struct mp).keys k index1 = res at h
      obtain ⟨r, m1⟩ := res
      cases r with
      | ok n1 =>
        simp only at h
        obtain ⟨hn1, hinv1, hkeys1⟩ :=
          MapInv_insert_key m m1 mp k index1 n1 hinv hk hle htake hdrop hres
        subst hn1
        obtain ⟨hel1, hl1, _, hdyn1, hbody1, _⟩ :=
          structure_insertOffsetToObject_ok _ _ _ _ _ _ hres
        obtain ⟨hop1, _⟩ := structure_insertOffsetToObject_offsetPtrs _ _ _ _ _ _ hres
        have hkne : mp ≠ (m.struct mp).keys := by
          intro hEq
          have := hinv.keys_dyn
          rw [← hEq, hinv.map_dyn] at this
          exact absurd this (by decide)
        have hv1 : List.Forall₂ (fun p v => MapValue.isAt m1 p v) (m1.struct mp).elems
            (es.map Prod.snd) := by
          rw [(hbody1 mp hkne).1]
          exact hvals.imp (fun p v hpv => isAt_mono m m1 _ hel1 (Nat.le_of_eq hl1.symm)
            (fun q p _ hp => hop1 q p hp) p v hpv)
        obtain ⟨hel2, hl2, hn2, hother2, hself2⟩ :=
          structure_insertElement_ok m1 mp e n1 n m' h
        have hop2 := structure_insertElement_offsetPtrs m1 mp e n1 n m' h
        have hmp1 : mp < m1.structs.length :=
          struct_valid_of_dyn_ne _ _ (by rw [hinv1.map_dyn]; decide)
        have hst := hself2 hmp1
        have hlenE : (m1.struct mp).elems.length = es.length := by
          have := hv1.length_eq
          simpa using this
        have hlenK : (m.struct (m.struct mp).keys).children.length = es.length := by
          have := congrArg List.length hkeysEq
          simpa [mapKeys] using this
        have hn : n = n1 := by rw [hn2, hlenE]; omega
        subst hn
        have hk2 : mapKeys m' mp = mapKeys m1 mp := by
          refine mapKeys_frame m1 m' mp [e] hinv1 hel2 (by rw [hst]) ?_ ?_
          · intro p
            by_cases hp : p = mp
            · rw [hp, hst]
            · rw [hother2 p hp]
          · intro p hp
            rw [hother2 p hp]
            exact ⟨rfl, rfl⟩
        constructor
        · rw [hk2, hkeys1, hkeysEq, (map_insert_entry es n _).1]
        · rw [(map_insert_entry es n _).2]
          have helems : (m'.struct mp).elems = (m1.struct mp).elems.take n
              ++ m1.elements.length :: (m1.struct mp).elems.drop n := by rw [hst]
          rw [helems]
          refine forall₂_insert _ _ _ n _ _ ?_ ?_
          · exact hv1.imp (fun p v hpv => isAt_mono m1 m' _ hel2 (Nat.le_of_eq hl2.symm)
              (fun q p _ hp => by rw [hop2]; exact hp) p v hpv)
          · exact ⟨by rw [hel2]; simp, by simp [Mem.elem, hel2]⟩
      | error err => simp at h
      | panic => simp at h
      | diverge => simp at h

/-- A successful addOffsetWithKey keeps the pairing: the key enters the key vector and the
offset element bound to the child enters the element list of the map at the index the
search returned. -/
theorem paired_addOffsetWithKey (m m' : Mem) (mp k o : Nat) (n index : Nat)
    (es : List (List Nat × MapValue)) (hinv : MapInv m mp)
    (hkeysEq : mapKeys m mp = es.map Prod.fst)
    (hvals : List.Forall₂ (fun p v => MapValue.isAt m p v) (m.struct mp).elems
      (es.map Prod.snd))
    (hk : LiveKey m k) (ho : o < m.structs.length)
    (hi : determineKeyInsertionIndex m mp k = .ok index)
    (h : addOffsetWithKey m mp k o = (.ok n, m')) :
    mapKeys m' mp = (es.take index ++ (flexString_toString m k, MapValue.child o)
      :: es.drop index).map Prod.fst ∧
    List.Forall₂ (fun p v => MapValue.isAt m' p v) (m'.struct mp).elems
      ((es.take index ++ (flexString_toString m k, MapValue.child o)
        :: es.drop index).map Prod.snd) := by
  obtain ⟨index1, hidx, hle, htake, hdrop⟩ := determineKeyInsertionIndex_spec m mp k hinv
  have hii : index1 = index := by
    rw [hidx] at hi
    simpa using hi
  subst hii
  unfold addOffsetWithKey at h
  rw [hidx] at h
  cases hc : containsKey m mp k with
  | none => rw [hc] at h; simp at h
  | some c =>
    rw [hc] at h
    cases c with
    | true => simp at h
    | false =>
      simp only at h
      generalize hres : structure_insertOffsetToObject m (m.struct mp).keys k index1 = res at h
      obtain ⟨r, m1⟩ := res
      cases r with
      | ok n1 =>
        simp only at h
        obtain ⟨hn1, hinv1, hkeys1⟩ :=
          MapInv_insert_key m m1 mp k index1 n1 hinv hk hle htake hdrop hres
        subst hn1
        obtain ⟨hel1, hl1, _, hdyn1, hbody1, _⟩ :=
          structure_insertOffsetToObject_ok _ _ _ _ _ _ hres
        obtain ⟨hop1, _⟩ := structure_insertOffsetToObject_offsetPtrs _ _ _ _ _ _ hres
        have hkne : mp ≠ (m.struct mp).keys := by
          intro hEq
          have := hinv.keys_dyn
          rw [← hEq, hinv.map_dyn] at this
          exact absurd this (by decide)
        have hv1 : List.Forall₂ (fun p v => MapValue.isAt m1 p v) (m1.struct mp).elems
            (es.map Prod.snd) := by
          rw [(hbody1 mp hkne).1]
          exact hvals.imp (fun p v hpv => isAt_mono m m1 _ hel1 (Nat.le_of_eq hl1.symm)
            (fun q p _ hp => hop1 q p hp) p v hpv)
        obtain ⟨hel2, hl2, _, hdyn2, hbody2, hself2⟩ :=
          structure_insertOffsetToObject_ok m1 mp o n1 n m' h
        obtain ⟨hop2, hnew2⟩ := structure_insertOffsetToObject_offsetPtrs m1 mp o n1 n m' h
        have hmp1 : mp < m1.structs.length :=
          struct_valid_of_dyn_ne _ _ (by rw [hinv1.map_dyn]; decide)
        have ho1 : o < m1.structs.length := by rw [hl1]; exact ho
        have hst := (hself2 hmp1).1
        have hlenE : (m1.struct mp).elems.length = es.length := by
          have := hv1.length_eq
          simpa using this
        have hlenK : (m.struct (m.struct mp).keys).children.length = es.length := by
          have := congrArg List.length hkeysEq
          simpa [mapKeys] using this
        have hmin : min n1 (m1.struct mp).elems.length = n1 := by rw [hlenE]; omega
        rw [hmin] at hst
        have hk2 : mapKeys m' mp = mapKeys m1 mp :=
          mapKeys_frame m1 m' mp _ hinv1 hel2 (hdyn2 mp).2.1 (fun p => (hdyn2 p).1) hbody2
        constructor
        · rw [hk2, hkeys1, hkeysEq, (map_insert_entry es n1 _).1]
        · rw [(map_insert_entry es n1 _).2, hst]
          refine forall₂_insert _ _ _ n1 _ _ ?_ ?_
          · exact hv1.imp (fun p v hpv => isAt_mono m1 m' _ hel2 (Nat.le_of_eq hl2.symm)
              (fun q p _ hp => hop2 q p hp) p v hpv)
          · exact ⟨by rw [hel2]; simp, by rw [hl2]; exact ho1, hnew2 hmp1 ho1⟩
      | error err => simp at h
      | panic => simp at h
      | diverge => simp at h

/-- A value of a map stays where it is under a step that keeps the map, when the
elements handed over are inline. -/
theorem isAt_kept (m m1 : Mem) (mp : Nat) (hk : MapKept mp m m1) (p : Nat) (v : MapValue)
    (hp : p ∈ (m.struct mp).elems)
    (hin : ∀ e, v = MapValue.elem e → isInline e.fieldType = true)
    (h : MapValue.isAt m p v) : MapValue.isAt m1 p v := by
  obtain ⟨hel, hsl, _, _, _, _, _, _, _, hval, hop⟩ := hk
  cases v with
  | elem e =>
    obtain ⟨h1, h2⟩ := h
    refine ⟨Nat.lt_of_lt_of_le h1 hel, ?_⟩
    rw [hval p hp (by rw [h2]; exact hin e rfl), h2]
  | child o =>
    obtain ⟨h1, h2, h3⟩ := h
    exact ⟨Nat.lt_of_lt_of_le h1 hel, Nat.lt_of_lt_of_le h2 hsl, hop o h2 p h3⟩

theorem forall₂_imp_mem {α β : Type} (R S : α → β → Prop) :
    ∀ (l1 : List α) (l2 : List β), List.Forall₂ R l1 l2 →
      (∀ a c, a ∈ l1 → c ∈ l2 → R a c → S a c) → List.Forall₂ S l1 l2 := by
  intro l1 l2 h
  induction h with
  | nil => intro _; exact List.Forall₂.nil
  | cons hab _ ih =>
    intro himp
    exact List.Forall₂.cons (himp _ _ (List.mem_cons_self _ _) (List.mem_cons_self _ _) hab)
      (ih (fun a c ha hc => himp a c (List.mem_cons_of_mem _ ha) (List.mem_cons_of_mem _ hc)))

theorem mem_insert_entry {α : Type} (l : List α) (n : Nat) (x y : α)
    (h : y ∈ l.take n ++ x :: l.drop n) : y = x ∨ y ∈ l := by
  rcases List.mem_append.mp h with h | h
  · exact Or.inr (List.mem_of_mem_take h)
  · rcases List.mem_cons.mp h with h | h
    · exact Or.inl h
    · exact Or.inr (List.mem_of_mem_drop h)

theorem MapBuilt_inv (mp : Nat) (m : Mem) (es : List (List Nat × MapValue))
    (h : MapBuilt mp m es) :
    MapInv m mp ∧ mapKeys m mp = es.map Prod.fst ∧
    List.Forall₂ (fun p v => MapValue.isAt m p v) (m.struct mp).elems (es.map Prod.snd) := by
  induction h with
  | init m0 h0 =>
    rw [← h0]
    have h1 : (newFlexMap m0).1 = m0.structs.length := rfl
    have h2 : (newFlexMap m0).2.struct m0.structs.length =
        { Structure.new Dyn.flexMap with vType := MAP, keys := m0.structs.length + 1 } := by
      unfold Mem.struct
      rw [newFlexMap_structs, getD_append_length]
    have h3 : (newFlexMap m0).2.struct (m0.structs.length + 1) =
        { Structure.new Dyn.keyVector with vType := VECTOR_KEY } := by
      unfold Mem.struct
      rw [newFlexMap_structs, getD_append_length_succ]
    refine ⟨MapInv_newFlexMap m0, ?_, ?_⟩
    · unfold mapKeys
      rw [h1, h2]
      show List.map _ ((newFlexMap m0).2.struct (m0.structs.length + 1)).children = _
      rw [h3]; rfl
    · rw [h1, h2]
      exact List.Forall₂.nil
  | alloc m m1 es _ he hs ih =>
    obtain ⟨hinv, hkeys, hvals⟩ := ih
    have hmp : mp < m.structs.length :=
      struct_valid_of_dyn_ne _ _ (by rw [hinv.map_dyn]; decide)
    have hkv : (m.struct mp).keys < m.structs.length :=
      struct_valid_of_dyn_ne _ _ (by rw [hinv.keys_dyn]; decide)
    obtain ⟨xs, hxs⟩ := he
    refine ⟨MapInv_alloc m m1 mp hinv ⟨xs, hxs⟩ hs, ?_, ?_⟩
    · rw [← hkeys]
      unfold mapKeys
      rw [struct_eq_of_extends m m1 hs mp hmp, struct_eq_of_extends m m1 hs _ hkv]
      apply List.map_congr_left
      intro c hc
      have hlive := hinv.keys_live c hc
      have hcv : c < m.structs.length :=
        struct_valid_of_dyn_ne _ _ (by rw [hlive.1]; decide)
      exact toString_frame m m1 xs c hxs.symm
        (by rw [struct_eq_of_extends m m1 hs c hcv]) hlive.2
    · rw [struct_eq_of_extends m m1 hs mp hmp]
      exact hvals.imp (fun p v hpv => isAt_mono m m1 xs hxs.symm hs.length_le
        (fun q p hq hp => by rw [struct_eq_of_extends m m1 hs q hq]; exact hp) p v hpv)
  | kept m m1 es _ hins hk ih =>
    obtain ⟨hinv, hkeys, hvals⟩ := ih
    obtain ⟨hinv1, hmk⟩ := MapInv_kept m m1 mp hinv hk
    refine ⟨hinv1, by rw [hmk]; exact hkeys, ?_⟩
    rw [hk.2.2.2.2.1]
    exact forall₂_imp_mem _ _ _ _ hvals
      (fun p v hp hv hpv => isAt_kept m m1 mp hk p v hp (hins v hv) hpv)
  | addElement m m1 es k e n index _ hk hi h ih =>
    obtain ⟨hinv, hkeys, hvals⟩ := ih
    obtain ⟨hp1, hp2⟩ := paired_addElementWithKey m m1 mp k e n index es hinv hkeys hvals hk hi h
    exact ⟨MapInv_addElementWithKey m m1 mp k e n hinv hk h, hp1, hp2⟩
  | addOffset m m1 es k o n index _ hk ho hi h ih =>
    obtain ⟨hinv, hkeys, hvals⟩ := ih
    obtain ⟨hp1, hp2⟩ :=
      paired_addOffsetWithKey m m1 mp k o n index es hinv hkeys hvals hk ho hi h
    exact ⟨MapInv_addOffsetWithKey m m1 mp k o n hinv hk h, hp1, hp2⟩

/-- The entries stay inline when an inline element goes in. -/
theorem InlineEntries_elem (es : List (List Nat × MapValue)) (index : Nat) (key : List Nat)
    (e : element) (h : InlineEntries es) (hin : isInline e.fieldType = true) :
    InlineEntries (es.take index ++ (key, MapValue.elem e) :: es.drop index) := by
  intro v hv e1 he1
  rw [(map_insert_entry es index _).2] at hv
  rcases mem_insert_entry _ _ _ _ hv with hv | hv
  · rw [he1] at hv
    simp only [MapValue.elem.injEq] at hv
    rw [hv]; exact hin
  · exact h v hv e1 he1

/-- The entries stay inline when a child goes in. -/
theorem InlineEntries_child (es : List (List Nat × MapValue)) (index : Nat) (key : List Nat)
    (o : Ptr) (h : InlineEntries es) :
    InlineEntries (es.take index ++ (key, MapValue.child o) :: es.drop index) := by
  intro v hv e1 he1
  rw [(map_insert_entry es index _).2] at hv
  rcases mem_insert_entry _ _ _ _ hv with hv | hv
  · rw [he1] at hv
    exact absurd hv (by simp)
  · exact h v hv e1 he1

set_option maxRecDepth 100000 in
theorem childAndInt_built :
    MapBuilt 0 childAndIntMem
      [(runes "a", MapValue.child 3), (runes "b", MapValue.elem (newINT 1))] := by
  have r0 : MapBuilt 0 emptyMapMem [] := MapBuilt.init _ rfl
  have r1 : MapBuilt 0 (newKey emptyMapMem "b").2 [] :=
    MapBuilt.alloc _ _ _ r0 (by decide) (by decide)
  have r2 : MapBuilt 0 (addIntEntry emptyMapMem 0 "b" 1)
      [(runes "b", MapValue.elem (newINT 1))] :=
    MapBuilt.addElement (newKey emptyMapMem "b").2 _ [] (newKey emptyMapMem "b").1 (newINT 1)
      0 0 r1 (by decide) (by decide) (by decide)
  have r3 : MapBuilt 0 (newKey (newVector (addIntEntry emptyMapMem 0 "b" 1)).2 "a").2
      [(runes "b", MapValue.elem (newINT 1))] :=
    MapBuilt.alloc _ _ _ r2 (by decide) (by decide)
  exact MapBuilt.addOffset (newKey (newVector (addIntEntry emptyMapMem 0 "b" 1)).2 "a").2 _
    [(runes "b", MapValue.elem (newINT 1))]
    (newKey (newVector (addIntEntry emptyMapMem 0 "b" 1)).2 "a").1 3 0 0 r3
    (by decide) (by decide) (by decide) (by decide)

/-! ## The memory of a builder: every map is built by the calls on it -/

theorem stepOutside_refl (T : Ptr → Prop) (m : Mem) : Mem.stepOutside T m m :=
  ⟨⟨[], by simp⟩, Nat.le_refl _, fun _ _ => ⟨rfl, rfl, rfl, fun _ h => h⟩,
    fun _ _ _ => ⟨rfl, rfl⟩⟩

/-- Two steps in a row; the second may touch what the first allocated. -/
theorem stepOutside_trans {T T1 : Ptr → Prop} {m m1 m2 : Mem}
    (h1 : Mem.stepOutside T m m1) (h2 : Mem.stepOutside T1 m1 m2)
    (hT : ∀ q : Nat, q < m.structs.length → ¬ T q → ¬ T1 q) : Mem.stepOutside T m m2 := by
  obtain ⟨⟨xs, hxs⟩, hl1, hf1, hb1⟩ := h1
  obtain ⟨⟨ys, hys⟩, hl2, hf2, hb2⟩ := h2
  refine ⟨⟨xs ++ ys, by rw [hys, hxs, List.append_assoc]⟩, Nat.le_trans hl1 hl2, ?_, ?_⟩
  · intro q hq
    have hq1 : q < m1.structs.length := Nat.lt_of_lt_of_le hq hl1
    obtain ⟨a1, a2, a3, a4⟩ := hf1 q hq
    obtain ⟨b1, b2, b3, b4⟩ := hf2 q hq1
    exact ⟨b1.trans a1, b2.trans a2, b3.trans a3, fun p hp => b4 p (a4 p hp)⟩
  · intro q hq hT0
    have hq1 : q < m1.structs.length := Nat.lt_of_lt_of_le hq hl1
    obtain ⟨a1, a2⟩ := hb1 q hq hT0
    obtain ⟨b1, b2⟩ := hb2 q hq1 (hT q hq hT0)
    exact ⟨b1.trans a1, b2.trans a2⟩

theorem stepOutside_mono {T T1 : Ptr → Prop} {m m1 : Mem} (h : Mem.stepOutside T m m1)
    (hT : ∀ q : Nat, q < m.structs.length → T q → T1 q) : Mem.stepOutside T1 m m1 :=
  ⟨h.1, h.2.1, h.2.2.1, fun q hq hn => h.2.2.2 q hq (fun ht => hn (hT q hq ht))⟩

/-- The bounds a built map gives: the map, its key vector and its keys are allocated, and
so are the elements of the keys and of the map. -/
theorem MapBuilt_bounds (mp : Nat) (m : Mem) (es : List (List Nat × MapValue))
    (h : MapBuilt mp m es) :
    mp < m.structs.length ∧ (m.struct mp).keys < m.structs.length ∧
    (∀ c ∈ (m.struct (m.struct mp).keys).children, c < m.structs.length ∧
      (m.struct c).dyn = Dyn.key ∧ ∀ p ∈ (m.struct c).elems, p < m.elements.length) ∧
    ∀ p ∈ (m.struct mp).elems, p < m.elements.length := by
  obtain ⟨hinv, _, hvals⟩ := MapBuilt_inv mp m es h
  refine ⟨struct_valid_of_dyn_ne _ _ (by rw [hinv.map_dyn]; decide),
    struct_valid_of_dyn_ne _ _ (by rw [hinv.keys_dyn]; decide), ?_, ?_⟩
  · intro c hc
    obtain ⟨h1, h2⟩ := hinv.keys_live c hc
    exact ⟨struct_valid_of_dyn_ne _ _ (by rw [h1]; decide), h1, h2⟩
  · intro p hp
    have key : ∀ (l1 : List Nat) (l2 : List MapValue),
        List.Forall₂ (fun p v => MapValue.isAt m p v) l1 l2 → ∀ p ∈ l1, p < m.elements.length := by
      intro l1 l2 hf
      induction hf with
      | nil => intro p hp; simp at hp
      | @cons a v l3 l4 hab _ ih =>
        intro p hp
        rcases List.mem_cons.mp hp with rfl | hp
        · cases v with
          | elem e => exact hab.1
          | child o => exact hab.1
        · exact ih p hp
    exact key _ _ hvals p hp

/-- A step outside the map, its key vector and its keys keeps the map. -/
theorem MapKept_of_stepOutside (T : Ptr → Prop) (mp : Nat) (m m1 : Mem)
    (es : List (List Nat × MapValue)) (hb : MapBuilt mp m es)
    (hstep : Mem.stepOutside T m m1) (hmp : ¬ T mp) (hkv : ¬ T (m.struct mp).keys)
    (hc : ∀ c ∈ (m.struct (m.struct mp).keys).children, ¬ T c) : MapKept mp m m1 := by
  obtain ⟨b1, b2, b3, b4⟩ := MapBuilt_bounds mp m es hb
  obtain ⟨⟨xs, hxs⟩, hl, hf, hbody⟩ := hstep
  have hel : m.elements.length ≤ m1.elements.length := by
    rw [hxs, List.length_append]; exact Nat.le_add_right _ _
  refine ⟨hel, hl, (hf mp b1).1, (hf mp b1).2.1, (hbody mp b1 hmp).1, (hf _ b2).1,
    (hbody _ b2 hkv).1, (hbody _ b2 hkv).2, ?_, ?_, ?_⟩
  · intro c hcm
    obtain ⟨c1, c2, c3⟩ := b3 c hcm
    have he := (hbody c c1 (hc c hcm)).1
    exact ⟨(hf c c1).1, he, toString_frame m m1 xs c hxs he c3⟩
  · intro p hp _
    exact elem_of_elements_append m m1 xs hxs p (b4 p hp)
  · intro o ho p hp
    exact (hf o ho).2.2.2 p hp

theorem elem_lt_of_not_inline (m : Mem) (p : Nat)
    (h : isInline (m.elem p).fieldType = false) : p < m.elements.length := by
  by_contra hlt
  have : m.elem p = zeroElement := by
    simp [Mem.elem, List.getD, List.getElem?_eq_none (Nat.le_of_not_lt hlt)]
  rw [this] at h
  exact absurd h (by decide)

theorem struct_eq_of_length_eq (m m1 : Mem) (h : m1.structs.length = m.structs.length)
    (q : Nat) (hq : ¬ q < m.structs.length) : m1.struct q = m.struct q := by
  rw [struct_default_of_not_lt m q hq, struct_default_of_not_lt m1 q (by omega)]

/-- What structure.insertElement does to the memory, whatever it returns: nothing, or one
element more and its pointer in the element list of the structure. -/
theorem structure_insertElement_step (m : Mem) (s : Nat) (e : element) (index : Nat) :
    (structure_insertElement m s e index).2 = m ∨
    ((structure_insertElement m s e index).2.elements = m.elements ++ [e] ∧
      (structure_insertElement m s e index).2.structs.length = m.structs.length ∧
      (∀ q : Nat, q ≠ s →
        (structure_insertElement m s e index).2.struct q = m.struct q) ∧
      (∃ n, ((structure_insertElement m s e index).2.struct s) = { m.struct s with
        elems := (m.struct s).elems.take n ++ m.elements.length :: (m.struct s).elems.drop n } ∨
        ((structure_insertElement m s e index).2.struct s) = m.struct s)) := by
  generalize hres : structure_insertElement m s e index = r
  obtain ⟨o, m1⟩ := r
  cases o with
  | ok n =>
    right
    obtain ⟨h1, h2, _, h4, h5⟩ := structure_insertElement_ok m s e index n m1 hres
    refine ⟨h1, h2, h4, n, ?_⟩
    by_cases hs : s < m.structs.length
    · exact Or.inl (h5 hs)
    · exact Or.inr (struct_eq_of_length_eq m m1 h2 s hs)
  | error err =>
    left
    unfold structure_insertElement at hres
    split at hres
    · simp only [Prod.mk.injEq] at hres; exact hres.2.symm
    · simp only at hres
      split at hres <;> simp at hres
  | panic =>
    unfold structure_insertElement at hres
    split at hres
    · simp at hres
    · simp only at hres
      split at hres <;> simp at hres
  | diverge =>
    unfold structure_insertElement at hres
    split at hres
    · simp at hres
    · simp only at hres
      split at hres <;> simp at hres

/-- The fields structure.insertElement leaves alone in every structure, and the elements
it leaves alone. -/
theorem structure_insertElement_fields (m : Mem) (s : Nat) (e : element) (index : Nat) :
    (structure_insertElement m s e index).2.structs.length = m.structs.length ∧
    (∃ xs, (structure_insertElement m s e index).2.elements = m.elements ++ xs ∧
      (xs = [] ∨ xs = [e])) ∧
    (∀ q : Nat,
      ((structure_insertElement m s e index).2.struct q).dyn = (m.struct q).dyn ∧
      ((structure_insertElement m s e index).2.struct q).keys = (m.struct q).keys ∧
      ((structure_insertElement m s e index).2.struct q).vType = (m.struct q).vType ∧
      ((structure_insertElement m s e index).2.struct q).children = (m.struct q).children ∧
      ((structure_insertElement m s e index).2.struct q).offsetPtrs
        = (m.struct q).offsetPtrs ∧
      (q ≠ s → ((structure_insertElement m s e index).2.struct q).elems = (m.struct q).elems) ∧
      ∀ p ∈ ((structure_insertElement m s e index).2.struct q).elems,
        p ∈ (m.struct q).elems ∨ p = m.elements.length) := by
  rcases structure_insertElement_step m s e index with h | ⟨h1, h2, h3, n, h4⟩
  · rw [h]
    exact ⟨rfl, ⟨[], by simp, Or.inl rfl⟩, fun q => ⟨rfl, rfl, rfl, rfl, rfl, fun _ => rfl,
      fun p hp => Or.inl hp⟩⟩
  · refine ⟨h2, ⟨[e], h1, Or.inr rfl⟩, fun q => ?_⟩
    by_cases hq : q = s
    · subst hq
      rcases h4 with h4 | h4
      · rw [h4]
        refine ⟨rfl, rfl, rfl, rfl, rfl, fun hne => absurd rfl hne, ?_⟩
        intro p hp
        rcases List.mem_append.mp hp with hp | hp
        · exact Or.inl (List.mem_of_mem_take hp)
        · rcases List.mem_cons.mp hp with hp | hp
          · exact Or.inr hp
          · exact Or.inl (List.mem_of_mem_drop hp)
      · rw [h4]
        exact ⟨rfl, rfl, rfl, rfl, rfl, fun _ => rfl, fun p hp => Or.inl hp⟩
    · rw [h3 q hq]
      exact ⟨rfl, rfl, rfl, rfl, rfl, fun _ => rfl, fun p hp => Or.inl hp⟩

/-- The offset pointers after a successful insertOffsetToObject on an allocated structure
are the ones there were, and the new offset element for the child. -/
theorem structure_insertOffsetToObject_offsetPtrs_rev (m : Mem) (s o : Nat) (index n : Nat)
    (m' : Mem) (h : structure_insertOffsetToObject m s o index = (.ok n, m'))
    (hs : s < m.structs.length) :
    ∀ q p : Nat, p ∈ (m'.struct q).offsetPtrs →
      p ∈ (m.struct q).offsetPtrs ∨ (q = o ∧ p = m.elements.length) := by
  unfold structure_insertOffsetToObject at h
  dsimp only at h
  generalize hres : structure_insertElement m s _ index = res at h
  obtain ⟨r, m1⟩ := res
  cases r with
  | ok n1 =>
    obtain ⟨_, hl, hn, _, hself⟩ := structure_insertElement_ok _ _ _ _ _ _ hres
    have hop1 := structure_insertElement_offsetPtrs _ _ _ _ _ _ hres
    have hptr : (m1.struct s).elems.getD n1 0 = m.elements.length := by
      rw [hself hs, getD_take_cons_drop _ _ _ _ (by rw [hn]; exact Nat.min_le_right _ _)]
    have hfin : ∀ cs : List Ptr,
        m' = (bindOffset m1 o ((m1.struct s).elems.getD n1 0)).setStruct s
          { (bindOffset m1 o ((m1.struct s).elems.getD n1 0)).struct s with children := cs } →
        ∀ q p : Nat, p ∈ (m'.struct q).offsetPtrs →
          p ∈ (m.struct q).offsetPtrs ∨ (q = o ∧ p = m.elements.length) := by
      intro cs hm' q p hp
      subst hm'
      rw [offsetPtrs_setStruct_children, offsetPtrs_bindOffset] at hp
      split at hp
      · rename_i hc
        rw [hop1] at hp
        rcases List.mem_append.mp hp with hp | hp
        · left; rw [← hc.1]; exact hp
        · right
          rw [List.mem_singleton, hptr] at hp
          exact ⟨hc.1.symm, hp⟩
      · rw [hop1] at hp; exact Or.inl hp
    dsimp only at h
    split at h
    · simp only [Prod.mk.injEq, Outcome.ok.injEq] at h
      exact hfin _ h.2.symm
    · simp only [Prod.mk.injEq, Outcome.ok.injEq] at h
      exact hfin _ h.2.symm
  | error e => simp at h
  | panic => simp at h
  | diverge => simp at h

/-- A call of structure.insertOffsetToObject that does not return a position leaves the
memory as it was. -/
theorem structure_insertOffsetToObject_fail (m : Mem) (s o : Nat) (index : Nat)
    (h : ∀ n, (structure_insertOffsetToObject m s o index).1 ≠ .ok n) :
    (structure_insertOffsetToObject m s o index).2 = m := by
  unfold structure_insertOffsetToObject at h ⊢
  dsimp only at h ⊢
  rcases structure_insertElement_step m s { zeroElement with fieldType := getVtype m o } index
    with hst | hst
  · revert h hst
    generalize structure_insertElement m s _ index = res
    obtain ⟨r, m1⟩ := res
    intro h hst
    cases r with
    | ok n1 =>
      exfalso
      dsimp only at h
      split at h
      · exact h _ rfl
      · exact h _ rfl
    | error e => exact hst
    | panic => exact hst
    | diverge => exact hst
  · revert h hst
    generalize hres : structure_insertElement m s _ index = res
    obtain ⟨r, m1⟩ := res
    intro h hst
    cases r with
    | ok n1 =>
      exfalso
      dsimp only at h
      split at h
      · exact h _ rfl
      · exact h _ rfl
    | error e =>
      exfalso
      unfold structure_insertElement at hres
      split at hres
      · simp only [Prod.mk.injEq] at hres
        have := hst.1
        rw [← hres.2] at this
        simp at this
      · simp only at hres
        split at hres <;> simp at hres
    | panic =>
      exfalso
      unfold structure_insertElement at hres
      split at hres
      · simp at hres
      · simp only at hres
        split at hres <;> simp at hres
    | diverge =>
      exfalso
      unfold structure_insertElement at hres
      split at hres
      · simp at hres
      · simp only at hres
        split at hres <;> simp at hres

/-- What structure.insertOffsetToObject on an allocated structure does to the memory,
whatever it returns: nothing, or one offset element more, bound to the child, its pointer
in the element list of the structure and the child in its children. -/
theorem structure_insertOffsetToObject_fields (m : Mem) (s o : Nat) (index : Nat)
    (hs : s < m.structs.length) :
    (structure_insertOffsetToObject m s o index).2 = m ∨
    ((structure_insertOffsetToObject m s o index).2.elements
        = m.elements ++ [{ zeroElement with fieldType := getVtype m o }] ∧
      (structure_insertOffsetToObject m s o index).2.structs.length = m.structs.length ∧
      ∀ q : Nat,
        ((structure_insertOffsetToObject m s o index).2.struct q).dyn = (m.struct q).dyn ∧
        ((structure_insertOffsetToObject m s o index).2.struct q).keys = (m.struct q).keys ∧
        ((structure_insertOffsetToObject m s o index).2.struct q).vType = (m.struct q).vType ∧
        (q ≠ s →
          ((structure_insertOffsetToObject m s o index).2.struct q).elems = (m.struct q).elems ∧
          ((structure_insertOffsetToObject m s o index).2.struct q).children
            = (m.struct q).children) ∧
        (∀ p ∈ ((structure_insertOffsetToObject m s o index).2.struct q).elems,
          p ∈ (m.struct q).elems ∨ p = m.elements.length) ∧
        (∀ c ∈ ((structure_insertOffsetToObject m s o index).2.struct q).children,
          c ∈ (m.struct q).children ∨ (q = s ∧ c = o)) ∧
        (∀ p ∈ (m.struct q).offsetPtrs,
          p ∈ ((structure_insertOffsetToObject m s o index).2.struct q).offsetPtrs) ∧
        (∀ p ∈ ((structure_insertOffsetToObject m s o index).2.struct q).offsetPtrs,
          p ∈ (m.struct q).offsetPtrs ∨ (q = o ∧ p = m.elements.length))) := by
  generalize hres : structure_insertOffsetToObject m s o index = r
  obtain ⟨res, m'⟩ := r
  cases res with
  | ok n =>
    right
    obtain ⟨h1, h2, _, h4, h5, h6⟩ := structure_insertOffsetToObject_ok m s o index n m' hres
    obtain ⟨h7, _⟩ := structure_insertOffsetToObject_offsetPtrs m s o index n m' hres
    have h8 := structure_insertOffsetToObject_offsetPtrs_rev m s o index n m' hres hs
    refine ⟨h1, h2, fun q => ⟨(h4 q).1, (h4 q).2.1, (h4 q).2.2, h5 q, ?_, ?_, h7 q, h8 q⟩⟩
    · intro p hp
      by_cases hq : q = s
      · subst hq
        rw [(h6 hs).1] at hp
        rcases List.mem_append.mp hp with hp | hp
        · exact Or.inl (List.mem_of_mem_take hp)
        · rcases List.mem_cons.mp hp with hp | hp
          · exact Or.inr hp
          · exact Or.inl (List.mem_of_mem_drop hp)
      · rw [(h5 q hq).1] at hp; exact Or.inl hp
    · intro c hc
      by_cases hq : q = s
      · subst hq
        rw [(h6 hs).2] at hc
        rcases List.mem_append.mp hc with hc | hc
        · exact Or.inl (List.mem_of_mem_take hc)
        · rcases List.mem_cons.mp hc with hc | hc
          · exact Or.inr ⟨rfl, hc⟩
          · exact Or.inl (List.mem_of_mem_drop hc)
      · rw [(h5 q hq).2] at hc; exact Or.inl hc
  | error e =>
    left
    have := structure_insertOffsetToObject_fail m s o index (by rw [hres]; simp)
    rw [hres] at this; exact this
  | panic =>
    left
    have := structure_insertOffsetToObject_fail m s o index (by rw [hres]; simp)
    rw [hres] at this; exact this
  | diverge =>
    left
    have := structure_insertOffsetToObject_fail m s o index (by rw [hres]; simp)
    rw [hres] at this; exact this

theorem insertStep_refl (m : Mem) : Mem.insertStep m m :=
  ⟨rfl, ⟨[], by simp⟩, fun _ => ⟨rfl, rfl, rfl, fun _ h => Or.inl h, fun _ h => h,
    fun _ h => Or.inl h⟩⟩

theorem insertStep_trans {m m1 m2 : Mem} (h1 : Mem.insertStep m m1)
    (h2 : Mem.insertStep m1 m2) : Mem.insertStep m m2 := by
  obtain ⟨l1, ⟨xs, hxs⟩, f1⟩ := h1
  obtain ⟨l2, ⟨ys, hys⟩, f2⟩ := h2
  refine ⟨l2.trans l1, ⟨xs ++ ys, by rw [hys, hxs, List.append_assoc]⟩, fun q => ?_⟩
  obtain ⟨a1, a2, a3, a4, a5, a6⟩ := f1 q
  obtain ⟨b1, b2, b3, b4, b5, b6⟩ := f2 q
  refine ⟨b1.trans a1, b2.trans a2, b3.trans a3, ?_, fun p hp => b5 p (a5 p hp), ?_⟩
  · intro c hc
    rcases b4 c hc with hc | hc
    · exact a4 c hc
    · right; rw [← l1, ← a1]; exact hc
  · intro p hp
    rcases b6 p hp with hp | hp
    · rcases a6 p hp with hp | hp
      · exact Or.inl hp
      · right
        refine ⟨?_, hp.2⟩
        have hlt := elem_lt_of_not_inline m1 p hp.1
        rw [elem_of_elements_append m1 m2 ys hys p hlt]
        exact hp.1
    · right; rw [← a3]; exact hp

/-- The part of the invariant that every step of insertion keeps. -/
theorem insertStep_base (st : List Ptr) (m m1 : Mem) (h : HeapInv st m)
    (hs : Mem.insertStep m m1) :
    (∀ s ∈ st, s < m1.structs.length) ∧
    (∀ s ∈ st, (m1.struct s).dyn ≠ Dyn.keyVector) ∧
    (∀ s c : Nat, c ∈ (m1.struct s).children → c < m1.structs.length) ∧
    OffsOK m1 ∧
    (∀ mp : Nat, (m1.struct mp).dyn = Dyn.flexMap →
      (m1.struct mp).keys = mp + 1 ∧ (m1.struct mp).vType = MAP) ∧
    (∀ s : Nat, (m1.struct s).dyn = Dyn.key →
      (m1.struct s).vType = KEY ∧ (m1.struct s).children = []) := by
  obtain ⟨hl, ⟨xs, hxs⟩, hf⟩ := hs
  refine ⟨?_, ?_, ?_, ?_, ?_, ?_⟩
  · intro s hs; rw [hl]; exact h.stack_lt s hs
  · intro s hs; rw [(hf s).1]; exact h.stack_kv s hs
  · intro s c hc
    rw [hl]
    rcases (hf s).2.2.2.1 c hc with hc | hc
    · exact h.children_lt s c hc
    · exact hc.1
  · intro s p hp
    rcases (hf s).2.2.2.2.2 p hp with hp | hp
    · obtain ⟨o1, o2⟩ := h.offs s p hp
      have hlt := elem_lt_of_not_inline m p o1
      rw [elem_of_elements_append m m1 xs hxs p hlt, (hf s).2.2.1]
      exact ⟨o1, o2⟩
    · rw [(hf s).2.2.1]; exact hp
  · intro mp hmp
    rw [(hf mp).1] at hmp
    rw [(hf mp).2.1, (hf mp).2.2.1]
    exact h.map_keys mp hmp
  · intro s hsd
    rw [(hf s).1] at hsd
    obtain ⟨k1, k2⟩ := h.key_leaf s hsd
    refine ⟨by rw [(hf s).2.2.1]; exact k1, ?_⟩
    apply List.eq_nil_iff_forall_not_mem.mpr
    intro c hc
    rcases (hf s).2.2.2.1 c hc with hc | hc
    · rw [k2] at hc; simp at hc
    · exact hc.2 hsd

/-- The key vector of a map of the invariant. -/
theorem HeapInv_kv (st : List Ptr) (m : Mem) (h : HeapInv st m) (mp : Nat)
    (hmp : (m.struct mp).dyn = Dyn.flexMap) :
    (m.struct mp).keys = mp + 1 ∧ (m.struct (mp + 1)).dyn = Dyn.keyVector ∧
    mp < m.structs.length ∧ mp + 1 < m.structs.length ∧
    ∀ c ∈ (m.struct (mp + 1)).children, (m.struct c).dyn = Dyn.key ∧ c < m.structs.length ∧
      ∀ p ∈ (m.struct c).elems, p < m.elements.length := by
  obtain ⟨es, hb, _⟩ := h.built mp hmp
  obtain ⟨hinv, _⟩ := MapBuilt_inv mp m es hb
  obtain ⟨b1, b2, b3, _⟩ := MapBuilt_bounds mp m es hb
  have hk := (h.map_keys mp hmp).1
  rw [hk] at b2 b3
  have hd := hinv.keys_dyn
  rw [hk] at hd
  exact ⟨hk, hd, b1, b2, fun c hc => ⟨(b3 c hc).2.1, (b3 c hc).1, (b3 c hc).2.2⟩⟩

/-- A map whose key vector and keys a step does not touch keeps its keys off the stack and
their elements inline. -/
theorem frozen_outside (st : List Ptr) (T : Ptr → Prop) (m m1 : Mem) (h : HeapInv st m)
    (hstep : Mem.stepOutside T m m1) (mp : Nat) (hmp : (m.struct mp).dyn = Dyn.flexMap)
    (hkv : ¬ T (mp + 1)) (hc : ∀ c ∈ (m.struct (mp + 1)).children, ¬ T c) :
    ∀ c ∈ (m1.struct (mp + 1)).children, c ∉ st ∧
      ∀ p ∈ (m1.struct c).elems, isInline (m1.elem p).fieldType = true := by
  obtain ⟨_, _, _, k4, k5⟩ := HeapInv_kv st m h mp hmp
  obtain ⟨⟨xs, hxs⟩, _, _, hbody⟩ := hstep
  rw [(hbody (mp + 1) k4 hkv).2]
  intro c hcm
  obtain ⟨f1, f2⟩ := h.frozen mp hmp c hcm
  refine ⟨f1, ?_⟩
  rw [(hbody c (k5 c hcm).2.1 (hc c hcm)).1]
  intro p hp
  rw [elem_of_elements_append m m1 xs hxs p ((k5 c hcm).2.2 p hp)]
  exact f2 p hp

/-- A map that a step does not touch, neither its key vector nor its keys, is built in
the memory after the step. -/
theorem built_outside (st : List Ptr) (T : Ptr → Prop) (m m1 : Mem) (h : HeapInv st m)
    (hstep : Mem.stepOutside T m m1) (mp : Nat) (hmp : (m.struct mp).dyn = Dyn.flexMap)
    (hT : ¬ T mp) (hkv : ¬ T (mp + 1)) (hc : ∀ c ∈ (m.struct (mp + 1)).children, ¬ T c) :
    ∃ es, MapBuilt mp m1 es ∧ InlineEntries es := by
  obtain ⟨es, hb, hin⟩ := h.built mp hmp
  have hk := (h.map_keys mp hmp).1
  exact ⟨es, MapBuilt.kept m m1 es hb hin
    (MapKept_of_stepOutside T mp m m1 es hb hstep hT (by rw [hk]; exact hkv)
      (by rw [hk]; exact hc)), hin⟩

/-- The invariant survives a step of insertion into a structure the builder may change. -/
theorem HeapInv_step (st : List Ptr) (m m1 : Mem) (s : Nat) (h : HeapInv st m)
    (hs : Unfrozen m s) (hi : Mem.insertStep m m1)
    (ho : Mem.stepOutside (fun q => q = s) m m1) : HeapInv st m1 := by
  obtain ⟨b1, b2, b3, b4, b5, b6⟩ := insertStep_base st m m1 h hi
  have hdyn : ∀ q : Nat, (m1.struct q).dyn = (m.struct q).dyn := fun q => (hi.2.2 q).1
  have hun : ∀ mp : Nat, (m.struct mp).dyn = Dyn.flexMap →
      ¬ (mp = s) ∧ ¬ (mp + 1 = s) ∧ ∀ c ∈ (m.struct (mp + 1)).children, ¬ (c = s) := by
    intro mp hmp
    obtain ⟨_, k2, _, _, _⟩ := HeapInv_kv st m h mp hmp
    refine ⟨?_, ?_, ?_⟩
    · intro hEq; rw [hEq] at hmp; exact hs.1 hmp
    · intro hEq; rw [hEq] at k2; exact hs.2.1 k2
    · intro c hc hEq; rw [hEq] at hc; exact hs.2.2 mp hmp hc
  refine ⟨b1, b2, b3, b4, b5, ?_, b6, ?_⟩
  · intro mp hmp
    rw [hdyn] at hmp
    obtain ⟨_, u2, u3⟩ := hun mp hmp
    exact frozen_outside st _ m m1 h ho mp hmp u2 u3
  · intro mp hmp
    rw [hdyn] at hmp
    obtain ⟨u1, u2, u3⟩ := hun mp hmp
    exact built_outside st _ m m1 h ho mp hmp u1 u2 u3

theorem insertElement_steps (m : Mem) (s : Nat) (e : element) (index : Nat) :
    Mem.insertStep m (structure_insertElement m s e index).2 ∧
    Mem.stepOutside (fun q => q = s) m (structure_insertElement m s e index).2 := by
  obtain ⟨h1, ⟨xs, h2, _⟩, h3⟩ := structure_insertElement_fields m s e index
  refine ⟨⟨h1, ⟨xs, h2⟩, fun q => ?_⟩, ⟨xs, h2⟩, Nat.le_of_eq h1.symm, fun q _ => ?_,
    fun q _ hq => ?_⟩
  · obtain ⟨a1, a2, a3, a4, a5, _, _⟩ := h3 q
    refine ⟨a1, a2, a3, fun c hc => Or.inl (by rw [← a4]; exact hc),
      fun p hp => by rw [a5]; exact hp, fun p hp => Or.inl (by rw [← a5]; exact hp)⟩
  · obtain ⟨a1, a2, a3, _, a5, _, _⟩ := h3 q
    exact ⟨a1, a2, a3, fun p hp => by rw [a5]; exact hp⟩
  · obtain ⟨_, _, _, a4, _, a6, _⟩ := h3 q
    exact ⟨a6 hq, a4⟩

theorem not_inline_ne_UINT (t : Nat) (h : isInline t = false) : t ≠ UINT := by
  intro hEq; rw [hEq] at h; exact absurd h (by decide)

/-- A key object of type KEY refuses every object of a type that is not inline. -/
theorem key_refuses_object (m : Mem) (s o : Nat) (index : Nat)
    (hv : (m.struct s).vType = KEY) (ho : isInline (m.struct o).vType = false) :
    structure_insertOffsetToObject m s o index = (.error Err.elemTypeNotAllowed, m) := by
  apply structure_insertOffsetToObject_wrong_type
  unfold allowsElemType
  rw [hv]
  have : getVtype m o ≠ UINT := not_inline_ne_UINT _ ho
  simp [KEY, VECTOR_UINT, INDIRECT_UINT, VECTOR_UINT2, VECTOR_UINT3, VECTOR_UINT4, BLOB, STRING,
    this]

theorem insertOffset_steps (m : Mem) (s o : Nat) (index : Nat) (hs : s < m.structs.length)
    (ho : o < m.structs.length) (hvt : isInline (m.struct o).vType = false)
    (hkey : (m.struct s).dyn = Dyn.key → (m.struct s).vType = KEY) :
    Mem.insertStep m (structure_insertOffsetToObject m s o index).2 ∧
    Mem.stepOutside (fun q => q = s) m (structure_insertOffsetToObject m s o index).2 := by
  by_cases hk : (m.struct s).dyn = Dyn.key
  · rw [key_refuses_object m s o index (hkey hk) hvt]
    exact ⟨insertStep_refl m, stepOutside_refl _ m⟩
  · rcases structure_insertOffsetToObject_fields m s o index hs with h | ⟨h1, h2, h3⟩
    · rw [h]
      exact ⟨insertStep_refl m, stepOutside_refl _ m⟩
    · refine ⟨⟨h2, ⟨_, h1⟩, fun q => ?_⟩, ⟨_, h1⟩, Nat.le_of_eq h2.symm, fun q _ => ?_,
        fun q _ hq => ?_⟩
      · obtain ⟨a1, a2, a3, _, _, a6, a7, a8⟩ := h3 q
        refine ⟨a1, a2, a3, ?_, a7, ?_⟩
        · intro c hc
          rcases a6 c hc with hc | ⟨hq, hc⟩
          · exact Or.inl hc
          · right; rw [hc, hq]; exact ⟨ho, hk⟩
        · intro p hp
          rcases a8 p hp with hp | ⟨hq, hp⟩
          · exact Or.inl hp
          · right
            rw [hq, hp]
            refine ⟨?_, hvt⟩
            have : (structure_insertOffsetToObject m s o index).2.elem m.elements.length
                = { zeroElement with fieldType := getVtype m o } := by
              simp [Mem.elem, h1]
            rw [this]
            exact hvt
      · obtain ⟨a1, a2, a3, _, _, _, a7, _⟩ := h3 q
        exact ⟨a1, a2, a3, a7⟩
      · exact (h3 q).2.2.2.1 hq

theorem HeapInv_insertElement (st : List Ptr) (m : Mem) (s : Nat) (e : element) (index : Nat)
    (h : HeapInv st m) (hs : Unfrozen m s) :
    HeapInv st (structure_insertElement m s e index).2 :=
  HeapInv_step st m _ s h hs (insertElement_steps m s e index).1
    (insertElement_steps m s e index).2

theorem HeapInv_insertOffset (st : List Ptr) (m : Mem) (s o : Nat) (index : Nat)
    (h : HeapInv st m) (hs : Unfrozen m s) (hlt : s < m.structs.length) (ho : FreshObj m o) :
    HeapInv st (structure_insertOffsetToObject m s o index).2 :=
  HeapInv_step st m _ s h hs
    (insertOffset_steps m s o index hlt ho.1 ho.2.2.1 (fun hk => (h.key_leaf s hk).1)).1
    (insertOffset_steps m s o index hlt ho.1 ho.2.2.1 (fun hk => (h.key_leaf s hk).1)).2

/-- A structure the builder may change stays one under a step that keeps the dynamic
types and adds no child to a key vector. -/
theorem Unfrozen_insertElement (m : Mem) (s : Nat) (e : element) (index : Nat) (q : Nat)
    (h : Unfrozen m q) : Unfrozen (structure_insertElement m s e index).2 q := by
  obtain ⟨_, _, h3⟩ := structure_insertElement_fields m s e index
  refine ⟨by rw [(h3 q).1]; exact h.1, by rw [(h3 q).1]; exact h.2.1, ?_⟩
  intro mp hmp
  rw [(h3 mp).1] at hmp
  rw [(h3 (mp + 1)).2.2.2.1]
  exact h.2.2 mp hmp

theorem FreshObj_insertElement (m : Mem) (s : Nat) (e : element) (index : Nat) (o : Nat)
    (h : FreshObj m o) : FreshObj (structure_insertElement m s e index).2 o := by
  obtain ⟨h1, _, h3⟩ := structure_insertElement_fields m s e index
  refine ⟨by rw [h1]; exact h.1, by rw [(h3 o).1]; exact h.2.1,
    by rw [(h3 o).2.2.1]; exact h.2.2.1, ?_⟩
  intro q
  rw [(h3 q).2.2.2.1]
  exact h.2.2.2 q

theorem FreshKey_insertElement (st : List Ptr) (m : Mem) (s : Nat) (e : element) (index : Nat)
    (k : Nat) (hks : k ≠ s) (h : FreshKey st m k) :
    FreshKey st (structure_insertElement m s e index).2 k := by
  obtain ⟨_, ⟨xs, h2, _⟩, h3⟩ := structure_insertElement_fields m s e index
  obtain ⟨⟨l1, l2⟩, f2, f3, f4⟩ := h
  obtain ⟨a1, _, a3, _, _, a6, _⟩ := h3 k
  have hel := a6 hks
  refine ⟨⟨by rw [a1]; exact l1, ?_⟩, f2, by rw [a3]; exact f3, ?_⟩
  · intro p hp
    rw [hel] at hp
    rw [h2, List.length_append]
    exact Nat.lt_of_lt_of_le (l2 p hp) (Nat.le_add_right _ _)
  · intro p hp
    rw [hel] at hp
    rw [elem_of_elements_append m _ xs h2 p (l2 p hp)]
    exact f4 p hp

/-- flexString.Append keeps every property of the memory that structure.addElement keeps
for every UINT element. -/
theorem flexString_Append_induct (P : Mem → Prop) (s : Nat)
    (hstep : ∀ (m : Mem) (c : Nat), P m → P (structure_addElement m s (newUINT c)).2)
    (str : String) (m : Mem) (h : P m) : P (flexString_Append m s str) := by
  unfold flexString_Append
  generalize runes str = cs
  induction cs generalizing m with
  | nil => exact h
  | cons c cs ih =>
    rw [List.foldl_cons]
    exact ih _ (hstep m c h)

theorem HeapInv_Append (st : List Ptr) (m : Mem) (s : Nat) (str : String)
    (h : HeapInv st m) (hs : Unfrozen m s) :
    HeapInv st (flexString_Append m s str) ∧ Unfrozen (flexString_Append m s str) s := by
  refine flexString_Append_induct (fun m1 => HeapInv st m1 ∧ Unfrozen m1 s) s ?_ str m ⟨h, hs⟩
  intro m1 c hm
  exact ⟨HeapInv_insertElement st m1 s _ _ hm.1 hm.2, Unfrozen_insertElement m1 s _ _ s hm.2⟩

theorem FreshObj_Append (m : Mem) (s : Nat) (str : String) (o : Nat) (h : FreshObj m o) :
    FreshObj (flexString_Append m s str) o :=
  flexString_Append_induct (fun m1 => FreshObj m1 o) s
    (fun m1 _ hm => FreshObj_insertElement m1 s _ _ o hm) str m h

theorem FreshKey_Append (st : List Ptr) (m : Mem) (s : Nat) (str : String) (k : Nat)
    (hks : k ≠ s) (h : FreshKey st m k) : FreshKey st (flexString_Append m s str) k :=
  flexString_Append_induct (fun m1 => FreshKey st m1 k) s
    (fun m1 _ hm => FreshKey_insertElement st m1 s _ _ k hks hm) str m h

/-- The key flexString.Append fills is a key as newKey leaves it. -/
theorem FreshKey_Append_self (st : List Ptr) (m : Mem) (k : Nat) (str : String)
    (h : FreshKey st m k) : FreshKey st (flexString_Append m k str) k := by
  refine flexString_Append_induct (fun m1 => FreshKey st m1 k) k ?_ str m h
  intro m1 c hm
  obtain ⟨⟨l1, l2⟩, f2, f3, f4⟩ := hm
  unfold structure_addElement
  rcases structure_insertElement_step m1 k (newUINT c) (m1.struct k).elems.length with hst | hst
  · rw [hst]; exact ⟨⟨l1, l2⟩, f2, f3, f4⟩
  · obtain ⟨h1, h2, _, n, h4⟩ := hst
    have hmem : ∀ p ∈ ((structure_insertElement m1 k (newUINT c)
        (m1.struct k).elems.length).2.struct k).elems,
        p ∈ (m1.struct k).elems ∨ p = m1.elements.length :=
      (structure_insertElement_fields m1 k (newUINT c) _).2.2 k |>.2.2.2.2.2.2
    obtain ⟨a1, _, a3, _⟩ := (structure_insertElement_fields m1 k (newUINT c)
      (m1.struct k).elems.length).2.2 k
    refine ⟨⟨by rw [a1]; exact l1, ?_⟩, f2, by rw [a3]; exact f3, ?_⟩
    · intro p hp
      rw [h1, List.length_append, List.length_singleton]
      rcases hmem p hp with hp | hp
      · exact Nat.lt_succ_of_lt (l2 p hp)
      · rw [hp]; exact Nat.lt_succ_self _
    · intro p hp
      rcases hmem p hp with hp | hp
      · rw [elem_of_elements_append m1 _ [newUINT c] h1 p (l2 p hp)]
        exact f4 p hp
      · have : (structure_insertElement m1 k (newUINT c) (m1.struct k).elems.length).2.elem p
            = newUINT c := by
          rw [hp]; simp [Mem.elem, h1]
        rw [this]; rfl

theorem struct_of_append (m m1 : Mem) (ys : List Structure)
    (hst : m1.structs = m.structs ++ ys) (q : Nat) :
    (q < m.structs.length → m1.struct q = m.struct q) ∧
    (¬ q < m.structs.length → m1.struct q = default ∨ m1.struct q ∈ ys) := by
  constructor
  · intro hq
    exact struct_eq_of_extends m m1 ⟨ys, hst.symm⟩ q hq
  · intro hq
    unfold Mem.struct
    rw [hst, List.getD_eq_getElem?_getD, List.getElem?_append_right (Nat.le_of_not_lt hq)]
    cases hg : ys[q - m.structs.length]? with
    | none => left; rfl
    | some y => right; exact List.getElem?_mem hg

theorem default_struct_fields : (default : Structure).children = [] ∧
    (default : Structure).offsetPtrs = [] ∧ (default : Structure).elems = [] ∧
    (default : Structure).dyn = Dyn.typedVector := ⟨rfl, rfl, rfl, rfl⟩

/-- The invariant survives the allocation of structures without children and offset
pointers, the maps among them being as newFlexMap leaves a map. -/
theorem HeapInv_extend (st : List Ptr) (m m1 : Mem) (ys : List Structure) (h : HeapInv st m)
    (hel : m1.elements = m.elements) (hst : m1.structs = m.structs ++ ys)
    (hys : ∀ y ∈ ys, y.children = [] ∧ y.offsetPtrs = [] ∧ (y.dyn = Dyn.key → y.vType = KEY))
    (hmaps : ∀ mp : Nat, ¬ mp < m.structs.length → (m1.struct mp).dyn = Dyn.flexMap →
      (m1.struct mp).keys = mp + 1 ∧ (m1.struct mp).vType = MAP ∧
      (m1.struct (mp + 1)).children = [] ∧ ∃ es, MapBuilt mp m1 es ∧ InlineEntries es) :
    HeapInv st m1 := by
  have hlen : m.structs.length ≤ m1.structs.length := by
    rw [hst, List.length_append]; exact Nat.le_add_right _ _
  have hold : ∀ q : Nat, q < m.structs.length → m1.struct q = m.struct q :=
    fun q hq => (struct_of_append m m1 ys hst q).1 hq
  have hnew : ∀ q : Nat, ¬ q < m.structs.length →
      (m1.struct q).children = [] ∧ (m1.struct q).offsetPtrs = [] ∧
      ((m1.struct q).dyn = Dyn.key → (m1.struct q).vType = KEY) := by
    intro q hq
    rcases (struct_of_append m m1 ys hst q).2 hq with hd | hy
    · rw [hd]; exact ⟨rfl, rfl, fun hc => absurd hc (by decide)⟩
    · exact hys _ hy
  have helem : ∀ p : Nat, m1.elem p = m.elem p := fun p => by unfold Mem.elem; rw [hel]
  refine ⟨?_, ?_, ?_, ?_, ?_, ?_, ?_, ?_⟩
  · intro s hs; exact Nat.lt_of_lt_of_le (h.stack_lt s hs) hlen
  · intro s hs; rw [hold s (h.stack_lt s hs)]; exact h.stack_kv s hs
  · intro s c hc
    by_cases hs : s < m.structs.length
    · rw [hold s hs] at hc
      exact Nat.lt_of_lt_of_le (h.children_lt s c hc) hlen
    · rw [(hnew s hs).1] at hc; simp at hc
  · intro s p hp
    by_cases hs : s < m.structs.length
    · rw [hold s hs] at hp ⊢
      rw [helem]
      exact h.offs s p hp
    · rw [(hnew s hs).2.1] at hp; simp at hp
  · intro mp hmp
    by_cases hs : mp < m.structs.length
    · rw [hold mp hs] at hmp ⊢
      exact h.map_keys mp hmp
    · obtain ⟨a1, a2, _, _⟩ := hmaps mp hs hmp
      exact ⟨a1, a2⟩
  · intro mp hmp
    by_cases hs : mp < m.structs.length
    · rw [hold mp hs] at hmp
      obtain ⟨_, _, _, k4, k5⟩ := HeapInv_kv st m h mp hmp
      rw [hold _ k4]
      intro c hc
      obtain ⟨f1, f2⟩ := h.frozen mp hmp c hc
      refine ⟨f1, ?_⟩
      rw [hold c (k5 c hc).2.1]
      intro p hp
      rw [helem]
      exact f2 p hp
    · obtain ⟨_, _, a3, _⟩ := hmaps mp hs hmp
      rw [a3]
      intro c hc; simp at hc
  · intro s hsd
    by_cases hs : s < m.structs.length
    · rw [hold s hs] at hsd ⊢
      exact h.key_leaf s hsd
    · exact ⟨(hnew s hs).2.2 hsd, (hnew s hs).1⟩
  · intro mp hmp
    by_cases hs : mp < m.structs.length
    · rw [hold mp hs] at hmp
      obtain ⟨es, hb, hin⟩ := h.built mp hmp
      exact ⟨es, MapBuilt.alloc m m1 es hb ⟨[], by rw [hel]; simp⟩ ⟨ys, hst.symm⟩, hin⟩
    · exact (hmaps mp hs hmp).2.2.2

theorem FreshKey_extend (st : List Ptr) (m m1 : Mem) (ys : List Structure)
    (hel : m1.elements = m.elements) (hst : m1.structs = m.structs ++ ys) (k : Nat)
    (h : FreshKey st m k) : FreshKey st m1 k ∧ k < m.structs.length := by
  obtain ⟨⟨l1, l2⟩, f2, f3, f4⟩ := h
  have hk : k < m.structs.length := struct_valid_of_dyn_ne _ _ (by rw [l1]; decide)
  have hold := (struct_of_append m m1 ys hst k).1 hk
  have helem : ∀ p : Nat, m1.elem p = m.elem p := fun p => by unfold Mem.elem; rw [hel]
  refine ⟨⟨⟨by rw [hold]; exact l1, ?_⟩, f2, by rw [hold]; exact f3, ?_⟩, hk⟩
  · intro p hp; rw [hold] at hp; rw [hel]; exact l2 p hp
  · intro p hp; rw [hold] at hp; rw [helem]; exact f4 p hp

theorem FreshObj_extend (m m1 : Mem) (ys : List Structure)
    (hst : m1.structs = m.structs ++ ys) (hys : ∀ y ∈ ys, y.children = [])
    (o : Nat) (ho : FreshObj m o) : FreshObj m1 o ∧ o < m.structs.length := by
  have hold := (struct_of_append m m1 ys hst o).1 ho.1
  have hlen : m.structs.length ≤ m1.structs.length := by
    rw [hst, List.length_append]; exact Nat.le_add_right _ _
  refine ⟨⟨Nat.lt_of_lt_of_le ho.1 hlen, by rw [hold]; exact ho.2.1,
    by rw [hold]; exact ho.2.2.1, ?_⟩, ho.1⟩
  intro s
  by_cases hs : s < m.structs.length
  · rw [(struct_of_append m m1 ys hst s).1 hs]; exact ho.2.2.2 s
  · rcases (struct_of_append m m1 ys hst s).2 hs with hd | hy
    · rw [hd]; simp [default_struct_fields.1]
    · rw [hys _ hy]; simp

/-- The structure allocated first by a step is the child of no structure. -/
theorem not_child_of_new (st : List Ptr) (m m1 : Mem) (ys : List Structure) (h : HeapInv st m)
    (hst : m1.structs = m.structs ++ ys) (hys : ∀ y ∈ ys, y.children = []) (o : Nat)
    (ho : ¬ o < m.structs.length) : ∀ s : Nat, o ∉ (m1.struct s).children := by
  intro s
  by_cases hs : s < m.structs.length
  · rw [(struct_of_append m m1 ys hst s).1 hs]
    intro hc
    exact ho (h.children_lt s o hc)
  · rcases (struct_of_append m m1 ys hst s).2 hs with hd | hy
    · rw [hd]; simp [default_struct_fields.1]
    · rw [hys _ hy]; simp

theorem struct_allocStruct_self (m : Mem) (st0 : Structure) :
    (m.allocStruct st0).2.struct m.structs.length = st0 := by
  simp [Mem.allocStruct, Mem.struct, List.getD_eq_getElem?_getD]

/-- What the allocation of one structure that is no map leaves. -/
theorem alloc_facts (st : List Ptr) (m : Mem) (st0 : Structure) (h : HeapInv st m)
    (c1 : st0.children = []) (c2 : st0.offsetPtrs = []) (c3 : st0.dyn ≠ Dyn.flexMap)
    (c4 : st0.dyn = Dyn.key → st0.vType = KEY) :
    HeapInv st (m.allocStruct st0).2 ∧
    (∀ k : Nat, FreshKey st m k →
      FreshKey st (m.allocStruct st0).2 k ∧ k < m.structs.length) ∧
    (∀ o : Nat, FreshObj m o → FreshObj (m.allocStruct st0).2 o ∧ o < m.structs.length) ∧
    (st0.dyn ≠ Dyn.keyVector → isInline st0.vType = false →
      FreshObj (m.allocStruct st0).2 m.structs.length) ∧
    (st0.dyn = Dyn.key → st0.elems = [] → FreshKey st (m.allocStruct st0).2 m.structs.length) := by
  have hst : (m.allocStruct st0).2.structs = m.structs ++ [st0] := rfl
  have hel : (m.allocStruct st0).2.elements = m.elements := rfl
  have hys : ∀ y ∈ [st0], y.children = [] := by
    intro y hy; rw [List.mem_singleton] at hy; rw [hy]; exact c1
  have hself := struct_allocStruct_self m st0
  refine ⟨?_, ?_, ?_, ?_, ?_⟩
  · refine HeapInv_extend st m _ [st0] h hel hst ?_ ?_
    · intro y hy; rw [List.mem_singleton] at hy; rw [hy]; exact ⟨c1, c2, c4⟩
    · intro mp hmp hd
      exfalso
      rcases (struct_of_append m _ [st0] hst mp).2 hmp with hdf | hy
      · rw [hdf] at hd; exact absurd hd (by decide)
      · rw [List.mem_singleton] at hy; rw [hy] at hd; exact c3 hd
  · intro k hk
    exact FreshKey_extend st m _ [st0] hel hst k hk
  · intro o ho
    exact FreshObj_extend m _ [st0] hst hys o ho
  · intro d1 d2
    refine ⟨by simp [Mem.allocStruct], by rw [hself]; exact d1, by rw [hself]; exact d2, ?_⟩
    exact not_child_of_new st m _ [st0] h hst hys _ (Nat.lt_irrefl _)
  · intro d1 d2
    refine ⟨⟨by rw [hself]; exact d1, by rw [hself, d2]; intro p hp; simp at hp⟩, ?_,
      by rw [hself]; exact c4 d1, by rw [hself, d2]; intro p hp; simp at hp⟩
    intro hc
    exact Nat.lt_irrefl _ (h.stack_lt _ hc)

theorem isTypedVector_not_inline (t : Nat) (h : isTypedVector t = true) : isInline t = false := by
  rw [isTypedVector_iff] at h
  simp only [List.mem_cons, List.mem_singleton, List.not_mem_nil, or_false, VECTOR_INT,
    VECTOR_UINT, VECTOR_FLOAT, VECTOR_KEY, VECTOR_STRING_DEPRECATED, VECTOR_BOOL] at h
  have key : ¬ (t ≤ 3 ∨ t = 26) := by omega
  unfold isInline
  simpa using key

theorem isFixedTypedVector_not_inline (t : Nat) (h : isFixedTypedVector t = true) :
    isInline t = false := by
  rw [isFixedTypedVector_iff] at h
  have key : ¬ (t ≤ 3 ∨ t = 26) := by omega
  unfold isInline
  simpa using key

theorem ctor_alloc (st : List Ptr) (m : Mem) (st0 : Structure) (h : HeapInv st m)
    (c1 : st0.children = []) (c2 : st0.offsetPtrs = []) (c3 : st0.dyn ≠ Dyn.flexMap)
    (c4 : st0.dyn = Dyn.key → st0.vType = KEY) (c5 : st0.dyn ≠ Dyn.keyVector)
    (c6 : isInline st0.vType = false) :
    CtorFacts st m (m.allocStruct st0).2 m.structs.length := by
  obtain ⟨a1, a2, _, a4, _⟩ := alloc_facts st m st0 h c1 c2 c3 c4
  exact ⟨a1, a4 c5 c6, fun k hk => ⟨(a2 k hk).1, Nat.ne_of_lt (a2 k hk).2⟩⟩

theorem ctor_newVector (st : List Ptr) (m : Mem) (h : HeapInv st m) :
    CtorFacts st m (newVector m).2 (newVector m).1 :=
  ctor_alloc st m _ h rfl rfl (by decide) (fun hc => absurd hc (by decide)) (by decide)
    (by decide)

theorem ctor_newBlob (st : List Ptr) (m : Mem) (bytes : List Nat) (h : HeapInv st m) :
    CtorFacts st m (newBlob m bytes).2 (newBlob m bytes).1 :=
  ctor_alloc st m _ h rfl rfl (by decide) (fun hc => absurd hc (by decide)) (by decide)
    (by decide)

theorem ctor_newTypedVector (st : List Ptr) (m : Mem) (vType : Nat) (h : HeapInv st m)
    (o : Ptr) (m1 : Mem) (hr : newTypedVector m vType = (.ok o, m1)) : CtorFacts st m m1 o := by
  unfold newTypedVector at hr
  split_ifs at hr with hc
  · simp at hr
  · simp only [Prod.mk.injEq, Outcome.ok.injEq] at hr
    obtain ⟨rfl, rfl⟩ := hr
    exact ctor_alloc st m _ h rfl rfl (by simp [Structure.new])
      (fun hc => absurd hc (by simp [Structure.new])) (by simp [Structure.new])
      (isTypedVector_not_inline vType (by simpa using hc))

theorem newTypedVector_fail (m : Mem) (vType : Nat) (m1 : Mem) (r : Outcome Ptr)
    (hr : newTypedVector m vType = (r, m1)) (hn : ∀ o, r ≠ .ok o) : m1 = m := by
  unfold newTypedVector at hr
  split_ifs at hr with hc
  · simp only [Prod.mk.injEq] at hr; exact hr.2.symm
  · simp only [Prod.mk.injEq] at hr
    exact absurd hr.1.symm (hn _)

theorem ctor_newFixedTypedVector (st : List Ptr) (m : Mem) (vType : Nat) (h : HeapInv st m)
    (o : Ptr) (m1 : Mem) (hr : newFixedTypedVector m vType = (.ok o, m1)) :
    CtorFacts st m m1 o := by
  unfold newFixedTypedVector at hr
  split_ifs at hr with hc
  · simp at hr
  · simp only [Prod.mk.injEq, Outcome.ok.injEq] at hr
    obtain ⟨rfl, rfl⟩ := hr
    exact ctor_alloc st m _ h rfl rfl (by simp [Structure.new])
      (fun hc => absurd hc (by simp [Structure.new])) (by simp [Structure.new])
      (isFixedTypedVector_not_inline vType (by simpa using hc))

theorem newFixedTypedVector_fail (m : Mem) (vType : Nat) (m1 : Mem) (r : Outcome Ptr)
    (hr : newFixedTypedVector m vType = (r, m1)) (hn : ∀ o, r ≠ .ok o) : m1 = m := by
  unfold newFixedTypedVector at hr
  split_ifs at hr with hc
  · simp only [Prod.mk.injEq] at hr; exact hr.2.symm
  · simp only [Prod.mk.injEq] at hr
    exact absurd hr.1.symm (hn _)

/-- The object a constructor has left may be changed by the builder. -/
theorem Unfrozen_of_FreshObj (m : Mem) (o : Nat)
    (ho : FreshObj m o) (hd : (m.struct o).dyn ≠ Dyn.flexMap) : Unfrozen m o :=
  ⟨hd, ho.2.1, fun mp _ => ho.2.2.2 (mp + 1)⟩

theorem ctor_append (st : List Ptr) (m m1 : Mem) (o : Ptr) (str : String)
    (hc : CtorFacts st m m1 o) (hd : (m1.struct o).dyn ≠ Dyn.flexMap) :
    CtorFacts st m (flexString_Append m1 o str) o := by
  obtain ⟨h1, h2, h3⟩ := hc
  refine ⟨(HeapInv_Append st m1 o str h1 (Unfrozen_of_FreshObj m1 o h2 hd)).1,
    FreshObj_Append m1 o str o h2, fun k hk => ?_⟩
  obtain ⟨k1, k2⟩ := h3 k hk
  exact ⟨FreshKey_Append st m1 o str k k2 k1, k2⟩

theorem ctor_newFlexString (st : List Ptr) (m : Mem) (str : String) (h : HeapInv st m) :
    CtorFacts st m (newFlexString m str).2 (newFlexString m str).1 := by
  have hc := ctor_alloc st m { Structure.new Dyn.flexString with vType := STRING, bSize := b8 }
    h rfl rfl (by decide) (fun hc => absurd hc (by decide)) (by decide) (by decide)
  refine ctor_append st m _ m.structs.length str hc ?_
  have := struct_allocStruct_self m
    { Structure.new Dyn.flexString with vType := STRING, bSize := b8 }
  change ((m.allocStruct _).2.struct m.structs.length).dyn ≠ Dyn.flexMap
  rw [this]
  decide

/-- What newKey leaves: the invariant, the key as a map expects it and as start expects
it, and the keys made before as they were. -/
theorem ctor_newKey (st : List Ptr) (m : Mem) (str : String) (h : HeapInv st m) :
    CtorFacts st m (newKey m str).2 (newKey m str).1 ∧
    FreshKey st (newKey m str).2 (newKey m str).1 := by
  have hc := ctor_alloc st m { Structure.new Dyn.key with vType := KEY, bSize := b8 }
    h rfl rfl (by decide) (fun _ => rfl) (by decide) (by decide)
  have hk := (alloc_facts st m { Structure.new Dyn.key with vType := KEY, bSize := b8 }
    h rfl rfl (by decide) (fun _ => rfl)).2.2.2.2 rfl rfl
  constructor
  · refine ctor_append st m _ m.structs.length str hc ?_
    have := struct_allocStruct_self m { Structure.new Dyn.key with vType := KEY, bSize := b8 }
    change ((m.allocStruct _).2.struct m.structs.length).dyn ≠ Dyn.flexMap
    rw [this]
    decide
  · exact FreshKey_Append_self st _ m.structs.length str hk

theorem mem_pair_children (a c y : Structure) (ha : a.children = []) (hc : c.children = [])
    (hy : y ∈ [a, c]) : y.children = [] := by
  simp only [List.mem_cons, List.mem_singleton, List.not_mem_nil, or_false] at hy
  rcases hy with rfl | rfl
  · exact ha
  · exact hc

theorem ctor_newFlexMap (st : List Ptr) (m : Mem) (h : HeapInv st m) :
    CtorFacts st m (newFlexMap m).2 (newFlexMap m).1 := by
  have hst := newFlexMap_structs m
  have hel : (newFlexMap m).2.elements = m.elements := rfl
  have h2 : (newFlexMap m).2.struct m.structs.length =
      { Structure.new Dyn.flexMap with vType := MAP, keys := m.structs.length + 1 } := by
    unfold Mem.struct
    rw [newFlexMap_structs, getD_append_length]
  have h3 : (newFlexMap m).2.struct (m.structs.length + 1) =
      { Structure.new Dyn.keyVector with vType := VECTOR_KEY } := by
    unfold Mem.struct
    rw [newFlexMap_structs, getD_append_length_succ]
  have hinv : HeapInv st (newFlexMap m).2 := by
    refine HeapInv_extend st m _ _ h hel hst ?_ ?_
    · intro y hy
      simp only [List.mem_cons, List.mem_singleton, List.not_mem_nil, or_false] at hy
      rcases hy with rfl | rfl
      · exact ⟨rfl, rfl, fun hc => absurd hc (by simp [Structure.new])⟩
      · exact ⟨rfl, rfl, fun hc => absurd hc (by decide)⟩
    · intro mp hmp hd
      have hmpe : mp = m.structs.length := by
        rcases (struct_of_append m _ _ hst mp).2 hmp with hdf | hy
        · rw [hdf] at hd; exact absurd hd (by decide)
        · by_contra hne
          have hgt : m.structs.length + 1 ≤ mp := by omega
          by_cases he : mp = m.structs.length + 1
          · rw [he, h3] at hd; exact absurd hd (by decide)
          · have : (newFlexMap m).2.struct mp = default := by
              apply struct_default_of_not_lt
              rw [hst, List.length_append]
              simp only [List.length_cons, List.length_nil]
              omega
            rw [this] at hd; exact absurd hd (by decide)
      subst hmpe
      refine ⟨by rw [h2], by rw [h2], by rw [h3]; rfl, [], MapBuilt.init m rfl, ?_⟩
      intro v hv; simp at hv
  refine ⟨hinv, ⟨?_, by show ((newFlexMap m).2.struct m.structs.length).dyn ≠ _; rw [h2]; simp [Structure.new],
    by show isInline ((newFlexMap m).2.struct m.structs.length).vType = _; rw [h2]; rfl, ?_⟩, ?_⟩
  · show m.structs.length < (newFlexMap m).2.structs.length
    rw [hst, List.length_append]
    simp
  · exact not_child_of_new st m _ _ h hst (fun y hy => mem_pair_children _ _ y rfl rfl hy) _
      (Nat.lt_irrefl _)
  · intro k hk
    obtain ⟨k1, k2⟩ := FreshKey_extend st m _ _ hel hst k hk
    exact ⟨k1, Nat.ne_of_lt k2⟩

/-- A structure of type MAP admits every element. -/
theorem allows_map (st : Structure) (hv : st.vType = MAP) (e : element) : allows st e = none := by
  have h1 : allowsElemType st e.fieldType = true := by
    unfold allowsElemType; rw [hv]; rfl
  have h2 : allowsElemSize st e.fieldSize = true := by
    unfold allowsElemSize; rw [hv]; rfl
  have h3 : isFull st = false := by
    unfold isFull; rw [hv]; rfl
  unfold allows
  rw [h1, h2, h3]
  rfl

theorem structure_insertElement_map (m : Mem) (mp : Nat) (e : element) (index : Nat)
    (hv : (m.struct mp).vType = MAP) :
    ∃ n m1, structure_insertElement m mp e index = (.ok n, m1) :=
  structure_insertElement_accepts m mp e index (allows_map _ hv e)

theorem structure_insertOffsetToObject_map (m : Mem) (mp o : Nat) (index : Nat)
    (hv : (m.struct mp).vType = MAP) :
    ∃ n m1, structure_insertOffsetToObject m mp o index = (.ok n, m1) := by
  obtain ⟨n, m1, h⟩ := structure_insertElement_map m mp
    { zeroElement with fieldType := getVtype m o } index hv
  unfold structure_insertOffsetToObject
  dsimp only
  rw [h]
  dsimp only
  split
  · exact ⟨_, _, rfl⟩
  · exact ⟨_, _, rfl⟩

/-- The invariant after a call on the map `mp` that has put the key `k` into its key
vector and has changed no structure but the map and its key vector. -/
theorem HeapInv_add (st : List Ptr) (m m1 : Mem) (mp k : Nat) (h : HeapInv st m)
    (hmp : (m.struct mp).dyn = Dyn.flexMap) (hk : FreshKey st m k)
    (hi : Mem.insertStep m m1)
    (ho : Mem.stepOutside (fun q => q = mp + 1 ∨ q = mp) m m1)
    (hch : ∀ c ∈ (m1.struct (mp + 1)).children, c ∈ (m.struct (mp + 1)).children ∨ c = k)
    (hb : ∃ es, MapBuilt mp m1 es ∧ InlineEntries es) :
    HeapInv st m1 ∧
    ∀ mp1 : Nat, (m.struct mp1).dyn = Dyn.flexMap → ∀ c ∈ (m1.struct (mp1 + 1)).children,
      c ∈ (m.struct (mp1 + 1)).children ∨ c = k := by
  obtain ⟨b1, b2, b3, b4, b5, b6⟩ := insertStep_base st m m1 h hi
  have hdyn : ∀ q : Nat, (m1.struct q).dyn = (m.struct q).dyn := fun q => (hi.2.2 q).1
  obtain ⟨_, kd, kl, kvl, _⟩ := HeapInv_kv st m h mp hmp
  have hkd : (m.struct k).dyn = Dyn.key := hk.1.1
  have hklt : k < m.structs.length := struct_valid_of_dyn_ne _ _ (by rw [hkd]; decide)
  have hT : ∀ mp1 : Nat, (m.struct mp1).dyn = Dyn.flexMap → mp1 ≠ mp →
      ¬ (mp1 = mp + 1 ∨ mp1 = mp) ∧ ¬ (mp1 + 1 = mp + 1 ∨ mp1 + 1 = mp) ∧
      ∀ c ∈ (m.struct (mp1 + 1)).children, ¬ (c = mp + 1 ∨ c = mp) := by
    intro mp1 hmp1 hne
    obtain ⟨_, k2, _, _, k5⟩ := HeapInv_kv st m h mp1 hmp1
    refine ⟨?_, ?_, ?_⟩
    · rintro (hEq | hEq)
      · rw [hEq, kd] at hmp1; exact absurd hmp1 (by decide)
      · exact hne hEq
    · rintro (hEq | hEq)
      · exact hne (by omega)
      · rw [hEq, hmp] at k2; exact absurd k2 (by decide)
    · intro c hc
      have hcd := (k5 c hc).1
      rintro (hEq | hEq)
      · rw [hEq, kd] at hcd; exact absurd hcd (by decide)
      · rw [hEq, hmp] at hcd; exact absurd hcd (by decide)
  have hkT : ¬ (k = mp + 1 ∨ k = mp) := by
    rintro (hEq | hEq)
    · rw [hEq, kd] at hkd; exact absurd hkd (by decide)
    · rw [hEq, hmp] at hkd; exact absurd hkd (by decide)
  obtain ⟨⟨xs, hxs⟩, _, _, hbody⟩ := ho
  have hchall : ∀ mp1 : Nat, (m.struct mp1).dyn = Dyn.flexMap →
      ∀ c ∈ (m1.struct (mp1 + 1)).children, c ∈ (m.struct (mp1 + 1)).children ∨ c = k := by
    intro mp1 hmp1 c hc
    by_cases hne : mp1 = mp
    · subst hne; exact hch c hc
    · obtain ⟨_, _, _, k4, _⟩ := HeapInv_kv st m h mp1 hmp1
      rw [(hbody (mp1 + 1) k4 (hT mp1 hmp1 hne).2.1).2] at hc
      exact Or.inl hc
  refine ⟨⟨b1, b2, b3, b4, b5, ?_, b6, ?_⟩, hchall⟩
  · intro mp1 hmp1
    rw [hdyn] at hmp1
    by_cases hne : mp1 = mp
    · subst hne
      obtain ⟨_, _, _, _, k5⟩ := HeapInv_kv st m h mp1 hmp1
      intro c hc
      rcases hch c hc with hc | hc
      · obtain ⟨f1, f2⟩ := h.frozen mp1 hmp1 c hc
        refine ⟨f1, ?_⟩
        have hcd := (k5 c hc).1
        have hcT : ¬ (c = mp1 + 1 ∨ c = mp1) := by
          rintro (hEq | hEq)
          · rw [hEq, kd] at hcd; exact absurd hcd (by decide)
          · rw [hEq, hmp] at hcd; exact absurd hcd (by decide)
        rw [(hbody c (k5 c hc).2.1 hcT).1]
        intro p hp
        rw [elem_of_elements_append m m1 xs hxs p ((k5 c hc).2.2 p hp)]
        exact f2 p hp
      · rw [hc]
        refine ⟨hk.2.1, ?_⟩
        rw [(hbody k hklt hkT).1]
        intro p hp
        rw [elem_of_elements_append m m1 xs hxs p (hk.1.2 p hp)]
        exact hk.2.2.2 p hp
    · obtain ⟨_, u2, u3⟩ := hT mp1 hmp1 hne
      exact frozen_outside st _ m m1 h ⟨⟨xs, hxs⟩, by assumption, by assumption, hbody⟩
        mp1 hmp1 u2 u3
  · intro mp1 hmp1
    rw [hdyn] at hmp1
    by_cases hne : mp1 = mp
    · subst hne; exact hb
    · obtain ⟨u1, u2, u3⟩ := hT mp1 hmp1 hne
      exact built_outside st _ m m1 h ⟨⟨xs, hxs⟩, by assumption, by assumption, hbody⟩
        mp1 hmp1 u1 u2 u3

/-- The two steps of a call that puts a key into the key vector of a map and then changes
the map. -/
theorem add_steps (st : List Ptr) (m m1 m2 : Mem) (mp k : Nat) (index : Nat)
    (h : HeapInv st m) (hmp : (m.struct mp).dyn = Dyn.flexMap) (hk : FreshKey st m k)
    (h1 : m1 = (structure_insertOffsetToObject m (mp + 1) k index).2)
    (hi2 : Mem.insertStep m1 m2) (ho2 : Mem.stepOutside (fun q => q = mp) m1 m2) :
    Mem.insertStep m m2 ∧ Mem.stepOutside (fun q => q = mp + 1 ∨ q = mp) m m2 ∧
    ∀ c ∈ (m2.struct (mp + 1)).children, c ∈ (m.struct (mp + 1)).children ∨ c = k := by
  obtain ⟨_, kd, kl, kvl, _⟩ := HeapInv_kv st m h mp hmp
  have hkd : (m.struct k).dyn = Dyn.key := hk.1.1
  have hklt : k < m.structs.length := struct_valid_of_dyn_ne _ _ (by rw [hkd]; decide)
  have hkvt : isInline (m.struct k).vType = false := by rw [hk.2.2.1]; rfl
  obtain ⟨s1, s2⟩ := insertOffset_steps m (mp + 1) k index kvl hklt hkvt
    (fun hc => by rw [kd] at hc; exact absurd hc (by decide))
  rw [← h1] at s1 s2
  refine ⟨insertStep_trans s1 hi2, ?_, ?_⟩
  · refine stepOutside_trans (stepOutside_mono s2 (fun q _ hq => Or.inl hq)) ho2 ?_
    intro q _ hq hEq
    exact hq (Or.inr hEq)
  · intro c hc
    have hne : mp + 1 ≠ mp := by omega
    have hlen1 : m1.structs.length = m.structs.length := s1.1
    rw [(ho2.2.2.2 (mp + 1) (by omega) hne).2] at hc
    rcases structure_insertOffsetToObject_fields m (mp + 1) k index kvl with hf | ⟨_, _, hf⟩
    · rw [h1, hf] at hc; exact Or.inl hc
    · rw [h1] at hc
      rcases (hf (mp + 1)).2.2.2.2.2.1 c hc with hc | hc
      · exact Or.inl hc
      · exact Or.inr hc.2

/-- The invariant after addElementWithKey on a map with a key fresh from newKey and an
inline element; the key vectors gain no child but the key. -/
theorem HeapInv_addElementWithKey (st : List Ptr) (m : Mem) (mp k : Nat) (e : element)
    (h : HeapInv st m) (hmp : (m.struct mp).dyn = Dyn.flexMap) (hk : FreshKey st m k)
    (hin : isInline e.fieldType = true) :
    HeapInv st (addElementWithKey m mp k e).2 ∧
    ∀ mp1 : Nat, (m.struct mp1).dyn = Dyn.flexMap →
      ∀ c ∈ ((addElementWithKey m mp k e).2.struct (mp1 + 1)).children,
        c ∈ (m.struct (mp1 + 1)).children ∨ c = k := by
  obtain ⟨es, hb, hes⟩ := h.built mp hmp
  obtain ⟨hinv, _⟩ := MapBuilt_inv mp m es hb
  obtain ⟨index, hidx, _⟩ := determineKeyInsertionIndex_spec m mp k hinv
  obtain ⟨hkeys, hvt⟩ := h.map_keys mp hmp
  have hsame : HeapInv st m ∧ ∀ mp1 : Nat, (m.struct mp1).dyn = Dyn.flexMap →
      ∀ c ∈ (m.struct (mp1 + 1)).children, c ∈ (m.struct (mp1 + 1)).children ∨ c = k :=
    ⟨h, fun _ _ c hc => Or.inl hc⟩
  cases hc : containsKey m mp k with
  | none =>
    have : addElementWithKey m mp k e = (.panic, m) := by
      unfold addElementWithKey; rw [hc]
    rw [this]; exact hsame
  | some b =>
    cases b with
    | true =>
      have : addElementWithKey m mp k e = (.error Err.duplicateKey, m) := by
        unfold addElementWithKey; rw [hc]
      rw [this]; exact hsame
    | false =>
      generalize hio : structure_insertOffsetToObject m (mp + 1) k index = r1
      obtain ⟨o1, m1⟩ := r1
      have hfail : (∀ n, o1 ≠ .ok n) → addElementWithKey m mp k e = (o1, m) := by
        intro hno
        have hm1 : m1 = m := by
          have := structure_insertOffsetToObject_fail m (mp + 1) k index
            (by rw [hio]; exact hno)
          rw [hio] at this; exact this
        unfold addElementWithKey
        rw [hc]; dsimp only; rw [hidx]; dsimp only; rw [hkeys, hio, hm1]
        cases o1 with
        | ok n => exact absurd rfl (hno n)
        | error _ => rfl
        | panic => rfl
        | diverge => rfl
      cases o1 with
      | ok n1 =>
        have hm1 : m1 = (structure_insertOffsetToObject m (mp + 1) k index).2 := by rw [hio]
        obtain ⟨s1, s2⟩ := insertElement_steps m1 mp e n1
        have hkvt : isInline (m.struct k).vType = false := by rw [hk.2.2.1]; rfl
        have hkd : (m.struct k).dyn = Dyn.key := hk.1.1
        have hklt : k < m.structs.length := struct_valid_of_dyn_ne _ _ (by rw [hkd]; decide)
        obtain ⟨_, kd, kl, kvl, _⟩ := HeapInv_kv st m h mp hmp
        have hstep1 := (insertOffset_steps m (mp + 1) k index kvl hklt hkvt
          (fun hc => by rw [kd] at hc; exact absurd hc (by decide))).1
        rw [← hm1] at hstep1
        have hvt1 : (m1.struct mp).vType = MAP := by rw [(hstep1.2.2 mp).2.2.1]; exact hvt
        obtain ⟨n, m2, hie⟩ := structure_insertElement_map m1 mp e n1 hvt1
        have hres : addElementWithKey m mp k e = (.ok n, m2) := by
          unfold addElementWithKey
          rw [hc]; dsimp only; rw [hidx]; dsimp only; rw [hkeys, hio]; exact hie
        rw [hie] at s1 s2
        obtain ⟨a1, a2, a3⟩ := add_steps st m m1 m2 mp k index h hmp hk hm1 s1 s2
        rw [hres]
        exact HeapInv_add st m m2 mp k h hmp hk a1 a2 a3
          ⟨_, MapBuilt.addElement m m2 es k e n index hb hk.1 hidx hres,
            InlineEntries_elem es index _ e hes hin⟩
      | error err => rw [hfail (fun n => by simp)]; exact hsame
      | panic => rw [hfail (fun n => by simp)]; exact hsame
      | diverge => rw [hfail (fun n => by simp)]; exact hsame

/-- The invariant after addOffsetWithKey on a map with a key fresh from newKey and an
object fresh from its constructor; the key vectors gain no child but the key. -/
theorem HeapInv_addOffsetWithKey (st : List Ptr) (m : Mem) (mp k o : Nat)
    (h : HeapInv st m) (hmp : (m.struct mp).dyn = Dyn.flexMap) (hk : FreshKey st m k)
    (ho : FreshObj m o) :
    HeapInv st (addOffsetWithKey m mp k o).2 ∧
    ∀ mp1 : Nat, (m.struct mp1).dyn = Dyn.flexMap →
      ∀ c ∈ ((addOffsetWithKey m mp k o).2.struct (mp1 + 1)).children,
        c ∈ (m.struct (mp1 + 1)).children ∨ c = k := by
  obtain ⟨es, hb, hes⟩ := h.built mp hmp
  obtain ⟨hinv, _⟩ := MapBuilt_inv mp m es hb
  obtain ⟨index, hidx, _⟩ := determineKeyInsertionIndex_spec m mp k hinv
  obtain ⟨hkeys, hvt⟩ := h.map_keys mp hmp
  have hsame : HeapInv st m ∧ ∀ mp1 : Nat, (m.struct mp1).dyn = Dyn.flexMap →
      ∀ c ∈ (m.struct (mp1 + 1)).children, c ∈ (m.struct (mp1 + 1)).children ∨ c = k :=
    ⟨h, fun _ _ c hc => Or.inl hc⟩
  cases hc : containsKey m mp k with
  | none =>
    have : addOffsetWithKey m mp k o = (.panic, m) := by
      unfold addOffsetWithKey; rw [hc]
    rw [this]; exact hsame
  | some b =>
    cases b with
    | true =>
      have : addOffsetWithKey m mp k o = (.error Err.duplicateKey, m) := by
        unfold addOffsetWithKey; rw [hc]
      rw [this]; exact hsame
    | false =>
      generalize hio : structure_insertOffsetToObject m (mp + 1) k index = r1
      obtain ⟨o1, m1⟩ := r1
      have hfail : (∀ n, o1 ≠ .ok n) → addOffsetWithKey m mp k o = (o1, m) := by
        intro hno
        have hm1 : m1 = m := by
          have := structure_insertOffsetToObject_fail m (mp + 1) k index
            (by rw [hio]; exact hno)
          rw [hio] at this; exact this
        unfold addOffsetWithKey
        rw [hc]; dsimp only; rw [hidx]; dsimp only; rw [hkeys, hio, hm1]
        cases o1 with
        | ok n => exact absurd rfl (hno n)
        | error _ => rfl
        | panic => rfl
        | diverge => rfl
      cases o1 with
      | ok n1 =>
        have hm1 : m1 = (structure_insertOffsetToObject m (mp + 1) k index).2 := by rw [hio]
        have hkvt : isInline (m.struct k).vType = false := by rw [hk.2.2.1]; rfl
        have hkd : (m.struct k).dyn = Dyn.key := hk.1.1
        have hklt : k < m.structs.length := struct_valid_of_dyn_ne _ _ (by rw [hkd]; decide)
        obtain ⟨_, kd, kl, kvl, _⟩ := HeapInv_kv st m h mp hmp
        have hstep1 := (insertOffset_steps m (mp + 1) k index kvl hklt hkvt
          (fun hc => by rw [kd] at hc; exact absurd hc (by decide))).1
        rw [← hm1] at hstep1
        have hvt1 : (m1.struct mp).vType = MAP := by rw [(hstep1.2.2 mp).2.2.1]; exact hvt
        have hlen1 : m1.structs.length = m.structs.length := hstep1.1
        obtain ⟨s1, s2⟩ := insertOffset_steps m1 mp o index (by rw [hlen1]; exact kl)
          (by rw [hlen1]; exact ho.1) (by rw [(hstep1.2.2 o).2.2.1]; exact ho.2.2.1)
          (fun hc => by rw [(hstep1.2.2 mp).1, hmp] at hc; exact absurd hc (by decide))
        obtain ⟨n, m2, hie⟩ := structure_insertOffsetToObject_map m1 mp o index hvt1
        have hres : addOffsetWithKey m mp k o = (.ok n, m2) := by
          unfold addOffsetWithKey
          rw [hc]; dsimp only; rw [hidx]; dsimp only; rw [hkeys, hio]; exact hie
        rw [hie] at s1 s2
        obtain ⟨a1, a2, a3⟩ := add_steps st m m1 m2 mp k index h hmp hk hm1 s1 s2
        rw [hres]
        exact HeapInv_add st m m2 mp k h hmp hk a1 a2 a3
          ⟨_, MapBuilt.addOffset m m2 es k o n index hb hk.1 ho.1 hidx hres,
            InlineEntries_child es index _ o hes⟩
      | error err => rw [hfail (fun n => by simp)]; exact hsame
      | panic => rw [hfail (fun n => by simp)]; exact hsame
      | diverge => rw [hfail (fun n => by simp)]; exact hsame

theorem HeapInv_mono (st st1 : List Ptr) (m : Mem) (h : HeapInv st m)
    (hsub : ∀ s ∈ st1, s ∈ st) : HeapInv st1 m :=
  ⟨fun s hs => h.stack_lt s (hsub s hs), fun s hs => h.stack_kv s (hsub s hs), h.children_lt,
    h.offs, h.map_keys,
    fun mp hmp c hc => ⟨fun hin => (h.frozen mp hmp c hc).1 (hsub c hin), (h.frozen mp hmp c hc).2⟩,
    h.key_leaf, h.built⟩

/-- The invariant with an object fresh from its constructor pushed on the stack. -/
theorem HeapInv_push (st : List Ptr) (m : Mem) (o : Nat) (h : HeapInv st m)
    (ho : FreshObj m o) : HeapInv (st ++ [o]) m := by
  refine ⟨?_, ?_, h.children_lt, h.offs, h.map_keys, ?_, h.key_leaf, h.built⟩
  · intro s hs
    rcases List.mem_append.1 hs with hs | hs
    · exact h.stack_lt s hs
    · rw [List.mem_singleton.1 hs]; exact ho.1
  · intro s hs
    rcases List.mem_append.1 hs with hs | hs
    · exact h.stack_kv s hs
    · rw [List.mem_singleton.1 hs]; exact ho.2.1
  · intro mp hmp c hc
    refine ⟨?_, (h.frozen mp hmp c hc).2⟩
    intro hin
    rcases List.mem_append.1 hin with hs | hs
    · exact (h.frozen mp hmp c hc).1 hs
    · rw [List.mem_singleton.1 hs] at hc
      exact ho.2.2.2 _ hc

theorem Unfrozen_of_stack (st : List Ptr) (m : Mem) (s : Nat) (h : HeapInv st m) (hs : s ∈ st)
    (hd : (m.struct s).dyn ≠ Dyn.flexMap) : Unfrozen m s :=
  ⟨hd, h.stack_kv s hs, fun mp hmp hc => (h.frozen mp hmp s hc).1 hs⟩

theorem insertElement_cases (m : Mem) (s : Nat) (e : element) (index : Nat) :
    (insertElement m s e index).2 = m ∨ ((m.struct s).dyn ≠ Dyn.flexMap ∧
      ∃ i, insertElement m s e index = structure_insertElement m s e i) := by
  unfold insertElement
  cases hd : (m.struct s).dyn with
  | flexMap => exact Or.inl rfl
  | root =>
    dsimp only
    unfold root_insertElement
    split_ifs
    · exact Or.inl rfl
    · exact Or.inr ⟨by simp, 0, rfl⟩
  | typedVector => exact Or.inr ⟨by simp, index, rfl⟩
  | vector => exact Or.inr ⟨by simp, index, rfl⟩
  | fixedTypedVector => exact Or.inr ⟨by simp, index, rfl⟩
  | blob => exact Or.inr ⟨by simp, index, rfl⟩
  | flexString => exact Or.inr ⟨by simp, index, rfl⟩
  | key => exact Or.inr ⟨by simp, index, rfl⟩
  | keyVector => exact Or.inr ⟨by simp, index, rfl⟩

theorem insertOffsetToObject_cases (m : Mem) (s o : Nat) (index : Nat) :
    (insertOffsetToObject m s o index).2 = m ∨ ((m.struct s).dyn ≠ Dyn.flexMap ∧
      ∃ i, insertOffsetToObject m s o index = structure_insertOffsetToObject m s o i) := by
  unfold insertOffsetToObject
  cases hd : (m.struct s).dyn with
  | flexMap => exact Or.inl rfl
  | root =>
    dsimp only
    unfold root_insertOffsetToObject
    split_ifs
    · exact Or.inl rfl
    · exact Or.inr ⟨by simp, 0, rfl⟩
  | typedVector => exact Or.inr ⟨by simp, index, rfl⟩
  | vector => exact Or.inr ⟨by simp, index, rfl⟩
  | fixedTypedVector => exact Or.inr ⟨by simp, index, rfl⟩
  | blob => exact Or.inr ⟨by simp, index, rfl⟩
  | flexString => exact Or.inr ⟨by simp, index, rfl⟩
  | key => exact Or.inr ⟨by simp, index, rfl⟩
  | keyVector => exact Or.inr ⟨by simp, index, rfl⟩

theorem HeapInv_addElement (st : List Ptr) (m : Mem) (head : Nat) (e : element)
    (h : HeapInv st m) (hh : head ∈ st) : HeapInv st (addElement m head e).2 := by
  unfold addElement
  rcases insertElement_cases m head e (elemsCount m head) with hc | ⟨hd, i, hc⟩
  · rw [hc]; exact h
  · rw [hc]
    exact HeapInv_insertElement st m head e i h (Unfrozen_of_stack st m head h hh hd)

theorem HeapInv_addOffsetToObject (st : List Ptr) (m : Mem) (head o : Nat)
    (h : HeapInv st m) (hh : head ∈ st) (ho : FreshObj m o) :
    HeapInv (st ++ [o]) (addOffsetToObject m head o).2 := by
  have hp := HeapInv_push st m o h ho
  unfold addOffsetToObject
  rcases insertOffsetToObject_cases m head o (elemsCount m head) with hc | ⟨hd, i, hc⟩
  · rw [hc]; exact hp
  · rw [hc]
    exact HeapInv_insertOffset (st ++ [o]) m head o i hp
      (Unfrozen_of_stack (st ++ [o]) m head hp (List.mem_append_left _ hh) hd)
      (h.stack_lt head hh) ho

theorem getHead_mem (b : Builder) (head : Nat) (hh : b.getHead = some head) :
    head ∈ b.inProgress := by
  unfold Builder.getHead at hh
  split_ifs at hh
  exact List.getElem?_mem hh

theorem Heap_Finish (b : Builder) (h : HeapInv b.inProgress b.mem) :
    HeapInv (b.Finish).2.inProgress (b.Finish).2.mem := by
  unfold Builder.Finish
  split_ifs <;> exact h

theorem Heap_End (b : Builder) (h : HeapInv b.inProgress b.mem) :
    HeapInv (b.End).2.inProgress (b.End).2.mem := by
  have ht : HeapInv (b.inProgress.take b.headIndex.toNat) b.mem :=
    HeapInv_mono _ _ _ h (fun s hs => List.mem_of_mem_take hs)
  unfold Builder.End
  split_ifs
  · exact h
  · dsimp only
    split_ifs
    · exact Heap_Finish
        ⟨b.finished, b.inProgress.take b.headIndex.toNat, b.headIndex - 1, b.mem⟩ ht
    · exact ht

theorem Heap_deferEnd (r : Outcome Unit × Builder) (h : HeapInv r.2.inProgress r.2.mem) :
    HeapInv (Builder.deferEnd r).2.inProgress (Builder.deferEnd r).2.mem := by
  obtain ⟨res, b1⟩ := r
  have h1 := Heap_End b1 h
  unfold Builder.deferEnd
  cases res with
  | diverge => exact h
  | panic => exact h1
  | ok a =>
    dsimp only
    revert h1
    generalize b1.End = r2
    obtain ⟨res2, b2⟩ := r2
    intro h1
    cases res2 <;> exact h1
  | error e =>
    dsimp only
    revert h1
    generalize b1.End = r2
    obtain ⟨res2, b2⟩ := r2
    intro h1
    cases res2 <;> exact h1

theorem Heap_registerElement (b : Builder) (e : element) (h : HeapInv b.inProgress b.mem) :
    HeapInv (b.registerElement e).2.inProgress (b.registerElement e).2.mem := by
  unfold Builder.registerElement
  split
  · exact h
  · next head hh =>
    have h1 := HeapInv_addElement b.inProgress b.mem head e h (getHead_mem b head hh)
    revert h1
    generalize addElement b.mem head e = r
    obtain ⟨res, m1⟩ := r
    intro h1
    cases res with
    | ok n =>
      dsimp only
      split_ifs
      · exact Heap_Finish ⟨b.finished, b.inProgress, b.headIndex, m1⟩ h1
      · exact h1
    | error _ => exact h1
    | panic => exact h1
    | diverge => exact h1

theorem Heap_start (b : Builder) (o : Nat) (h : HeapInv b.inProgress b.mem)
    (ho : FreshObj b.mem o) : HeapInv (b.start o).2.inProgress (b.start o).2.mem := by
  unfold Builder.start
  split
  · exact h
  · next head hh =>
    have h1 := HeapInv_addOffsetToObject b.inProgress b.mem head o h (getHead_mem b head hh) ho
    have h2 := HeapInv_mono _ b.inProgress _ h1 (fun s hs => List.mem_append_left _ hs)
    revert h1 h2
    generalize addOffsetToObject b.mem head o = r
    obtain ⟨res, m1⟩ := r
    intro h1 h2
    cases res with
    | ok n => exact h1
    | error _ => exact h2
    | panic => exact h2
    | diverge => exact h2

theorem Heap_startWithKey (b : Builder) (k o : Nat) (h : HeapInv b.inProgress b.mem)
    (hk : FreshKey b.inProgress b.mem k) (ho : FreshObj b.mem o) (hko : k ≠ o) :
    HeapInv (b.startWithKey (some k) o).2.inProgress (b.startWithKey (some k) o).2.mem := by
  unfold Builder.startWithKey
  split
  · exact h
  · next head hh =>
    dsimp only
    split_ifs with hd he
    · exact h
    · exact h
    · have hd1 : (b.mem.struct head).dyn = Dyn.flexMap := by
        by_contra hc; exact hd hc
      have hp := HeapInv_push b.inProgress b.mem o h ho
      have hk1 : FreshKey (b.inProgress ++ [o]) b.mem k :=
        ⟨hk.1, fun hin => by
          rcases List.mem_append.1 hin with hs | hs
          · exact hk.2.1 hs
          · exact hko (List.mem_singleton.1 hs), hk.2.2⟩
      have h1 := (HeapInv_addOffsetWithKey (b.inProgress ++ [o]) b.mem head k o hp hd1 hk1 ho).1
      have h2 := HeapInv_mono _ b.inProgress _ h1 (fun s hs => List.mem_append_left _ hs)
      revert h1 h2
      generalize addOffsetWithKey b.mem head k o = r
      obtain ⟨res, m1⟩ := r
      intro h1 h2
      cases res with
      | ok n => exact h1
      | error _ => exact h2
      | panic => exact h2
      | diverge => exact h2

theorem Heap_registerElementWithKey (b : Builder) (k : Nat) (e : element)
    (h : HeapInv b.inProgress b.mem) (hk : FreshKey b.inProgress b.mem k)
    (hin : isInline e.fieldType = true) :
    HeapInv (b.registerElementWithKey (some k) e).2.inProgress
      (b.registerElementWithKey (some k) e).2.mem := by
  unfold Builder.registerElementWithKey
  split
  · exact h
  · next head hh =>
    dsimp only
    split_ifs with hd he
    · exact h
    · exact h
    · have hd1 : (b.mem.struct head).dyn = Dyn.flexMap := by
        by_contra hc; exact hd hc
      have h1 := (HeapInv_addElementWithKey b.inProgress b.mem head k e h hd1 hk hin).1
      revert h1
      generalize addElementWithKey b.mem head k e = r
      obtain ⟨res, m1⟩ := r
      intro h1
      cases res <;> exact h1

theorem Heap_Append (b : Builder) (str : String) (h : HeapInv b.inProgress b.mem) :
    HeapInv (b.Append str).2.inProgress (b.Append str).2.mem := by
  unfold Builder.Append
  split
  · exact h
  · next head hh =>
    split_ifs with hd
    · exact h
    · have hd1 : (b.mem.struct head).dyn = Dyn.flexString := by
        by_contra hc; exact hd hc
      exact (HeapInv_Append b.inProgress b.mem head str h
        (Unfrozen_of_stack _ _ head h (getHead_mem b head hh)
          (by rw [hd1]; decide))).1

/-- The invariant survives serialization. -/
theorem HeapInv_serKept (st : List Ptr) (m m1 : Mem) (h : HeapInv st m)
    (hk : Mem.serKept m m1) : HeapInv st m1 := by
  obtain ⟨⟨l1, l2, hf⟩, he⟩ := hk
  obtain ⟨e1, e2⟩ := he h.offs
  have hoffs := OffsOK_of_serKept ⟨⟨l1, l2, hf⟩, he⟩ h.offs
  refine ⟨?_, ?_, ?_, hoffs, ?_, ?_, ?_, ?_⟩
  · intro s hs; rw [l1]; exact h.stack_lt s hs
  · intro s hs; rw [(hf s).1]; exact h.stack_kv s hs
  · intro s c hc; rw [(hf s).2.2.2.1] at hc; rw [l1]; exact h.children_lt s c hc
  · intro mp hmp
    rw [(hf mp).1] at hmp
    rw [(hf mp).2.2.2.2.2, (hf mp).2.2.2.2.1]
    exact h.map_keys mp hmp
  · intro mp hmp c hc
    rw [(hf mp).1] at hmp
    rw [(hf (mp + 1)).2.2.2.1] at hc
    obtain ⟨f1, f2⟩ := h.frozen mp hmp c hc
    refine ⟨f1, ?_⟩
    intro p hp
    rw [(hf c).2.2.1] at hp
    rw [e1 p (f2 p hp)]
    exact f2 p hp
  · intro s hs
    rw [(hf s).1] at hs
    rw [(hf s).2.2.2.2.1, (hf s).2.2.2.1]
    exact h.key_leaf s hs
  · intro mp hmp
    rw [(hf mp).1] at hmp
    obtain ⟨es, hb, hin⟩ := h.built mp hmp
    have hkeys := (h.map_keys mp hmp).1
    refine ⟨es, MapBuilt.kept m m1 es hb hin ?_, hin⟩
    refine ⟨Nat.le_of_eq l2.symm, Nat.le_of_eq l1.symm, (hf mp).1, (hf mp).2.2.2.2.2,
      (hf mp).2.2.1, (hf _).1, (hf _).2.2.1, (hf _).2.2.2.1, ?_, fun p _ hp => e1 p hp, ?_⟩
    · intro c hc
      rw [hkeys] at hc
      obtain ⟨_, f2⟩ := h.frozen mp hmp c hc
      refine ⟨(hf c).1, (hf c).2.2.1, ?_⟩
      unfold flexString_toString
      rw [(hf c).2.2.1]
      apply List.map_congr_left
      intro p hp
      rw [e1 p (f2 p hp)]
    · intro o _ p hp
      rw [(hf o).2.1]; exact hp

theorem Heap_SerializeBuffer (b : Builder) (buff : List Nat) (h : HeapInv b.inProgress b.mem) :
    HeapInv (b.SerializeBuffer buff).2.1.inProgress (b.SerializeBuffer buff).2.1.mem := by
  unfold Builder.SerializeBuffer
  exact HeapInv_serKept _ _ _ h (serKept_serialize _ b.mem 0 buff false)

theorem ctor_typed (st : List Ptr) (m : Mem) (vType : Nat) (h : HeapInv st m) :
    (∃ o, (newTypedVector m vType).1 = .ok o ∧ CtorFacts st m (newTypedVector m vType).2 o) ∨
    ((∀ o, (newTypedVector m vType).1 ≠ .ok o) ∧ (newTypedVector m vType).2 = m) := by
  generalize hr : newTypedVector m vType = r
  obtain ⟨res, m1⟩ := r
  cases res with
  | ok o => exact Or.inl ⟨o, rfl, ctor_newTypedVector st m vType h o m1 hr⟩
  | error e => exact Or.inr ⟨fun o => by simp, newTypedVector_fail m vType m1 _ hr (by simp)⟩
  | panic => exact Or.inr ⟨fun o => by simp, newTypedVector_fail m vType m1 _ hr (by simp)⟩
  | diverge => exact Or.inr ⟨fun o => by simp, newTypedVector_fail m vType m1 _ hr (by simp)⟩

theorem ctor_fixed (st : List Ptr) (m : Mem) (vType : Nat) (h : HeapInv st m) :
    (∃ o, (newFixedTypedVector m vType).1 = .ok o ∧
      CtorFacts st m (newFixedTypedVector m vType).2 o) ∨
    ((∀ o, (newFixedTypedVector m vType).1 ≠ .ok o) ∧ (newFixedTypedVector m vType).2 = m) := by
  generalize hr : newFixedTypedVector m vType = r
  obtain ⟨res, m1⟩ := r
  cases res with
  | ok o => exact Or.inl ⟨o, rfl, ctor_newFixedTypedVector st m vType h o m1 hr⟩
  | error e =>
    exact Or.inr ⟨fun o => by simp, newFixedTypedVector_fail m vType m1 _ hr (by simp)⟩
  | panic => exact Or.inr ⟨fun o => by simp, newFixedTypedVector_fail m vType m1 _ hr (by simp)⟩
  | diverge =>
    exact Or.inr ⟨fun o => by simp, newFixedTypedVector_fail m vType m1 _ hr (by simp)⟩

theorem Heap_ctor_start (b : Builder) (m1 : Mem) (o : Nat)
    (hc : CtorFacts b.inProgress b.mem m1 o) :
    HeapInv ({ b with mem := m1 }.start o).2.inProgress ({ b with mem := m1 }.start o).2.mem :=
  Heap_start ⟨b.finished, b.inProgress, b.headIndex, m1⟩ o hc.1 hc.2.1

theorem Heap_key_ctor_start (b : Builder) (k : String) (m2 : Mem) (o : Nat)
    (h : HeapInv b.inProgress b.mem)
    (hc : CtorFacts b.inProgress (newKey b.mem k).2 m2 o) :
    HeapInv ({ b with mem := m2 }.startWithKey (some (newKey b.mem k).1) o).2.inProgress
      ({ b with mem := m2 }.startWithKey (some (newKey b.mem k).1) o).2.mem := by
  obtain ⟨_, hk⟩ := ctor_newKey b.inProgress b.mem k h
  obtain ⟨hk2, hne⟩ := hc.2.2 _ hk
  exact Heap_startWithKey ⟨b.finished, b.inProgress, b.headIndex, m2⟩ _ o hc.1 hk2 hc.2.1 hne

theorem Heap_key_register (b : Builder) (k : String) (e : element)
    (h : HeapInv b.inProgress b.mem) (hin : isInline e.fieldType = true) :
    HeapInv ({ b with mem := (newKey b.mem k).2 }.registerElementWithKey
        (some (newKey b.mem k).1) e).2.inProgress
      ({ b with mem := (newKey b.mem k).2 }.registerElementWithKey
        (some (newKey b.mem k).1) e).2.mem := by
  obtain ⟨hc, hk⟩ := ctor_newKey b.inProgress b.mem k h
  exact Heap_registerElementWithKey ⟨b.finished, b.inProgress, b.headIndex, (newKey b.mem k).2⟩
    _ e hc.1 hk hin

theorem Heap_startTyped (b : Builder) (vType : Nat) (h : HeapInv b.inProgress b.mem) :
    HeapInv (b.startTyped vType).2.inProgress (b.startTyped vType).2.mem := by
  have h1 := ctor_typed b.inProgress b.mem vType h
  unfold Builder.startTyped
  revert h1
  generalize newTypedVector b.mem vType = r
  obtain ⟨res, m1⟩ := r
  intro h1
  have hfail : (∀ o, res ≠ .ok o) → HeapInv b.inProgress m1 := by
    intro hno
    rcases h1 with ⟨o, ho, _⟩ | ⟨_, hm⟩
    · exact absurd ho (hno o)
    · rw [show m1 = b.mem from hm]; exact h
  cases res with
  | ok o =>
    rcases h1 with ⟨o1, ho, hc⟩ | ⟨hno, _⟩
    · have : o = o1 := by simpa using ho
      subst this
      exact Heap_ctor_start b m1 o hc
    · exact absurd rfl (hno o)
  | error e => exact hfail (fun o => by simp)
  | panic => exact hfail (fun o => by simp)
  | diverge => exact hfail (fun o => by simp)

theorem Heap_startFixed (b : Builder) (vType : Nat) (h : HeapInv b.inProgress b.mem) :
    HeapInv (b.startFixed vType).2.inProgress (b.startFixed vType).2.mem := by
  have h1 := ctor_fixed b.inProgress b.mem vType h
  unfold Builder.startFixed
  revert h1
  generalize newFixedTypedVector b.mem vType = r
  obtain ⟨res, m1⟩ := r
  intro h1
  have hfail : (∀ o, res ≠ .ok o) → HeapInv b.inProgress m1 := by
    intro hno
    rcases h1 with ⟨o, ho, _⟩ | ⟨_, hm⟩
    · exact absurd ho (hno o)
    · rw [show m1 = b.mem from hm]; exact h
  cases res with
  | ok o =>
    rcases h1 with ⟨o1, ho, hc⟩ | ⟨hno, _⟩
    · have : o = o1 := by simpa using ho
      subst this
      exact Heap_ctor_start b m1 o hc
    · exact absurd rfl (hno o)
  | error e => exact hfail (fun o => by simp)
  | panic => exact hfail (fun o => by simp)
  | diverge => exact hfail (fun o => by simp)

theorem Heap_startTypedWithKey (b : Builder) (k : String) (vType : Nat)
    (h : HeapInv b.inProgress b.mem) :
    HeapInv (b.startTypedWithKey k vType).2.inProgress (b.startTypedWithKey k vType).2.mem := by
  have hk := (ctor_newKey b.inProgress b.mem k h).1.1
  have h1 := ctor_typed b.inProgress (newKey b.mem k).2 vType hk
  unfold Builder.startTypedWithKey
  revert h1
  dsimp only
  generalize newTypedVector (newKey b.mem k).2 vType = r
  obtain ⟨res, m1⟩ := r
  intro h1
  have hfail : (∀ o, res ≠ .ok o) → HeapInv b.inProgress m1 := by
    intro hno
    rcases h1 with ⟨o, ho, _⟩ | ⟨_, hm⟩
    · exact absurd ho (hno o)
    · rw [show m1 = (newKey b.mem k).2 from hm]; exact hk
  cases res with
  | ok o =>
    rcases h1 with ⟨o1, ho, hc⟩ | ⟨hno, _⟩
    · have : o = o1 := by simpa using ho
      subst this
      exact Heap_key_ctor_start b k m1 o h hc
    · exact absurd rfl (hno o)
  | error e => exact hfail (fun o => by simp)
  | panic => exact hfail (fun o => by simp)
  | diverge => exact hfail (fun o => by simp)

theorem Heap_startFixedWithKey (b : Builder) (k : String) (vType : Nat)
    (h : HeapInv b.inProgress b.mem) :
    HeapInv (b.startFixedWithKey k vType).2.inProgress (b.startFixedWithKey k vType).2.mem := by
  have hk := (ctor_newKey b.inProgress b.mem k h).1.1
  have h1 := ctor_fixed b.inProgress (newKey b.mem k).2 vType hk
  unfold Builder.startFixedWithKey
  revert h1
  dsimp only
  generalize newFixedTypedVector (newKey b.mem k).2 vType = r
  obtain ⟨res, m1⟩ := r
  intro h1
  have hfail : (∀ o, res ≠ .ok o) → HeapInv b.inProgress m1 := by
    intro hno
    rcases h1 with ⟨o, ho, _⟩ | ⟨_, hm⟩
    · exact absurd ho (hno o)
    · rw [show m1 = (newKey b.mem k).2 from hm]; exact hk
  cases res with
  | ok o =>
    rcases h1 with ⟨o1, ho, hc⟩ | ⟨hno, _⟩
    · have : o = o1 := by simpa using ho
      subst this
      exact Heap_key_ctor_start b k m1 o h hc
    · exact absurd rfl (hno o)
  | error e => exact hfail (fun o => by simp)
  | panic => exact hfail (fun o => by simp)
  | diverge => exact hfail (fun o => by simp)

/-- Every public operation keeps the invariant of the memory. -/
theorem Heap_apply (b : Builder) (op : Op) (h : HeapInv b.inProgress b.mem) :
    HeapInv (b.apply op).2.inProgress (b.apply op).2.mem := by
  cases op with
  | Int x => exact Heap_registerElement _ _ h
  | Uint x => exact Heap_registerElement _ _ h
  | Float x => exact Heap_registerElement _ _ h
  | Bool x => exact Heap_registerElement _ _ h
  | Null => exact Heap_registerElement _ _ h
  | StartVector => exact Heap_ctor_start b _ _ (ctor_newVector _ _ h)
  | StartTypedIntVector => exact Heap_startTyped _ _ h
  | StartTypedUintVector => exact Heap_startTyped _ _ h
  | StartTypedFloatVector => exact Heap_startTyped _ _ h
  | StartTypedBoolVector => exact Heap_startTyped _ _ h
  | StartBlob x => exact Heap_ctor_start b _ _ (ctor_newBlob _ _ x h)
  | StartIntScalar => exact Heap_startFixed _ _ h
  | StartIntTuple => exact Heap_startFixed _ _ h
  | StartIntTriple => exact Heap_startFixed _ _ h
  | StartIntQuad => exact Heap_startFixed _ _ h
  | StartUintScalar => exact Heap_startFixed _ _ h
  | StartUintTuple => exact Heap_startFixed _ _ h
  | StartUintTriple => exact Heap_startFixed _ _ h
  | StartUintQuad => exact Heap_startFixed _ _ h
  | StartFloatScalar => exact Heap_startFixed _ _ h
  | StartFloatTuple => exact Heap_startFixed _ _ h
  | StartFloatTriple => exact Heap_startFixed _ _ h
  | StartFloatQuad => exact Heap_startFixed _ _ h
  | StartString => exact Heap_ctor_start b _ _ (ctor_newFlexString _ _ "" h)
  | String x => exact Heap_deferEnd _ (Heap_ctor_start b _ _ (ctor_newFlexString _ _ x h))
  | StartKey => exact Heap_ctor_start b _ _ (ctor_newKey _ _ "" h).1
  | Key x => exact Heap_deferEnd _ (Heap_ctor_start b _ _ (ctor_newKey _ _ x h).1)
  | Append x => exact Heap_Append _ _ h
  | StartMap => exact Heap_ctor_start b _ _ (ctor_newFlexMap _ _ h)
  | StartMapWithKey k =>
    exact Heap_key_ctor_start b k _ _ h (ctor_newFlexMap _ _ (ctor_newKey _ _ k h).1.1)
  | UintWithKey k x => exact Heap_key_register b k _ h rfl
  | IntWithKey k x => exact Heap_key_register b k _ h rfl
  | FloatWithKey k x => exact Heap_key_register b k _ h rfl
  | BoolWithKey k x => exact Heap_key_register b k _ h rfl
  | NullWithKey k => exact Heap_key_register b k _ h rfl
  | StartVectorWithKey k =>
    exact Heap_key_ctor_start b k _ _ h (ctor_newVector _ _ (ctor_newKey _ _ k h).1.1)
  | StartTypedIntVectorWithKey k => exact Heap_startTypedWithKey _ _ _ h
  | StartTypedUintVectorWithKey k => exact Heap_startTypedWithKey _ _ _ h
  | StartTypedFloatVectorWithKey k => exact Heap_startTypedWithKey _ _ _ h
  | StartTypedBoolVectorWithKey k => exact Heap_startTypedWithKey _ _ _ h
  | StartBlobWithKey k x =>
    exact Heap_key_ctor_start b k _ _ h (ctor_newBlob _ _ x (ctor_newKey _ _ k h).1.1)
  | StartIntScalarWithKey k => exact Heap_startFixedWithKey _ _ _ h
  | StartIntTupleWithKey k => exact Heap_startFixedWithKey _ _ _ h
  | StartIntTripleWithKey k => exact Heap_startFixedWithKey _ _ _ h
  | StartIntQuadWithKey k => exact Heap_startFixedWithKey _ _ _ h
  | StartUintScalarWithKey k => exact Heap_startFixedWithKey _ _ _ h
  | StartUintTupleWithKey k => exact Heap_startFixedWithKey _ _ _ h
  | StartUintTripleWithKey k => exact Heap_startFixedWithKey _ _ _ h
  | StartUintQuadWithKey k => exact Heap_startFixedWithKey _ _ _ h
  | StartFloatScalarWithKey k => exact Heap_startFixedWithKey _ _ _ h
  | StartFloatTupleWithKey k => exact Heap_startFixedWithKey _ _ _ h
  | StartFloatTripleWithKey k => exact Heap_startFixedWithKey _ _ _ h
  | StartFloatQuadWithKey k => exact Heap_startFixedWithKey _ _ _ h
  | StartStringWithKey k =>
    exact Heap_key_ctor_start b k _ _ h (ctor_newFlexString _ _ "" (ctor_newKey _ _ k h).1.1)
  | StringWithKey k x =>
    exact Heap_deferEnd _
      (Heap_key_ctor_start b k _ _ h (ctor_newFlexString _ _ x (ctor_newKey _ _ k h).1.1))
  | End => exact Heap_End b h
  | Finish => exact Heap_Finish b h
  | SerializeBuffer buff =>
    have h1 := Heap_SerializeBuffer b buff h
    revert h1
    simp only [Builder.apply]
    generalize b.SerializeBuffer buff = r
    rcases r with ⟨r, b1, bf⟩
    cases r <;> exact id

theorem Heap_run (ops : List Op) : ∀ b : Builder, HeapInv b.inProgress b.mem →
    HeapInv (b.run ops).2.inProgress (b.run ops).2.mem := by
  induction ops with
  | nil => intro b h; exact h
  | cons op ops ih => intro b h; exact ih _ (Heap_apply b op h)

theorem Heap_NewBuilder : HeapInv NewBuilder.inProgress NewBuilder.mem := by
  have hs : ∀ s : Nat, NewBuilder.mem.struct s = Structure.new Dyn.root ∨
      NewBuilder.mem.struct s = default := by
    intro s
    cases s with
    | zero => exact Or.inl rfl
    | succ n => exact Or.inr rfl
  have hdyn : ∀ s : Nat, (NewBuilder.mem.struct s).dyn ≠ Dyn.flexMap ∧
      (NewBuilder.mem.struct s).dyn ≠ Dyn.key ∧ (NewBuilder.mem.struct s).children = [] ∧
      (NewBuilder.mem.struct s).offsetPtrs = [] := by
    intro s
    rcases hs s with h | h <;> rw [h] <;> exact ⟨by decide, by decide, rfl, rfl⟩
  refine ⟨?_, ?_, ?_, ?_, ?_, ?_, ?_, ?_⟩
  · intro s hs1
    have : s = 0 := by simpa [NewBuilder] using hs1
    subst this; decide
  · intro s hs1
    have : s = 0 := by simpa [NewBuilder] using hs1
    subst this; decide
  · intro s c hc; rw [(hdyn s).2.2.1] at hc; exact absurd hc (List.not_mem_nil _)
  · intro s p hp; rw [(hdyn s).2.2.2] at hp; exact absurd hp (List.not_mem_nil _)
  · intro mp hmp; exact absurd hmp (hdyn mp).1
  · intro mp hmp; exact absurd hmp (hdyn mp).1
  · intro s hs1; exact absurd hs1 (hdyn s).2.1
  · intro mp hmp; exact absurd hmp (hdyn mp).1

/-- The invariant holds of every builder a sequence of public operations reaches. -/
theorem Reachable_HeapInv (b : Builder) (hr : Reachable b) : HeapInv b.inProgress b.mem := by
  obtain ⟨ops, rfl⟩ := hr
  exact Heap_run ops NewBuilder Heap_NewBuilder

theorem MapReach_of_MapBuilt (mp : Nat) (m : Mem) (es : List (List Nat × MapValue))
    (h : MapBuilt mp m es) : MapReach mp m := by
  induction h with
  | init m0 h => exact MapReach.init m0 h
  | alloc m m1 es _ he hs ih => exact MapReach.alloc m m1 ih he hs
  | kept m m1 es _ _ hk ih => exact MapReach.kept m m1 ih hk
  | addElement m m1 es k e n index _ hk _ h ih => exact MapReach.addElement m m1 k e n ih hk h
  | addOffset m m1 es k o n index _ hk _ _ h ih => exact MapReach.addOffset m m1 k o n ih hk h

/-- C5: the keys of a map are in ascending lexicographic order, no key smaller than a key
before it, when read along the children of the key vector as the strings toString
gives. This holds in every memory MapReach describes: the map starts as newFlexMap
made it, addElementWithKey and addOffsetWithKey are called on it and return without
error, and the steps between these calls keep the map. And it holds of every map in the
memory of every builder that calls of the public operations reach, whatever they
returned: such a map is one MapReach describes, also when it was attached to a parent
before its first entry, when its children were filled after they went in, and after
serialization. -/
theorem map_keys_ascending :
    (∀ (mp : Nat) (m : Mem), MapReach mp m →
      (mapKeys m mp).Pairwise (fun x y => strLt y x = false)) ∧
    (∀ b : Builder, Reachable b → ∀ mp : Nat, (b.mem.struct mp).dyn = Dyn.flexMap →
      MapReach mp b.mem ∧ (mapKeys b.mem mp).Pairwise (fun x y => strLt y x = false)) := by
  refine ⟨fun mp m h => (MapInv_of_MapReach mp m h).sorted, ?_⟩
  intro b hr mp hmp
  obtain ⟨es, hb, _⟩ := (Reachable_HeapInv b hr).built mp hmp
  have hreach := MapReach_of_MapBuilt mp b.mem es hb
  exact ⟨hreach, (MapInv_of_MapReach mp b.mem hreach).sorted⟩

set_option maxRecDepth 100000 in
/-- Witness of C5: the entries One, Two, Three inserted in this order leave the keys in
the order One, Three, Two, on the map alone and on the map a builder holds inside a
vector, its child filled after it went in, after serialization. -/
theorem map_keys_ascending_witness :
    (mapKeys oneTwoThreeMem 0).Pairwise (fun x y => strLt y x = false) ∧
    mapKeys oneTwoThreeMem 0 = [runes "One", runes "Three", runes "Two"] ∧
    (MapReach 2 (NewBuilder.run mapInVectorOps).2.mem ∧
      (mapKeys (NewBuilder.run mapInVectorOps).2.mem 2).Pairwise
        (fun x y => strLt y x = false)) ∧
    (NewBuilder.run mapInVectorOps).1 = List.replicate 10 (.ok ()) ∧
    mapKeys (NewBuilder.run mapInVectorOps).2.mem 2
      = [runes "One", runes "Three", runes "Two"] ∧
    ((NewBuilder.run mapInVectorOps).2.mem.struct 1).children = [2] ∧
    ((NewBuilder.run mapInVectorOps).2.mem.struct 2).children = [6] ∧
    ((NewBuilder.run mapInVectorOps).2.mem.struct 6).elems.length = 1 :=
  ⟨map_keys_ascending.1 0 oneTwoThreeMem oneTwoThree_reach, by decide,
    map_keys_ascending.2 _ ⟨mapInVectorOps, rfl⟩ 2 (by decide), by decide, by decide,
    by decide, by decide, by decide⟩

/-- C33: the pairing of keys and values in a map. In every memory MapBuilt describes
with the list of entries `es` (the map starts empty as newFlexMap made it, each
addElementWithKey or addOffsetWithKey call that returns without error puts its entry
where determineKeyInsertionIndex says, and the steps between the calls keep the map),
the element list of the map, the element list of its key vector and the children of its
key vector have the same length, the number of entries; the keys, read in the order of
the key vector, are the keys of the entries in order, and the `i`-th element of the map
is the value of the `i`-th entry: the element handed over with that key, or the offset
element bound to the child handed over with it. Every map in the memory of every builder
that calls of the public operations reach, whatever they returned, is such a map, and the
elements among its entries are inline. -/
theorem map_pairing :
    (∀ (mp : Ptr) (m : Mem) (es : List (List Nat × MapValue)), MapBuilt mp m es →
      (m.struct mp).elems.length = es.length ∧
      (m.struct (m.struct mp).keys).elems.length = es.length ∧
      (m.struct (m.struct mp).keys).children.length = es.length ∧
      mapKeys m mp = es.map Prod.fst ∧
      List.Forall₂ (fun p v => MapValue.isAt m p v) (m.struct mp).elems (es.map Prod.snd)) ∧
    (∀ b : Builder, Reachable b → ∀ mp : Nat, (b.mem.struct mp).dyn = Dyn.flexMap →
      ∃ es : List (List Nat × MapValue), MapBuilt mp b.mem es ∧ InlineEntries es ∧
        (b.mem.struct mp).elems.length = es.length ∧
        (b.mem.struct (b.mem.struct mp).keys).elems.length = es.length ∧
        (b.mem.struct (b.mem.struct mp).keys).children.length = es.length ∧
        (b.mem.struct (b.mem.struct mp).keys).children.length = (b.mem.struct mp).elems.length ∧
        mapKeys b.mem mp = es.map Prod.fst ∧
        List.Forall₂ (fun p v => MapValue.isAt b.mem p v) (b.mem.struct mp).elems
          (es.map Prod.snd)) := by
  have key : ∀ (mp : Ptr) (m : Mem) (es : List (List Nat × MapValue)), MapBuilt mp m es →
      (m.struct mp).elems.length = es.length ∧
      (m.struct (m.struct mp).keys).elems.length = es.length ∧
      (m.struct (m.struct mp).keys).children.length = es.length ∧
      mapKeys m mp = es.map Prod.fst ∧
      List.Forall₂ (fun p v => MapValue.isAt m p v) (m.struct mp).elems (es.map Prod.snd) := by
    intro mp m es h
    obtain ⟨hinv, hkeys, hvals⟩ := MapBuilt_inv mp m es h
    have h1 : (m.struct mp).elems.length = es.length := by
      have := hvals.length_eq
      simpa using this
    have h3 : (m.struct (m.struct mp).keys).children.length = es.length := by
      have := congrArg List.length hkeys
      simpa [mapKeys] using this
    exact ⟨h1, by rw [hinv.keys_len]; exact h3, h3, hkeys, hvals⟩
  refine ⟨key, ?_⟩
  intro b hr mp hmp
  obtain ⟨es, hb, hin⟩ := (Reachable_HeapInv b hr).built mp hmp
  obtain ⟨k1, k2, k3, k4, k5⟩ := key mp b.mem es hb
  exact ⟨es, hb, hin, k1, k2, k3, by rw [k3, k1], k4, k5⟩

set_option maxRecDepth 100000 in
/-- Witness of C33: the map that was given b: 1 and then a: a new vector, on its own (the
vector is the object 3) and at the root of a builder that fills the vector after it went
in (the map is the object 1, the vector the object 5): the entries are in the order a, b
in the key vector and in the element list, three lists of length 2. -/
theorem map_pairing_witness :
    ((childAndIntMem.struct 0).elems.length = 2 ∧
      (childAndIntMem.struct (childAndIntMem.struct 0).keys).elems.length = 2 ∧
      (childAndIntMem.struct (childAndIntMem.struct 0).keys).children.length = 2 ∧
      mapKeys childAndIntMem 0 = [runes "a", runes "b"] ∧
      List.Forall₂ (fun p v => MapValue.isAt childAndIntMem p v) (childAndIntMem.struct 0).elems
        [MapValue.child 3, MapValue.elem (newINT 1)]) ∧
    (childAndIntMem.struct 0).elems = [5, 2] ∧
    childAndIntMem.elem 2 = newINT 1 ∧
    (childAndIntMem.struct 3).offsetPtrs = [5] ∧
    (childAndIntMem.struct 3).dyn = Dyn.vector ∧
    (∃ es : List (List Nat × MapValue), MapBuilt 1 (NewBuilder.run childAndIntOps).2.mem es ∧
      InlineEntries es ∧
      ((NewBuilder.run childAndIntOps).2.mem.struct 1).elems.length = es.length ∧
      ((NewBuilder.run childAndIntOps).2.mem.struct
        ((NewBuilder.run childAndIntOps).2.mem.struct 1).keys).elems.length = es.length ∧
      ((NewBuilder.run childAndIntOps).2.mem.struct
        ((NewBuilder.run childAndIntOps).2.mem.struct 1).keys).children.length = es.length ∧
      ((NewBuilder.run childAndIntOps).2.mem.struct
        ((NewBuilder.run childAndIntOps).2.mem.struct 1).keys).children.length
        = ((NewBuilder.run childAndIntOps).2.mem.struct 1).elems.length ∧
      mapKeys (NewBuilder.run childAndIntOps).2.mem 1 = es.map Prod.fst ∧
      List.Forall₂ (fun p v => MapValue.isAt (NewBuilder.run childAndIntOps).2.mem p v)
        ((NewBuilder.run childAndIntOps).2.mem.struct 1).elems (es.map Prod.snd)) ∧
    (NewBuilder.run childAndIntOps).1 = List.replicate 6 (.ok ()) ∧
    mapKeys (NewBuilder.run childAndIntOps).2.mem 1 = [runes "a", runes "b"] ∧
    ((NewBuilder.run childAndIntOps).2.mem.struct 1).elems.length = 2 ∧
    ((NewBuilder.run childAndIntOps).2.mem.struct 2).children = [4, 3] ∧
    ((NewBuilder.run childAndIntOps).2.mem.struct 5).elems.length = 1 :=
  ⟨map_pairing.1 0 childAndIntMem
      [(runes "a", MapValue.child 3), (runes "b", MapValue.elem (newINT 1))] childAndInt_built,
    by decide, by decide, by decide, by decide,
    map_pairing.2 _ ⟨childAndIntOps, rfl⟩ 1 (by decide),
    by decide, by decide, by decide, by decide, by decide⟩

/-! ## The shape of the memory of a builder and the slot of every child -/

theorem elem_updateBitWidth (m : Mem) (s p : Nat) : (updateBitWidth m s).elem p = m.elem p :=
  rfl

end Flexbuffers
